import Mathlib

/-!
# KdenCode: timeline-to-document compiler

A shallow embedding of `lib/KdenliveFile.cpp` and `lib/KdenliveProject.cpp`.

Conventions of the embedding:

* A `float` is an IEEE 754 binary32 number, kept as the rational number (`ℚ`) it stands
  for.  Every `float` operation of the source is the exact operation followed by the
  rounding `roundF32` (to nearest, ties to even, with subnormal numbers); comparisons are
  exact.  Infinities and NaN are not modelled: the rounding has no largest exponent.
  A `double` literal is the rational number the literal stands for in binary64.
* `int` values are unbounded integers; container indices and the id types (track,
  clip and track entry ids) are natural numbers.
* Three functions of `KdenliveFile.cpp` read a `c_str()` pointer after the temporary string
  it points into is destroyed.  What such a read finds is not determined by the source; it
  is the parameter `Stale.read` of the model, and every node is built with whatever text
  the read finds.
* A tinyxml2 node pointer is the natural number stored in the node (`ptr`); the null
  pointer is `none`.  A `Clip*` is the position of the clip in the project's
  `std::list<Clip> clips`, which never moves an element.
* Undefined behaviour in the source (null dereference, out-of-range `operator[]`,
  a throwing `map::at`) is the result `none`.
* The template document read from `dependencies/empty_project.kdenlive` and the
  file-system lookup `findFilePath` are parameters.
-/

namespace KdenCode

/-! ## Binary32 arithmetic -/

/-- The power `2 ^ k` for an integer exponent. -/
def pow2 (k : Int) : ℚ :=
  if 0 ≤ k then ((2 ^ k.toNat : Nat) : ℚ) else 1 / ((2 ^ (-k).toNat : Nat) : ℚ)

/-- The position of the leading binary digit of `n`, found in at most `fuel` halvings. -/
def log2Fuel : Nat → Nat → Nat
  | 0, _ => 0
  | fuel + 1, n => if n < 2 then 0 else log2Fuel fuel (n / 2) + 1

/-- The binary exponent of a non-zero number: the largest `e` with `2 ^ e ≤ |q|`. -/
def floorLog2 (q : ℚ) : Int :=
  let k : Int := (log2Fuel q.num.natAbs q.num.natAbs : Int) - (log2Fuel q.den q.den : Int)
  if pow2 k ≤ |q| then k else k - 1

/-- Rounding to the nearest integer, a tie going to the even one. -/
def roundHalfEven (m : ℚ) : Int :=
  let f := ⌊m⌋
  let r := m - (f : ℚ)
  if r < 1 / 2 then f else if 1 / 2 < r then f + 1 else if f % 2 = 0 then f else f + 1

/-- The `float` nearest to `q`: `q` is rounded to a multiple of `2 ^ (e - 23)`, where `e` is
its binary exponent, at least -126 (below `2 ^ (-126)` the numbers are subnormal, multiples
of `2 ^ (-149)`); a tie goes to the even multiple. -/
def roundF32 (q : ℚ) : ℚ :=
  if q = 0 then 0
  else
    let u := pow2 (max (floorLog2 q) (-126) - 23)
    (roundHalfEven (q / u) : ℚ) * u

/-- The number is a `float`. -/
def IsF32 (q : ℚ) : Prop := roundF32 q = q

instance (q : ℚ) : Decidable (IsF32 q) := by
  unfold IsF32
  infer_instance

/-- The `float` sum `a + b`. -/
def fadd (a b : ℚ) : ℚ := roundF32 (a + b)

/-- The `float` difference `a - b`. -/
def fsub (a b : ℚ) : ℚ := roundF32 (a - b)

/-- The `float` product `a * b`. -/
def fmul (a b : ℚ) : ℚ := roundF32 (a * b)

/-- The `double` literal `0.00099` of the macro `ADD_CLIP`: the binary64 number nearest to
99/100000, which is `0x1.0385c67dfe32ap-10`. -/
def blankThreshold : ℚ := 2282784579121557 / 2305843009213693952

/-! ## Text read through a dangling pointer -/

/-- `CreateEntryElement`, `CreateFilterElement` and `AddClipToBin` keep the `c_str()` pointer
of a temporary `std::string` and pass it to `SetAttribute` after the temporary is destroyed.
The text `SetAttribute` copies from there is not determined by the source.  It is given by
`read p key s`, for the read that sets the attribute `key` of the node at address `p`, the
destroyed string having held `s`.  No two reads of a run set the same attribute of the same
node, so every combination of texts the reads of a run can find is given by some `read`. -/
class Stale where
  read : Nat → String → String → String

/-- The outcome in which every such read still finds the text of the destroyed string. -/
def Stale.intact : Stale := ⟨fun _ _ s => s⟩

/-- The outcome in which every such read finds an empty text. -/
def Stale.cleared : Stale := ⟨fun _ _ _ => ""⟩

/-! ## Timestamp codec (`convertToTimestamp`) -/

/-- The conversion `static_cast<int>(x)`: truncation toward zero.  The source converts to a
32-bit `int`, which is undefined for a value outside its range; the statements on the fields
of a timestamp are made for values inside it. -/
def truncToInt (x : ℚ) : Int := if 0 ≤ x then ⌊x⌋ else ⌈x⌉

/-- The function `fmod(x, y)` on `double` arguments: `x - y * trunc(x / y)`, with the sign of
`x`; the library computes it without rounding. -/
def fmod (x y : ℚ) : ℚ := x - y * (truncToInt (x / y) : ℚ)

/-- Stream output `setw(w) << setfill('0') << n`: the decimal text of `n`, padded on the
left with `'0'` up to width `w`, never cut. -/
def setwFill (w : Nat) (n : Int) : List Char :=
  List.replicate (w - (toString n).data.length) '0' ++ (toString n).data

/-- The four integers computed in the first half of `convertToTimestamp`. -/
structure TimestampFields where
  hours : Int
  minutes : Int
  secs : Int
  milliseconds : Int
deriving DecidableEq, Repr

/-- Lines 42-47 of `KdenliveFile.cpp`.  Each result of `fmod` is stored in the `float`
variable `seconds`; `seconds - secs` and the product with 1000 are `float` operations, `secs`
and 1000 being converted to `float`. -/
def timestampFields (seconds : ℚ) : TimestampFields :=
  let hours := Int.tdiv (truncToInt seconds) 3600
  let seconds := roundF32 (fmod seconds 3600)
  let minutes := Int.tdiv (truncToInt seconds) 60
  let seconds := roundF32 (fmod seconds 60)
  let secs := truncToInt seconds
  let milliseconds := truncToInt (fmul (fsub seconds (roundF32 (secs : ℚ))) 1000)
  ⟨hours, minutes, secs, milliseconds⟩

/-- Lines 50-56 of `KdenliveFile.cpp`: the text written to the string stream. -/
def formatTimestamp (f : TimestampFields) : List Char :=
  setwFill 2 f.hours ++ [':'] ++ setwFill 2 f.minutes ++ [':']
    ++ setwFill 2 f.secs ++ ['.'] ++ setwFill 3 f.milliseconds

/-- The function `convertToTimestamp(float seconds)`. -/
def convertToTimestamp (seconds : ℚ) : String :=
  String.mk (formatTimestamp (timestampFields seconds))

/-! ## tinyxml2 elements -/

/-- A tinyxml2 `XMLElement`: its address, tag name, attributes in document order, text
content and child elements. -/
inductive XMLElement where
  | node (ptr : Nat) (name : String) (attrs : List (String × String)) (text : Option String)
      (children : List XMLElement)

namespace XMLElement

/-- Address of the node. -/
def ptr : XMLElement → Nat
  | node p _ _ _ _ => p

/-- Tag name, `Name()`. -/
def name : XMLElement → String
  | node _ n _ _ _ => n

/-- Attribute list. -/
def attrs : XMLElement → List (String × String)
  | node _ _ a _ _ => a

/-- Text content, `GetText()`. -/
def text : XMLElement → Option String
  | node _ _ _ t _ => t

/-- Child elements in document order. -/
def children : XMLElement → List XMLElement
  | node _ _ _ _ c => c

/-- One-argument `Attribute(name)`: the value of the attribute, null when absent. -/
def Attribute (e : XMLElement) (key : String) : Option String :=
  (e.attrs.find? (fun a => a.1 == key)).map Prod.snd

/-- Two-argument `Attribute(name, value)` seen as a condition: the attribute exists and,
unless `value` is null, its value equals `value`. -/
def AttributeIs (e : XMLElement) (key : String) (value : Option String) : Bool :=
  match e.Attribute key, value with
  | none, _ => false
  | some _, none => true
  | some v, some w => v == w

/-- Attribute list after `SetAttribute(key, value)`: an existing attribute is overwritten in
place, a new one goes to the end. -/
def setAttr (key value : String) : List (String × String) → List (String × String)
  | [] => [(key, value)]
  | a :: rest => if a.1 == key then (key, value) :: rest else a :: setAttr key value rest

/-- The call `SetAttribute(key, value)`. -/
def SetAttribute : XMLElement → String → String → XMLElement
  | node p n a t c, key, value => node p n (setAttr key value a) t c

/-- The call `SetText(value)`. -/
def SetText : XMLElement → String → XMLElement
  | node p n a _ c, value => node p n a (some value) c

/-- Replace the child list. -/
def withChildren : XMLElement → List XMLElement → XMLElement
  | node p n a t _, cs => node p n a t cs

mutual
/-- Apply `g` to the node at address `q` inside the tree (a write through a pointer). -/
def update (q : Nat) (g : XMLElement → XMLElement) : XMLElement → XMLElement
  | node p n a t cs => if p = q then g (node p n a t cs) else node p n a t (updateList q g cs)
/-- The function `update` over a child list. -/
def updateList (q : Nat) (g : XMLElement → XMLElement) : List XMLElement → List XMLElement
  | [] => []
  | c :: cs => update q g c :: updateList q g cs
end

mutual
/-- Detach the node at address `q` from its parent, wherever it is below this node
(tinyxml2 `Unlink`, also run by every insertion on a node that already has a parent). -/
def unlink (q : Nat) : XMLElement → XMLElement
  | node p n a t cs => node p n a t (unlinkList q cs)
/-- The function `unlink` over a child list. -/
def unlinkList (q : Nat) : List XMLElement → List XMLElement
  | [] => []
  | c :: cs => if c.ptr = q then unlinkList q cs else unlink q c :: unlinkList q cs
end

mutual
/-- The node at address `q` in the tree, if any (a read through a pointer). -/
def lookup (q : Nat) : XMLElement → Option XMLElement
  | node p n a t cs => if p = q then some (node p n a t cs) else lookupList q cs
/-- The function `lookup` over a child list. -/
def lookupList (q : Nat) : List XMLElement → Option XMLElement
  | [] => none
  | c :: cs => (lookup q c).orElse (fun _ => lookupList q cs)
end

mutual
/-- One more than the largest address used in the tree. -/
def ptrBound : XMLElement → Nat
  | node p _ _ _ cs => max (p + 1) (ptrBoundList cs)
/-- The function `ptrBound` over a child list. -/
def ptrBoundList : List XMLElement → Nat
  | [] => 0
  | c :: cs => max (ptrBound c) (ptrBoundList cs)
end

/-- Child list after `InsertAfterChild(afterThis, addThis)`; `none` when `afterThis` is not a
child of the node. -/
def insertAfter (after : Nat) (e : XMLElement) : List XMLElement → Option (List XMLElement)
  | [] => none
  | c :: cs =>
    if c.ptr = after then some (c :: e :: cs)
    else (insertAfter after e cs).map (fun r => c :: r)

/-- The loop from `FirstChildElement()` along `NextSiblingElement()` until `p` holds: the
first child satisfying `p`, null when there is none. -/
def findChild (e : XMLElement) (p : XMLElement → Bool) : Option XMLElement :=
  e.children.find? p

/-- The call `NextSiblingElement()` on the child at address `q`: null for the last child,
`none` (outer) when `q` is not a child. -/
def nextSibling : List XMLElement → Nat → Option (Option XMLElement)
  | [], _ => none
  | c :: cs, q => if c.ptr = q then some cs.head? else nextSibling cs q

/-- The siblings that follow the child at address `q`, `none` when `q` is not a child. -/
def siblingsAfter : List XMLElement → Nat → Option (List XMLElement)
  | [], _ => none
  | c :: cs, q => if c.ptr = q then some cs else siblingsAfter cs q

end XMLElement

/-- A tinyxml2 `XMLDocument`: the root element and the next free node address. -/
structure XMLDocument where
  root : XMLElement
  next_ptr : Nat

namespace XMLDocument

/-- The call `xml_doc.NewElement(name)`: a fresh element that is not yet linked in the tree. -/
def NewElement (d : XMLDocument) (name : String) : XMLDocument × XMLElement :=
  ({ d with next_ptr := d.next_ptr + 1 }, XMLElement.node d.next_ptr name [] none [])

/-- The node a pointer refers to; `none` for a pointer to no node of the tree. -/
def deref (d : XMLDocument) (q : Nat) : Option XMLElement := d.root.lookup q

/-- A write through the pointer `q`; `none` for a pointer to no node of the tree. -/
def modify (d : XMLDocument) (q : Nat) (g : XMLElement → XMLElement) : Option XMLDocument :=
  match d.deref q with
  | none => none
  | some _ => some { d with root := d.root.update q g }

/-- The call `parent->InsertEndChild(e)`: `e` leaves its former parent, if it had one, and
becomes the last child of `parent`. -/
def InsertEndChild (d : XMLDocument) (parent : Nat) (e : XMLElement) : Option XMLDocument :=
  { d with root := d.root.unlink e.ptr }.modify parent
    (fun x => x.withChildren (x.children ++ [e]))

/-- The call `parent->InsertFirstChild(e)`: `e` leaves its former parent, if it had one, and
becomes the first child of `parent`. -/
def InsertFirstChild (d : XMLDocument) (parent : Nat) (e : XMLElement) : Option XMLDocument :=
  { d with root := d.root.unlink e.ptr }.modify parent
    (fun x => x.withChildren (e :: x.children))

/-- The call `root->InsertAfterChild(afterThis, e)` for a new element `e`; `none` when
`afterThis` is not a child of the root. -/
def InsertAfterRootChild (d : XMLDocument) (after : Nat) (e : XMLElement) : Option XMLDocument :=
  (XMLElement.insertAfter after e d.root.children).map
    (fun cs => { d with root := d.root.withChildren cs })

/-- The call `parent->DeleteChild(child)`; `none` when `child` is not a child of `parent`. -/
def DeleteChild (d : XMLDocument) (parent child : Nat) : Option XMLDocument :=
  match d.deref parent with
  | none => none
  | some p =>
    if p.children.any (fun c => c.ptr == child) then
      d.modify parent (fun x => x.withChildren (x.children.filter (fun c => c.ptr != child)))
    else none

end XMLDocument

/-! ## `KdenliveFile` (the document builder) -/

/-- Kind of a track (`KdenliveFile::TrackType`). -/
inductive TrackType where
  | VIDEO
  | AUDIO
deriving DecidableEq, Repr

/-- Kind of a track entry (`EntryType`). -/
inductive EntryType where
  | BLANK
  | CLIP
deriving DecidableEq, Repr

/-- In-memory record of one entry of a track (`TrackEntry`). -/
structure TrackEntry where
  entry_type : EntryType
  length : ℚ
  start_offset : ℚ
deriving DecidableEq, Repr

/-- Member variables of `KdenliveFile`.  The member `root` is `xml_doc.root`. -/
structure KdenliveFile where
  chain_count : Nat
  track_count : Nat
  filter_count : Nat
  track_lengths : List ℚ
  track_entries : List (List TrackEntry)
  xml_doc : XMLDocument
  profile : Nat
  main_producer : Nat
  main_bin : Nat
  timeline_tractor : Option Nat
  final_tractor : Nat
  last_added_root_element : Nat

namespace KdenliveFile

/-! ### Node constructors (`Create...Element`) and appends (`Add...Element`) -/

/-- Value-level `InsertEndChild` on an element that is not linked in the tree yet. -/
def appendTo (e child : XMLElement) : XMLElement := e.withChildren (e.children ++ [child])

def CreatePropertyElement (d : XMLDocument) (name value : String) : XMLDocument × XMLElement :=
  let (d, property) := d.NewElement "property"
  (d, (property.SetAttribute "name" name).SetText value)

/-- The helper `AddPropertyElement` on an element that is not linked in the tree yet. -/
def AddPropertyElement (d : XMLDocument) (e : XMLElement) (name value : String) :
    XMLDocument × XMLElement :=
  let (d, property) := CreatePropertyElement d name value
  (d, appendTo e property)

/-- Lines 327-336.  The pointers `in_str` and `out_str` dangle when `SetAttribute` reads
them. -/
def CreateEntryElement [Stale] (d : XMLDocument) (i o : ℚ) (producer : String) :
    XMLDocument × XMLElement :=
  let (d, entry) := d.NewElement "entry"
  let in_str := Stale.read entry.ptr "in" (convertToTimestamp i)
  let out_str := Stale.read entry.ptr "out" (convertToTimestamp o)
  (d, ((entry.SetAttribute "in" in_str).SetAttribute "out" out_str).SetAttribute
    "producer" producer)

def AddEntryElement [Stale] (d : XMLDocument) (element_to_add_to : Nat) (i o : ℚ)
    (producer : String) : Option (XMLDocument × XMLElement) :=
  let (d, entry) := CreateEntryElement d i o producer
  (d.InsertEndChild element_to_add_to entry).map (fun d => (d, entry))

def CreateBlankElement (d : XMLDocument) (length : ℚ) : XMLDocument × XMLElement :=
  let (d, blank) := d.NewElement "blank"
  (d, blank.SetAttribute "length" (convertToTimestamp length))

def AddBlankElement (d : XMLDocument) (element_to_add_to : Nat) (length : ℚ) :
    Option (XMLDocument × XMLElement) :=
  let (d, blank) := CreateBlankElement d length
  (d.InsertEndChild element_to_add_to blank).map (fun d => (d, blank))

def CreateTrackElement (d : XMLDocument) (producer : String) : XMLDocument × XMLElement :=
  let (d, track) := d.NewElement "track"
  (d, track.SetAttribute "producer" producer)

def AddTrackElement (d : XMLDocument) (element_to_add_to : Nat) (producer : String) :
    Option (XMLDocument × XMLElement) :=
  let (d, track) := CreateTrackElement d producer
  (d.InsertEndChild element_to_add_to track).map (fun d => (d, track))

/-- Lines 374-384.  The pointers `in_str` and `out_str` dangle when `SetAttribute` reads
them. -/
def CreateFilterElement [Stale] (d : XMLDocument) (id : String) (i o : ℚ) :
    XMLDocument × XMLElement :=
  let (d, filter) := d.NewElement "filter"
  let in_str := Stale.read filter.ptr "in" (convertToTimestamp i)
  let out_str := Stale.read filter.ptr "out" (convertToTimestamp o)
  (d, ((filter.SetAttribute "id" id).SetAttribute "in" in_str).SetAttribute "out" out_str)

def CreateChainElement (d : XMLDocument) (id resource : String) : XMLDocument × XMLElement :=
  let (d, chain) := d.NewElement "chain"
  AddPropertyElement d (chain.SetAttribute "id" id) "resource" resource

def CreatePlaylistElement (d : XMLDocument) (id : String) : XMLDocument × XMLElement :=
  let (d, playlist) := d.NewElement "playlist"
  (d, playlist.SetAttribute "id" id)

def CreateTractorElement (d : XMLDocument) (id : String) : XMLDocument × XMLElement :=
  let (d, tractor) := d.NewElement "tractor"
  (d, tractor.SetAttribute "id" id)

/-- The helper `AddElementToTopOfRoot`, on the pair of the document and the cursor
`last_added_root_element`. -/
def AddElementToTopOfRoot (f : KdenliveFile) (d : XMLDocument) (element : XMLElement) :
    Option KdenliveFile :=
  let last := if f.last_added_root_element = f.main_producer then element.ptr
    else f.last_added_root_element
  (d.InsertAfterRootChild f.main_producer element).map
    (fun d => { f with xml_doc := d, last_added_root_element := last })

/-- The helper `AddElementToRoot`. -/
def AddElementToRoot (f : KdenliveFile) (d : XMLDocument) (element : XMLElement) :
    Option KdenliveFile :=
  (d.InsertAfterRootChild f.last_added_root_element element).map
    (fun d => { f with xml_doc := d, last_added_root_element := element.ptr })

/-! ### Searches -/

def FindPlaylistElement (d : XMLDocument) (playlist_id : String) : Option XMLElement :=
  d.root.findChild (fun e => e.name == "playlist" && e.AttributeIs "id" (some playlist_id))

def FindTractorElement (d : XMLDocument) (tractor_id : String) : Option XMLElement :=
  d.root.findChild (fun e => e.name == "tractor" && e.AttributeIs "id" (some tractor_id))

/-- The helper `FindPlaylistEntry`: outer `none` when the playlist is missing (its null
pointer is dereferenced), inner `none` when the loop runs off the end of the playlist. -/
def FindPlaylistEntry (d : XMLDocument) (playlist_id : String) (entry_index : Nat) :
    Option (Option XMLElement) :=
  (FindPlaylistElement d playlist_id).map (fun playlist =>
    (playlist.children.filter (fun e => e.name == "entry" || e.name == "blank"))[entry_index]?)

/-- The helper `FindDocUUID`; `none` when `main_bin` is null or the property has no text. -/
def FindDocUUID (main_bin : Option XMLElement) : Option String :=
  match main_bin with
  | none => none
  | some mb =>
    match mb.findChild (fun e => e.name == "property"
        && e.AttributeIs "name" (some "kdenlive:docproperties.uuid")) with
    | none => some "NULL_UUID"
    | some p => p.text

/-! ### Construction -/

/-- Inner loop of `DeletePreExistingTracks`: the children of the timeline tractor after the
first one whose `producer` attribute matches has been deleted. -/
def deleteTrackReference (tractor_id : Option String) : List XMLElement → List XMLElement
  | [] => []
  | t :: rest =>
    if t.AttributeIs "producer" tractor_id then rest
    else t :: deleteTrackReference tractor_id rest

/-- Outer loop of `DeletePreExistingTracks`; the list holds `ptr` and its following
siblings, the empty list standing for the null pointer. -/
def deletePreExistingLoop (timeline_tractor : Option Nat) :
    List XMLElement → XMLDocument → Option XMLDocument
  | [], d => if timeline_tractor = none then some d else none
  | cur :: rest, d =>
    if timeline_tractor = some cur.ptr then some d
    else if cur.name = "playlist" then
      (d.DeleteChild d.root.ptr cur.ptr).bind (deletePreExistingLoop timeline_tractor rest)
    else if cur.name = "tractor" then
      match timeline_tractor with
      | none => none
      | some tt =>
        ((d.DeleteChild d.root.ptr cur.ptr).bind (fun d => d.modify tt (fun x =>
          x.withChildren (deleteTrackReference (cur.Attribute "id") x.children)))).bind
          (deletePreExistingLoop timeline_tractor rest)
    else deletePreExistingLoop timeline_tractor rest d

/-- The helper `DeletePreExistingTracks`. -/
def DeletePreExistingTracks (d : XMLDocument) (main_producer : Nat)
    (timeline_tractor : Option Nat) : Option XMLDocument :=
  (XMLElement.siblingsAfter d.root.children main_producer).bind
    (fun sibs => deletePreExistingLoop timeline_tractor sibs d)

/-- The constructor `KdenliveFile::KdenliveFile()`, on the parsed template document. -/
def new (template : XMLElement) : Option KdenliveFile := do
  let xml_doc : XMLDocument := ⟨template, template.ptrBound⟩
  let profile ← xml_doc.root.children.head?
  let main_producer := (xml_doc.root.children.drop 1).head?
  let main_bin := FindPlaylistElement xml_doc "main_bin"
  let timeline_tractor_id ← FindDocUUID main_bin
  let timeline_tractor := FindTractorElement xml_doc timeline_tractor_id
  let main_bin ← main_bin
  let final_tractor ← (← XMLElement.nextSibling xml_doc.root.children main_bin.ptr)
  let xml_doc ← xml_doc.modify final_tractor.ptr (fun x => x.SetAttribute "id" "final_tractor")
  let main_producer ← main_producer
  let xml_doc ← DeletePreExistingTracks xml_doc main_producer.ptr
    (timeline_tractor.map XMLElement.ptr)
  pure {
    chain_count := 0
    track_count := 0
    filter_count := 0
    track_lengths := []
    track_entries := []
    xml_doc := xml_doc
    profile := profile.ptr
    main_producer := main_producer.ptr
    main_bin := main_bin.ptr
    timeline_tractor := timeline_tractor.map XMLElement.ptr
    final_tractor := final_tractor.ptr
    last_added_root_element := main_producer.ptr }

/-! ### Setters -/

def SetProfile (f : KdenliveFile) (framerate width height : Int) : Option KdenliveFile := do
  let description :=
    toString width ++ "x" ++ toString height ++ ", " ++ toString framerate ++ " fps"
  let d ← f.xml_doc.modify f.profile (fun p =>
    ((((p.SetAttribute "frame_rate_den" "1").SetAttribute "frame_rate_num"
      (toString framerate)).SetAttribute "width" (toString width)).SetAttribute "height"
      (toString height)).SetAttribute "description" description)
  let main_bin ← d.deref f.main_bin
  let profile_property ← main_bin.findChild
    (fun e => e.AttributeIs "name" (some "kdenlive:docproperties.profile"))
  let d ← d.DeleteChild f.main_bin profile_property.ptr
  pure { f with xml_doc := d }

/-- Lines 150-164 of `KdenliveFile.cpp`: the properties that depend on the track type. -/
def setTrackTypeProperties (d : XMLDocument) (track_type : TrackType)
    (playlist_1 playlist_2 tractor track_1 track_2 : Nat) : Option XMLDocument :=
  match track_type with
  | TrackType.VIDEO => do
    let d ← d.modify track_1 (fun x => x.SetAttribute "hide" "audio")
    d.modify track_2 (fun x => x.SetAttribute "hide" "audio")
  | TrackType.AUDIO => do
    let d ← d.modify track_1 (fun x => x.SetAttribute "hide" "video")
    let d ← d.modify track_2 (fun x => x.SetAttribute "hide" "video")
    let (d, audio_property) := CreatePropertyElement d "kdenlive:audio_track" "1"
    let d ← d.InsertFirstChild playlist_1 audio_property
    let d ← d.InsertFirstChild playlist_2 audio_property
    d.InsertFirstChild tractor audio_property

def AddTrack (f : KdenliveFile) (track_type : TrackType) : Option (KdenliveFile × Nat) := do
  let playlist_index_1 := f.track_count * 2
  let playlist_index_2 := playlist_index_1 + 1
  let playlist_str_1 := "playlist" ++ toString playlist_index_1
  let playlist_str_2 := "playlist" ++ toString playlist_index_2
  let (d, playlist_1) := CreatePlaylistElement f.xml_doc playlist_str_1
  let f ← AddElementToRoot f d playlist_1
  let (d, playlist_2) := CreatePlaylistElement f.xml_doc playlist_str_2
  let f ← AddElementToRoot f d playlist_2
  let tractor_str := "tractor" ++ toString f.track_count
  let (d, tractor) := CreateTractorElement f.xml_doc tractor_str
  let f ← AddElementToRoot f d tractor
  let (d, track_1) ← AddTrackElement f.xml_doc tractor.ptr playlist_str_1
  let (d, track_2) ← AddTrackElement d tractor.ptr playlist_str_2
  let d ← setTrackTypeProperties d track_type playlist_1.ptr playlist_2.ptr tractor.ptr
    track_1.ptr track_2.ptr
  let timeline_tractor ← f.timeline_tractor
  let (d, _) ← AddTrackElement d timeline_tractor tractor_str
  pure ({ f with
    xml_doc := d
    track_count := f.track_count + 1
    track_lengths := f.track_lengths ++ [0]
    track_entries := f.track_entries ++ [[]] }, f.track_count)

/-- Lines 177-191.  The pointer `chain_name` dangles from its initialisation on: it is read
when `CreateChainElement` sets the `id` of the chain, whose address is the next free one,
and again when `CreateEntryElement` sets the `producer` of the entry for the main bin. -/
def AddClipToBin [Stale] (f : KdenliveFile) (clip_path : String) :
    Option (KdenliveFile × Nat) := do
  let chain_name := "chain" ++ toString f.chain_count
  let (d, chain) := CreateChainElement f.xml_doc
    (Stale.read f.xml_doc.next_ptr "id" chain_name) clip_path
  let f ← AddElementToTopOfRoot f d chain
  let (d, _) ← AddEntryElement f.xml_doc f.main_bin 0 0
    (Stale.read f.xml_doc.next_ptr "producer" chain_name)
  pure ({ f with xml_doc := d, chain_count := f.chain_count + 1 }, f.chain_count)

def AddBlankToTrack (f : KdenliveFile) (track_id : Nat) (length : ℚ) :
    Option (KdenliveFile × Nat) := do
  let playlist_index := track_id * 2
  let playlist_id := "playlist" ++ toString playlist_index
  let track_playlist ← FindPlaylistElement f.xml_doc playlist_id
  let (d, _) ← AddBlankElement f.xml_doc track_playlist.ptr length
  let entry : TrackEntry := { entry_type := EntryType.BLANK, length := length, start_offset := 0 }
  let track_length ← f.track_lengths[track_id]?
  let entries ← f.track_entries[track_id]?
  pure ({ f with
    xml_doc := d
    track_lengths := f.track_lengths.set track_id (fadd track_length length)
    track_entries := f.track_entries.set track_id (entries ++ [entry]) }, entries.length)

def AddClipToTrack [Stale] (f : KdenliveFile) (track_id : Nat) (clip_id : Nat)
    (clip_length clip_start_offset : ℚ) : Option (KdenliveFile × Nat) := do
  let playlist_index := track_id * 2
  let playlist_id := "playlist" ++ toString playlist_index
  let track_playlist ← FindPlaylistElement f.xml_doc playlist_id
  let chain_str := "chain" ++ toString clip_id
  let (d, _) ← AddEntryElement f.xml_doc track_playlist.ptr clip_start_offset
    (fadd clip_length clip_start_offset) chain_str
  let entry : TrackEntry :=
    { entry_type := EntryType.CLIP, length := clip_length, start_offset := clip_start_offset }
  let track_length ← f.track_lengths[track_id]?
  let entries ← f.track_entries[track_id]?
  pure ({ f with
    xml_doc := d
    track_lengths := f.track_lengths.set track_id (fadd track_length clip_length)
    track_entries := f.track_entries.set track_id (entries ++ [entry]) }, entries.length)

/-- The five property children both fade filters receive, with the given `kdenlive_id`
and `alpha` values. -/
def fadeFilter [Stale] (d : XMLDocument) (filter_id : String) (i o : ℚ) (kdenlive_id alpha : String) :
    XMLDocument × XMLElement :=
  let (d, filter) := CreateFilterElement d filter_id i o
  let (d, filter) := AddPropertyElement d filter "start" "1"
  let (d, filter) := AddPropertyElement d filter "level" "1"
  let (d, filter) := AddPropertyElement d filter "mlt_service" "brightness"
  let (d, filter) := AddPropertyElement d filter "kdenlive_id" kdenlive_id
  AddPropertyElement d filter "alpha" alpha

/-- One of the two blocks `if(fade_..._time > 0){ ... }` of `FadeClip`: the filter is built,
appended to the node `entry` points to, and counted. -/
def attachFilter [Stale] (f : KdenliveFile) (entry : Option XMLElement) (i o : ℚ)
    (kdenlive_id alpha : String) : Option KdenliveFile :=
  match entry with
  | none => none
  | some entry =>
    let filter_id := "filter" ++ toString f.filter_count
    let created := fadeFilter f.xml_doc filter_id i o kdenlive_id alpha
    (created.1.InsertEndChild entry.ptr created.2).map
      (fun d => { f with xml_doc := d, filter_count := f.filter_count + 1 })

def FadeClip [Stale] (f : KdenliveFile) (track_id : Nat) (entry_id : Nat)
    (fade_in_time fade_out_time : ℚ) : Option KdenliveFile :=
  match (f.track_entries[track_id]?).bind (fun entries => entries[entry_id]?) with
  | none => none
  | some this_entry =>
    if this_entry.entry_type = EntryType.BLANK then some f
    else
      let playlist_index := track_id * 2
      let playlist_id := "playlist" ++ toString playlist_index
      (FindPlaylistEntry f.xml_doc playlist_id entry_id).bind (fun entry =>
        (if fade_in_time > 0 then
            attachFilter f entry this_entry.start_offset
              (fadd this_entry.start_offset fade_in_time) "fade_from_black" "0=0;-1=1"
          else some f).bind (fun f =>
        if fade_out_time > 0 then
          attachFilter f entry
            (fsub (fadd this_entry.start_offset this_entry.length) fade_out_time)
            (fadd this_entry.start_offset this_entry.length) "fade_to_black" "0=1;-1=0"
        else some f))

/-! ### Getters -/

def GetTrackLength (f : KdenliveFile) (track_id : Nat) : Option ℚ :=
  f.track_lengths[track_id]?

end KdenliveFile

/-! ## `Clip` and `KdenliveProject` (the timeline model) -/

/-- Member variables of `Clip`. -/
structure Clip where
  name : String
  length : ℚ
  start_offset : ℚ
  fade_in_time : ℚ
  fade_out_time : ℚ
  priority : Int
deriving DecidableEq, Repr

namespace Clip

/-- The constructor `Clip::Clip`; the fades and the priority take their in-class defaults. -/
def new (name : String) (length : ℚ) (start_offset : ℚ) : Clip :=
  { name := name, length := length, start_offset := start_offset,
    fade_in_time := 0, fade_out_time := 0, priority := 0 }

def SetBounds (c : Clip) (length : ℚ) (start_offset : ℚ) : Clip :=
  let c := if length > 0 then { c with length := length } else c
  if start_offset > 0 then { c with start_offset := start_offset } else c

def SetFadeOffsets (c : Clip) (fade_in_time fade_out_time : ℚ) : Clip :=
  { c with fade_in_time := fade_in_time, fade_out_time := fade_out_time }

end Clip

/-- The call `timeline.insert({time_stamp, clip})` on a `std::multimap<float, Clip*>`, kept as
the list of its elements in iteration order: the new element goes behind every element whose
key is not greater than its own. -/
def multimapInsert (time_stamp : ℚ) (clip : Nat) :
    List (ℚ × Nat) → List (ℚ × Nat)
  | [] => [(time_stamp, clip)]
  | e :: rest =>
    if time_stamp < e.1 then (time_stamp, clip) :: e :: rest
    else e :: multimapInsert time_stamp clip rest

/-- Member variables of `KdenliveProject`. -/
structure KdenliveProject where
  framerate : ℚ
  frame_width : Int
  frame_height : Int
  clips : List Clip
  video_timeline : List (ℚ × Nat)
  audio_timeline : List (ℚ × Nat)

namespace KdenliveProject

/-- The constructor `KdenliveProject::KdenliveProject()`. -/
def new : KdenliveProject :=
  { framerate := 30, frame_width := 1920, frame_height := 1080,
    clips := [], video_timeline := [], audio_timeline := [] }

def SetProfile (P : KdenliveProject) (framerate : ℚ) (frame_width frame_height : Int) :
    KdenliveProject :=
  let P := if framerate > 0 then { P with framerate := framerate } else P
  let P := if frame_width > 0 then { P with frame_width := frame_width } else P
  if frame_height > 0 then { P with frame_height := frame_height } else P

def CreateClip (P : KdenliveProject) (name : String) (length : ℚ)
    (start_offset : ℚ) : KdenliveProject × Nat :=
  ({ P with clips := P.clips ++ [Clip.new name length start_offset] }, P.clips.length)

def AddClipToVideoTrack (P : KdenliveProject) (time_stamp : ℚ) (clip : Nat) :
    KdenliveProject :=
  { P with video_timeline := multimapInsert time_stamp clip P.video_timeline }

def AddClipToAudioTrack (P : KdenliveProject) (time_stamp : ℚ) (clip : Nat) :
    KdenliveProject :=
  { P with audio_timeline := multimapInsert time_stamp clip P.audio_timeline }

def CreateClipOnVideoTrack (P : KdenliveProject) (time_stamp : ℚ) (name : String)
    (length : ℚ) (start_offset : ℚ) : KdenliveProject × Nat :=
  let (P, new_clip) := P.CreateClip name length start_offset
  (P.AddClipToVideoTrack time_stamp new_clip, new_clip)

def CreateClipOnAudioTrack (P : KdenliveProject) (time_stamp : ℚ) (name : String)
    (length : ℚ) (start_offset : ℚ) : KdenliveProject × Nat :=
  let (P, new_clip) := P.CreateClip name length start_offset
  (P.AddClipToAudioTrack time_stamp new_clip, new_clip)

/-- A member call `clip->g(...)` through a `Clip*` of this project. -/
def onClip (P : KdenliveProject) (clip : Nat) (g : Clip → Clip) : KdenliveProject :=
  { P with clips := P.clips.modify g clip }

/-! ### `GenerateFile` -/

/-- Lines 116-128: the loop over `clips` that fills the asset bin and `included_names`. -/
def registerClips [Stale] (findFilePath : List String → String → String)
    (media_folder_paths : List String) :
    List Clip → KdenliveFile × List (String × Nat) →
      Option (KdenliveFile × List (String × Nat))
  | [], st => some st
  | clip :: rest, (kdenlive_file, included_names) =>
    if included_names.lookup clip.name = none then
      let filepath := findFilePath media_folder_paths clip.name
      (kdenlive_file.AddClipToBin filepath).bind (fun r =>
        registerClips findFilePath media_folder_paths rest
          (r.1, included_names ++ [(clip.name, r.2)]))
    else registerClips findFilePath media_folder_paths rest (kdenlive_file, included_names)

/-- The macro `ADD_CLIP`.  The difference is stored in the `float` variable `blank_length`,
which is compared with a `double` literal. -/
def ADD_CLIP [Stale] (kdenlive_file : KdenliveFile) (included_names : List (String × Nat))
    (track_id : Nat) (track_length entry_start_time : ℚ) (clip : Clip) :
    Option KdenliveFile :=
  let blank_length := fsub entry_start_time track_length
  (if blank_length > blankThreshold then
      (kdenlive_file.AddBlankToTrack track_id blank_length).map Prod.fst
    else some kdenlive_file).bind (fun kdenlive_file =>
  (included_names.lookup clip.name).bind (fun clip_id =>
  (kdenlive_file.AddClipToTrack track_id clip_id clip.length clip.start_offset).bind
    (fun added =>
  added.1.FadeClip track_id added.2 clip.fade_in_time clip.fade_out_time)))

/-- The inner `for` loop "check for available tracks from the bottom up": the file after
`ADD_CLIP` on the first track that fits, inner `none` when the loop ends without a `goto`. -/
def scanTracks [Stale] (kdenlive_file : KdenliveFile) (included_names : List (String × Nat))
    (entry_start_time : ℚ) (clip : Clip) : List Nat → Option (Option KdenliveFile)
  | [] => some none
  | track_id :: rest =>
    match kdenlive_file.GetTrackLength track_id with
    | none => none
    | some track_length =>
      if track_length ≤ entry_start_time then
        (ADD_CLIP kdenlive_file included_names track_id track_length entry_start_time clip).map
          some
      else scanTracks kdenlive_file included_names entry_start_time clip rest

/-- One iteration of the loop over a timeline (lines 141-165 for video, 170-193 for audio),
on the file and the vector `video_tracks` / `audio_tracks`. -/
def placeClip [Stale] (track_type : TrackType) (included_names : List (String × Nat))
    (clips : List Clip) (st : KdenliveFile × List Nat) (placement : ℚ × Nat) :
    Option (KdenliveFile × List Nat) := do
  let entry_start_time := placement.1
  let clip ← clips[placement.2]?
  match ← scanTracks st.1 included_names entry_start_time clip st.2 with
  | some kdenlive_file => pure (kdenlive_file, st.2)
  | none =>
    let (kdenlive_file, track_id) ← st.1.AddTrack track_type
    let kdenlive_file ← ADD_CLIP kdenlive_file included_names track_id 0 entry_start_time clip
    pure (kdenlive_file, st.2 ++ [track_id])

/-- The loop over a timeline. -/
def addClips [Stale] (track_type : TrackType) (included_names : List (String × Nat))
    (clips : List Clip) :
    List (ℚ × Nat) → KdenliveFile × List Nat → Option (KdenliveFile × List Nat)
  | [], st => some st
  | placement :: rest, st =>
    (placeClip track_type included_names clips st placement).bind
      (addClips track_type included_names clips rest)

/-- Local variables of `GenerateFile` at its `return`. -/
structure Generated where
  kdenlive_file : KdenliveFile
  included_names : List (String × Nat)
  video_tracks : List Nat
  audio_tracks : List Nat

/-- The body of `GenerateFile`, keeping its local variables. -/
def generate [Stale] (template : XMLElement) (findFilePath : List String → String → String)
    (P : KdenliveProject) (media_folder_paths : List String) : Option Generated := do
  let kdenlive_file ← KdenliveFile.new template
  let kdenlive_file ←
    kdenlive_file.SetProfile (truncToInt P.framerate) P.frame_width P.frame_height
  let (kdenlive_file, included_names) ←
    registerClips findFilePath media_folder_paths P.clips (kdenlive_file, [])
  let (kdenlive_file, video_tracks) ←
    addClips TrackType.VIDEO included_names P.clips P.video_timeline (kdenlive_file, [])
  let (kdenlive_file, audio_tracks) ←
    addClips TrackType.AUDIO included_names P.clips P.audio_timeline (kdenlive_file, [])
  pure { kdenlive_file := kdenlive_file, included_names := included_names,
         video_tracks := video_tracks, audio_tracks := audio_tracks }

/-- The function `KdenliveProject::GenerateFile`. -/
def GenerateFile [Stale] (template : XMLElement) (findFilePath : List String → String → String)
    (P : KdenliveProject) (media_folder_paths : List String) : Option KdenliveFile :=
  (generate template findFilePath P media_folder_paths).map Generated.kdenlive_file

end KdenliveProject

/-! ## Vocabulary of the statements -/

/-- The `float` sum of the lengths of the entries recorded for a track: the lengths are added
one by one in the order of the entries, as `track_lengths[track_id] += length` does from 0. -/
def entriesLength (es : List TrackEntry) : ℚ := es.foldl (fun a e => fadd a e.length) 0

/-- The internal data of a file agree: one length and one entry list per track, and each
length is the `float` sum of the recorded entry lengths. -/
def Consistent (f : KdenliveFile) : Prop :=
  f.track_entries.length = f.track_count ∧
    ∀ id, f.GetTrackLength id = (f.track_entries[id]?).map entriesLength

/-- A call of one of the three methods that build tracks. -/
inductive FileCall where
  | AddTrack (track_type : TrackType)
  | AddBlankToTrack (track_id : Nat) (length : ℚ)
  | AddClipToTrack (track_id : Nat) (clip_id : Nat) (clip_length clip_start_offset : ℚ)

/-- The file after one call, its return value dropped. -/
def FileCall.run [Stale] (f : KdenliveFile) : FileCall → Option KdenliveFile
  | FileCall.AddTrack track_type => (f.AddTrack track_type).map Prod.fst
  | FileCall.AddBlankToTrack track_id length => (f.AddBlankToTrack track_id length).map Prod.fst
  | FileCall.AddClipToTrack track_id clip_id clip_length clip_start_offset =>
    (f.AddClipToTrack track_id clip_id clip_length clip_start_offset).map Prod.fst

/-- The file after a sequence of calls. -/
def runCalls [Stale] : List FileCall → KdenliveFile → Option KdenliveFile
  | [], f => some f
  | c :: cs, f => (c.run f).bind (runCalls cs)

/-- A small template with the anchor nodes of an empty Kdenlive project (profile, main
producer, timeline tractor named by the document uuid, main bin, final tractor) and one
pre-generated track. -/
def minimalTemplate : XMLElement :=
  XMLElement.node 0 "mlt" [] none [
    XMLElement.node 1 "profile" [("description", "HD 1080p 25 fps")] none [],
    XMLElement.node 2 "producer" [("id", "producer0")] none [],
    XMLElement.node 3 "playlist" [("id", "playlist0")] none [],
    XMLElement.node 4 "playlist" [("id", "playlist1")] none [],
    XMLElement.node 5 "tractor" [("id", "tractor0")] none [
      XMLElement.node 6 "track" [("producer", "playlist0")] none [],
      XMLElement.node 7 "track" [("producer", "playlist1")] none []],
    XMLElement.node 8 "tractor" [("id", "timeline-uuid")] none [
      XMLElement.node 9 "track" [("producer", "tractor0")] none []],
    XMLElement.node 10 "playlist" [("id", "main_bin")] none [
      XMLElement.node 11 "property" [("name", "kdenlive:docproperties.profile")]
        (some "atsc_1080p_25") [],
      XMLElement.node 12 "property" [("name", "kdenlive:docproperties.uuid")] (some "timeline-uuid") []],
    XMLElement.node 13 "tractor" [("id", "tractor1")] none []]

/-- The project built by `main` of `example.cpp`: profile 60 fps at 1920x1080, a video clip
of length 10 at 0, an audio clip of length 20 at 0, and a third clip of length 10 placed on
both channels at 9 and then given `SetBounds(15)` and `SetFadeOffsets(1, 0)`. -/
def exampleProject : KdenliveProject :=
  let proj := KdenliveProject.new.SetProfile 60 1920 1080
  let proj := (proj.CreateClipOnVideoTrack 0 "great_expanse" 10 0).1
  let proj := (proj.CreateClipOnAudioTrack 0 "Free_Test_Data_500KB_MP3" 20 0).1
  let created := proj.CreateClip "cavern_clinger_boss" 10 0
  let proj := created.1.AddClipToVideoTrack 9 created.2
  let proj := proj.AddClipToAudioTrack 9 created.2
  let proj := proj.onClip created.2 (fun clip_1 => clip_1.SetBounds 15 0)
  proj.onClip created.2 (fun clip_1 => clip_1.SetFadeOffsets 1 0)

/-- Three video clips whose intervals meet end to start without a common instant, with
`u = 2 ^ (-23)`: length `1.5 u` at 0, length 1/8 at `1 + 3 u`, length 1 at `9/8 + 3 u`.  All
six numbers are `float`s. -/
def tieProject : KdenliveProject :=
  let proj := (KdenliveProject.new.CreateClipOnVideoTrack 0 "A" (3 / 16777216) 0).1
  let proj := (proj.CreateClipOnVideoTrack (8388611 / 8388608) "B" (1 / 8) 0).1
  (proj.CreateClipOnVideoTrack (9437187 / 8388608) "C" 1 0).1

/-- Three video clips placed end to start: length 13421773 / 2^25 (the `float` nearest to
0.4) at 0, length 13421773 / 2^27 (the `float` nearest to 0.1) at 13421773 / 2^25, and
length 10 at 1/2. -/
def driftProject : KdenliveProject :=
  let proj := (KdenliveProject.new.CreateClipOnVideoTrack 0 "A" (13421773 / 33554432) 0).1
  let proj := (proj.CreateClipOnVideoTrack (13421773 / 33554432) "B"
    (13421773 / 134217728) 0).1
  (proj.CreateClipOnVideoTrack (1 / 2) "C" 10 0).1

/-- The stand-in for `findFilePath` when no media folder holds the file: the name with the
default media format appended (line 31 of `KdenliveProject.cpp`). -/
def defaultFilePath (_media_folder_paths : List String) (file_name : String) : String :=
  file_name ++ ".mp4"

/-! ### Documents on which the builder runs -/

/-- The node is an `entry` or a `blank`, the two kinds `FindPlaylistEntry` counts. -/
def XMLElement.isTimed (e : XMLElement) : Bool := e.name == "entry" || e.name == "blank"

/-- Number of `entry` and `blank` children of a node. -/
def XMLElement.timedChildren (e : XMLElement) : Nat := (e.children.filter XMLElement.isTimed).length

/-- A child `c` of the root is in order: its address is in use (below `next`) and is not
the root's address `r`, and so are the addresses of its `entry` and `blank` children. -/
def ChildOK (next r : Nat) (c : XMLElement) : Prop :=
  c.ptr < next ∧ c.ptr ≠ r ∧
    ∀ gc ∈ c.children, gc.isTimed = true → gc.ptr < next ∧ gc.ptr ≠ r

/-- The child `c'` of the root is the child `c` after a builder step: same address, name
and attributes, and at least as many `entry` and `blank` children, `n` more when `c` is the
node at address `q`. -/
def Grew (q n : Nat) (c c' : XMLElement) : Prop :=
  c'.ptr = c.ptr ∧ c'.name = c.name ∧ c'.attrs = c.attrs ∧
    c.timedChildren + (if c.ptr = q then n else 0) ≤ c'.timedChildren

/-- The address `q` belongs to a child of the root or to a child of such a child. -/
def Addressable (q : Nat) (cs : List XMLElement) : Prop :=
  ∃ c ∈ cs, c.ptr = q ∨ ∃ gc ∈ c.children, gc.ptr = q

/-- The pointers a `KdenliveFile` keeps are in order: the anchors `main_producer`, `main_bin`,
`timeline_tractor` and the cursor `last_added_root_element` point to children of the root, and
no address below the root is the root's own or is still free. -/
def AnchorsOK (f : KdenliveFile) : Prop :=
  f.xml_doc.root.ptr < f.xml_doc.next_ptr ∧
  (∀ c ∈ f.xml_doc.root.children, ChildOK f.xml_doc.next_ptr f.xml_doc.root.ptr c) ∧
  f.main_producer ∈ f.xml_doc.root.children.map XMLElement.ptr ∧
  f.last_added_root_element ∈ f.xml_doc.root.children.map XMLElement.ptr ∧
  f.main_bin ∈ f.xml_doc.root.children.map XMLElement.ptr ∧
  ∃ tt, f.timeline_tractor = some tt ∧ tt ∈ f.xml_doc.root.children.map XMLElement.ptr

instance (next r : Nat) (c : XMLElement) : Decidable (ChildOK next r c) := by
  unfold ChildOK
  infer_instance

instance (f : KdenliveFile) : Decidable (AnchorsOK f) := by
  unfold AnchorsOK
  have : Decidable (∃ tt, f.timeline_tractor = some tt ∧
      tt ∈ f.xml_doc.root.children.map XMLElement.ptr) :=
    decidable_of_iff (∃ tt ∈ f.timeline_tractor,
      tt ∈ f.xml_doc.root.children.map XMLElement.ptr) Iff.rfl
  infer_instance

/-- The search for the playlist `id` succeeds and finds at least `n` nodes `entry` or
`blank` in it. -/
@[reducible]
def HasPlaylist (d : XMLDocument) (id : String) (n : Nat) : Prop :=
  ∃ pl, KdenliveFile.FindPlaylistElement d id = some pl ∧ n ≤ pl.timedChildren

/-- The document of a file mirrors its tracks far enough for every builder call to run:
the anchors are in order, and for each track the search for its first playlist succeeds and
finds at least as many `entry` and `blank` nodes as the track has recorded entries. -/
def DocOK (f : KdenliveFile) : Prop :=
  AnchorsOK f ∧
  ∀ k, k < f.track_count →
    HasPlaylist f.xml_doc ("playlist" ++ toString (k * 2))
      ((f.track_entries[k]?).getD []).length

/-- The calls of a sequence name only tracks that exist when they are made, `n` being the
number of tracks before the first call. -/
def ValidCalls : Nat → List FileCall → Prop
  | _, [] => True
  | n, FileCall.AddTrack _ :: cs => ValidCalls (n + 1) cs
  | n, FileCall.AddBlankToTrack track_id _ :: cs => track_id < n ∧ ValidCalls n cs
  | n, FileCall.AddClipToTrack track_id _ _ _ :: cs => track_id < n ∧ ValidCalls n cs

/-- The number a list of decimal digits stands for. -/
def digitsValue (ds : List Char) : Nat := ds.foldl (fun acc c => acc * 10 + (c.toNat - 48)) 0

/-! ### Reading a timestamp -/

/-- Value of a decimal digit, `none` for any other character. -/
def digitValue (c : Char) : Option Nat :=
  if c.isDigit then some (c.toNat - 48) else none

/-- The number of seconds a text of the form `HH:MM:SS.mmm` stands for, the reading against
which the round trip of the timestamp codec is stated; `none` for a text of another form. -/
def parseTimestamp (s : String) : Option ℚ :=
  match s.data with
  | [h1, h0, ':', m1, m0, ':', s1, s0, '.', f2, f1, f0] =>
    (digitValue h1).bind fun h1 => (digitValue h0).bind fun h0 =>
    (digitValue m1).bind fun m1 => (digitValue m0).bind fun m0 =>
    (digitValue s1).bind fun s1 => (digitValue s0).bind fun s0 =>
    (digitValue f2).bind fun f2 => (digitValue f1).bind fun f1 =>
    (digitValue f0).bind fun f0 =>
      some ((((h1 * 10 + h0) * 3600 + (m1 * 10 + m0) * 60 + (s1 * 10 + s0) : ℕ) : ℚ)
        + ((f2 * 100 + f1 * 10 + f0 : ℕ) : ℚ) / 1000)
  | _ => none

/-! ### Entry lists of a channel -/

/-- The entries one expansion of `ADD_CLIP` records on its track: a Blank when the `float`
difference `entry_start_time - track_length` exceeds the literal 0.00099, then the clip. -/
def addedEntries (track_length entry_start_time : ℚ) (clip : Clip) : List TrackEntry :=
  (if fsub entry_start_time track_length > blankThreshold then
      [⟨EntryType.BLANK, fsub entry_start_time track_length, 0⟩]
    else []) ++ [⟨EntryType.CLIP, clip.length, clip.start_offset⟩]

/-- The entry lists of the tracks named by `video_tracks` (or `audio_tracks`), in the order
of that vector. -/
def channelEntries (f : KdenliveFile) (tracks : List Nat) : List (List TrackEntry) :=
  tracks.map (fun id => (f.track_entries[id]?).getD [])

/-- The state of a timeline loop is sound: the internal data of the file agree, and the
track vector holds distinct ids of existing tracks, none created before track `base`. -/
def ChannelOK (base : Nat) (f : KdenliveFile) (tracks : List Nat) : Prop :=
  Consistent f ∧ tracks.Nodup ∧ ∀ id ∈ tracks, base ≤ id ∧ id < f.track_count

/-- The inner loop of `GenerateFile` seen on the entry lists of the channel: the lists after
the clip went to the first track whose length is at most `t`, `none` when no track fits. -/
def packScan (t : ℚ) (clip : Clip) :
    List (List TrackEntry) → Option (List (List TrackEntry))
  | [] => none
  | es :: rest =>
    if entriesLength es ≤ t then
      some ((es ++ addedEntries (entriesLength es) t clip) :: rest)
    else (packScan t clip rest).map (fun r => es :: r)

/-- One iteration of the timeline loop seen on the entry lists of the channel. -/
def packStep (cs : List (List TrackEntry)) (p : ℚ × Clip) : List (List TrackEntry) :=
  (packScan p.1 p.2 cs).getD (cs ++ [addedEntries 0 p.1 p.2])

/-- The placements of a timeline with their clips looked up. -/
def resolved (clips : List Clip) (timeline : List (ℚ × Nat)) : List (ℚ × Clip) :=
  timeline.filterMap (fun p => (clips[p.2]?).map (fun c => (p.1, c)))

/-- The entries of a track to which the placements `ps` went in this order, from the empty
track on: each time the entries `ADD_CLIP` records for the length the track has then. -/
def laidOut (ps : List (ℚ × Clip)) : List TrackEntry :=
  ps.foldl (fun es p => es ++ addedEntries (entriesLength es) p.1 p.2) []

/-- The entries `es` of a track are those of placements `ps` taken in order from `pre`, and
each of them found the recorded length of the track at most at its timestamp. -/
def Laid (pre : List (ℚ × Clip)) (es : List TrackEntry) : Prop :=
  ∃ ps, ps.Sublist pre ∧ es = laidOut ps ∧
    ∀ n (hn : n < ps.length), entriesLength (laidOut (ps.take n)) ≤ ps[n].1

/-- The sum of the lengths of the entries recorded for a track, in exact arithmetic. -/
def exactLength (es : List TrackEntry) : ℚ := (es.map TrackEntry.length).sum

/-- The number is a multiple of `2 ^ (-k)` from 0 to `2 ^ (24 - k)`.  For `k ≤ 149` such a
number is a `float`, and the `float` sum and difference of two of them are exact when the
exact result is such a number again. -/
def OnGrid (k : Nat) (q : ℚ) : Prop := ∃ n : Nat, n ≤ 2 ^ 24 ∧ q = (n : ℚ) / 2 ^ k

/-- The timestamp and the clip length of a placement, and the end `t + length` of its
interval, are multiples of `2 ^ (-k)` from 0 to `2 ^ (24 - k)`. -/
def GridPlacement (k : Nat) (p : ℚ × Clip) : Prop :=
  OnGrid k p.1 ∧ OnGrid k p.2.length ∧ OnGrid k (p.1 + p.2.length)

/-- The recorded length of a track is a multiple of `2 ^ (-k)` from 0 to `2 ^ (24 - k)`, and
it is the exact sum of the lengths of its entries. -/
def GridTrack (k : Nat) (es : List TrackEntry) : Prop :=
  OnGrid k (entriesLength es) ∧ entriesLength es = exactLength es

/-- The start position on the track (sum of the lengths of the entries before it, in exact
arithmetic, counted from `offset`) of every Clip entry of an entry list, with the entry. -/
def clipStarts (offset : ℚ) : List TrackEntry → List (ℚ × TrackEntry)
  | [] => []
  | e :: es =>
    (if e.entry_type = EntryType.CLIP then [(offset, e)] else [])
      ++ clipStarts (offset + e.length) es

/-- The Clip entry `se.2`, which starts at position `se.1` of its track, is the entry of the
placement `p`: it has the length and start offset of the clip, and it starts at most at the
timestamp of the placement and less than 0.001 s before it. -/
def EntryOfPlacement (se : ℚ × TrackEntry) (p : ℚ × Clip) : Prop :=
  se.2.entry_type = EntryType.CLIP ∧ se.2.length = p.2.length ∧
    se.2.start_offset = p.2.start_offset ∧ p.1 - 0.001 < se.1 ∧ se.1 ≤ p.1

/-- What the loop keeps true of every track of the channel, `pre` being the placements
processed so far. -/
def TrackPlaced (pre : List (ℚ × Clip)) (es : List TrackEntry) : Prop :=
  (∀ e ∈ es, 0 < e.length) ∧
    ∃ ps, ps.Sublist pre ∧ List.Forall₂ EntryOfPlacement (clipStarts 0 es) ps

/-- The instant `x` lies in the interval `[t, t + length)` of the placement. -/
def covers (x : ℚ) (p : ℚ × Clip) : Bool :=
  decide (p.1 ≤ x) && decide (x < p.1 + p.2.length)

/-- Number of placements whose interval contains the instant `x`. -/
def overlapAt (placements : List (ℚ × Clip)) (x : ℚ) : Nat :=
  (placements.filter (covers x)).length

/-- What the loop keeps true of the tracks of the channel, `pre` being the placements
processed so far: each track ends no later than a placement of its own, and some instant
lies in as many placements as there are tracks. -/
def Packed (pre : List (ℚ × Clip)) (cs : List (List TrackEntry)) : Prop :=
  (∃ lasts, lasts.Subperm pre ∧
    List.Forall₂ (fun es p => entriesLength es ≤ p.1 + p.2.length) cs lasts) ∧
  ∃ x, cs.length ≤ overlapAt pre x

namespace KdenliveProject

/-- The timeline of a channel. -/
def timeline (P : KdenliveProject) : TrackType → List (ℚ × Nat)
  | TrackType.VIDEO => P.video_timeline
  | TrackType.AUDIO => P.audio_timeline

/-- The track vector of a channel at the end of `GenerateFile`. -/
def Generated.tracks (g : Generated) : TrackType → List Nat
  | TrackType.VIDEO => g.video_tracks
  | TrackType.AUDIO => g.audio_tracks

end KdenliveProject

open XMLElement KdenliveFile KdenliveProject

/-! ### An oracle that shows where the dangling reads end up -/

/-- The reads through dangling pointers return the address of the node, the name of the
attribute and the text the destroyed string held, separated by `/`: in an evaluated run
every attribute that was set from a destroyed string is marked. -/
def Stale.tagged : Stale := ⟨fun p a s => toString p ++ "/" ++ a ++ "/" ++ s⟩

/-! ### Names in the asset bin -/

/-- The registration loop of `GenerateFile` (lines 116-128) seen on the names alone: the keys
of `included_names` in insertion order after the loop ran over `clips`, starting from the
keys `names`. -/
def registerNames : List Clip → List String → List String
  | [], names => names
  | clip :: rest, names =>
    if clip.name ∈ names then registerNames rest names
    else registerNames rest (names ++ [clip.name])

/-! ### Addresses of a document -/

namespace XMLElement

mutual
/-- The addresses of all nodes of the tree, the node itself first. -/
def allPtrs : XMLElement → List Nat
  | node p _ _ _ cs => p :: allPtrsList cs
/-- The function `allPtrs` over a child list. -/
def allPtrsList : List XMLElement → List Nat
  | [] => []
  | c :: cs => allPtrs c ++ allPtrsList cs
end

end XMLElement

/-- The addresses of a document are those of a heap: no two nodes of the tree share an
address, and every address in use is below the next free one, so that `NewElement` returns
an address that is not in the tree. -/
def XMLDocument.WellFormed (d : XMLDocument) : Prop :=
  d.root.allPtrs.Nodup ∧ ∀ p ∈ d.root.allPtrs, p < d.next_ptr

instance (d : XMLDocument) : Decidable d.WellFormed := by
  unfold XMLDocument.WellFormed
  infer_instance

/-- The `filter` element of a fade with its five properties, as `FadeClip` builds it at the
free addresses `p`, ..., `p + 5`.  The texts of `in` and `out` are what `SetAttribute` reads
through the pointers `CreateFilterElement` kept into the destroyed timestamp strings. -/
def filterNode [Stale] (p : Nat) (id : String) (i o : ℚ) (kdenlive_id alpha : String) :
    XMLElement :=
  XMLElement.node p "filter"
    [("id", id), ("in", Stale.read p "in" (convertToTimestamp i)),
      ("out", Stale.read p "out" (convertToTimestamp o))] none
    [XMLElement.node (p + 1) "property" [("name", "start")] (some "1") [],
     XMLElement.node (p + 2) "property" [("name", "level")] (some "1") [],
     XMLElement.node (p + 3) "property" [("name", "mlt_service")] (some "brightness") [],
     XMLElement.node (p + 4) "property" [("name", "kdenlive_id")] (some kdenlive_id) [],
     XMLElement.node (p + 5) "property" [("name", "alpha")] (some alpha) []]

/-- The filters `FadeClip` attaches to a Clip entry with the given start offset and length,
built at the free addresses from `p` on and numbered from `count` on: a fade-in when
`fade_in_time > 0`, then a fade-out when `fade_out_time > 0`.  The bounds are the `float`
sums and differences `FadeClip` passes to `CreateFilterElement`. -/
def fadeFilters [Stale] (p count : Nat) (start_offset length fade_in_time fade_out_time : ℚ) :
    List XMLElement :=
  (if fade_in_time > 0 then
      [filterNode p ("filter" ++ toString count) start_offset (fadd start_offset fade_in_time)
        "fade_from_black" "0=0;-1=1"]
    else []) ++
  (if fade_out_time > 0 then
      [filterNode (if fade_in_time > 0 then p + 6 else p)
        ("filter" ++ toString (if fade_in_time > 0 then count + 1 else count))
        (fsub (fadd start_offset length) fade_out_time) (fadd start_offset length)
        "fade_to_black" "0=1;-1=0"]
    else [])

/-! ### The nodes of a new track -/

/-- The value `AddTrack` gives the attribute `hide` of the two `track` nodes of a track. -/
def hideValue : TrackType → String
  | TrackType.VIDEO => "audio"
  | TrackType.AUDIO => "video"

/-- The three nodes `AddTrack` leaves below the root for track number `k` when the free
addresses start at `p`: the two playlists, both empty, and the tractor with its two `track`
children; on an audio track the tractor has the property `kdenlive:audio_track` in front. -/
def trackNodes (track_type : TrackType) (p k : Nat) : List XMLElement :=
  [XMLElement.node p "playlist" [("id", "playlist" ++ toString (k * 2))] none [],
   XMLElement.node (p + 1) "playlist" [("id", "playlist" ++ toString (k * 2 + 1))] none [],
   XMLElement.node (p + 2) "tractor" [("id", "tractor" ++ toString k)] none
    ((match track_type with
      | TrackType.VIDEO => []
      | TrackType.AUDIO =>
        [XMLElement.node (p + 5) "property" [("name", "kdenlive:audio_track")] (some "1") []]) ++
     [XMLElement.node (p + 3) "track"
        [("producer", "playlist" ++ toString (k * 2)), ("hide", hideValue track_type)] none [],
      XMLElement.node (p + 4) "track"
        [("producer", "playlist" ++ toString (k * 2 + 1)), ("hide", hideValue track_type)]
        none []])]

/-- The `track` node `AddTrack` appends to the timeline tractor for track number `k`. -/
def timelineTrack (track_type : TrackType) (p k : Nat) : XMLElement :=
  XMLElement.node
    (match track_type with
      | TrackType.VIDEO => p + 5
      | TrackType.AUDIO => p + 6)
    "track" [("producer", "tractor" ++ toString k)] none []

/-- The number of `AddTrack` calls in a sequence of calls. -/
def trackCalls : List FileCall → Nat
  | [] => 0
  | FileCall.AddTrack _ :: cs => trackCalls cs + 1
  | FileCall.AddBlankToTrack _ _ :: cs => trackCalls cs
  | FileCall.AddClipToTrack _ _ _ _ :: cs => trackCalls cs

/-! ### Calls that add nodes below the root -/

/-- A call of one of the two methods that link a new node in below the root. -/
inductive RootCall where
  | AddClipToBin (clip_path : String)
  | AddTrack (track_type : TrackType)
deriving DecidableEq, Repr

/-- The file after one call, its return value dropped. -/
def RootCall.run [Stale] (f : KdenliveFile) : RootCall → Option KdenliveFile
  | RootCall.AddClipToBin clip_path => (f.AddClipToBin clip_path).map Prod.fst
  | RootCall.AddTrack track_type => (f.AddTrack track_type).map Prod.fst

/-- The file after a sequence of calls. -/
def runRootCalls [Stale] : List RootCall → KdenliveFile → Option KdenliveFile
  | [], f => some f
  | c :: cs, f => (c.run f).bind (runRootCalls cs)

/-- The number of `AddClipToBin` calls in a sequence. -/
def binCalls : List RootCall → Nat
  | [] => 0
  | RootCall.AddClipToBin _ :: cs => binCalls cs + 1
  | RootCall.AddTrack _ :: cs => binCalls cs

/-- The number of `AddTrack` calls in a sequence. -/
def rootTrackCalls : List RootCall → Nat
  | [] => 0
  | RootCall.AddClipToBin _ :: cs => rootTrackCalls cs
  | RootCall.AddTrack _ :: cs => rootTrackCalls cs + 1

/-- What identifies a child of the root apart from its content: address, tag name and
attributes. -/
def XMLElement.sig (e : XMLElement) : Nat × String × List (String × String) :=
  (e.ptr, e.name, e.attrs)

/-- Tag name and `id` attribute of a node. -/
def XMLElement.label (e : XMLElement) : String × Option String :=
  (e.name, e.Attribute "id")

/-- Tag names and ids of the chains numbered from `first` on whose nodes have the addresses
`ptrs`, in the order in which `AddClipToBin` leaves them below the root: the newest first.
The id of a chain is what `SetAttribute` reads through the pointer `AddClipToBin` kept into
the destroyed string `chain` followed by the number. -/
def chainLabels [Stale] (first : Nat) : List Nat → List (String × Option String)
  | [] => []
  | p :: ptrs =>
    ("chain", some (Stale.read p "id" ("chain" ++ toString (first + ptrs.length)))) ::
      chainLabels first ptrs

/-- Tag names and ids of the nodes of `n` tracks numbered from `first` on, in creation
order. -/
def trackLabels (first n : Nat) : List (String × Option String) :=
  (List.range n).flatMap (fun k =>
    [("playlist", some ("playlist" ++ toString ((first + k) * 2))),
     ("playlist", some ("playlist" ++ toString ((first + k) * 2 + 1))),
     ("tractor", some ("tractor" ++ toString (first + k)))])

/-- Tag name and `id` attribute, read off the signature of a node. -/
def sigLabel (s : Nat × String × List (String × String)) : String × Option String :=
  (s.2.1, (s.2.2.find? (fun a => a.1 == "id")).map Prod.snd)

/-- The layout of the root's children of a file `f` that started with the children
`PRE ++ MP :: POST`, `MP` being the main producer, with `c0` chains and `k0` tracks and the
free addresses from `n0` on, and to which `a` chains and `b` tracks were added since: the
chains `C`, newest first, then the nodes `T` of the tracks in creation order stand between
`MP` and `POST`; the added nodes have the addresses from `n0` on that are in use, and the
cursor `last_added_root_element` points to the last node of `MP :: C ++ T`, which is the
first node with that address. -/
def RootLayout [Stale] (PRE : List (Nat × String × List (String × String)))
    (MP : Nat × String × List (String × String))
    (POST : List (Nat × String × List (String × String))) (n0 c0 k0 : Nat)
    (f : KdenliveFile) (a b : Nat) : Prop :=
  ∃ C T : List (Nat × String × List (String × String)),
    f.xml_doc.root.children.map XMLElement.sig = PRE ++ MP :: (C ++ T ++ POST) ∧
    (C.map sigLabel = chainLabels c0 (C.map Prod.fst) ∧ C.length = a) ∧
    T.map sigLabel = trackLabels k0 b ∧
    f.chain_count = c0 + a ∧ f.track_count = k0 + b ∧
    MP.1 = f.main_producer ∧
    (∀ y ∈ PRE ++ MP :: POST, y.1 < n0) ∧ n0 ≤ f.xml_doc.next_ptr ∧
    (∀ y ∈ C ++ T, n0 ≤ y.1 ∧ y.1 < f.xml_doc.next_ptr) ∧
    (∃ L cur, MP :: (C ++ T) = L ++ [cur] ∧ cur.1 = f.last_added_root_element ∧
      ∀ y ∈ PRE ++ L, y.1 ≠ cur.1) ∧
    (∀ y ∈ PRE, y.1 ≠ MP.1) ∧
    f.xml_doc.root.ptr < n0 ∧ f.xml_doc.root.ptr ≠ f.main_bin ∧
    ∀ tt, f.timeline_tractor = some tt → f.xml_doc.root.ptr ≠ tt

/-! ### Templates without a timeline tractor -/

/-- A template whose main bin has no property `kdenlive:docproperties.uuid` and that has no
tractor at all: profile, main producer, main bin and one more node. -/
def noTimelineTemplate : XMLElement :=
  XMLElement.node 0 "mlt" [] none [
    XMLElement.node 1 "profile" [("description", "HD 1080p 25 fps")] none [],
    XMLElement.node 2 "producer" [("id", "producer0")] none [],
    XMLElement.node 3 "playlist" [("id", "main_bin")] none [
      XMLElement.node 4 "property" [("name", "kdenlive:docproperties.profile")]
        (some "atsc_1080p_25") []],
    XMLElement.node 5 "consumer" [("id", "consumer0")] none []]

/-- The template `minimalTemplate` without the property `kdenlive:docproperties.uuid` in
the main bin. -/
def noUuidTemplate : XMLElement :=
  XMLElement.node 0 "mlt" [] none [
    XMLElement.node 1 "profile" [("description", "HD 1080p 25 fps")] none [],
    XMLElement.node 2 "producer" [("id", "producer0")] none [],
    XMLElement.node 3 "playlist" [("id", "playlist0")] none [],
    XMLElement.node 4 "playlist" [("id", "playlist1")] none [],
    XMLElement.node 5 "tractor" [("id", "tractor0")] none [
      XMLElement.node 6 "track" [("producer", "playlist0")] none [],
      XMLElement.node 7 "track" [("producer", "playlist1")] none []],
    XMLElement.node 8 "tractor" [("id", "timeline-uuid")] none [
      XMLElement.node 9 "track" [("producer", "tractor0")] none []],
    XMLElement.node 10 "playlist" [("id", "main_bin")] none [
      XMLElement.node 11 "property" [("name", "kdenlive:docproperties.profile")]
        (some "atsc_1080p_25") []],
    XMLElement.node 13 "tractor" [("id", "tractor1")] none []]

/-! ### Effect of `DeletePreExistingTracks`, in words of lists -/

/-- The nodes that `DeletePreExistingTracks` leaves in place when it walks over them: those
that are neither a playlist nor a tractor. -/
def keepsNode (c : XMLElement) : Bool := c.name != "playlist" && c.name != "tractor"

/-- The children of the timeline tractor after the walk has passed the node `c`: a tractor
takes the first reference to its id away, any other node takes nothing. -/
def dropReference (children : List XMLElement) (c : XMLElement) : List XMLElement :=
  if c.name = "tractor" then deleteTrackReference (c.Attribute "id") children else children

/-- How many of the nodes `children` have the attribute `producer` with the value `s`. -/
def referenceCount (s : String) (children : List XMLElement) : Nat :=
  (children.filter (fun t => t.AttributeIs "producer" (some s))).length

/-- A template in the order of `minimalTemplate` whose timeline tractor names the tractor
`tractor0` twice. -/
def doubleReferenceTemplate : XMLElement :=
  XMLElement.node 0 "mlt" [] none [
    XMLElement.node 1 "profile" [("description", "HD 1080p 25 fps")] none [],
    XMLElement.node 2 "producer" [("id", "producer0")] none [],
    XMLElement.node 3 "playlist" [("id", "playlist0")] none [],
    XMLElement.node 4 "tractor" [("id", "tractor0")] none [
      XMLElement.node 5 "track" [("producer", "playlist0")] none []],
    XMLElement.node 6 "tractor" [("id", "timeline-uuid")] none [
      XMLElement.node 7 "track" [("producer", "tractor0")] none [],
      XMLElement.node 8 "track" [("producer", "tractor0")] none []],
    XMLElement.node 9 "playlist" [("id", "main_bin")] none [
      XMLElement.node 10 "property" [("name", "kdenlive:docproperties.uuid")]
        (some "timeline-uuid") []],
    XMLElement.node 11 "tractor" [("id", "tractor1")] none []]

/-- A template with all anchors whose main bin and final tractor stand between the main
producer and the timeline tractor. -/
def binFirstTemplate : XMLElement :=
  XMLElement.node 0 "mlt" [] none [
    XMLElement.node 1 "profile" [("description", "HD 1080p 25 fps")] none [],
    XMLElement.node 2 "producer" [("id", "producer0")] none [],
    XMLElement.node 3 "playlist" [("id", "main_bin")] none [
      XMLElement.node 4 "property" [("name", "kdenlive:docproperties.uuid")]
        (some "timeline-uuid") []],
    XMLElement.node 5 "tractor" [("id", "tractor1")] none [],
    XMLElement.node 6 "tractor" [("id", "timeline-uuid")] none []]

/-! ### Placements and the Clip entries they leave -/

/-- The Clip entries of an entry list, in their order. -/
def clipEntries (es : List TrackEntry) : List TrackEntry :=
  es.filter (fun e => decide (e.entry_type = EntryType.CLIP))

/-- The Clip entry `AddClipToTrack` records for a clip. -/
def entryOfClip (clip : Clip) : TrackEntry :=
  { entry_type := EntryType.CLIP, length := clip.length, start_offset := clip.start_offset }

/-- The placements that went to track number `k` of the channel, in the order they were
processed; `assign` gives for each placement the number of its track in the channel. -/
def assignedTo (k : Nat) (placements : List (ℚ × Clip)) (assign : List Nat) :
    List (ℚ × Clip) :=
  ((placements.zip assign).filter (fun pa => pa.2 == k)).map Prod.fst

/-! ### Calls that build the tracks, and what the document shows of them -/

/-- A call of one of the four methods that build the tracks and their entries. -/
inductive TrackCall where
  | AddTrack (track_type : TrackType)
  | AddBlankToTrack (track_id : Nat) (length : ℚ)
  | AddClipToTrack (track_id : Nat) (clip_id : Nat) (clip_length clip_start_offset : ℚ)
  | FadeClip (track_id : Nat) (entry_id : Nat) (fade_in_time fade_out_time : ℚ)

/-- The file after one call, its return value dropped. -/
def TrackCall.run [Stale] (f : KdenliveFile) : TrackCall → Option KdenliveFile
  | TrackCall.AddTrack track_type => (f.AddTrack track_type).map Prod.fst
  | TrackCall.AddBlankToTrack track_id length =>
    (f.AddBlankToTrack track_id length).map Prod.fst
  | TrackCall.AddClipToTrack track_id clip_id clip_length clip_start_offset =>
    (f.AddClipToTrack track_id clip_id clip_length clip_start_offset).map Prod.fst
  | TrackCall.FadeClip track_id entry_id fade_in_time fade_out_time =>
    f.FadeClip track_id entry_id fade_in_time fade_out_time

/-- The file after a sequence of calls. -/
def runTrackCalls [Stale] : List TrackCall → KdenliveFile → Option KdenliveFile
  | [], f => some f
  | c :: cs, f => (c.run f).bind (runTrackCalls cs)

/-- The kinds of the tracks a sequence of calls creates, in creation order. -/
def createdKinds : List TrackCall → List TrackType
  | [] => []
  | TrackCall.AddTrack track_type :: cs => track_type :: createdKinds cs
  | TrackCall.AddBlankToTrack _ _ :: cs => createdKinds cs
  | TrackCall.AddClipToTrack _ _ _ _ :: cs => createdKinds cs
  | TrackCall.FadeClip _ _ _ _ :: cs => createdKinds cs

/-- The `entry` and `blank` children of a node, in document order. -/
def XMLElement.timedNodes (e : XMLElement) : List XMLElement :=
  e.children.filter XMLElement.isTimed

/-- The kind of in-memory entry a timed node stands for: `entry` is a Clip, `blank` a
Blank. -/
def XMLElement.entryKind (e : XMLElement) : EntryType :=
  if e.name = "entry" then EntryType.CLIP else EntryType.BLANK

/-- The document mirrors the bookkeeping: for every track the search for `playlist(2*id)`
succeeds and the timed children of the node found are, in order, of the kinds of the
in-memory entries of the track, and the search for `playlist(2*id+1)` succeeds and finds a
node without timed children. -/
def Mirror (f : KdenliveFile) : Prop :=
  ∀ k, k < f.track_count →
    ∃ pl pl2, FindPlaylistElement f.xml_doc ("playlist" ++ toString (k * 2)) = some pl ∧
      pl.timedNodes.map XMLElement.entryKind =
        ((f.track_entries[k]?).getD []).map TrackEntry.entry_type ∧
      FindPlaylistElement f.xml_doc ("playlist" ++ toString (k * 2 + 1)) = some pl2 ∧
      pl2.timedNodes = []

/-- No child of the root carries an id that `AddTrack` will hand out later: a playlist named
`playlist(j)` belongs to a track that exists, and so does a tractor named `tractor(j)`, which
moreover is not the timeline tractor. -/
def FreshIds (f : KdenliveFile) : Prop :=
  ∀ c ∈ f.xml_doc.root.children, ∀ j : Nat,
    ((c.name == "playlist" && c.AttributeIs "id" (some ("playlist" ++ toString j))) = true →
      j < f.track_count * 2) ∧
    ((c.name == "tractor" && c.AttributeIs "id" (some ("tractor" ++ toString j))) = true →
      j < f.track_count ∧ f.timeline_tractor ≠ some c.ptr)

/-- From `f` to `f'` the tracks only grew: every track of `f` is a track of `f'`, the
entries it had are still its first entries, its first playlist is the same node (address,
name, attributes), and the timed children it had are still its first timed children, at the
same positions. -/
def Extends (f f' : KdenliveFile) : Prop :=
  f.track_count ≤ f'.track_count ∧
  ∀ k, k < f.track_count →
    (∃ added, (f'.track_entries[k]?).getD [] = (f.track_entries[k]?).getD [] ++ added) ∧
    ∀ pl, FindPlaylistElement f.xml_doc ("playlist" ++ toString (k * 2)) = some pl →
      ∃ pl', FindPlaylistElement f'.xml_doc ("playlist" ++ toString (k * 2)) = some pl' ∧
        pl'.sig = pl.sig ∧
        ∃ more, pl'.timedNodes.map XMLElement.sig = pl.timedNodes.map XMLElement.sig ++ more

/-- Name, attributes and text of the children `AddTrack` gives the tractor of track `k`. -/
def trackKindChildren (track_type : TrackType) (k : Nat) :
    List (String × List (String × String) × Option String) :=
  (match track_type with
    | TrackType.VIDEO => []
    | TrackType.AUDIO => [("property", [("name", "kdenlive:audio_track")], some "1")]) ++
  [("track", [("producer", "playlist" ++ toString (k * 2)), ("hide", hideValue track_type)],
      none),
   ("track", [("producer", "playlist" ++ toString (k * 2 + 1)), ("hide", hideValue track_type)],
      none)]

/-- The tracks of the file are of the kinds `kinds`, by number: the search for `tractor(k)`
finds a node with the children `AddTrack` gives a track of kind `kinds[k]`. -/
def TrackKinds (f : KdenliveFile) (kinds : List TrackType) : Prop :=
  kinds.length = f.track_count ∧
  ∀ k ty, kinds[k]? = some ty →
    ∃ tr, FindTractorElement f.xml_doc ("tractor" ++ toString k) = some tr ∧
      tr.children.map (fun c => (c.name, c.attrs, c.text)) = trackKindChildren ty k

/-- The state in which the calls that build the tracks are made: the file is in order,
consistent and well formed, the document mirrors the bookkeeping, and no id of a later track
is in use. -/
def TracksOK (f : KdenliveFile) : Prop :=
  DocOK f ∧ Consistent f ∧ f.xml_doc.WellFormed ∧ Mirror f ∧ FreshIds f

/-! # Theorems -/

/-! ## Binary32 rounding -/

theorem pow2_eq (k : Int) : pow2 k = (2 : ℚ) ^ k := by
  unfold pow2
  split
  · rename_i h
    obtain ⟨n, rfl⟩ := Int.eq_ofNat_of_zero_le h
    simp
  · rename_i h
    obtain ⟨n, hn⟩ := Int.exists_eq_neg_ofNat (le_of_lt (not_le.1 h))
    subst hn
    simp [zpow_neg]

theorem pow2_pos (k : Int) : 0 < pow2 k := by
  rw [pow2_eq]
  positivity

theorem log2Fuel_spec : ∀ fuel n, 0 < n → n ≤ fuel →
    2 ^ log2Fuel fuel n ≤ n ∧ n < 2 ^ (log2Fuel fuel n + 1)
  | 0, n, h0, h => by omega
  | fuel + 1, n, h0, h => by
    unfold log2Fuel
    split
    · simp
      omega
    · rename_i h2
      obtain ⟨a, b⟩ := log2Fuel_spec fuel (n / 2) (by omega) (by omega)
      constructor
      · rw [pow_succ]
        omega
      · rw [pow_succ]
        omega

theorem abs_eq_natAbs_div (q : ℚ) : |q| = (q.num.natAbs : ℚ) / (q.den : ℚ) := by
  have h : (q.num.natAbs : ℚ) = |(q.num : ℚ)| := by
    rw [Nat.cast_natAbs, Int.cast_abs]
  rw [h, ← abs_of_pos (show (0 : ℚ) < (q.den : ℚ) by exact_mod_cast q.den_pos), ← abs_div,
    Rat.num_div_den]

theorem floorLog2_spec {q : ℚ} (hq : q ≠ 0) :
    (2 : ℚ) ^ floorLog2 q ≤ |q| ∧ |q| < (2 : ℚ) ^ (floorLog2 q + 1) := by
  have hn : 0 < q.num.natAbs := Int.natAbs_pos.2 (Rat.num_ne_zero.2 hq)
  obtain ⟨a1, a2⟩ := log2Fuel_spec _ _ hn (le_refl _)
  obtain ⟨b1, b2⟩ := log2Fuel_spec _ _ q.den_pos (le_refl _)
  have habs := abs_eq_natAbs_div q
  have hd : (0 : ℚ) < (q.den : ℚ) := by exact_mod_cast q.den_pos
  have a1' : (2 : ℚ) ^ (log2Fuel q.num.natAbs q.num.natAbs : ℤ) ≤ (q.num.natAbs : ℚ) := by
    rw [zpow_natCast]
    exact_mod_cast a1
  have a2' : (q.num.natAbs : ℚ) < (2 : ℚ) ^ ((log2Fuel q.num.natAbs q.num.natAbs : ℤ) + 1) := by
    have : (q.num.natAbs : ℚ) < (2 : ℚ) ^ (log2Fuel q.num.natAbs q.num.natAbs + 1) := by
      exact_mod_cast a2
    rw [show ((log2Fuel q.num.natAbs q.num.natAbs : ℤ) + 1) =
      ((log2Fuel q.num.natAbs q.num.natAbs + 1 : ℕ) : ℤ) by push_cast; rfl, zpow_natCast]
    exact this
  have b1' : (2 : ℚ) ^ (log2Fuel q.den q.den : ℤ) ≤ (q.den : ℚ) := by
    rw [zpow_natCast]
    exact_mod_cast b1
  have b2' : (q.den : ℚ) < (2 : ℚ) ^ ((log2Fuel q.den q.den : ℤ) + 1) := by
    have : (q.den : ℚ) < (2 : ℚ) ^ (log2Fuel q.den q.den + 1) := by
      exact_mod_cast b2
    rw [show ((log2Fuel q.den q.den : ℤ) + 1) =
      ((log2Fuel q.den q.den + 1 : ℕ) : ℤ) by push_cast; rfl, zpow_natCast]
    exact this
  unfold floorLog2
  simp only
  generalize (log2Fuel q.num.natAbs q.num.natAbs : ℤ) = a at a1' a2' ⊢
  generalize (log2Fuel q.den q.den : ℤ) = b at b1' b2' ⊢
  have two : (0 : ℚ) < 2 := by norm_num
  have hlow : (2 : ℚ) ^ (a - b - 1) ≤ |q| := by
    rw [habs, le_div_iff₀ hd, show a - b - 1 = a - (b + 1) by ring, zpow_sub₀ two.ne']
    rw [div_mul_eq_mul_div, div_le_iff₀ (zpow_pos two _)]
    exact mul_le_mul a1' b2'.le hd.le (le_trans (zpow_pos two _).le a1')
  have hhigh : |q| < (2 : ℚ) ^ (a - b + 1) := by
    rw [habs, div_lt_iff₀ hd, show a - b + 1 = a + 1 - b by ring, zpow_sub₀ two.ne']
    rw [div_mul_eq_mul_div, lt_div_iff₀ (zpow_pos two _)]
    calc (q.num.natAbs : ℚ) * 2 ^ b ≤ (q.num.natAbs : ℚ) * (q.den : ℚ) :=
          mul_le_mul_of_nonneg_left b1' (Nat.cast_nonneg _)
      _ < 2 ^ (a + 1) * (q.den : ℚ) := mul_lt_mul_of_pos_right a2' hd
  rw [pow2_eq]
  split
  · rename_i h
    exact ⟨h, hhigh⟩
  · rename_i h
    rw [show a - b - 1 + 1 = a - b by ring]
    exact ⟨hlow, not_le.1 h⟩

theorem floorLog2_unique {q : ℚ} {e : ℤ} (h1 : (2 : ℚ) ^ e ≤ |q|)
    (h2 : |q| < (2 : ℚ) ^ (e + 1)) : floorLog2 q = e := by
  have two : (1 : ℚ) < 2 := by norm_num
  have hq : q ≠ 0 := by
    intro h
    rw [h, abs_zero] at h1
    exact absurd h1 (not_le.2 (zpow_pos (by norm_num) _))
  obtain ⟨s1, s2⟩ := floorLog2_spec hq
  have l1 : e < floorLog2 q + 1 := (zpow_lt_zpow_iff_right₀ two).1 (lt_of_le_of_lt h1 s2)
  have l2 : floorLog2 q < e + 1 := (zpow_lt_zpow_iff_right₀ two).1 (lt_of_le_of_lt s1 h2)
  omega

theorem roundHalfEven_intCast (n : ℤ) : roundHalfEven (n : ℚ) = n := by
  unfold roundHalfEven
  simp

theorem roundHalfEven_mono {a b : ℚ} (h : a ≤ b) : roundHalfEven a ≤ roundHalfEven b := by
  unfold roundHalfEven
  have hf : ⌊a⌋ ≤ ⌊b⌋ := Int.floor_le_floor h
  have ha1 := Int.floor_le a
  have ha2 := Int.lt_floor_add_one a
  have hb1 := Int.floor_le b
  have hb2 := Int.lt_floor_add_one b
  simp only
  rcases lt_or_eq_of_le hf with hlt | heq
  · split_ifs <;> omega
  · rw [heq] at ha1 ha2 ⊢
    split_ifs <;> first | omega | (exfalso; linarith)

theorem roundHalfEven_le {m : ℚ} {n : ℤ} (h : m ≤ n) : roundHalfEven m ≤ n := by
  have := roundHalfEven_mono h
  rwa [roundHalfEven_intCast] at this

theorem le_roundHalfEven {m : ℚ} {n : ℤ} (h : (n : ℚ) ≤ m) : n ≤ roundHalfEven m := by
  have := roundHalfEven_mono h
  rwa [roundHalfEven_intCast] at this

theorem roundF32_zero : roundF32 0 = 0 := by
  unfold roundF32
  rw [if_pos rfl]

theorem roundF32_of_ne {q : ℚ} (hq : q ≠ 0) :
    roundF32 q = (roundHalfEven (q / (2 : ℚ) ^ (max (floorLog2 q) (-126) - 23)) : ℚ) *
      (2 : ℚ) ^ (max (floorLog2 q) (-126) - 23) := by
  unfold roundF32
  rw [if_neg hq]
  simp only [pow2_eq]

theorem roundF32_nonneg {q : ℚ} (h : 0 ≤ q) : 0 ≤ roundF32 q := by
  by_cases hq : q = 0
  · rw [hq, roundF32_zero]
  · rw [roundF32_of_ne hq]
    have hu : (0 : ℚ) < (2 : ℚ) ^ (max (floorLog2 q) (-126) - 23) := zpow_pos (by norm_num) _
    have : (0 : ℤ) ≤ roundHalfEven (q / (2 : ℚ) ^ (max (floorLog2 q) (-126) - 23)) :=
      le_roundHalfEven (by simpa using div_nonneg h hu.le)
    exact mul_nonneg (by exact_mod_cast this) hu.le

/-- A number with at most 24 binary digits above the place `2 ^ k`, `k` not below the place
of the subnormal numbers, is a `float`. -/
theorem roundF32_natCast_mul_zpow (n : ℕ) (k : ℤ) (hn : n ≤ 2 ^ 24) (hk : -149 ≤ k) :
    roundF32 ((n : ℚ) * (2 : ℚ) ^ k) = (n : ℚ) * (2 : ℚ) ^ k := by
  have two : (1 : ℚ) < 2 := by norm_num
  have two0 : (2 : ℚ) ≠ 0 := by norm_num
  by_cases h0 : n = 0
  · subst h0
    simp [roundF32_zero]
  have hpos : (0 : ℚ) < (n : ℚ) * (2 : ℚ) ^ k :=
    mul_pos (by exact_mod_cast Nat.pos_of_ne_zero h0) (zpow_pos (by norm_num) _)
  obtain ⟨s1, s2⟩ := floorLog2_spec hpos.ne'
  rw [abs_of_pos hpos] at s1 s2
  have hle : (n : ℚ) * (2 : ℚ) ^ k ≤ (2 : ℚ) ^ (24 + k) := by
    rw [zpow_add₀ two0]
    refine mul_le_mul_of_nonneg_right ?_ (zpow_pos (by norm_num) _).le
    rw [show ((24 : ℤ)) = ((24 : ℕ) : ℤ) by rfl, zpow_natCast]
    exact_mod_cast hn
  have he : floorLog2 ((n : ℚ) * (2 : ℚ) ^ k) ≤ 24 + k :=
    (zpow_le_zpow_iff_right₀ two).1 (le_trans s1 hle)
  rw [roundF32_of_ne hpos.ne']
  generalize hc : max (floorLog2 ((n : ℚ) * (2 : ℚ) ^ k)) (-126) - 23 = c
  have hc1 : c ≤ k + 1 := by omega
  have hz : ∃ z : ℤ, (n : ℚ) * (2 : ℚ) ^ k / (2 : ℚ) ^ c = (z : ℚ) := by
    by_cases hck : c ≤ k
    · refine ⟨(n : ℤ) * 2 ^ (k - c).toNat, ?_⟩
      rw [mul_div_assoc, ← zpow_sub₀ two0]
      push_cast
      congr 1
      rw [← zpow_natCast, Int.toNat_of_nonneg (by omega)]
    · have hck' : c = k + 1 := by omega
      have hfl : floorLog2 ((n : ℚ) * (2 : ℚ) ^ k) = 24 + k := by omega
      rw [hfl] at s1
      have heq : (n : ℚ) * (2 : ℚ) ^ k = (2 : ℚ) ^ (24 + k) := le_antisymm hle s1
      refine ⟨2 ^ 23, ?_⟩
      rw [heq, hck', ← zpow_sub₀ two0, show 24 + k - (k + 1) = ((23 : ℕ) : ℤ) by norm_num; ring,
        zpow_natCast]
      norm_num
  obtain ⟨z, hz⟩ := hz
  rw [hz, roundHalfEven_intCast, ← hz, div_mul_cancel₀ _ (zpow_pos (by norm_num) _).ne']

theorem isF32_natCast_mul_zpow (n : ℕ) (k : ℤ) (hn : n ≤ 2 ^ 24) (hk : -149 ≤ k) :
    IsF32 ((n : ℚ) * (2 : ℚ) ^ k) :=
  roundF32_natCast_mul_zpow n k hn hk

theorem isF32_natCast (n : ℕ) (hn : n ≤ 2 ^ 24) : IsF32 (n : ℚ) := by
  have := isF32_natCast_mul_zpow n 0 hn (by norm_num)
  simpa using this

/-- A non-negative `float` has at most 24 binary digits above a place `2 ^ k`. -/
theorem IsF32.form {q : ℚ} (h : IsF32 q) (h0 : 0 ≤ q) :
    ∃ (n : ℕ) (k : ℤ), q = (n : ℚ) * (2 : ℚ) ^ k ∧ n ≤ 2 ^ 24 ∧ -149 ≤ k := by
  have two : (1 : ℚ) < 2 := by norm_num
  have two0 : (2 : ℚ) ≠ 0 := by norm_num
  by_cases hq : q = 0
  · exact ⟨0, 0, by simp [hq], by norm_num, by norm_num⟩
  have hpos : 0 < q := lt_of_le_of_ne h0 (Ne.symm hq)
  obtain ⟨s1, s2⟩ := floorLog2_spec hq
  rw [abs_of_pos hpos] at s1 s2
  unfold IsF32 at h
  rw [roundF32_of_ne hq] at h
  generalize hc : max (floorLog2 q) (-126) - 23 = c at h
  have hu : (0 : ℚ) < (2 : ℚ) ^ c := zpow_pos (by norm_num) _
  have hz0 : (0 : ℤ) ≤ roundHalfEven (q / (2 : ℚ) ^ c) :=
    le_roundHalfEven (by simpa using div_nonneg h0 hu.le)
  have hz1 : roundHalfEven (q / (2 : ℚ) ^ c) ≤ ((2 ^ 24 : ℕ) : ℤ) := by
    refine roundHalfEven_le ?_
    rw [div_le_iff₀ hu]
    push_cast
    rw [show (16777216 : ℚ) = (2 : ℚ) ^ (24 : ℤ) by norm_num, ← zpow_add₀ two0]
    exact le_trans s2.le ((zpow_le_zpow_iff_right₀ two).2 (by omega))
  refine ⟨(roundHalfEven (q / (2 : ℚ) ^ c)).toNat, c, ?_, ?_, by omega⟩
  · rw [show (((roundHalfEven (q / (2 : ℚ) ^ c)).toNat : ℕ) : ℚ) =
      ((roundHalfEven (q / (2 : ℚ) ^ c) : ℤ) : ℚ) by
        rw [← Int.cast_natCast, Int.toNat_of_nonneg hz0]]
    exact h.symm
  · have := Int.toNat_of_nonneg hz0
    omega

theorem roundF32_le_zpow {q : ℚ} (hq : 0 < q) :
    roundF32 q ≤ (2 : ℚ) ^ (max (floorLog2 q) (-126) + 1) := by
  have two : (1 : ℚ) < 2 := by norm_num
  have two0 : (2 : ℚ) ≠ 0 := by norm_num
  obtain ⟨-, s2⟩ := floorLog2_spec hq.ne'
  rw [abs_of_pos hq] at s2
  rw [roundF32_of_ne hq.ne']
  generalize hE : max (floorLog2 q) (-126) = E
  have hu : (0 : ℚ) < (2 : ℚ) ^ (E - 23) := zpow_pos (by norm_num) _
  have hz1 : roundHalfEven (q / (2 : ℚ) ^ (E - 23)) ≤ ((2 ^ 24 : ℕ) : ℤ) := by
    refine roundHalfEven_le ?_
    rw [div_le_iff₀ hu]
    push_cast
    rw [show (16777216 : ℚ) = (2 : ℚ) ^ (24 : ℤ) by norm_num, ← zpow_add₀ two0]
    exact le_trans s2.le ((zpow_le_zpow_iff_right₀ two).2 (by omega))
  have : ((roundHalfEven (q / (2 : ℚ) ^ (E - 23)) : ℤ) : ℚ) ≤ (2 : ℚ) ^ (24 : ℤ) := by
    have h := (Int.cast_le (R := ℚ)).2 hz1
    rw [show (2 : ℚ) ^ (24 : ℤ) = (((2 ^ 24 : ℕ) : ℤ) : ℚ) by norm_num]
    exact h
  calc (roundHalfEven (q / (2 : ℚ) ^ (E - 23)) : ℚ) * (2 : ℚ) ^ (E - 23)
      ≤ (2 : ℚ) ^ (24 : ℤ) * (2 : ℚ) ^ (E - 23) := mul_le_mul_of_nonneg_right this hu.le
    _ = (2 : ℚ) ^ (E + 1) := by
      rw [← zpow_add₀ two0]
      congr 1
      ring

theorem zpow_le_roundF32 {q : ℚ} (hq : 0 < q) (he : -126 ≤ floorLog2 q) :
    (2 : ℚ) ^ floorLog2 q ≤ roundF32 q := by
  have two0 : (2 : ℚ) ≠ 0 := by norm_num
  obtain ⟨s1, -⟩ := floorLog2_spec hq.ne'
  rw [abs_of_pos hq] at s1
  rw [roundF32_of_ne hq.ne', max_eq_left he]
  generalize floorLog2 q = e at s1
  have hu : (0 : ℚ) < (2 : ℚ) ^ (e - 23) := zpow_pos (by norm_num) _
  have hz1 : ((2 ^ 23 : ℕ) : ℤ) ≤ roundHalfEven (q / (2 : ℚ) ^ (e - 23)) := by
    refine le_roundHalfEven ?_
    rw [le_div_iff₀ hu]
    push_cast
    rw [show (8388608 : ℚ) = (2 : ℚ) ^ (23 : ℤ) by norm_num, ← zpow_add₀ two0,
      show (23 : ℤ) + (e - 23) = e by ring]
    exact s1
  have : (2 : ℚ) ^ (23 : ℤ) ≤ ((roundHalfEven (q / (2 : ℚ) ^ (e - 23)) : ℤ) : ℚ) := by
    have h := (Int.cast_le (R := ℚ)).2 hz1
    rw [show (2 : ℚ) ^ (23 : ℤ) = (((2 ^ 23 : ℕ) : ℤ) : ℚ) by norm_num]
    exact h
  calc (2 : ℚ) ^ e = (2 : ℚ) ^ (23 : ℤ) * (2 : ℚ) ^ (e - 23) := by
        rw [← zpow_add₀ two0]
        congr 1
        ring
    _ ≤ _ := mul_le_mul_of_nonneg_right this hu.le

/-- Rounding to `float` keeps the order of non-negative numbers. -/
theorem roundF32_mono {a b : ℚ} (h0 : 0 ≤ a) (h : a ≤ b) : roundF32 a ≤ roundF32 b := by
  have two : (1 : ℚ) < 2 := by norm_num
  by_cases ha : a = 0
  · rw [ha, roundF32_zero]
    exact roundF32_nonneg (le_trans h0 h)
  have hpa : 0 < a := lt_of_le_of_ne h0 (Ne.symm ha)
  have hpb : 0 < b := lt_of_lt_of_le hpa h
  obtain ⟨a1, a2⟩ := floorLog2_spec hpa.ne'
  obtain ⟨b1, b2⟩ := floorLog2_spec hpb.ne'
  rw [abs_of_pos hpa] at a1 a2
  rw [abs_of_pos hpb] at b1 b2
  have hee : floorLog2 a ≤ floorLog2 b := by
    have := (zpow_lt_zpow_iff_right₀ two).1 (lt_of_le_of_lt (le_trans a1 h) b2)
    omega
  by_cases hE : max (floorLog2 a) (-126) = max (floorLog2 b) (-126)
  · rw [roundF32_of_ne hpa.ne', roundF32_of_ne hpb.ne', hE]
    have hu : (0 : ℚ) < (2 : ℚ) ^ (max (floorLog2 b) (-126) - 23) := zpow_pos (by norm_num) _
    refine mul_le_mul_of_nonneg_right ?_ hu.le
    exact_mod_cast roundHalfEven_mono (div_le_div_of_nonneg_right h hu.le)
  · have hb : -126 ≤ floorLog2 b := by omega
    refine le_trans (roundF32_le_zpow hpa) (le_trans ?_ (zpow_le_roundF32 hpb hb))
    exact (zpow_le_zpow_iff_right₀ two).2 (by omega)

theorem roundF32_le_of_isF32 {a b : ℚ} (h0 : 0 ≤ a) (h : a ≤ b) (hb : IsF32 b) :
    roundF32 a ≤ b := by
  have := roundF32_mono h0 h
  rwa [hb] at this

theorem le_roundF32_of_isF32 {a b : ℚ} (h0 : 0 ≤ a) (h : a ≤ b) (ha : IsF32 a) :
    a ≤ roundF32 b := by
  have := roundF32_mono h0 h
  rwa [ha] at this

/-- A `float` below 1 is at most `1 - 2 ^ (-24)`. -/
theorem IsF32.le_pred_one {q : ℚ} (h : IsF32 q) (h0 : 0 ≤ q) (h1 : q < 1) :
    q ≤ 1 - 1 / 2 ^ 24 := by
  have two : (1 : ℚ) < 2 := by norm_num
  have two0 : (2 : ℚ) ≠ 0 := by norm_num
  obtain ⟨n, k, hq, hn, hk⟩ := h.form h0
  by_cases hk24 : -24 ≤ k
  · have hz : q * 2 ^ 24 = ((n * 2 ^ (k + 24).toNat : ℕ) : ℚ) := by
      rw [hq]
      push_cast
      rw [← zpow_natCast (2 : ℚ) (k + 24).toNat, Int.toNat_of_nonneg (by omega),
        zpow_add₀ two0]
      norm_num
      ring
    have hlt : ((n * 2 ^ (k + 24).toNat : ℕ) : ℚ) < ((2 ^ 24 : ℕ) : ℚ) := by
      rw [← hz]
      push_cast
      nlinarith
    have hlt' : n * 2 ^ (k + 24).toNat < 2 ^ 24 := by exact_mod_cast hlt
    have hle : ((n * 2 ^ (k + 24).toNat : ℕ) : ℚ) ≤ ((2 ^ 24 - 1 : ℕ) : ℚ) := by
      exact_mod_cast Nat.le_pred_of_lt hlt'
    rw [← hz] at hle
    have : q * 2 ^ 24 ≤ 2 ^ 24 - 1 := by
      refine le_trans hle ?_
      norm_num
    have h24 : (0 : ℚ) < 2 ^ 24 := by positivity
    rw [show (1 : ℚ) - 1 / 2 ^ 24 = (2 ^ 24 - 1) / 2 ^ 24 by field_simp, le_div_iff₀ h24]
    exact this
  · have : q ≤ 1 / 2 := by
      rw [hq]
      calc (n : ℚ) * (2 : ℚ) ^ k ≤ (2 : ℚ) ^ (24 : ℤ) * (2 : ℚ) ^ (-25 : ℤ) := by
            refine mul_le_mul ?_ ((zpow_le_zpow_iff_right₀ two).2 (by omega))
              (zpow_pos (by norm_num) _).le (by positivity)
            rw [show (2 : ℚ) ^ (24 : ℤ) = ((2 ^ 24 : ℕ) : ℚ) by norm_num]
            exact_mod_cast hn
        _ = 1 / 2 := by
            rw [← zpow_add₀ two0]
            norm_num
    refine le_trans this ?_
    norm_num

/-- Taking a whole number off a `float` leaves a `float`, when the result is not negative
and is below `2 ^ 24`. -/
theorem IsF32.sub_natCast {s : ℚ} (h : IsF32 s) (j : ℕ) (hj : (j : ℚ) ≤ s)
    (hlt : s - j < 2 ^ 24) : IsF32 (s - j) := by
  have two0 : (2 : ℚ) ≠ 0 := by norm_num
  have h0 : 0 ≤ s := le_trans (Nat.cast_nonneg j) hj
  obtain ⟨n, k, hq, hn, hk⟩ := h.form h0
  by_cases hk0 : 0 ≤ k
  · have hs : s = ((n * 2 ^ k.toNat : ℕ) : ℚ) := by
      rw [hq]
      push_cast
      rw [← zpow_natCast (2 : ℚ) k.toNat, Int.toNat_of_nonneg hk0]
    have hjn : j ≤ n * 2 ^ k.toNat := by
      rw [hs] at hj
      exact_mod_cast hj
    have e : s - j = ((n * 2 ^ k.toNat - j : ℕ) : ℚ) := by
      rw [Nat.cast_sub hjn, ← hs]
    rw [e]
    refine isF32_natCast _ ?_
    rw [e] at hlt
    have : ((n * 2 ^ k.toNat - j : ℕ) : ℚ) < ((2 ^ 24 : ℕ) : ℚ) := by
      push_cast at hlt ⊢
      exact hlt
    exact le_of_lt (by exact_mod_cast this)
  · have hm : k = -((-k).toNat : ℤ) := by
      rw [Int.toNat_of_nonneg (by omega)]
      ring
    generalize (-k).toNat = m at hm
    have hp : (0 : ℚ) < 2 ^ m := by positivity
    have hs : s = (n : ℚ) / 2 ^ m := by
      rw [hq, hm, zpow_neg, zpow_natCast, div_eq_mul_inv]
    have hjn : j * 2 ^ m ≤ n := by
      rw [hs, le_div_iff₀ hp] at hj
      exact_mod_cast hj
    have e : s - j = ((n - j * 2 ^ m : ℕ) : ℚ) * (2 : ℚ) ^ k := by
      rw [Nat.cast_sub hjn, hs, hm, zpow_neg, zpow_natCast]
      push_cast
      field_simp
      ring
    rw [e]
    exact isF32_natCast_mul_zpow _ _ (le_trans (Nat.sub_le _ _) hn) hk

theorem isF32_zero : IsF32 0 := roundF32_zero

theorem fadd_zero_left (a : ℚ) : fadd 0 a = roundF32 a := by
  unfold fadd
  rw [zero_add]

theorem fsub_zero_right (a : ℚ) : fsub a 0 = roundF32 a := by
  unfold fsub
  rw [sub_zero]

theorem fadd_comm (a b : ℚ) : fadd a b = fadd b a := by
  unfold fadd
  rw [add_comm]

theorem fadd_of_isF32 {a b : ℚ} (h : IsF32 (a + b)) : fadd a b = a + b := h

theorem fsub_of_isF32 {a b : ℚ} (h : IsF32 (a - b)) : fsub a b = a - b := h

/-! ## Numbers on a binary grid -/

theorem OnGrid.nonneg {k : Nat} {q : ℚ} (h : OnGrid k q) : 0 ≤ q := by
  obtain ⟨n, -, rfl⟩ := h
  positivity

theorem OnGrid.zero (k : Nat) : OnGrid k 0 := ⟨0, Nat.zero_le _, by simp⟩

theorem OnGrid.isF32 {k : Nat} {q : ℚ} (h : OnGrid k q) (hk : k ≤ 149) : IsF32 q := by
  obtain ⟨n, hn, rfl⟩ := h
  have := isF32_natCast_mul_zpow n (-(k : ℤ)) hn (by omega)
  rwa [zpow_neg, zpow_natCast, ← div_eq_mul_inv] at this

theorem OnGrid.sub {k : Nat} {a b : ℚ} (ha : OnGrid k a) (hb : OnGrid k b) (h : b ≤ a) :
    OnGrid k (a - b) := by
  obtain ⟨n, hn, rfl⟩ := ha
  obtain ⟨m, hm, rfl⟩ := hb
  have hp : (0 : ℚ) < 2 ^ k := by positivity
  have hmn : m ≤ n := by
    rw [div_le_div_iff_of_pos_right hp] at h
    exact_mod_cast h
  refine ⟨n - m, le_trans (Nat.sub_le _ _) hn, ?_⟩
  rw [Nat.cast_sub hmn, sub_div]

theorem OnGrid.add_le {k : Nat} {a b c : ℚ} (ha : OnGrid k a) (hb : OnGrid k b)
    (hc : OnGrid k c) (h : a + b ≤ c) : OnGrid k (a + b) := by
  obtain ⟨n, hn, rfl⟩ := ha
  obtain ⟨m, hm, rfl⟩ := hb
  obtain ⟨l, hl, rfl⟩ := hc
  have hp : (0 : ℚ) < 2 ^ k := by positivity
  have hle : n + m ≤ l := by
    rw [← add_div, div_le_div_iff_of_pos_right hp] at h
    exact_mod_cast h
  refine ⟨n + m, le_trans hle hl, ?_⟩
  rw [Nat.cast_add, add_div]

theorem fsub_grid {k : Nat} {a b : ℚ} (hk : k ≤ 149) (ha : OnGrid k a) (hb : OnGrid k b)
    (h : b ≤ a) : fsub a b = a - b :=
  (ha.sub hb h).isF32 hk

theorem fadd_grid {k : Nat} {a b : ℚ} (hk : k ≤ 149) (h : OnGrid k (a + b)) :
    fadd a b = a + b :=
  h.isF32 hk

theorem blankThreshold_pos : 0 < blankThreshold := by
  unfold blankThreshold
  norm_num

theorem blankThreshold_lt : blankThreshold < 0.001 := by
  unfold blankThreshold
  norm_num

theorem roundF32_milli : roundF32 (1 / 1000) = 8589935 / 8589934592 := by
  decide!

/-- A `float` difference that does not exceed the literal 0.00099 comes from an exact
difference below 0.001. -/
theorem lt_milli_of_fsub_le {t L : ℚ} (h : ¬ fsub t L > blankThreshold) : t - L < 0.001 := by
  by_contra hc
  have h1 : (1 / 1000 : ℚ) ≤ t - L := by
    norm_num at hc ⊢
    linarith
  have := roundF32_mono (by norm_num) h1
  rw [roundF32_milli] at this
  apply h
  unfold fsub
  refine lt_of_lt_of_le ?_ this
  unfold blankThreshold
  norm_num

/-! ## Effect of the builder operations on the internal data -/

theorem AddElementToRoot_book {f f' : KdenliveFile} {d : XMLDocument} {x : XMLElement}
    (h : AddElementToRoot f d x = some f') :
    f'.track_count = f.track_count ∧ f'.track_lengths = f.track_lengths ∧
      f'.track_entries = f.track_entries ∧ f'.chain_count = f.chain_count ∧
      f'.filter_count = f.filter_count ∧ f'.timeline_tractor = f.timeline_tractor := by
  unfold AddElementToRoot at h
  simp only [Option.map_eq_some'] at h
  obtain ⟨d', _, rfl⟩ := h
  simp

theorem AddElementToTopOfRoot_book {f f' : KdenliveFile} {d : XMLDocument} {x : XMLElement}
    (h : AddElementToTopOfRoot f d x = some f') :
    f'.track_count = f.track_count ∧ f'.track_lengths = f.track_lengths ∧
      f'.track_entries = f.track_entries ∧ f'.chain_count = f.chain_count ∧
      f'.filter_count = f.filter_count ∧ f'.main_bin = f.main_bin := by
  unfold AddElementToTopOfRoot at h
  simp only [Option.map_eq_some'] at h
  obtain ⟨d', _, rfl⟩ := h
  simp

theorem AddTrack_book {f f' : KdenliveFile} {ty : TrackType} {id : Nat}
    (h : f.AddTrack ty = some (f', id)) :
    id = f.track_count ∧ f'.track_count = f.track_count + 1 ∧
      f'.track_lengths = f.track_lengths ++ [0] ∧
      f'.track_entries = f.track_entries ++ [[]] ∧ f'.chain_count = f.chain_count ∧
      f'.filter_count = f.filter_count := by
  unfold AddTrack at h
  simp only [bind, Option.bind_eq_some, pure, Option.some.injEq] at h
  obtain ⟨f1, h1, f2, h2, f3, h3, ⟨d4, t1⟩, h4, ⟨d5, t2⟩, h5, d6, h6, tt, htt, ⟨d7, t3⟩, h7, h⟩ := h
  simp only [Option.some.injEq, Prod.mk.injEq] at h
  obtain ⟨rfl, rfl⟩ := h
  have b1 := AddElementToRoot_book h1
  have b2 := AddElementToRoot_book h2
  have b3 := AddElementToRoot_book h3
  simp only [b1, b2, b3]
  simp

theorem AddClipToBin_book [Stale] {f f' : KdenliveFile} {path : String} {id : Nat}
    (h : f.AddClipToBin path = some (f', id)) :
    id = f.chain_count ∧ f'.chain_count = f.chain_count + 1 ∧
      f'.track_count = f.track_count ∧ f'.track_lengths = f.track_lengths ∧
      f'.track_entries = f.track_entries ∧ f'.filter_count = f.filter_count := by
  unfold AddClipToBin at h
  simp only [bind, Option.bind_eq_some, pure, Option.some.injEq] at h
  obtain ⟨f1, h1, ⟨d2, e2⟩, h2, h⟩ := h
  simp only [Option.some.injEq, Prod.mk.injEq] at h
  obtain ⟨rfl, rfl⟩ := h
  have b1 := AddElementToTopOfRoot_book h1
  simp only [b1]
  simp

theorem AddBlankToTrack_book {f f' : KdenliveFile} {id : Nat} {len : ℚ}
    {e : Nat} (h : f.AddBlankToTrack id len = some (f', e)) :
    ∃ L es, f.track_lengths[id]? = some L ∧ f.track_entries[id]? = some es ∧
      f'.track_lengths = f.track_lengths.set id (fadd L len) ∧
      f'.track_entries = f.track_entries.set id (es ++ [⟨EntryType.BLANK, len, 0⟩]) ∧
      e = es.length ∧ f'.track_count = f.track_count ∧ f'.chain_count = f.chain_count ∧
      f'.filter_count = f.filter_count := by
  unfold AddBlankToTrack at h
  simp only [bind, Option.bind_eq_some, pure, Option.some.injEq] at h
  obtain ⟨pl, _, ⟨d, b⟩, _, L, hL, es, hes, h⟩ := h
  simp only [Option.some.injEq, Prod.mk.injEq] at h
  obtain ⟨rfl, rfl⟩ := h
  exact ⟨L, es, hL, hes, rfl, rfl, rfl, rfl, rfl, rfl⟩

theorem AddClipToTrack_book [Stale] {f f' : KdenliveFile} {id : Nat} {cid : Nat}
    {len off : ℚ} {e : Nat}
    (h : f.AddClipToTrack id cid len off = some (f', e)) :
    ∃ L es, f.track_lengths[id]? = some L ∧ f.track_entries[id]? = some es ∧
      f'.track_lengths = f.track_lengths.set id (fadd L len) ∧
      f'.track_entries = f.track_entries.set id (es ++ [⟨EntryType.CLIP, len, off⟩]) ∧
      e = es.length ∧ f'.track_count = f.track_count ∧ f'.chain_count = f.chain_count ∧
      f'.filter_count = f.filter_count := by
  unfold AddClipToTrack at h
  simp only [bind, Option.bind_eq_some, pure, Option.some.injEq] at h
  obtain ⟨pl, _, ⟨d, b⟩, _, L, hL, es, hes, h⟩ := h
  simp only [Option.some.injEq, Prod.mk.injEq] at h
  obtain ⟨rfl, rfl⟩ := h
  exact ⟨L, es, hL, hes, rfl, rfl, rfl, rfl, rfl, rfl⟩

theorem attachFilter_book [Stale] {f f' : KdenliveFile} {entry : Option XMLElement} {i o : ℚ}
    {k a : String} (h : attachFilter f entry i o k a = some f') :
    f'.track_count = f.track_count ∧ f'.track_lengths = f.track_lengths ∧
      f'.track_entries = f.track_entries ∧ f'.chain_count = f.chain_count ∧
      f'.filter_count = f.filter_count + 1 := by
  unfold attachFilter at h
  cases entry with
  | none => simp at h
  | some en =>
    simp only [Option.map_eq_some'] at h
    obtain ⟨d', _, rfl⟩ := h
    simp

theorem FadeClip_book [Stale] {f f' : KdenliveFile} {id : Nat} {e : Nat} {a b : ℚ}
    (h : f.FadeClip id e a b = some f') :
    f'.track_count = f.track_count ∧ f'.track_lengths = f.track_lengths ∧
      f'.track_entries = f.track_entries ∧ f'.chain_count = f.chain_count := by
  unfold FadeClip at h
  split at h
  · simp at h
  · split at h
    · simp only [Option.some.injEq] at h; subst h; simp
    · simp only [Option.bind_eq_some] at h
      obtain ⟨entry, _, f1, h1, h2⟩ := h
      have b1 : f1.track_count = f.track_count ∧ f1.track_lengths = f.track_lengths ∧
          f1.track_entries = f.track_entries ∧ f1.chain_count = f.chain_count := by
        split at h1
        · have := attachFilter_book h1; tauto
        · simp only [Option.some.injEq] at h1; subst h1; simp
      split at h2
      · have := attachFilter_book h2
        simp only [← b1.1, ← b1.2.1, ← b1.2.2.1, ← b1.2.2.2]; tauto
      · simp only [Option.some.injEq] at h2; subst h2; exact b1

theorem getElem?_set_same {α : Type} (l : List α) (i : Nat) (a b : α) (h : l[i]? = some a) :
    (l.set i b)[i]? = some b := by
  have hi : i < l.length := by
    by_contra hc
    rw [List.getElem?_eq_none (by omega)] at h
    cases h
  simp [List.getElem?_set, hi]

theorem ADD_CLIP_book [Stale] {f f' : KdenliveFile} {names : List (String × Nat)} {id : Nat}
    {L t : ℚ} {clip : Clip} (h : ADD_CLIP f names id L t clip = some f') :
    ∃ L0 es cid, f.track_lengths[id]? = some L0 ∧ f.track_entries[id]? = some es ∧
      names.lookup clip.name = some cid ∧
      f'.track_entries = f.track_entries.set id
        (es ++ (if fsub t L > blankThreshold then [⟨EntryType.BLANK, fsub t L, 0⟩] else [])
          ++ [⟨EntryType.CLIP, clip.length, clip.start_offset⟩]) ∧
      f'.track_lengths = f.track_lengths.set id
        (fadd (if fsub t L > blankThreshold then fadd L0 (fsub t L) else L0) clip.length) ∧
      f'.track_count = f.track_count ∧ f'.chain_count = f.chain_count := by
  unfold ADD_CLIP at h
  simp only [Option.bind_eq_some] at h
  obtain ⟨f1, h1, cid, hcid, ⟨f2, e2⟩, h2, h3⟩ := h
  obtain ⟨L2, es2, hL2, hes2, hl2, he2, -, hc2, hch2, -⟩ := AddClipToTrack_book h2
  obtain ⟨hc3, hl3, he3, hch3⟩ := FadeClip_book h3
  by_cases hb : fsub t L > blankThreshold
  · rw [if_pos hb] at h1
    simp only [Option.map_eq_some', Prod.exists, exists_and_right, exists_eq_right] at h1
    obtain ⟨e1, h1⟩ := h1
    obtain ⟨L1, es1, hL1, hes1, hl1, he1, -, hc1, hch1, -⟩ := AddBlankToTrack_book h1
    rw [hl1, getElem?_set_same _ _ _ _ hL1] at hL2
    rw [he1, getElem?_set_same _ _ _ _ hes1] at hes2
    cases hL2; cases hes2
    refine ⟨L1, es1, cid, hL1, hes1, hcid, ?_, ?_, ?_, ?_⟩
    · rw [he3, he2, he1, List.set_set, if_pos hb]
    · rw [hl3, hl2, hl1, List.set_set, if_pos hb]
    · rw [hc3, hc2, hc1]
    · rw [hch3, hch2, hch1]
  · rw [if_neg hb] at h1
    cases h1
    refine ⟨L2, es2, cid, hL2, hes2, hcid, ?_, ?_, ?_, ?_⟩
    · rw [he3, he2, if_neg hb, List.append_nil]
    · rw [hl3, hl2, if_neg hb]
    · rw [hc3, hc2]
    · rw [hch3, hch2]

/-! ## Track lengths and recorded entries -/

theorem entriesLength_append (es fs : List TrackEntry) :
    entriesLength (es ++ fs) = fs.foldl (fun a e => fadd a e.length) (entriesLength es) := by
  simp [entriesLength, List.foldl_append]

theorem entriesLength_snoc (es : List TrackEntry) (e : TrackEntry) :
    entriesLength (es ++ [e]) = fadd (entriesLength es) e.length := by
  simp [entriesLength, List.foldl_append]

theorem entriesLength_nil : entriesLength [] = 0 := rfl

theorem Consistent.lengths_length {f : KdenliveFile} (h : Consistent f) :
    f.track_lengths.length = f.track_count := by
  obtain ⟨h1, h2⟩ := h
  rw [← h1]
  by_contra hne
  rcases Nat.lt_or_gt_of_ne hne with hlt | hgt
  · have := h2 f.track_lengths.length
    simp only [GetTrackLength] at this
    rw [List.getElem?_eq_none (le_refl _), List.getElem?_eq_getElem hlt] at this
    simp at this
  · have := h2 f.track_entries.length
    simp only [GetTrackLength] at this
    rw [List.getElem?_eq_none (l := f.track_entries) (le_refl _),
      List.getElem?_eq_getElem hgt] at this
    simp at this

theorem new_book {template : XMLElement} {f : KdenliveFile}
    (h : KdenliveFile.new template = some f) :
    f.chain_count = 0 ∧ f.track_count = 0 ∧ f.filter_count = 0 ∧ f.track_lengths = [] ∧
      f.track_entries = [] := by
  unfold KdenliveFile.new at h
  simp only [bind, Option.bind_eq_some, pure, Option.some.injEq] at h
  obtain ⟨_, _, _, _, _, _, _, _, _, _, _, _, _, _, _, _, rfl⟩ := h
  simp

theorem new_consistent {template : XMLElement} {f : KdenliveFile}
    (h : KdenliveFile.new template = some f) : Consistent f := by
  obtain ⟨-, h1, -, h2, h3⟩ := new_book h
  refine ⟨by rw [h3, h1]; rfl, fun id => ?_⟩
  simp [GetTrackLength, h2, h3]

theorem set_consistent {ls : List ℚ} {ess : List (List TrackEntry)} {id : Nat}
    {L : ℚ} {es : List TrackEntry} (added : List TrackEntry)
    (h : ∀ j : Nat, ls[j]? = (ess[j]?).map entriesLength) (hL : ls[id]? = some L)
    (hes : ess[id]? = some es) (j : Nat) :
    (ls.set id (added.foldl (fun a e => fadd a e.length) L))[j]? =
      ((ess.set id (es ++ added))[j]?).map entriesLength := by
  by_cases hj : id = j
  · subst hj
    rw [getElem?_set_same _ _ _ _ hL, getElem?_set_same _ _ _ _ hes]
    have := h id
    rw [hL, hes] at this
    simp only [Option.map_some', Option.some.injEq] at this
    simp [entriesLength_append, this]
  · rw [List.getElem?_set_ne hj, List.getElem?_set_ne hj]
    exact h j

theorem AddTrack_consistent {f f' : KdenliveFile} {ty : TrackType} {id : Nat}
    (hc : Consistent f) (h : f.AddTrack ty = some (f', id)) : Consistent f' := by
  obtain ⟨-, h1, h2, h3, -, -⟩ := AddTrack_book h
  have hl := hc.lengths_length
  obtain ⟨hc1, hc2⟩ := hc
  refine ⟨by rw [h3, h1, List.length_append, hc1]; rfl, fun j => ?_⟩
  simp only [GetTrackLength, h2, h3] at hc2 ⊢
  rcases Nat.lt_trichotomy j f.track_count with hj | hj | hj
  · rw [List.getElem?_append_left (by omega), List.getElem?_append_left (by omega)]
    exact hc2 j
  · subst hj
    rw [List.getElem?_append_right (by omega), List.getElem?_append_right (by omega)]
    simp [hl, hc1, entriesLength]
  · rw [List.getElem?_eq_none (by simp; omega), List.getElem?_eq_none (by simp; omega)]
    rfl

theorem AddBlankToTrack_consistent {f f' : KdenliveFile} {id : Nat} {len : ℚ}
    {e : Nat} (hc : Consistent f) (h : f.AddBlankToTrack id len = some (f', e)) :
    Consistent f' := by
  obtain ⟨L, es, hL, hes, h1, h2, -, h3, -, -⟩ := AddBlankToTrack_book h
  obtain ⟨hc1, hc2⟩ := hc
  refine ⟨by rw [h2, h3, List.length_set, hc1], fun j => ?_⟩
  simp only [GetTrackLength, h1, h2] at hc2 ⊢
  have := set_consistent [⟨EntryType.BLANK, len, 0⟩] hc2 hL hes j
  simpa using this

theorem AddClipToTrack_consistent [Stale] {f f' : KdenliveFile} {id : Nat} {cid : Nat}
    {len off : ℚ} {e : Nat} (hc : Consistent f)
    (h : f.AddClipToTrack id cid len off = some (f', e)) : Consistent f' := by
  obtain ⟨L, es, hL, hes, h1, h2, -, h3, -, -⟩ := AddClipToTrack_book h
  obtain ⟨hc1, hc2⟩ := hc
  refine ⟨by rw [h2, h3, List.length_set, hc1], fun j => ?_⟩
  simp only [GetTrackLength, h1, h2] at hc2 ⊢
  have := set_consistent [⟨EntryType.CLIP, len, off⟩] hc2 hL hes j
  simpa using this

theorem runCalls_consistent [Stale] (calls : List FileCall) :
    ∀ (f f' : KdenliveFile), Consistent f → runCalls calls f = some f' → Consistent f' := by
  induction calls with
  | nil =>
    intro f f' hc h
    simp only [runCalls, Option.some.injEq] at h
    exact h ▸ hc
  | cons c cs ih =>
    intro f f' hc h
    simp only [runCalls, Option.bind_eq_some] at h
    obtain ⟨f1, h1, h2⟩ := h
    refine ih f1 f' ?_ h2
    cases c with
    | AddTrack ty =>
      simp only [FileCall.run, Option.map_eq_some', Prod.exists, exists_and_right,
        exists_eq_right] at h1
      obtain ⟨id, h1⟩ := h1
      exact AddTrack_consistent hc h1
    | AddBlankToTrack id len =>
      simp only [FileCall.run, Option.map_eq_some', Prod.exists, exists_and_right,
        exists_eq_right] at h1
      obtain ⟨e, h1⟩ := h1
      exact AddBlankToTrack_consistent hc h1
    | AddClipToTrack id cid len off =>
      simp only [FileCall.run, Option.map_eq_some', Prod.exists, exists_and_right,
        exists_eq_right] at h1
      obtain ⟨e, h1⟩ := h1
      exact AddClipToTrack_consistent hc h1

/-! ## Decimal names are distinct -/

theorem digitValue_of_digitChar : ∀ m : Nat, m < 10 → (Nat.digitChar m).toNat - 48 = m := by
  decide

theorem digitsValue_toDigitsCore :
    ∀ (fuel n : Nat) (ds : List Char), n < fuel →
      (Nat.toDigitsCore 10 fuel n ds).foldl (fun acc c => acc * 10 + (c.toNat - 48)) 0 =
        ds.foldl (fun acc c => acc * 10 + (c.toNat - 48)) n := by
  intro fuel
  induction fuel with
  | zero => intro n ds h; exact absurd h (Nat.not_lt_zero _)
  | succ fuel ih =>
    intro n ds h
    unfold Nat.toDigitsCore
    simp only
    split
    · rename_i h0
      rw [List.foldl_cons, digitValue_of_digitChar _ (Nat.mod_lt _ (by decide))]
      have : n % 10 = n := by omega
      rw [Nat.zero_mul, Nat.zero_add, this]
    · rename_i h0
      rw [ih (n / 10) _ (by omega), List.foldl_cons,
        digitValue_of_digitChar _ (Nat.mod_lt _ (by decide))]
      have : n / 10 * 10 + n % 10 = n := by omega
      rw [this]

theorem digitsValue_toString (n : Nat) : digitsValue (toString n).data = n := by
  show digitsValue (Nat.repr n).data = n
  unfold Nat.repr Nat.toDigits digitsValue
  exact digitsValue_toDigitsCore (n + 1) n [] (Nat.lt_succ_self n)

theorem toString_nat_injective {a b : Nat} (h : toString a = toString b) : a = b := by
  have := congrArg (fun s => digitsValue s.data) h
  simpa [digitsValue_toString] using this

theorem append_toString_injective (s : String) {a b : Nat}
    (h : s ++ toString a = s ++ toString b) : a = b := by
  apply toString_nat_injective
  have hd := congrArg String.data h
  rw [String.data_append, String.data_append] at hd
  exact String.ext (List.append_cancel_left hd)

/-! ## Writes through pointers, seen from the root -/

theorem update_ptr {q : Nat} {g : XMLElement → XMLElement} (hg : ∀ x, (g x).ptr = x.ptr)
    (e : XMLElement) : (XMLElement.update q g e).ptr = e.ptr := by
  cases e with
  | node p n a t cs =>
    unfold XMLElement.update
    split
    · exact hg _
    · rfl

theorem update_name {q : Nat} {g : XMLElement → XMLElement} (hg : ∀ x, (g x).name = x.name)
    (e : XMLElement) : (XMLElement.update q g e).name = e.name := by
  cases e with
  | node p n a t cs =>
    unfold XMLElement.update
    split
    · exact hg _
    · rfl

theorem update_of_ne {q : Nat} {g : XMLElement → XMLElement} {e : XMLElement}
    (h : e.ptr ≠ q) :
    XMLElement.update q g e = e.withChildren (XMLElement.updateList q g e.children) := by
  cases e with
  | node p n a t cs =>
    unfold XMLElement.update
    have h' : ¬ p = q := h
    rw [if_neg h']
    rfl

theorem update_of_eq {q : Nat} {g : XMLElement → XMLElement} {e : XMLElement}
    (h : e.ptr = q) : XMLElement.update q g e = g e := by
  cases e with
  | node p n a t cs =>
    unfold XMLElement.update
    have h' : p = q := h
    rw [if_pos h']

theorem withChildren_ptr (e : XMLElement) (cs : List XMLElement) :
    (e.withChildren cs).ptr = e.ptr := by
  cases e; rfl

theorem withChildren_name (e : XMLElement) (cs : List XMLElement) :
    (e.withChildren cs).name = e.name := by
  cases e; rfl

theorem withChildren_attrs (e : XMLElement) (cs : List XMLElement) :
    (e.withChildren cs).attrs = e.attrs := by
  cases e; rfl

theorem withChildren_children (e : XMLElement) (cs : List XMLElement) :
    (e.withChildren cs).children = cs := by
  cases e; rfl

theorem SetAttribute_ptr (e : XMLElement) (k v : String) : (e.SetAttribute k v).ptr = e.ptr := by
  cases e; rfl

theorem SetAttribute_name (e : XMLElement) (k v : String) :
    (e.SetAttribute k v).name = e.name := by
  cases e; rfl

theorem SetAttribute_children (e : XMLElement) (k v : String) :
    (e.SetAttribute k v).children = e.children := by
  cases e; rfl

theorem SetText_ptr (e : XMLElement) (v : String) : (e.SetText v).ptr = e.ptr := by
  cases e; rfl

theorem SetText_name (e : XMLElement) (v : String) : (e.SetText v).name = e.name := by
  cases e; rfl

theorem SetText_children (e : XMLElement) (v : String) :
    (e.SetText v).children = e.children := by
  cases e; rfl

theorem isTimed_congr {e e' : XMLElement} (h : e'.name = e.name) : e'.isTimed = e.isTimed := by
  unfold XMLElement.isTimed
  rw [h]

theorem updateList_cons (q : Nat) (g : XMLElement → XMLElement) (c : XMLElement)
    (cs : List XMLElement) :
    XMLElement.updateList q g (c :: cs) =
      XMLElement.update q g c :: XMLElement.updateList q g cs := by
  rw [XMLElement.updateList]

theorem updateList_nil (q : Nat) (g : XMLElement → XMLElement) :
    XMLElement.updateList q g [] = [] := by
  rw [XMLElement.updateList]

theorem updateList_eq_map (q : Nat) (g : XMLElement → XMLElement) (cs : List XMLElement) :
    XMLElement.updateList q g cs = cs.map (XMLElement.update q g) := by
  induction cs with
  | nil => rw [updateList_nil]; rfl
  | cons c cs ih => rw [updateList_cons, ih]; rfl

theorem timed_updateList {q : Nat} {g : XMLElement → XMLElement}
    (hg : ∀ x, (g x).name = x.name) (gs : List XMLElement) :
    ((XMLElement.updateList q g gs).filter XMLElement.isTimed).length =
      (gs.filter XMLElement.isTimed).length := by
  rw [updateList_eq_map]
  induction gs with
  | nil => rfl
  | cons c cs ih =>
    simp only [List.map_cons, List.filter_cons, isTimed_congr (update_name hg c)]
    split <;> simp [ih]

theorem unlinkList_cons (q : Nat) (c : XMLElement) (cs : List XMLElement) :
    XMLElement.unlinkList q (c :: cs) =
      if c.ptr = q then XMLElement.unlinkList q cs
      else XMLElement.unlink q c :: XMLElement.unlinkList q cs := by
  rw [XMLElement.unlinkList]

theorem unlinkList_nil (q : Nat) : XMLElement.unlinkList q [] = [] := by
  rw [XMLElement.unlinkList]

theorem unlink_eq (q : Nat) (e : XMLElement) :
    XMLElement.unlink q e = e.withChildren (XMLElement.unlinkList q e.children) := by
  cases e with
  | node p n a t cs => rw [XMLElement.unlink]; rfl

theorem unlink_ptr (q : Nat) (e : XMLElement) : (XMLElement.unlink q e).ptr = e.ptr := by
  rw [unlink_eq, withChildren_ptr]

theorem unlink_name (q : Nat) (e : XMLElement) : (XMLElement.unlink q e).name = e.name := by
  rw [unlink_eq, withChildren_name]

theorem unlinkList_of_ne {q : Nat} (cs : List XMLElement) (h : ∀ c ∈ cs, c.ptr ≠ q) :
    XMLElement.unlinkList q cs = cs.map (XMLElement.unlink q) := by
  induction cs with
  | nil => rw [unlinkList_nil]; rfl
  | cons c cs ih =>
    rw [unlinkList_cons, if_neg (h c (List.mem_cons_self _ _)),
      ih (fun x hx => h x (List.mem_cons_of_mem _ hx))]
    rfl

theorem mem_unlinkList {q : Nat} {x : XMLElement} :
    ∀ (gs : List XMLElement), x ∈ XMLElement.unlinkList q gs →
      ∃ gc ∈ gs, gc.ptr ≠ q ∧ x = XMLElement.unlink q gc := by
  intro gs
  induction gs with
  | nil => intro h; rw [unlinkList_nil] at h; exact absurd h (List.not_mem_nil _)
  | cons c cs ih =>
    intro h
    rw [unlinkList_cons] at h
    by_cases hc : c.ptr = q
    · rw [if_pos hc] at h
      obtain ⟨gc, hgc, hne, rfl⟩ := ih h
      exact ⟨gc, List.mem_cons_of_mem _ hgc, hne, rfl⟩
    · rw [if_neg hc] at h
      rcases List.mem_cons.1 h with rfl | h
      · exact ⟨c, List.mem_cons_self _ _, hc, rfl⟩
      · obtain ⟨gc, hgc, hne, rfl⟩ := ih h
        exact ⟨gc, List.mem_cons_of_mem _ hgc, hne, rfl⟩

theorem mem_unlinkList_of_ne {q : Nat} {gc : XMLElement} :
    ∀ (gs : List XMLElement), gc ∈ gs → gc.ptr ≠ q →
      XMLElement.unlink q gc ∈ XMLElement.unlinkList q gs := by
  intro gs
  induction gs with
  | nil => intro h; exact absurd h (List.not_mem_nil _)
  | cons c cs ih =>
    intro h hne
    rw [unlinkList_cons]
    by_cases hc : c.ptr = q
    · rw [if_pos hc]
      rcases List.mem_cons.1 h with rfl | h
      · exact absurd hc hne
      · exact ih h hne
    · rw [if_neg hc]
      rcases List.mem_cons.1 h with rfl | h
      · exact List.mem_cons_self _ _
      · exact List.mem_cons_of_mem _ (ih h hne)

theorem timed_unlinkList {q : Nat} (gs : List XMLElement)
    (h : ∀ gc ∈ gs, gc.isTimed = true → gc.ptr ≠ q) :
    ((XMLElement.unlinkList q gs).filter XMLElement.isTimed).length =
      (gs.filter XMLElement.isTimed).length := by
  induction gs with
  | nil => rw [unlinkList_nil]
  | cons c cs ih =>
    have ih' := ih (fun x hx => h x (List.mem_cons_of_mem _ hx))
    rw [unlinkList_cons]
    by_cases hc : c.ptr = q
    · rw [if_pos hc]
      have hnt : c.isTimed = false := by
        cases ht : c.isTimed with
        | false => rfl
        | true => exact absurd hc (h c (List.mem_cons_self _ _) ht)
      rw [List.filter_cons, hnt, ih']
      rfl
    · rw [if_neg hc]
      simp only [List.filter_cons, isTimed_congr (unlink_name q c)]
      split <;> simp [ih']

theorem ChildOK.widen {N N' r : Nat} {c : XMLElement} (h : ChildOK N r c) (hN : N ≤ N') :
    ChildOK N' r c :=
  ⟨lt_of_lt_of_le h.1 hN, h.2.1, fun gc hgc ht =>
    ⟨lt_of_lt_of_le (h.2.2 gc hgc ht).1 hN, (h.2.2 gc hgc ht).2⟩⟩

theorem Grew.refl (q : Nat) (c : XMLElement) : Grew q 0 c c :=
  ⟨rfl, rfl, rfl, by simp⟩

theorem Grew.trans {q n : Nat} {a b c : XMLElement} (h1 : Grew q 0 a b) (h2 : Grew q n b c) :
    Grew q n a c := by
  obtain ⟨p1, n1, a1, t1⟩ := h1
  obtain ⟨p2, n2, a2, t2⟩ := h2
  refine ⟨p2.trans p1, n2.trans n1, a2.trans a1, ?_⟩
  rw [p1] at t2
  simp only [ite_self, Nat.add_zero] at t1
  omega

theorem Grew.trans_zero {q n : Nat} {a b c : XMLElement} (h1 : Grew q n a b)
    (h2 : Grew q 0 b c) : Grew q n a c := by
  obtain ⟨p1, n1, a1, t1⟩ := h1
  obtain ⟨p2, n2, a2, t2⟩ := h2
  refine ⟨p2.trans p1, n2.trans n1, a2.trans a1, ?_⟩
  simp only [ite_self, Nat.add_zero] at t2
  omega

theorem Grew.weaken {q q' n : Nat} {a b : XMLElement} (h : Grew q n a b) : Grew q' 0 a b := by
  obtain ⟨p1, n1, a1, t1⟩ := h
  refine ⟨p1, n1, a1, ?_⟩
  simp only [ite_self, Nat.add_zero]
  omega

theorem forall₂_comp {α : Type} {R S T : α → α → Prop} (hT : ∀ a b c, R a b → S b c → T a c) :
    ∀ {xs ys zs : List α}, List.Forall₂ R xs ys → List.Forall₂ S ys zs →
      List.Forall₂ T xs zs := by
  intro xs ys zs h1
  induction h1 generalizing zs with
  | nil => intro h2; cases h2; exact List.Forall₂.nil
  | cons hab _ ih =>
    intro h2
    cases h2 with
    | cons hbc h2' => exact List.Forall₂.cons (hT _ _ _ hab hbc) (ih h2')

theorem forall₂_grew_refl (q : Nat) (cs : List XMLElement) : List.Forall₂ (Grew q 0) cs cs := by
  induction cs with
  | nil => exact List.Forall₂.nil
  | cons c cs ih => exact List.Forall₂.cons (Grew.refl q c) ih

theorem forall₂_grew_ptrs {q n : Nat} {cs cs' : List XMLElement}
    (h : List.Forall₂ (Grew q n) cs cs') :
    cs'.map XMLElement.ptr = cs.map XMLElement.ptr := by
  induction h with
  | nil => rfl
  | cons hab _ ih => simp [hab.1, ih]

theorem find_grew {q n : Nat} {p : XMLElement → Bool}
    (hp : ∀ c c' : XMLElement, c'.name = c.name → c'.attrs = c.attrs → p c' = p c)
    {cs cs' : List XMLElement} (h : List.Forall₂ (Grew q n) cs cs') {pl : XMLElement}
    (hf : cs.find? p = some pl) : ∃ pl', cs'.find? p = some pl' ∧ Grew q n pl pl' := by
  induction h with
  | nil => simp at hf
  | @cons a b l l' hab _ ih =>
    rw [List.find?_cons] at hf ⊢
    rw [hp a b hab.2.1 hab.2.2.1]
    cases hpa : p a with
    | true =>
      rw [hpa] at hf
      simp only [Option.some.injEq] at hf
      subst hf
      exact ⟨b, rfl, hab⟩
    | false =>
      rw [hpa] at hf
      exact ih hf

theorem timed_append (gs : List XMLElement) (x : XMLElement) :
    ((gs ++ [x]).filter XMLElement.isTimed).length =
      (gs.filter XMLElement.isTimed).length + (if x.isTimed = true then 1 else 0) := by
  rw [List.filter_append, List.length_append]
  by_cases hx : x.isTimed = true <;> simp [hx]

theorem timed_cons (gs : List XMLElement) (x : XMLElement) :
    ((x :: gs).filter XMLElement.isTimed).length =
      (gs.filter XMLElement.isTimed).length + (if x.isTimed = true then 1 else 0) := by
  by_cases hx : x.isTimed = true <;> simp [hx]

/-- Effect of `updateList` on the children of the root. -/
theorem updateList_grew {q n N r : Nat} {g : XMLElement → XMLElement}
    (hgptr : ∀ x, (g x).ptr = x.ptr) (hgname : ∀ x, (g x).name = x.name)
    (cs : List XMLElement)
    (hq : ∀ c ∈ cs, c.ptr = q → (g c).attrs = c.attrs ∧
      c.timedChildren + n ≤ (g c).timedChildren ∧ ChildOK N r (g c))
    (hok : ∀ c ∈ cs, ChildOK N r c) :
    List.Forall₂ (Grew q n) cs (XMLElement.updateList q g cs) ∧
      ∀ c' ∈ XMLElement.updateList q g cs, ChildOK N r c' := by
  induction cs with
  | nil =>
    rw [updateList_nil]
    exact ⟨List.Forall₂.nil, fun _ h => absurd h (List.not_mem_nil _)⟩
  | cons c cs ih =>
    obtain ⟨ih1, ih2⟩ := ih (fun x hx => hq x (List.mem_cons_of_mem _ hx))
      (fun x hx => hok x (List.mem_cons_of_mem _ hx))
    rw [updateList_cons]
    have hc := hok c (List.mem_cons_self _ _)
    have hhead : Grew q n c (XMLElement.update q g c) ∧ ChildOK N r (XMLElement.update q g c) := by
      by_cases hcq : c.ptr = q
      · rw [update_of_eq hcq]
        obtain ⟨h1, h2, h3⟩ := hq c (List.mem_cons_self _ _) hcq
        exact ⟨⟨hgptr c, hgname c, h1, by rw [if_pos hcq]; exact h2⟩, h3⟩
      · rw [update_of_ne hcq]
        refine ⟨⟨withChildren_ptr _ _, withChildren_name _ _, withChildren_attrs _ _, ?_⟩,
          by rw [withChildren_ptr]; exact hc.1, by rw [withChildren_ptr]; exact hc.2.1, ?_⟩
        · rw [if_neg hcq, Nat.add_zero]
          unfold XMLElement.timedChildren
          rw [withChildren_children, timed_updateList hgname]
        · intro gc hgc ht
          rw [withChildren_children, updateList_eq_map, List.mem_map] at hgc
          obtain ⟨gc0, hgc0, rfl⟩ := hgc
          rw [update_ptr hgptr]
          rw [isTimed_congr (update_name hgname gc0)] at ht
          exact hc.2.2 gc0 hgc0 ht
    refine ⟨List.Forall₂.cons hhead.1 ih1, fun c' hc' => ?_⟩
    rcases List.mem_cons.1 hc' with rfl | hc'
    · exact hhead.2
    · exact ih2 c' hc'

/-- Effect of `unlinkList` on the children of the root, for an address that is not in use
among them. -/
theorem unlinkList_grew {q p r : Nat} (cs : List XMLElement)
    (hok : ∀ c ∈ cs, ChildOK q r c) :
    List.Forall₂ (Grew p 0) cs (XMLElement.unlinkList q cs) ∧
      ∀ c' ∈ XMLElement.unlinkList q cs, ChildOK q r c' := by
  induction cs with
  | nil =>
    rw [unlinkList_nil]
    exact ⟨List.Forall₂.nil, fun _ h => absurd h (List.not_mem_nil _)⟩
  | cons c cs ih =>
    obtain ⟨ih1, ih2⟩ := ih (fun x hx => hok x (List.mem_cons_of_mem _ hx))
    have hc := hok c (List.mem_cons_self _ _)
    rw [unlinkList_cons, if_neg (Nat.ne_of_lt hc.1)]
    have hhead : Grew p 0 c (XMLElement.unlink q c) ∧ ChildOK q r (XMLElement.unlink q c) := by
      rw [unlink_eq]
      refine ⟨⟨withChildren_ptr _ _, withChildren_name _ _, withChildren_attrs _ _, ?_⟩,
        by rw [withChildren_ptr]; exact hc.1, by rw [withChildren_ptr]; exact hc.2.1, ?_⟩
      · simp only [ite_self, Nat.add_zero]
        unfold XMLElement.timedChildren
        rw [withChildren_children,
          timed_unlinkList _ (fun gc hgc ht => Nat.ne_of_lt (hc.2.2 gc hgc ht).1)]
      · intro gc hgc ht
        rw [withChildren_children] at hgc
        obtain ⟨gc0, hgc0, -, rfl⟩ := mem_unlinkList _ hgc
        rw [unlink_ptr]
        rw [isTimed_congr (unlink_name q gc0)] at ht
        exact hc.2.2 gc0 hgc0 ht
    refine ⟨List.Forall₂.cons hhead.1 ih1, fun c' hc' => ?_⟩
    rcases List.mem_cons.1 hc' with rfl | hc'
    · exact hhead.2
    · exact ih2 c' hc'

/-! ## Reads through pointers -/

theorem lookup_of_ptr {q : Nat} {e : XMLElement} (h : e.ptr = q) :
    XMLElement.lookup q e = some e := by
  cases e with
  | node p n a t cs =>
    rw [XMLElement.lookup]
    have h' : p = q := h
    rw [if_pos h']

theorem lookup_of_ne {q : Nat} {e : XMLElement} (h : e.ptr ≠ q) :
    XMLElement.lookup q e = XMLElement.lookupList q e.children := by
  cases e with
  | node p n a t cs =>
    rw [XMLElement.lookup]
    have h' : ¬ p = q := h
    rw [if_neg h']
    rfl

theorem lookupList_cons (q : Nat) (c : XMLElement) (cs : List XMLElement) :
    XMLElement.lookupList q (c :: cs) =
      (XMLElement.lookup q c).orElse (fun _ => XMLElement.lookupList q cs) := by
  rw [XMLElement.lookupList]

theorem lookupList_isSome {q : Nat} :
    ∀ (cs : List XMLElement), (∃ c ∈ cs, (XMLElement.lookup q c).isSome = true) →
      (XMLElement.lookupList q cs).isSome = true := by
  intro cs
  induction cs with
  | nil => rintro ⟨c, hc, -⟩; exact absurd hc (List.not_mem_nil _)
  | cons c cs ih =>
    rintro ⟨x, hx, hs⟩
    rw [lookupList_cons]
    cases hl : XMLElement.lookup q c with
    | some v => rfl
    | none =>
      simp only [Option.orElse]
      rcases List.mem_cons.1 hx with rfl | hx
      · rw [hl] at hs; cases hs
      · exact ih ⟨x, hx, hs⟩

theorem lookup_isSome_of_child {q : Nat} {e : XMLElement}
    (h : ∃ c ∈ e.children, (XMLElement.lookup q c).isSome = true) :
    (XMLElement.lookup q e).isSome = true := by
  by_cases he : e.ptr = q
  · rw [lookup_of_ptr he]; rfl
  · rw [lookup_of_ne he]; exact lookupList_isSome _ h

theorem addressable_lookup {q : Nat} {cs : List XMLElement} (h : Addressable q cs) :
    (XMLElement.lookupList q cs).isSome = true := by
  obtain ⟨c, hc, h⟩ := h
  refine lookupList_isSome _ ⟨c, hc, ?_⟩
  rcases h with h | ⟨gc, hgc, h⟩
  · rw [lookup_of_ptr h]; rfl
  · exact lookup_isSome_of_child ⟨gc, hgc, by rw [lookup_of_ptr h]; rfl⟩

theorem addressable_of_mem_ptrs {q : Nat} {cs : List XMLElement}
    (h : q ∈ cs.map XMLElement.ptr) : Addressable q cs := by
  obtain ⟨c, hc, rfl⟩ := List.mem_map.1 h
  exact ⟨c, hc, Or.inl rfl⟩

theorem addressable_unlinkList {a q : Nat} {cs : List XMLElement} (h : Addressable a cs)
    (haq : a ≠ q) (hcs : ∀ c ∈ cs, c.ptr ≠ q) : Addressable a (XMLElement.unlinkList q cs) := by
  obtain ⟨c, hc, h⟩ := h
  refine ⟨XMLElement.unlink q c, mem_unlinkList_of_ne _ hc (hcs c hc), ?_⟩
  rcases h with h | ⟨gc, hgc, h⟩
  · exact Or.inl (by rw [unlink_ptr]; exact h)
  · refine Or.inr ⟨XMLElement.unlink q gc, ?_, by rw [unlink_ptr]; exact h⟩
    rw [unlink_eq, withChildren_children]
    exact mem_unlinkList_of_ne _ hgc (by rw [h]; exact haq)

theorem addressable_updateList {a q : Nat} {g : XMLElement → XMLElement}
    (hgptr : ∀ x, (g x).ptr = x.ptr) (hgkeep : ∀ c gc, gc ∈ c.children → gc ∈ (g c).children)
    {cs : List XMLElement} (h : Addressable a cs) :
    Addressable a (XMLElement.updateList q g cs) := by
  obtain ⟨c, hc, h⟩ := h
  rw [updateList_eq_map]
  refine ⟨XMLElement.update q g c, List.mem_map_of_mem _ hc, ?_⟩
  rcases h with h | ⟨gc, hgc, h⟩
  · exact Or.inl (by rw [update_ptr hgptr]; exact h)
  · by_cases hcq : c.ptr = q
    · rw [update_of_eq hcq]
      exact Or.inr ⟨gc, hgkeep c gc hgc, h⟩
    · rw [update_of_ne hcq, withChildren_children, updateList_eq_map]
      exact Or.inr ⟨XMLElement.update q g gc, List.mem_map_of_mem _ hgc,
        by rw [update_ptr hgptr]; exact h⟩

theorem addressable_new_child {q : Nat} {g : XMLElement → XMLElement} {x : XMLElement}
    (hgnew : ∀ c, x ∈ (g c).children) {cs : List XMLElement}
    (h : q ∈ cs.map XMLElement.ptr) : Addressable x.ptr (XMLElement.updateList q g cs) := by
  obtain ⟨c, hc, rfl⟩ := List.mem_map.1 h
  rw [updateList_eq_map]
  refine ⟨XMLElement.update c.ptr g c, List.mem_map_of_mem _ hc, Or.inr ⟨x, ?_, rfl⟩⟩
  rw [update_of_eq rfl]
  exact hgnew c

/-! ## Builder steps on the document -/

theorem root_withChildren_ptr (d : XMLDocument) (cs : List XMLElement) :
    (d.root.withChildren cs).ptr = d.root.ptr := withChildren_ptr _ _

/-- A write through `q` that keeps addresses and names succeeds when `q` is addressable, and
relates the children of the root before and after. -/
theorem modify_ok (d : XMLDocument) (q n N : Nat) (g : XMLElement → XMLElement)
    (hgptr : ∀ x, (g x).ptr = x.ptr) (hgname : ∀ x, (g x).name = x.name)
    (hr : d.root.ptr ≠ q) (haddr : Addressable q d.root.children)
    (hq : ∀ c ∈ d.root.children, c.ptr = q → (g c).attrs = c.attrs ∧
      c.timedChildren + n ≤ (g c).timedChildren ∧ ChildOK N d.root.ptr (g c))
    (hok : ∀ c ∈ d.root.children, ChildOK N d.root.ptr c) :
    ∃ d', d.modify q g = some d' ∧ d'.root.ptr = d.root.ptr ∧ d'.next_ptr = d.next_ptr ∧
      d'.root.children = XMLElement.updateList q g d.root.children ∧
      List.Forall₂ (Grew q n) d.root.children d'.root.children ∧
      ∀ c' ∈ d'.root.children, ChildOK N d.root.ptr c' := by
  have hsome : (d.deref q).isSome = true := by
    unfold XMLDocument.deref
    rw [lookup_of_ne hr]
    exact addressable_lookup haddr
  obtain ⟨v, hv⟩ := Option.isSome_iff_exists.1 hsome
  obtain ⟨h1, h2⟩ := updateList_grew hgptr hgname d.root.children hq hok
  refine ⟨{ d with root := d.root.update q g }, ?_, ?_, rfl, ?_, ?_, ?_⟩
  · unfold XMLDocument.modify
    rw [hv]
  · show (d.root.update q g).ptr = d.root.ptr
    rw [update_of_ne hr, withChildren_ptr]
  · show (d.root.update q g).children = _
    rw [update_of_ne hr, withChildren_children]
  · show List.Forall₂ _ _ (d.root.update q g).children
    rw [update_of_ne hr, withChildren_children]
    exact h1
  · show ∀ c' ∈ (d.root.update q g).children, _
    rw [update_of_ne hr, withChildren_children]
    exact h2

/-- An insertion of the node `x` below the node at `parent`: the common part of
`InsertEndChild` and `InsertFirstChild`. -/
theorem unlink_modify_ok (d : XMLDocument) (parent n N : Nat) (x : XMLElement)
    (g : XMLElement → XMLElement)
    (hgptr : ∀ c, (g c).ptr = c.ptr) (hgname : ∀ c, (g c).name = c.name)
    (hgattrs : ∀ c, (g c).attrs = c.attrs)
    (hgcount : ∀ c, c.timedChildren + n ≤ (g c).timedChildren)
    (hgchildren : ∀ c gc, gc ∈ (g c).children → gc ∈ c.children ∨ gc = x)
    (hgkeep : ∀ c gc, gc ∈ c.children → gc ∈ (g c).children)
    (hgnew : ∀ c, x ∈ (g c).children)
    (hr : d.root.ptr ≠ parent) (haddr : Addressable parent d.root.children)
    (hpx : parent ≠ x.ptr)
    (hok : ∀ c ∈ d.root.children, ChildOK x.ptr d.root.ptr c) (hx : x.ptr ≠ d.root.ptr)
    (hN : x.ptr ≤ N) (hN' : x.isTimed = true → x.ptr < N) :
    ∃ d', ({ d with root := d.root.unlink x.ptr } : XMLDocument).modify parent g = some d' ∧
      d'.root.ptr = d.root.ptr ∧ d'.next_ptr = d.next_ptr ∧
      List.Forall₂ (Grew parent n) d.root.children d'.root.children ∧
      (∀ c' ∈ d'.root.children, ChildOK N d.root.ptr c') ∧
      (∀ a, a ≠ x.ptr → Addressable a d.root.children → Addressable a d'.root.children) ∧
      (parent ∈ d.root.children.map XMLElement.ptr → Addressable x.ptr d'.root.children) := by
  obtain ⟨u1, u2⟩ := unlinkList_grew (p := parent) d.root.children hok
  have hcs : ∀ c ∈ d.root.children, c.ptr ≠ x.ptr := fun c hc => Nat.ne_of_lt (hok c hc).1
  have hroot1 : (d.root.unlink x.ptr) =
      d.root.withChildren (XMLElement.unlinkList x.ptr d.root.children) := unlink_eq _ _
  have hch1 : (d.root.unlink x.ptr).children = XMLElement.unlinkList x.ptr d.root.children := by
    rw [hroot1, withChildren_children]
  have hptr1 : (d.root.unlink x.ptr).ptr = d.root.ptr := unlink_ptr _ _
  obtain ⟨d', hd', e1, e2, e3, e4, e5⟩ := modify_ok
    ({ d with root := d.root.unlink x.ptr } : XMLDocument) parent n N g hgptr hgname
    (by show (d.root.unlink x.ptr).ptr ≠ parent; rw [hptr1]; exact hr)
    (by show Addressable parent (d.root.unlink x.ptr).children
        rw [hch1]; exact addressable_unlinkList haddr hpx hcs)
    (by
      show ∀ c ∈ (d.root.unlink x.ptr).children, _
      rw [hch1]
      intro c hc hcp
      have hcok := u2 c hc
      refine ⟨hgattrs c, hgcount c, ?_⟩
      show ChildOK N (d.root.unlink x.ptr).ptr (g c)
      rw [hptr1]
      refine ⟨by rw [hgptr]; exact lt_of_lt_of_le hcok.1 hN, by rw [hgptr]; exact hcok.2.1, ?_⟩
      intro gc hgc ht
      rcases hgchildren c gc hgc with hgc | rfl
      · exact ⟨lt_of_lt_of_le (hcok.2.2 gc hgc ht).1 hN, (hcok.2.2 gc hgc ht).2⟩
      · exact ⟨hN' ht, hx⟩)
    (by
      show ∀ c ∈ (d.root.unlink x.ptr).children, ChildOK N (d.root.unlink x.ptr).ptr c
      rw [hch1, hptr1]
      exact fun c hc => (u2 c hc).widen hN)
  have e1' : d'.root.ptr = d.root.ptr := e1.trans hptr1
  refine ⟨d', hd', e1', e2, ?_, ?_, ?_, ?_⟩
  · have e4' : List.Forall₂ (Grew parent n) (XMLElement.unlinkList x.ptr d.root.children)
        d'.root.children := by
      have := e4
      rw [show ({ d with root := d.root.unlink x.ptr } : XMLDocument).root.children =
        XMLElement.unlinkList x.ptr d.root.children from hch1] at this
      exact this
    exact forall₂_comp (R := Grew parent 0) (S := Grew parent n) (T := Grew parent n)
      (fun a b c h1 h2 => Grew.trans h1 h2) u1 e4'
  · intro c' hc'
    have := e5 c' hc'
    rw [show ({ d with root := d.root.unlink x.ptr } : XMLDocument).root.ptr = d.root.ptr
      from hptr1] at this
    exact this
  · intro a ha haddr'
    rw [e3]
    show Addressable a (XMLElement.updateList parent g (d.root.unlink x.ptr).children)
    rw [hch1]
    exact addressable_updateList hgptr hgkeep (addressable_unlinkList haddr' ha hcs)
  · intro hmem
    rw [e3]
    show Addressable x.ptr (XMLElement.updateList parent g (d.root.unlink x.ptr).children)
    rw [hch1]
    refine addressable_new_child hgnew ?_
    rw [forall₂_grew_ptrs u1]
    exact hmem

theorem insertAfter_ok {after : Nat} (x : XMLElement) :
    ∀ (cs : List XMLElement), after ∈ cs.map XMLElement.ptr →
      ∃ l1 l2, cs = l1 ++ l2 ∧ XMLElement.insertAfter after x cs = some (l1 ++ x :: l2) := by
  intro cs
  induction cs with
  | nil => intro h; exact absurd h (List.not_mem_nil _)
  | cons c cs ih =>
    intro h
    unfold XMLElement.insertAfter
    by_cases hc : c.ptr = after
    · rw [if_pos hc]
      exact ⟨[c], cs, rfl, rfl⟩
    · rw [if_neg hc]
      have hmem : after ∈ cs.map XMLElement.ptr := by
        rcases List.mem_cons.1 h with h | h
        · exact absurd h.symm hc
        · exact h
      obtain ⟨l1, l2, rfl, hins⟩ := ih hmem
      exact ⟨c :: l1, l2, rfl, by rw [hins]; rfl⟩

theorem InsertAfterRootChild_ok (d : XMLDocument) (after : Nat) (x : XMLElement)
    (h : after ∈ d.root.children.map XMLElement.ptr) :
    ∃ d' l1 l2, d.InsertAfterRootChild after x = some d' ∧ d.root.children = l1 ++ l2 ∧
      d'.root.children = l1 ++ x :: l2 ∧ d'.root.ptr = d.root.ptr ∧
      d'.next_ptr = d.next_ptr := by
  obtain ⟨l1, l2, hcs, hins⟩ := insertAfter_ok x d.root.children h
  refine ⟨{ d with root := d.root.withChildren (l1 ++ x :: l2) }, l1, l2, ?_, hcs,
    withChildren_children _ _, withChildren_ptr _ _, rfl⟩
  unfold XMLDocument.InsertAfterRootChild
  rw [hins]
  rfl

theorem find_insert_of_false {p : XMLElement → Bool} {x : XMLElement} (hx : p x = false)
    (l1 l2 : List XMLElement) : (l1 ++ x :: l2).find? p = (l1 ++ l2).find? p := by
  rw [List.find?_append, List.find?_append, List.find?_cons, hx]

theorem find_insert_isSome {p : XMLElement → Bool} {x : XMLElement} (l1 l2 : List XMLElement)
    (h : ((l1 ++ l2).find? p).isSome = true ∨ p x = true) :
    ((l1 ++ x :: l2).find? p).isSome = true := by
  rw [List.find?_isSome]
  rcases h with h | h
  · rw [List.find?_isSome] at h
    obtain ⟨y, hy, hp⟩ := h
    refine ⟨y, ?_, hp⟩
    rcases List.mem_append.1 hy with hy | hy
    · exact List.mem_append_left _ hy
    · exact List.mem_append_right _ (List.mem_cons_of_mem _ hy)
  · exact ⟨x, List.mem_append_right _ (List.mem_cons_self _ _), h⟩

/-- The test of `FindPlaylistElement` looks at the name and the attributes only. -/
theorem playlist_test_congr (id : String) (c c' : XMLElement) (hn : c'.name = c.name)
    (ha : c'.attrs = c.attrs) :
    (c'.name == "playlist" && c'.AttributeIs "id" (some id)) =
      (c.name == "playlist" && c.AttributeIs "id" (some id)) := by
  unfold XMLElement.AttributeIs XMLElement.Attribute
  rw [hn, ha]

theorem FindPlaylistElement_eq (d : XMLDocument) (id : String) :
    FindPlaylistElement d id =
      d.root.children.find? (fun e => e.name == "playlist" && e.AttributeIs "id" (some id)) :=
  rfl

/-- The playlists of the tracks stay found, with no fewer timed children, along a step that
relates the children of the root by `Grew`. -/
theorem tracks_found_of_grew {q n : Nat} {d e : XMLDocument}
    (h : List.Forall₂ (Grew q n) d.root.children e.root.children) {id : String}
    {pl : XMLElement} (hf : FindPlaylistElement d id = some pl) :
    ∃ pl', FindPlaylistElement e id = some pl' ∧ Grew q n pl pl' := by
  rw [FindPlaylistElement_eq] at hf ⊢
  exact find_grew (playlist_test_congr id) h hf

theorem mem_ptrs_of_grew {q n a : Nat} {cs cs' : List XMLElement}
    (h : List.Forall₂ (Grew q n) cs cs') (ha : a ∈ cs.map XMLElement.ptr) :
    a ∈ cs'.map XMLElement.ptr := by
  rw [forall₂_grew_ptrs h]; exact ha

theorem find_mem_ptr {p : XMLElement → Bool} {cs : List XMLElement} {pl : XMLElement}
    (h : cs.find? p = some pl) : pl ∈ cs := List.mem_of_find?_eq_some h

/-- Appending a new `entry` or `blank` node `x` to the first playlist of track `id`, and the
entry `e` to the track's record, keeps a file in order. -/
theorem addTimed_ok (f : KdenliveFile) (id : Nat) (x : XMLElement) (e : TrackEntry)
    (hdoc : DocOK f) (hid : id < f.track_count) (hcons : Consistent f)
    (hxptr : x.ptr = f.xml_doc.next_ptr) (hxt : x.isTimed = true) :
    ∃ pl d' L es,
      FindPlaylistElement f.xml_doc ("playlist" ++ toString (id * 2)) = some pl ∧
      ({ f.xml_doc with next_ptr := f.xml_doc.next_ptr + 1 } : XMLDocument).InsertEndChild
        pl.ptr x = some d' ∧
      f.track_lengths[id]? = some L ∧ f.track_entries[id]? = some es ∧
      ∀ L', DocOK { f with
        xml_doc := d'
        track_lengths := f.track_lengths.set id L'
        track_entries := f.track_entries.set id (es ++ [e]) } := by
  obtain ⟨⟨hroot, hchild, hmp, hlast, hmb, tt, htt, httm⟩, htracks⟩ := hdoc
  obtain ⟨pl, hpl, hcount⟩ := htracks id hid
  have hplmem : pl ∈ f.xml_doc.root.children := find_mem_ptr hpl
  have hplok := hchild pl hplmem
  have hes : ∃ es, f.track_entries[id]? = some es :=
    ⟨_, List.getElem?_eq_getElem (by rw [hcons.1]; exact hid)⟩
  obtain ⟨es, hes⟩ := hes
  have hL : f.track_lengths[id]? = some (entriesLength es) := by
    have := hcons.2 id
    rw [hes] at this
    exact this
  generalize entriesLength es = L at hL
  obtain ⟨d', hd', e1, e2, e3, e4, -, -⟩ := unlink_modify_ok
    ({ f.xml_doc with next_ptr := f.xml_doc.next_ptr + 1 } : XMLDocument) pl.ptr 1
    (f.xml_doc.next_ptr + 1) x (fun c => c.withChildren (c.children ++ [x]))
    (fun c => withChildren_ptr _ _) (fun c => withChildren_name _ _)
    (fun c => withChildren_attrs _ _)
    (fun c => by
      unfold XMLElement.timedChildren
      rw [withChildren_children, timed_append, hxt]
      simp)
    (fun c gc hgc => by
      rw [withChildren_children, List.mem_append, List.mem_singleton] at hgc
      exact hgc)
    (fun c gc hgc => by
      rw [withChildren_children]
      exact List.mem_append_left _ hgc)
    (fun c => by
      rw [withChildren_children]
      exact List.mem_append_right _ (List.mem_singleton_self _))
    (fun h => hplok.2.1 h.symm)
    (addressable_of_mem_ptrs (List.mem_map_of_mem _ hplmem))
    (by rw [hxptr]; exact Nat.ne_of_lt hplok.1)
    (by rw [hxptr]; exact hchild)
    (by rw [hxptr]; exact Nat.ne_of_gt hroot)
    (by rw [hxptr]; exact Nat.le_succ _)
    (fun _ => by rw [hxptr]; exact Nat.lt_succ_self _)
  refine ⟨pl, d', L, es, hpl, hd', hL, hes, fun L' => ?_⟩
  refine ⟨⟨?_, ?_, ?_, ?_, ?_, tt, htt, ?_⟩, ?_⟩
  · show d'.root.ptr < d'.next_ptr
    rw [e1, e2]; exact Nat.lt_succ_of_lt hroot
  · show ∀ c ∈ d'.root.children, ChildOK d'.next_ptr d'.root.ptr c
    rw [e1, e2]; exact e4
  · exact mem_ptrs_of_grew e3 hmp
  · exact mem_ptrs_of_grew e3 hlast
  · exact mem_ptrs_of_grew e3 hmb
  · exact mem_ptrs_of_grew e3 httm
  · intro k hk
    obtain ⟨plk, hplk, hcountk⟩ := htracks k hk
    obtain ⟨plk', hplk', hg⟩ :=
      tracks_found_of_grew (d := f.xml_doc) (e := d') e3 hplk
    refine ⟨plk', hplk', ?_⟩
    show ((f.track_entries.set id (es ++ [e]))[k]?.getD []).length ≤ plk'.timedChildren
    have hg4 := hg.2.2.2
    by_cases hkid : id = k
    · subst hkid
      rw [hpl] at hplk
      cases hplk
      rw [List.getElem?_set_self (by rw [hcons.1]; exact hid)]
      rw [hes] at hcount
      simp only [Option.getD_some, List.length_append, List.length_singleton] at hcount ⊢
      rw [if_pos rfl] at hg4
      omega
    · rw [List.getElem?_set_ne hkid]
      have : plk.timedChildren ≤ plk'.timedChildren := by
        have := hg4
        split at this <;> omega
      exact le_trans hcountk this

theorem CreateBlankElement_timed (d : XMLDocument) (len : ℚ) :
    (CreateBlankElement d len).2.isTimed = true := by
  unfold CreateBlankElement XMLDocument.NewElement XMLElement.isTimed
  simp only [SetAttribute_name]
  show (("blank" == "entry") || ("blank" == "blank")) = true
  decide

theorem CreateEntryElement_timed [Stale] (d : XMLDocument) (i o : ℚ) (p : String) :
    (CreateEntryElement d i o p).2.isTimed = true := by
  unfold CreateEntryElement XMLDocument.NewElement XMLElement.isTimed
  simp only [SetAttribute_name]
  show (("entry" == "entry") || ("entry" == "blank")) = true
  decide

theorem CreateBlankElement_ptr (d : XMLDocument) (len : ℚ) :
    (CreateBlankElement d len).2.ptr = d.next_ptr := by
  unfold CreateBlankElement XMLDocument.NewElement
  simp only [SetAttribute_ptr]
  rfl

theorem CreateEntryElement_ptr [Stale] (d : XMLDocument) (i o : ℚ) (p : String) :
    (CreateEntryElement d i o p).2.ptr = d.next_ptr := by
  unfold CreateEntryElement XMLDocument.NewElement
  simp only [SetAttribute_ptr]
  rfl

/-- On a file in order, `AddBlankToTrack` on an existing track returns, and the file stays
in order. -/
theorem AddBlankToTrack_ok (f : KdenliveFile) (id : Nat) (len : ℚ) (hdoc : DocOK f)
    (hcons : Consistent f) (hid : id < f.track_count) :
    ∃ f' e, f.AddBlankToTrack id len = some (f', e) ∧ DocOK f' := by
  obtain ⟨pl, d', L, es, hpl, hd', hL, hes, hok⟩ :=
    addTimed_ok f id (CreateBlankElement f.xml_doc len).2 ⟨EntryType.BLANK, len, 0⟩ hdoc hid
      hcons (CreateBlankElement_ptr _ _) (CreateBlankElement_timed _ _)
  have hins : (CreateBlankElement f.xml_doc len).1.InsertEndChild pl.ptr
      (CreateBlankElement f.xml_doc len).2 = some d' := hd'
  refine ⟨_, es.length, ?_, hok (fadd L len)⟩
  unfold AddBlankToTrack AddBlankElement
  simp only [bind, pure, hpl, Option.bind, hins, Option.map, hL, hes]

/-- On a file in order, `AddClipToTrack` on an existing track returns, and the file stays
in order. -/
theorem AddClipToTrack_ok [Stale] (f : KdenliveFile) (id cid : Nat) (len off : ℚ) (hdoc : DocOK f)
    (hcons : Consistent f) (hid : id < f.track_count) :
    ∃ f' e, f.AddClipToTrack id cid len off = some (f', e) ∧ DocOK f' := by
  obtain ⟨pl, d', L, es, hpl, hd', hL, hes, hok⟩ :=
    addTimed_ok f id
      (CreateEntryElement f.xml_doc off (fadd len off) ("chain" ++ toString cid)).2
      ⟨EntryType.CLIP, len, off⟩ hdoc hid hcons (CreateEntryElement_ptr _ _ _ _)
      (CreateEntryElement_timed _ _ _ _)
  have hins : (CreateEntryElement f.xml_doc off (fadd len off) ("chain" ++ toString cid)).1.InsertEndChild
      pl.ptr (CreateEntryElement f.xml_doc off (fadd len off) ("chain" ++ toString cid)).2 =
        some d' := hd'
  refine ⟨_, es.length, ?_, hok (fadd L len)⟩
  unfold AddClipToTrack AddEntryElement
  simp only [bind, pure, hpl, Option.bind, hins, Option.map, hL, hes]

theorem fadeFilter_facts [Stale] (d : XMLDocument) (id : String) (i o : ℚ) (k a : String) :
    (fadeFilter d id i o k a).1.root = d.root ∧
      (fadeFilter d id i o k a).1.next_ptr = d.next_ptr + 6 ∧
      (fadeFilter d id i o k a).2.ptr = d.next_ptr ∧
      (fadeFilter d id i o k a).2.isTimed = false :=
  ⟨rfl, rfl, rfl, by
    show (("filter" == "entry") || ("filter" == "blank")) = false
    decide⟩

/-- The tracks of a file stay in order along a step of the document that relates the
children of the root by `Grew`, keeps the pointer of the root and does not lower the
counter, when the recorded entries stay the same. -/
theorem DocOK_of_grew {f : KdenliveFile} {d' : XMLDocument} {q : Nat} (hdoc : DocOK f)
    (e1 : d'.root.ptr = f.xml_doc.root.ptr)
    (e3 : List.Forall₂ (Grew q 0) f.xml_doc.root.children d'.root.children)
    (e4 : ∀ c' ∈ d'.root.children, ChildOK d'.next_ptr f.xml_doc.root.ptr c')
    (e5 : f.xml_doc.next_ptr ≤ d'.next_ptr) (f' : KdenliveFile)
    (h1 : f'.xml_doc = d') (h2 : f'.track_count = f.track_count)
    (h3 : f'.track_entries = f.track_entries) (h4 : f'.main_producer = f.main_producer)
    (h5 : f'.last_added_root_element = f.last_added_root_element)
    (h6 : f'.main_bin = f.main_bin) (h7 : f'.timeline_tractor = f.timeline_tractor) :
    DocOK f' := by
  obtain ⟨⟨hroot, hchild, hmp, hlast, hmb, tt, htt, httm⟩, htracks⟩ := hdoc
  subst h1
  refine ⟨⟨?_, ?_, ?_, ?_, ?_, tt, ?_, ?_⟩, ?_⟩
  · rw [e1]; exact lt_of_lt_of_le hroot e5
  · rw [e1]; exact e4
  · rw [h4]; exact mem_ptrs_of_grew e3 hmp
  · rw [h5]; exact mem_ptrs_of_grew e3 hlast
  · rw [h6]; exact mem_ptrs_of_grew e3 hmb
  · rw [h7]; exact htt
  · exact mem_ptrs_of_grew e3 httm
  · intro k hk
    rw [h2] at hk
    obtain ⟨plk, hplk, hcountk⟩ := htracks k hk
    obtain ⟨plk', hplk', hg⟩ := tracks_found_of_grew (d := f.xml_doc) (e := f'.xml_doc) e3 hplk
    refine ⟨plk', hplk', ?_⟩
    rw [h3]
    have hg4 := hg.2.2.2
    omega

/-- One fade filter is attached to a node of the tree: the call returns and the file stays
in order. -/
theorem attachFilter_ok [Stale] (f : KdenliveFile) (entry : XMLElement) (i o : ℚ) (k a : String)
    (hdoc : DocOK f) (haddr : Addressable entry.ptr f.xml_doc.root.children)
    (hne : entry.ptr ≠ f.xml_doc.root.ptr) (hlt : entry.ptr < f.xml_doc.next_ptr) :
    ∃ f', attachFilter f (some entry) i o k a = some f' ∧ DocOK f' ∧
      Addressable entry.ptr f'.xml_doc.root.children ∧
      f'.xml_doc.root.ptr = f.xml_doc.root.ptr ∧ f.xml_doc.next_ptr ≤ f'.xml_doc.next_ptr := by
  obtain ⟨g1, g2, g3, g4⟩ :=
    fadeFilter_facts f.xml_doc ("filter" ++ toString f.filter_count) i o k a
  have hroot := hdoc.1.1
  have hchild := hdoc.1.2.1
  obtain ⟨d', hd', e1, e2, e3, e4, e5, -⟩ := unlink_modify_ok
    (fadeFilter f.xml_doc ("filter" ++ toString f.filter_count) i o k a).1 entry.ptr 0
    (f.xml_doc.next_ptr + 6)
    (fadeFilter f.xml_doc ("filter" ++ toString f.filter_count) i o k a).2
    (fun c => c.withChildren (c.children ++
      [(fadeFilter f.xml_doc ("filter" ++ toString f.filter_count) i o k a).2]))
    (fun c => withChildren_ptr _ _) (fun c => withChildren_name _ _)
    (fun c => withChildren_attrs _ _)
    (fun c => by
      unfold XMLElement.timedChildren
      rw [withChildren_children, timed_append]
      omega)
    (fun c gc hgc => by
      rw [withChildren_children, List.mem_append, List.mem_singleton] at hgc
      exact hgc)
    (fun c gc hgc => by
      rw [withChildren_children]
      exact List.mem_append_left _ hgc)
    (fun c => by
      rw [withChildren_children]
      exact List.mem_append_right _ (List.mem_singleton_self _))
    (by rw [g1]; exact fun h => hne h.symm)
    (by rw [g1]; exact haddr)
    (by rw [g3]; exact Nat.ne_of_lt hlt)
    (by rw [g1, g3]; exact hchild)
    (by rw [g1, g3]; exact Nat.ne_of_gt hroot)
    (by rw [g3]; omega)
    (fun h => by rw [g4] at h; exact absurd h (by decide))
  rw [g1] at e1 e3 e4 e5
  rw [g2] at e2
  rw [g3] at e5
  refine ⟨{ f with xml_doc := d', filter_count := f.filter_count + 1 }, ?_, ?_, ?_, e1, ?_⟩
  · unfold attachFilter
    show Option.map _ (XMLDocument.modify _ _ _) = _
    rw [hd']
    rfl
  · exact DocOK_of_grew hdoc e1 e3 (by rw [e2]; exact e4) (by rw [e2]; omega) _ rfl rfl rfl
      rfl rfl rfl rfl
  · exact e5 _ (Nat.ne_of_lt hlt) haddr
  · show f.xml_doc.next_ptr ≤ d'.next_ptr
    rw [e2]; omega

/-- On a file in order, `FadeClip` on a recorded entry of an existing track returns, and the
file stays in order. -/
theorem FadeClip_ok [Stale] (f : KdenliveFile) (id e : Nat) (a b : ℚ) (hdoc : DocOK f)
    (hid : id < f.track_count) (es : List TrackEntry) (hes : f.track_entries[id]? = some es)
    (he : e < es.length) :
    ∃ f', f.FadeClip id e a b = some f' ∧ DocOK f' := by
  have hscrut : (f.track_entries[id]?).bind (fun entries => entries[e]?) = some es[e] := by
    rw [hes]
    exact List.getElem?_eq_getElem he
  unfold FadeClip
  rw [hscrut]
  simp only []
  by_cases hb : es[e].entry_type = EntryType.BLANK
  · rw [if_pos hb]
    exact ⟨f, rfl, hdoc⟩
  · rw [if_neg hb]
    obtain ⟨pl, hpl, hcount⟩ := hdoc.2 id hid
    rw [hes] at hcount
    have hplmem : pl ∈ f.xml_doc.root.children := find_mem_ptr hpl
    have hplok := hdoc.1.2.1 pl hplmem
    have hlt : e < (pl.children.filter XMLElement.isTimed).length :=
      lt_of_lt_of_le he hcount
    have hentry : (pl.children.filter XMLElement.isTimed)[e]? =
        some (pl.children.filter XMLElement.isTimed)[e] := List.getElem?_eq_getElem hlt
    generalize (pl.children.filter XMLElement.isTimed)[e] = entry at hentry
    have hmem := List.mem_filter.1 (List.getElem?_mem hentry)
    have hfind : FindPlaylistEntry f.xml_doc ("playlist" ++ toString (id * 2)) e =
        some (some entry) := by
      unfold FindPlaylistEntry
      rw [hpl]
      show some ((pl.children.filter XMLElement.isTimed)[e]?) = _
      rw [hentry]
    rw [hfind]
    have hgc := hplok.2.2 entry hmem.1 hmem.2
    have haddr : Addressable entry.ptr f.xml_doc.root.children :=
      ⟨pl, hplmem, Or.inr ⟨entry, hmem.1, rfl⟩⟩
    have step1 : ∃ f1,
        (if a > 0 then attachFilter f (some entry) es[e].start_offset
            (fadd es[e].start_offset a) "fade_from_black" "0=0;-1=1" else some f) = some f1 ∧
          DocOK f1 ∧ Addressable entry.ptr f1.xml_doc.root.children ∧
          f1.xml_doc.root.ptr = f.xml_doc.root.ptr ∧
          f.xml_doc.next_ptr ≤ f1.xml_doc.next_ptr := by
      by_cases ha : a > 0
      · rw [if_pos ha]
        exact attachFilter_ok f entry _ _ _ _ hdoc haddr hgc.2 hgc.1
      · rw [if_neg ha]
        exact ⟨f, rfl, hdoc, haddr, rfl, le_refl _⟩
    obtain ⟨f1, h1, hdoc1, haddr1, hr1, hn1⟩ := step1
    simp only [Option.some_bind, h1]
    show ∃ f', (if b > 0 then attachFilter f1 (some entry) _ _ _ _ else some f1) = some f' ∧ _
    by_cases hb' : b > 0
    · rw [if_pos hb']
      obtain ⟨f2, h2, hdoc2, -⟩ := attachFilter_ok f1 entry
        (fsub (fadd es[e].start_offset es[e].length) b) (fadd es[e].start_offset es[e].length)
        "fade_to_black" "0=1;-1=0" hdoc1 haddr1 (by rw [hr1]; exact hgc.2)
        (lt_of_lt_of_le hgc.1 hn1)
      exact ⟨f2, h2, hdoc2⟩
    · rw [if_neg hb']
      exact ⟨f1, rfl, hdoc1⟩

theorem forall₂_grew_zero {q q' n : Nat} {cs cs' : List XMLElement}
    (h : List.Forall₂ (Grew q n) cs cs') : List.Forall₂ (Grew q' 0) cs cs' :=
  List.Forall₂.imp (fun _ _ h => Grew.weaken h) h

theorem forall₂_grew_trans {cs cs' cs'' : List XMLElement}
    (h1 : List.Forall₂ (Grew 0 0) cs cs') (h2 : List.Forall₂ (Grew 0 0) cs' cs'') :
    List.Forall₂ (Grew 0 0) cs cs'' :=
  forall₂_comp (R := Grew 0 0) (S := Grew 0 0) (T := Grew 0 0)
    (fun _ _ _ h1 h2 => Grew.trans h1 h2) h1 h2

theorem HasPlaylist_of_grew {q m : Nat} {d e : XMLDocument}
    (h : List.Forall₂ (Grew q m) d.root.children e.root.children) {id : String} {n : Nat}
    (hf : HasPlaylist d id n) : HasPlaylist e id n := by
  obtain ⟨pl, hpl, hn⟩ := hf
  obtain ⟨pl', hpl', hg⟩ := tracks_found_of_grew h hpl
  refine ⟨pl', hpl', ?_⟩
  have hg4 := hg.2.2.2
  omega

/-- A new child `x` is appended to the node at `parent`. -/
theorem InsertEndChild_ok (d : XMLDocument) (parent N : Nat) (x : XMLElement)
    (hr : d.root.ptr ≠ parent) (haddr : Addressable parent d.root.children)
    (hpx : parent ≠ x.ptr)
    (hok : ∀ c ∈ d.root.children, ChildOK x.ptr d.root.ptr c) (hx : x.ptr ≠ d.root.ptr)
    (hN : x.ptr < N) :
    ∃ d', d.InsertEndChild parent x = some d' ∧
      d'.root.ptr = d.root.ptr ∧ d'.next_ptr = d.next_ptr ∧
      List.Forall₂ (Grew 0 0) d.root.children d'.root.children ∧
      (∀ c' ∈ d'.root.children, ChildOK N d.root.ptr c') ∧
      (∀ a, a ≠ x.ptr → Addressable a d.root.children → Addressable a d'.root.children) ∧
      (parent ∈ d.root.children.map XMLElement.ptr → Addressable x.ptr d'.root.children) := by
  obtain ⟨d', hd', e1, e2, e3, e4, e5, e6⟩ := unlink_modify_ok d parent 0 N x
    (fun c => c.withChildren (c.children ++ [x]))
    (fun c => withChildren_ptr _ _) (fun c => withChildren_name _ _)
    (fun c => withChildren_attrs _ _)
    (fun c => by
      unfold XMLElement.timedChildren
      rw [withChildren_children, timed_append]
      omega)
    (fun c gc hgc => by
      rw [withChildren_children, List.mem_append, List.mem_singleton] at hgc
      exact hgc)
    (fun c gc hgc => by
      rw [withChildren_children]
      exact List.mem_append_left _ hgc)
    (fun c => by
      rw [withChildren_children]
      exact List.mem_append_right _ (List.mem_singleton_self _))
    hr haddr hpx hok hx (Nat.le_of_lt hN) (fun _ => hN)
  exact ⟨d', hd', e1, e2, forall₂_grew_zero e3, e4, e5, e6⟩

/-- A child `x` that is no `entry` or `blank` is made the first child of the node at
`parent`. -/
theorem InsertFirstChild_ok (d : XMLDocument) (parent N : Nat) (x : XMLElement)
    (hr : d.root.ptr ≠ parent) (haddr : Addressable parent d.root.children)
    (hpx : parent ≠ x.ptr)
    (hok : ∀ c ∈ d.root.children, ChildOK x.ptr d.root.ptr c) (hx : x.ptr ≠ d.root.ptr)
    (hN : x.ptr ≤ N) (hxt : x.isTimed = false) :
    ∃ d', d.InsertFirstChild parent x = some d' ∧
      d'.root.ptr = d.root.ptr ∧ d'.next_ptr = d.next_ptr ∧
      List.Forall₂ (Grew 0 0) d.root.children d'.root.children ∧
      (∀ c' ∈ d'.root.children, ChildOK N d.root.ptr c') ∧
      (∀ a, a ≠ x.ptr → Addressable a d.root.children → Addressable a d'.root.children) := by
  obtain ⟨d', hd', e1, e2, e3, e4, e5, -⟩ := unlink_modify_ok d parent 0 N x
    (fun c => c.withChildren (x :: c.children))
    (fun c => withChildren_ptr _ _) (fun c => withChildren_name _ _)
    (fun c => withChildren_attrs _ _)
    (fun c => by
      unfold XMLElement.timedChildren
      rw [withChildren_children, timed_cons]
      omega)
    (fun c gc hgc => by
      rw [withChildren_children, List.mem_cons] at hgc
      exact hgc.symm)
    (fun c gc hgc => by
      rw [withChildren_children]
      exact List.mem_cons_of_mem _ hgc)
    (fun c => by
      rw [withChildren_children]
      exact List.mem_cons_self _ _)
    hr haddr hpx hok hx hN (fun h => by rw [hxt] at h; exact absurd h (by decide))
  exact ⟨d', hd', e1, e2, forall₂_grew_zero e3, e4, e5⟩

/-- An attribute is set on a node below a child of the root. -/
theorem SetAttribute_ok (d : XMLDocument) (q N : Nat) (k v : String)
    (hr : d.root.ptr ≠ q) (haddr : Addressable q d.root.children)
    (hnot : ∀ c ∈ d.root.children, c.ptr ≠ q)
    (hok : ∀ c ∈ d.root.children, ChildOK N d.root.ptr c) :
    ∃ d', d.modify q (fun x => x.SetAttribute k v) = some d' ∧
      d'.root.ptr = d.root.ptr ∧ d'.next_ptr = d.next_ptr ∧
      List.Forall₂ (Grew 0 0) d.root.children d'.root.children ∧
      (∀ c' ∈ d'.root.children, ChildOK N d.root.ptr c') ∧
      (∀ a, Addressable a d.root.children → Addressable a d'.root.children) := by
  obtain ⟨d', hd', e1, e2, e3, e4, e5⟩ := modify_ok d q 0 N (fun x => x.SetAttribute k v)
    (fun x => SetAttribute_ptr _ _ _) (fun x => SetAttribute_name _ _ _) hr haddr
    (fun c hc hcq => absurd hcq (hnot c hc)) hok
  refine ⟨d', hd', e1, e2, forall₂_grew_zero e4, e5, fun a ha => ?_⟩
  rw [e3]
  exact addressable_updateList (fun x => SetAttribute_ptr _ _ _)
    (fun c gc hgc => by rw [SetAttribute_children]; exact hgc) ha

/-- A new element `x` is linked in behind the child `after` of the root. -/
theorem rootInsert_ok (d : XMLDocument) (after N : Nat) (x : XMLElement)
    (hafter : after ∈ d.root.children.map XMLElement.ptr)
    (hok : ∀ c ∈ d.root.children, ChildOK N d.root.ptr c) (hx : ChildOK N d.root.ptr x) :
    ∃ d', d.InsertAfterRootChild after x = some d' ∧
      d'.root.ptr = d.root.ptr ∧ d'.next_ptr = d.next_ptr ∧
      (∀ c' ∈ d'.root.children, ChildOK N d.root.ptr c') ∧
      (∀ a ∈ d.root.children.map XMLElement.ptr, a ∈ d'.root.children.map XMLElement.ptr) ∧
      x.ptr ∈ d'.root.children.map XMLElement.ptr ∧
      (∀ c' ∈ d'.root.children, c' ∈ d.root.children ∨ c' = x) ∧
      (∀ id n, HasPlaylist d id n →
        (x.name == "playlist" && x.AttributeIs "id" (some id)) = false →
        HasPlaylist d' id n) ∧
      (∀ id, (x.name == "playlist" && x.AttributeIs "id" (some id)) = true →
        HasPlaylist d' id 0) := by
  obtain ⟨d', l1, l2, hd', hcs, hcs', e1, e2⟩ := InsertAfterRootChild_ok d after x hafter
  refine ⟨d', hd', e1, e2, ?_, ?_, ?_, ?_, ?_, ?_⟩
  · intro c' hc'
    rw [hcs'] at hc'
    rcases List.mem_append.1 hc' with h | h
    · exact hok c' (by rw [hcs]; exact List.mem_append_left _ h)
    · rcases List.mem_cons.1 h with h | h
      · rw [h]; exact hx
      · exact hok c' (by rw [hcs]; exact List.mem_append_right _ h)
  · intro a ha
    rw [hcs] at ha
    rw [hcs']
    simp only [List.map_append, List.map_cons, List.mem_append, List.mem_cons] at ha ⊢
    tauto
  · rw [hcs']
    simp
  · intro c' hc'
    rw [hcs'] at hc'
    rw [hcs]
    simp only [List.mem_append, List.mem_cons] at hc' ⊢
    tauto
  · intro id n ⟨pl, hpl, hn⟩ hfalse
    refine ⟨pl, ?_, hn⟩
    rw [FindPlaylistElement_eq] at hpl ⊢
    rw [hcs', find_insert_of_false hfalse, ← hcs]
    exact hpl
  · intro id htrue
    have hsome : ((l1 ++ x :: l2).find?
        (fun e => e.name == "playlist" && e.AttributeIs "id" (some id))).isSome = true :=
      find_insert_isSome l1 l2 (Or.inr htrue)
    obtain ⟨pl, hpl⟩ := Option.isSome_iff_exists.1 hsome
    exact ⟨pl, by rw [FindPlaylistElement_eq, hcs']; exact hpl, Nat.zero_le _⟩

theorem ptr_facts_of_mem {N r a : Nat} {cs : List XMLElement}
    (hok : ∀ c ∈ cs, ChildOK N r c) (ha : a ∈ cs.map XMLElement.ptr) : a < N ∧ a ≠ r := by
  obtain ⟨c, hc, rfl⟩ := List.mem_map.1 ha
  exact ⟨(hok c hc).1, (hok c hc).2.1⟩

theorem CreateChainElement_facts (d : XMLDocument) (id resource : String) :
    (CreateChainElement d id resource).1.root = d.root ∧
      (CreateChainElement d id resource).1.next_ptr = d.next_ptr + 2 ∧
      (CreateChainElement d id resource).2.ptr = d.next_ptr ∧
      (CreateChainElement d id resource).2.name = "chain" ∧
      ∀ gc ∈ (CreateChainElement d id resource).2.children, gc.isTimed = false := by
  refine ⟨rfl, rfl, rfl, rfl, ?_⟩
  intro gc hgc
  have : (CreateChainElement d id resource).2.children =
      [XMLElement.node (d.next_ptr + 1) "property" [("name", "resource")] (some resource) []] :=
    rfl
  rw [this, List.mem_singleton] at hgc
  rw [hgc]
  show (("property" == "entry") || ("property" == "blank")) = false
  decide

theorem CreateEntryElement_facts [Stale] (d : XMLDocument) (i o : ℚ) (p : String) :
    (CreateEntryElement d i o p).1.root = d.root ∧
      (CreateEntryElement d i o p).1.next_ptr = d.next_ptr + 1 :=
  ⟨rfl, rfl⟩

/-- The body of `AddClipToBin` behind the construction of the chain element. -/
theorem AddClipToBin_core [Stale] (f : KdenliveFile) (d1 : XMLDocument) (chain : XMLElement)
    (name : Nat → String) (g1 : d1.root = f.xml_doc.root) (g2 : d1.next_ptr = f.xml_doc.next_ptr + 2)
    (g3 : chain.ptr = f.xml_doc.next_ptr) (g4 : chain.name = "chain")
    (g5 : ∀ gc ∈ chain.children, gc.isTimed = false) (hdoc : DocOK f) :
    ∃ f', ((f.AddElementToTopOfRoot d1 chain).bind (fun f1 =>
      (AddEntryElement f1.xml_doc f1.main_bin 0 0 (name f1.xml_doc.next_ptr)).bind (fun r =>
        some (({ f1 with xml_doc := r.1, chain_count := f1.chain_count + 1 } : KdenliveFile),
          f1.chain_count)))) = some (f', f.chain_count) ∧ DocOK f' := by
  obtain ⟨⟨hroot, hchild, hmp, hlast, hmb, tt, htt, httm⟩, htracks⟩ := hdoc
  obtain ⟨d3, hd3, a1, a2, a3, a4, a5, -, a7, -⟩ := rootInsert_ok d1 f.main_producer
    (f.xml_doc.next_ptr + 2) chain (by rw [g1]; exact hmp)
    (by rw [g1]; exact fun c hc => (hchild c hc).widen (Nat.le_add_right _ _))
    (by
      rw [g1]
      refine ⟨by rw [g3]; omega, by rw [g3]; exact Nat.ne_of_gt hroot, ?_⟩
      intro gc hgc ht
      rw [g5 gc hgc] at ht
      exact absurd ht (by decide))
  rw [g1] at a1 a3 a4
  rw [g2] at a2
  have htop : f.AddElementToTopOfRoot d1 chain = some { f with
      xml_doc := d3
      last_added_root_element := if f.last_added_root_element = f.main_producer
        then chain.ptr else f.last_added_root_element } := by
    unfold AddElementToTopOfRoot
    rw [hd3]
    rfl
  obtain ⟨c1, c2⟩ := CreateEntryElement_facts d3 0 0 (name d3.next_ptr)
  have hmb3 := a4 _ hmb
  have hmbf := ptr_facts_of_mem hchild hmb
  obtain ⟨d', hd', e1, e2, e3, e4, -, -⟩ := InsertEndChild_ok
    (CreateEntryElement d3 0 0 (name d3.next_ptr)).1 f.main_bin
    (f.xml_doc.next_ptr + 3)
    (CreateEntryElement d3 0 0 (name d3.next_ptr)).2
    (by rw [c1, a1]; exact fun h => hmbf.2 h.symm)
    (by rw [c1]; exact addressable_of_mem_ptrs hmb3)
    (by rw [CreateEntryElement_ptr, a2]; omega)
    (by rw [c1, CreateEntryElement_ptr, a2, a1]; exact a3)
    (by rw [c1, CreateEntryElement_ptr, a2, a1]; omega)
    (by rw [CreateEntryElement_ptr, a2]; omega)
  rw [c1] at e1 e3 e4
  rw [c2, a2] at e2
  rw [a1] at e1 e4
  refine ⟨{ f with
      xml_doc := d'
      last_added_root_element := if f.last_added_root_element = f.main_producer
        then chain.ptr else f.last_added_root_element
      chain_count := f.chain_count + 1 }, ?_, ?_⟩
  · rw [htop]
    simp only [Option.some_bind]
    unfold AddEntryElement
    simp only [hd', Option.map, Option.some_bind]
  · refine ⟨⟨?_, ?_, ?_, ?_, ?_, tt, htt, ?_⟩, ?_⟩
    · show d'.root.ptr < d'.next_ptr
      rw [e1, e2]; omega
    · show ∀ c ∈ d'.root.children, ChildOK d'.next_ptr d'.root.ptr c
      rw [e1, e2]; exact e4
    · exact mem_ptrs_of_grew e3 (a4 _ hmp)
    · show (if f.last_added_root_element = f.main_producer then chain.ptr
        else f.last_added_root_element) ∈ _
      split
      · exact mem_ptrs_of_grew e3 a5
      · exact mem_ptrs_of_grew e3 (a4 _ hlast)
    · exact mem_ptrs_of_grew e3 hmb3
    · exact mem_ptrs_of_grew e3 (a4 _ httm)
    · intro k hk
      refine HasPlaylist_of_grew (d := d3) (e := d') e3 (a7 _ _ ?_ ?_)
      · have := htracks k hk
        unfold HasPlaylist at this ⊢
        rw [FindPlaylistElement_eq] at this ⊢
        rw [g1]
        exact this
      · rw [g4]
        rfl

/-- On a file in order, `AddClipToBin` returns, and the file stays in order. -/
theorem AddClipToBin_ok [Stale] (f : KdenliveFile) (path : String) (hdoc : DocOK f) :
    ∃ f' id, f.AddClipToBin path = some (f', id) ∧ DocOK f' := by
  obtain ⟨g1, g2, g3, g4, g5⟩ :=
    CreateChainElement_facts f.xml_doc
      (Stale.read f.xml_doc.next_ptr "id" ("chain" ++ toString f.chain_count)) path
  obtain ⟨f', h, hok⟩ := AddClipToBin_core f _ _
    (fun p => Stale.read p "producer" ("chain" ++ toString f.chain_count)) g1 g2 g3 g4 g5 hdoc
  exact ⟨f', f.chain_count, h, hok⟩

theorem HasPlaylist.fewer {d : XMLDocument} {id : String} {n m : Nat} (h : HasPlaylist d id n)
    (hm : m ≤ n) : HasPlaylist d id m := by
  obtain ⟨pl, hpl, hn⟩ := h
  exact ⟨pl, hpl, le_trans hm hn⟩

/-- On a file in order, `AddElementToRoot` links a new element without `entry` or `blank`
children in behind the cursor. -/
theorem AddElementToRoot_ok (f : KdenliveFile) (d1 : XMLDocument) (x : XMLElement)
    (g1 : d1.root = f.xml_doc.root) (g2 : d1.next_ptr = f.xml_doc.next_ptr + 1)
    (g3 : x.ptr = f.xml_doc.next_ptr) (g4 : ∀ gc ∈ x.children, gc.isTimed = false)
    (hanch : AnchorsOK f) :
    ∃ d', AddElementToRoot f d1 x =
        some { f with xml_doc := d', last_added_root_element := x.ptr } ∧
      AnchorsOK { f with xml_doc := d', last_added_root_element := x.ptr } ∧
      d'.root.ptr = f.xml_doc.root.ptr ∧ d'.next_ptr = f.xml_doc.next_ptr + 1 ∧
      (∀ a ∈ f.xml_doc.root.children.map XMLElement.ptr,
        a ∈ d'.root.children.map XMLElement.ptr) ∧
      (∀ id n, HasPlaylist f.xml_doc id n →
        (x.name == "playlist" && x.AttributeIs "id" (some id)) = false →
        HasPlaylist d' id n) ∧
      (∀ id, (x.name == "playlist" && x.AttributeIs "id" (some id)) = true →
        HasPlaylist d' id 0) := by
  obtain ⟨hroot, hchild, hmp, hlast, hmb, tt, htt, httm⟩ := hanch
  obtain ⟨d', hd', a1, a2, a3, a4, a5, -, a7, a8⟩ := rootInsert_ok d1
    f.last_added_root_element (f.xml_doc.next_ptr + 1) x (by rw [g1]; exact hlast)
    (by rw [g1]; exact fun c hc => (hchild c hc).widen (Nat.le_succ _))
    (by
      rw [g1]
      refine ⟨by rw [g3]; omega, by rw [g3]; exact Nat.ne_of_gt hroot, ?_⟩
      intro gc hgc ht
      rw [g4 gc hgc] at ht
      exact absurd ht (by decide))
  rw [g1] at a1 a3 a4
  rw [g2] at a2
  refine ⟨d', ?_, ⟨?_, ?_, a4 _ hmp, a5, a4 _ hmb, tt, htt, a4 _ httm⟩, a1, a2, a4, ?_, a8⟩
  · unfold AddElementToRoot
    rw [hd']
    rfl
  · show d'.root.ptr < d'.next_ptr
    rw [a1, a2]; omega
  · show ∀ c ∈ d'.root.children, ChildOK d'.next_ptr d'.root.ptr c
    rw [a1, a2]; exact a3
  · intro id n h hf
    refine a7 id n ?_ hf
    unfold HasPlaylist at h ⊢
    rw [FindPlaylistElement_eq] at h ⊢
    rw [g1]
    exact h

theorem CreateTrackElement_facts (d : XMLDocument) (s : String) :
    (CreateTrackElement d s).1.root = d.root ∧
      (CreateTrackElement d s).1.next_ptr = d.next_ptr + 1 ∧
      (CreateTrackElement d s).2.ptr = d.next_ptr :=
  ⟨rfl, rfl, rfl⟩

/-- A new `track` node is appended to a node of a document in order. -/
theorem AddTrackElement_ok (d : XMLDocument) (parent : Nat) (s : String)
    (hroot : d.root.ptr < d.next_ptr)
    (hok : ∀ c ∈ d.root.children, ChildOK d.next_ptr d.root.ptr c)
    (haddr : Addressable parent d.root.children) (hp : parent < d.next_ptr)
    (hpr : parent ≠ d.root.ptr) :
    ∃ d' t, AddTrackElement d parent s = some (d', t) ∧ t.ptr = d.next_ptr ∧
      d'.root.ptr = d.root.ptr ∧ d'.next_ptr = d.next_ptr + 1 ∧
      List.Forall₂ (Grew 0 0) d.root.children d'.root.children ∧
      (∀ c' ∈ d'.root.children, ChildOK d'.next_ptr d'.root.ptr c') ∧
      (∀ a, a < d.next_ptr → Addressable a d.root.children →
        Addressable a d'.root.children) ∧
      (parent ∈ d.root.children.map XMLElement.ptr → Addressable t.ptr d'.root.children) := by
  obtain ⟨c1, c2, c3⟩ := CreateTrackElement_facts d s
  obtain ⟨d', hd', e1, e2, e3, e4, e5, e6⟩ := InsertEndChild_ok (CreateTrackElement d s).1
    parent (d.next_ptr + 1) (CreateTrackElement d s).2
    (by rw [c1]; exact fun h => hpr h.symm) (by rw [c1]; exact haddr)
    (by rw [c3]; exact Nat.ne_of_lt hp) (by rw [c1, c3]; exact hok)
    (by rw [c1, c3]; exact Nat.ne_of_gt hroot) (by rw [c3]; omega)
  rw [c1] at e1 e3 e4 e5 e6
  rw [c2] at e2
  rw [c3] at e5
  refine ⟨d', (CreateTrackElement d s).2, ?_, c3, e1, e2, e3, ?_, ?_, e6⟩
  · unfold AddTrackElement
    simp only [hd', Option.map]
  · rw [e1, e2]; exact e4
  · exact fun a ha h => e5 a (Nat.ne_of_lt ha) h

theorem ptr_ne_of_grew {q q' n : Nat} {cs cs' : List XMLElement}
    (h : List.Forall₂ (Grew q' n) cs cs') (hne : ∀ c ∈ cs, c.ptr ≠ q) :
    ∀ c' ∈ cs', c'.ptr ≠ q := by
  intro c' hc' heq
  have hmem : q ∈ cs'.map XMLElement.ptr := heq ▸ List.mem_map_of_mem _ hc'
  rw [forall₂_grew_ptrs h] at hmem
  obtain ⟨c, hc, hcq⟩ := List.mem_map.1 hmem
  exact hne c hc hcq

theorem CreatePropertyElement_facts (d : XMLDocument) (k v : String) :
    (CreatePropertyElement d k v).1.root = d.root ∧
      (CreatePropertyElement d k v).1.next_ptr = d.next_ptr + 1 ∧
      (CreatePropertyElement d k v).2.ptr = d.next_ptr ∧
      (CreatePropertyElement d k v).2.isTimed = false :=
  ⟨rfl, rfl, rfl, by
    show (("property" == "entry") || ("property" == "blank")) = false
    decide⟩

/-- The two `hide` attributes on the new `track` nodes. -/
theorem hide_ok (d : XMLDocument) (v : String) (t1 t2 : Nat)
    (hok : ∀ c ∈ d.root.children, ChildOK d.next_ptr d.root.ptr c)
    (ht1 : Addressable t1 d.root.children) (ht2 : Addressable t2 d.root.children)
    (hn1 : ∀ c ∈ d.root.children, c.ptr ≠ t1) (hn2 : ∀ c ∈ d.root.children, c.ptr ≠ t2)
    (hr1 : t1 ≠ d.root.ptr) (hr2 : t2 ≠ d.root.ptr) :
    ∃ dA d', d.modify t1 (fun x => x.SetAttribute "hide" v) = some dA ∧
      dA.modify t2 (fun x => x.SetAttribute "hide" v) = some d' ∧
      d'.root.ptr = d.root.ptr ∧ d'.next_ptr = d.next_ptr ∧
      List.Forall₂ (Grew 0 0) d.root.children d'.root.children ∧
      (∀ c' ∈ d'.root.children, ChildOK d.next_ptr d.root.ptr c') := by
  obtain ⟨dA, hA, a1, a2, a3, a4, a5⟩ := SetAttribute_ok d t1 d.next_ptr "hide" v
    (fun h => hr1 h.symm) ht1 hn1 hok
  obtain ⟨dB, hB, b1, b2, b3, b4, -⟩ := SetAttribute_ok dA t2 d.next_ptr "hide" v
    (by rw [a1]; exact fun h => hr2 h.symm) (a5 _ ht2) (ptr_ne_of_grew a3 hn2)
    (by rw [a1]; exact a4)
  rw [a1] at b1 b4
  rw [a2] at b2
  exact ⟨dA, dB, hA, hB, b1, b2, forall₂_grew_trans a3 b3, b4⟩

/-- The node `audio_property` is made the first child of three children of the root in
turn. -/
theorem audio_property_ok (d : XMLDocument) (p1 p2 tr : Nat)
    (hroot : d.root.ptr < d.next_ptr)
    (hok : ∀ c ∈ d.root.children, ChildOK d.next_ptr d.root.ptr c)
    (h1 : p1 ∈ d.root.children.map XMLElement.ptr)
    (h2 : p2 ∈ d.root.children.map XMLElement.ptr)
    (h3 : tr ∈ d.root.children.map XMLElement.ptr) :
    ∃ d', (((CreatePropertyElement d "kdenlive:audio_track" "1").1.InsertFirstChild p1
          (CreatePropertyElement d "kdenlive:audio_track" "1").2).bind (fun d1 =>
        (d1.InsertFirstChild p2 (CreatePropertyElement d "kdenlive:audio_track" "1").2).bind
          (fun d2 =>
            d2.InsertFirstChild tr (CreatePropertyElement d "kdenlive:audio_track" "1").2))) =
        some d' ∧
      d'.root.ptr = d.root.ptr ∧ d'.next_ptr = d.next_ptr + 1 ∧
      List.Forall₂ (Grew 0 0) d.root.children d'.root.children ∧
      (∀ c' ∈ d'.root.children, ChildOK d.next_ptr d.root.ptr c') := by
  obtain ⟨c1, c2, c3, c4⟩ := CreatePropertyElement_facts d "kdenlive:audio_track" "1"
  generalize (CreatePropertyElement d "kdenlive:audio_track" "1") = cr at c1 c2 c3 c4 ⊢
  obtain ⟨dP, ap⟩ := cr
  simp only [] at c1 c2 c3 c4 ⊢
  have f1 := ptr_facts_of_mem hok h1
  have f2 := ptr_facts_of_mem hok h2
  have f3 := ptr_facts_of_mem hok h3
  obtain ⟨dA, hA, a1, a2, a3, a4, -⟩ := InsertFirstChild_ok dP p1 d.next_ptr ap
    (by rw [c1]; exact fun h => f1.2 h.symm) (by rw [c1]; exact addressable_of_mem_ptrs h1)
    (by rw [c3]; exact Nat.ne_of_lt f1.1) (by rw [c1, c3]; exact hok)
    (by rw [c1, c3]; exact Nat.ne_of_gt hroot) (by rw [c3]) c4
  rw [c1] at a1 a3 a4
  obtain ⟨dB, hB, b1, b2, b3, b4, -⟩ := InsertFirstChild_ok dA p2 d.next_ptr ap
    (by rw [a1]; exact fun h => f2.2 h.symm)
    (addressable_of_mem_ptrs (mem_ptrs_of_grew a3 h2))
    (by rw [c3]; exact Nat.ne_of_lt f2.1) (by rw [a1, c3]; exact a4)
    (by rw [a1, c3]; exact Nat.ne_of_gt hroot) (by rw [c3]) c4
  rw [a1] at b1 b4
  have ab := forall₂_grew_trans a3 b3
  obtain ⟨dC, hC, e1, e2, e3, e4, -⟩ := InsertFirstChild_ok dB tr d.next_ptr ap
    (by rw [b1]; exact fun h => f3.2 h.symm)
    (addressable_of_mem_ptrs (mem_ptrs_of_grew ab h3))
    (by rw [c3]; exact Nat.ne_of_lt f3.1) (by rw [b1, c3]; exact b4)
    (by rw [b1, c3]; exact Nat.ne_of_gt hroot) (by rw [c3]) c4
  rw [b1] at e1 e4
  refine ⟨dC, ?_, e1, by rw [e2, b2, a2, c2], forall₂_grew_trans ab e3, e4⟩
  rw [hA, Option.some_bind, hB, Option.some_bind, hC]

/-- The properties that depend on the track type are written. -/
theorem setTrackTypeProperties_ok (d : XMLDocument) (ty : TrackType) (p1 p2 tr t1 t2 : Nat)
    (hroot : d.root.ptr < d.next_ptr)
    (hok : ∀ c ∈ d.root.children, ChildOK d.next_ptr d.root.ptr c)
    (h1 : p1 ∈ d.root.children.map XMLElement.ptr)
    (h2 : p2 ∈ d.root.children.map XMLElement.ptr)
    (h3 : tr ∈ d.root.children.map XMLElement.ptr)
    (ht1 : Addressable t1 d.root.children) (ht2 : Addressable t2 d.root.children)
    (hn1 : ∀ c ∈ d.root.children, c.ptr ≠ t1) (hn2 : ∀ c ∈ d.root.children, c.ptr ≠ t2)
    (hr1 : t1 ≠ d.root.ptr) (hr2 : t2 ≠ d.root.ptr) :
    ∃ d', setTrackTypeProperties d ty p1 p2 tr t1 t2 = some d' ∧
      d'.root.ptr = d.root.ptr ∧ d.next_ptr ≤ d'.next_ptr ∧
      List.Forall₂ (Grew 0 0) d.root.children d'.root.children ∧
      (∀ c' ∈ d'.root.children, ChildOK d'.next_ptr d'.root.ptr c') := by
  cases ty with
  | VIDEO =>
    obtain ⟨dA, d', hA, hd', e1, e2, e3, e4⟩ :=
      hide_ok d "audio" t1 t2 hok ht1 ht2 hn1 hn2 hr1 hr2
    refine ⟨d', ?_, e1, by rw [e2], e3, by rw [e1, e2]; exact e4⟩
    show (d.modify t1 (fun x => x.SetAttribute "hide" "audio")).bind
      (fun d => d.modify t2 (fun x => x.SetAttribute "hide" "audio")) = some d'
    rw [hA]
    exact hd'
  | AUDIO =>
    obtain ⟨dA, dH, hA, hH, e1, e2, e3, e4⟩ :=
      hide_ok d "video" t1 t2 hok ht1 ht2 hn1 hn2 hr1 hr2
    obtain ⟨d', hd', a1, a2, a3, a4⟩ := audio_property_ok dH p1 p2 tr
      (by rw [e1, e2]; exact hroot) (by rw [e1, e2]; exact e4) (mem_ptrs_of_grew e3 h1)
      (mem_ptrs_of_grew e3 h2) (mem_ptrs_of_grew e3 h3)
    rw [e1] at a1 a4
    rw [e2] at a2 a4
    refine ⟨d', ?_, a1, by rw [a2]; omega, forall₂_grew_trans e3 a3, ?_⟩
    · show (d.modify t1 (fun x => x.SetAttribute "hide" "video")).bind
          (fun d => (d.modify t2 (fun x => x.SetAttribute "hide" "video")).bind _) = some d'
      rw [hA, Option.some_bind, hH]
      exact hd'
    · rw [a1, a2]
      exact fun c hc => (a4 c hc).widen (Nat.le_succ _)

theorem playlist_test_playlist (d : XMLDocument) (s id : String) :
    ((CreatePlaylistElement d s).2.name == "playlist" &&
      (CreatePlaylistElement d s).2.AttributeIs "id" (some id)) = (s == id) := by
  show (("playlist" == "playlist") &&
    (XMLElement.node d.next_ptr "playlist" [("id", s)] none []).AttributeIs "id" (some id)) = _
  simp [XMLElement.AttributeIs, XMLElement.Attribute, XMLElement.attrs]

theorem playlist_test_tractor (d : XMLDocument) (s id : String) :
    ((CreateTractorElement d s).2.name == "playlist" &&
      (CreateTractorElement d s).2.AttributeIs "id" (some id)) = false := by
  show (("tractor" == "playlist") && _) = false
  have : ("tractor" == "playlist") = false := by decide
  rw [this]
  rfl

theorem CreatePlaylistElement_facts (d : XMLDocument) (s : String) :
    (CreatePlaylistElement d s).1.root = d.root ∧
      (CreatePlaylistElement d s).1.next_ptr = d.next_ptr + 1 ∧
      (CreatePlaylistElement d s).2.ptr = d.next_ptr ∧
      ∀ gc ∈ (CreatePlaylistElement d s).2.children, gc.isTimed = false :=
  ⟨rfl, rfl, rfl, fun _ h => absurd h (List.not_mem_nil _)⟩

theorem CreateTractorElement_facts (d : XMLDocument) (s : String) :
    (CreateTractorElement d s).1.root = d.root ∧
      (CreateTractorElement d s).1.next_ptr = d.next_ptr + 1 ∧
      (CreateTractorElement d s).2.ptr = d.next_ptr ∧
      ∀ gc ∈ (CreateTractorElement d s).2.children, gc.isTimed = false :=
  ⟨rfl, rfl, rfl, fun _ h => absurd h (List.not_mem_nil _)⟩

theorem playlist_id_ne_of_lt {k tc : Nat} (h : k < tc) :
    ("playlist" ++ toString (tc * 2) == "playlist" ++ toString (k * 2)) = false ∧
      ("playlist" ++ toString (tc * 2 + 1) == "playlist" ++ toString (k * 2)) = false := by
  constructor
  · rw [beq_eq_false_iff_ne]
    intro heq
    have := append_toString_injective _ heq
    omega
  · rw [beq_eq_false_iff_ne]
    intro heq
    have := append_toString_injective _ heq
    omega

theorem playlist_id_ne_succ (tc : Nat) :
    ("playlist" ++ toString (tc * 2 + 1) == "playlist" ++ toString (tc * 2)) = false := by
  rw [beq_eq_false_iff_ne]
  intro heq
  have := append_toString_injective _ heq
  omega

/-- On a file in order, `AddTrack` returns the next track id, and the file stays in order. -/
theorem AddTrack_ok (f : KdenliveFile) (ty : TrackType) (hdoc : DocOK f)
    (hcons : Consistent f) :
    ∃ f', f.AddTrack ty = some (f', f.track_count) ∧ DocOK f' := by
  obtain ⟨hanch, htracks⟩ := hdoc
  obtain ⟨tt, htt, httm⟩ := hanch.2.2.2.2.2
  have httf := ptr_facts_of_mem hanch.2.1 httm
  -- the first playlist
  obtain ⟨p1a, p1b, p1c, p1d⟩ :=
    CreatePlaylistElement_facts f.xml_doc ("playlist" ++ toString (f.track_count * 2))
  obtain ⟨dA, hA, anchA, rA, nA, ptrsA, keepA, newA⟩ := AddElementToRoot_ok f _ _ p1a p1b p1c
    p1d hanch
  -- the second playlist
  obtain ⟨p2a, p2b, p2c, p2d⟩ :=
    CreatePlaylistElement_facts dA ("playlist" ++ toString (f.track_count * 2 + 1))
  obtain ⟨dB, hB, anchB, rB, nB, ptrsB, keepB, -⟩ := AddElementToRoot_ok
    { f with xml_doc := dA, last_added_root_element :=
        (CreatePlaylistElement f.xml_doc ("playlist" ++ toString (f.track_count * 2))).2.ptr }
    _ _ p2a p2b p2c p2d anchA
  -- the tractor
  obtain ⟨p3a, p3b, p3c, p3d⟩ :=
    CreateTractorElement_facts dB ("tractor" ++ toString f.track_count)
  obtain ⟨dC, hC, anchC, rC, nC, ptrsC, keepC, -⟩ := AddElementToRoot_ok
    { f with xml_doc := dB, last_added_root_element :=
        (CreatePlaylistElement dA ("playlist" ++ toString (f.track_count * 2 + 1))).2.ptr }
    _ _ p3a p3b p3c p3d anchB
  have hp1A : f.xml_doc.next_ptr ∈ dA.root.children.map XMLElement.ptr := anchA.2.2.2.1
  have hp2B : dA.next_ptr ∈ dB.root.children.map XMLElement.ptr := anchB.2.2.2.1
  have htrC : dB.next_ptr ∈ dC.root.children.map XMLElement.ptr := anchC.2.2.2.1
  have hp1C := ptrsC _ (ptrsB _ hp1A)
  have hp2C := ptrsC _ hp2B
  have hrootC : dC.root.ptr < dC.next_ptr := anchC.1
  have hokC : ∀ c ∈ dC.root.children, ChildOK dC.next_ptr dC.root.ptr c := anchC.2.1
  have htrf := ptr_facts_of_mem hokC htrC
  -- the two tracks of the tractor
  obtain ⟨dD, t1, hD, t1p, rD, nD, gD, okD, addrD, newD⟩ := AddTrackElement_ok dC dB.next_ptr
    ("playlist" ++ toString (f.track_count * 2)) hrootC hokC (addressable_of_mem_ptrs htrC)
    htrf.1 htrf.2
  have htrD := mem_ptrs_of_grew gD htrC
  obtain ⟨dE, t2, hE, t2p, rE, nE, gE, okE, addrE, newE⟩ := AddTrackElement_ok dD dB.next_ptr
    ("playlist" ++ toString (f.track_count * 2 + 1)) (by rw [rD, nD]; omega) okD
    (addressable_of_mem_ptrs htrD) (by rw [nD]; omega) (by rw [rD]; exact htrf.2)
  have gCE := forall₂_grew_trans gD gE
  -- the properties of the track type
  obtain ⟨dF, hF, rF, nF, gF, okF⟩ := setTrackTypeProperties_ok dE ty f.xml_doc.next_ptr
    dA.next_ptr dB.next_ptr t1.ptr t2.ptr (by rw [rE, nE, rD, nD]; omega) okE
    (mem_ptrs_of_grew gCE hp1C) (mem_ptrs_of_grew gCE hp2C) (mem_ptrs_of_grew gCE htrC)
    (addrE _ (by rw [t1p, nD]; omega) (newD htrC)) (newE htrD)
    (ptr_ne_of_grew gCE (fun c hc => by rw [t1p]; exact Nat.ne_of_lt (hokC c hc).1))
    (ptr_ne_of_grew gE (fun c hc => by rw [t2p]; exact Nat.ne_of_lt (okD c hc).1))
    (by rw [t1p, rE, rD]; exact Nat.ne_of_gt hrootC)
    (by rw [t2p, rE, nD, rD]; omega)
  have gCF := forall₂_grew_trans gCE gF
  have hrd : dF.root.ptr = f.xml_doc.root.ptr := by rw [rF, rE, rD, rC, rB, rA]
  have hnd : f.xml_doc.next_ptr ≤ dF.next_ptr := by
    rw [nE, nD, nC, nB, nA] at nF
    omega
  have httC := ptrsC _ (ptrsB _ (ptrsA _ httm))
  -- the track of the timeline tractor
  obtain ⟨dG, t3, hG, -, rG, nG, gG, okG, -, -⟩ := AddTrackElement_ok dF tt
    ("tractor" ++ toString f.track_count)
    (by rw [hrd]; exact lt_of_lt_of_le hanch.1 hnd) okF
    (addressable_of_mem_ptrs (mem_ptrs_of_grew gCF httC)) (lt_of_lt_of_le httf.1 hnd)
    (by rw [hrd]; exact httf.2)
  have gCG := forall₂_grew_trans gCF gG
  refine ⟨{ f with
      xml_doc := dG
      last_added_root_element := dB.next_ptr
      track_count := f.track_count + 1
      track_lengths := f.track_lengths ++ [0]
      track_entries := f.track_entries ++ [[]] }, ?_, ⟨?_, ?_, ?_, ?_, ?_, tt, htt, ?_⟩, ?_⟩
  · unfold AddTrack
    simp only [bind, pure, Option.bind, hA, hB, hC]
    rw [p3c, hD]
    simp only [hE, hF, htt, hG]
    rw [p1c, p2c] at *
    simp only [hF, hG]
  · show dG.root.ptr < dG.next_ptr
    rw [rG, nG, hrd]
    exact lt_of_lt_of_le hanch.1 (Nat.le_succ_of_le hnd)
  · exact okG
  · exact mem_ptrs_of_grew gCG (ptrsC _ (ptrsB _ (ptrsA _ hanch.2.2.1)))
  · exact mem_ptrs_of_grew gCG htrC
  · exact mem_ptrs_of_grew gCG (ptrsC _ (ptrsB _ (ptrsA _ hanch.2.2.2.2.1)))
  · exact mem_ptrs_of_grew gCG httC
  · intro k hk
    show HasPlaylist dG _ (((f.track_entries ++ [[]])[k]?).getD []).length
    refine HasPlaylist_of_grew (d := dC) (e := dG) gCG ?_
    have hk' : k < f.track_count ∨ k = f.track_count := Nat.lt_succ_iff_lt_or_eq.1 hk
    rcases hk' with hk' | rfl
    · have hne := playlist_id_ne_of_lt hk'
      refine keepC _ _ (keepB _ _ (keepA _ _ ?_ ?_) ?_) ?_
      · rw [List.getElem?_append_left (by rw [hcons.1]; exact hk')]
        exact htracks k hk'
      · rw [playlist_test_playlist]; exact hne.1
      · rw [playlist_test_playlist]; exact hne.2
      · exact playlist_test_tractor _ _ _
    · have hlast : (f.track_entries ++ [[]])[f.track_count]? = some [] := by
        rw [← hcons.1, List.getElem?_append_right (le_refl _)]
        simp
      rw [hlast]
      refine keepC _ _ (keepB _ _ (newA _ ?_) ?_) ?_
      · rw [playlist_test_playlist]; exact beq_self_eq_true _
      · rw [playlist_test_playlist]; exact playlist_id_ne_succ _
      · exact playlist_test_tractor _ _ _

theorem frame_of_set {ls : List ℚ} {ess : List (List TrackEntry)} {id j : Nat}
    (x : ℚ) (es : List TrackEntry) (hj : j ≠ id) :
    (ls.set id x)[j]? = ls[j]? ∧ (ess.set id es)[j]? = ess[j]? :=
  ⟨List.getElem?_set_ne (Ne.symm hj), List.getElem?_set_ne (Ne.symm hj)⟩

/-- In every file reached from a freshly constructed one by
calls of `AddTrack`, `AddBlankToTrack` and `AddClipToTrack`, `GetTrackLength(id)` is the
`float` sum of the lengths of the entries recorded for track `id` (and both are absent for an
id that is no track).  A further `AddTrack` returns a track of length 0 without entries and changes no
other track; a further `AddBlankToTrack` or `AddClipToTrack` on track `id` leaves the length
and the entries of every other track unchanged. -/
theorem runCalls_invariant [Stale] {template : XMLElement} {f0 : KdenliveFile}
    {calls : List FileCall} {f : KdenliveFile}
    (h0 : KdenliveFile.new template = some f0) (h : runCalls calls f0 = some f) :
    (∀ id, f.GetTrackLength id = (f.track_entries[id]?).map entriesLength) ∧
    (∀ ty f' id, f.AddTrack ty = some (f', id) →
      f'.GetTrackLength id = some 0 ∧ f'.track_entries[id]? = some [] ∧
      ∀ j, j ≠ id → f'.GetTrackLength j = f.GetTrackLength j ∧
        f'.track_entries[j]? = f.track_entries[j]?) ∧
    (∀ id len f' e, f.AddBlankToTrack id len = some (f', e) →
      ∀ j, j ≠ id → f'.GetTrackLength j = f.GetTrackLength j ∧
        f'.track_entries[j]? = f.track_entries[j]?) ∧
    (∀ id cid len off f' e, f.AddClipToTrack id cid len off = some (f', e) →
      ∀ j, j ≠ id → f'.GetTrackLength j = f.GetTrackLength j ∧
        f'.track_entries[j]? = f.track_entries[j]?) := by
  have hc : Consistent f := runCalls_consistent calls f0 f (new_consistent h0) h
  refine ⟨hc.2, ?_, ?_, ?_⟩
  · intro ty f' id hadd
    obtain ⟨rfl, -, h2, h3, -, -⟩ := AddTrack_book hadd
    have hl := hc.lengths_length
    have he := hc.1
    simp only [GetTrackLength, h2, h3]
    refine ⟨?_, ?_, fun j hj => ?_⟩
    · rw [List.getElem?_append_right (by omega)]; simp [hl]
    · rw [List.getElem?_append_right (by omega)]; simp [he]
    · rcases Nat.lt_or_gt_of_ne hj with hlt | hgt
      · rw [List.getElem?_append_left (by omega), List.getElem?_append_left (by omega)]
        exact ⟨rfl, rfl⟩
      · rw [List.getElem?_eq_none (by simp; omega), List.getElem?_eq_none (by omega),
          List.getElem?_eq_none (l := f.track_entries ++ [[]]) (by simp; omega),
          List.getElem?_eq_none (l := f.track_entries) (by omega)]
        exact ⟨rfl, rfl⟩
  · intro id len f' e hadd j hj
    obtain ⟨L, es, -, -, h1, h2, -⟩ := AddBlankToTrack_book hadd
    simp only [GetTrackLength, h1, h2]
    exact frame_of_set _ _ hj
  · intro id cid len off f' e hadd j hj
    obtain ⟨L, es, -, -, h1, h2, -⟩ := AddClipToTrack_book hadd
    simp only [GetTrackLength, h1, h2]
    exact frame_of_set _ _ hj

theorem exists_of_bind_isSome {α β : Type} {o : Option α} {g : α → Option β}
    (h : (o.bind g).isSome = true) : ∃ a b, o = some a ∧ g a = some b := by
  cases o with
  | none => simp at h
  | some a =>
    obtain ⟨b, hb⟩ := Option.isSome_iff_exists.1 h
    exact ⟨a, b, rfl, hb⟩

/-- C4 as stated fails.  One clip of length 10 placed on the video channel at the `float`
nearest to 0.000995, which is 8546985 / 2^33, goes to a new track (of length 0):
`GenerateFile` records a Blank of that length in front of it, although t - L is not greater
than 0.001.  And after a clip of length 13421773 / 2^27 (the `float` nearest to 0.1) at 0, a
clip placed at 10066330 / 2^25 (the `float` nearest to 0.3) gets a Blank whose length is
the `float` 6710887 / 2^25 and not t - L = 26843547 / 2^27. -/
theorem blank_rule_counterexample :
    (IsF32 (8546985 / 8589934592) ∧
    (@generate Stale.intact minimalTemplate defaultFilePath
        (KdenliveProject.new.CreateClipOnVideoTrack (8546985 / 8589934592) "A" 10 0).1 []).map
        (fun g => g.kdenlive_file.track_entries) =
      some [[⟨EntryType.BLANK, 8546985 / 8589934592, 0⟩, ⟨EntryType.CLIP, 10, 0⟩]] ∧
    ¬ ((8546985 / 8589934592 : ℚ) - 0 > 0.001)) ∧
    (IsF32 (13421773 / 134217728) ∧ IsF32 (10066330 / 33554432) ∧
    (@generate Stale.intact minimalTemplate defaultFilePath
        (((KdenliveProject.new.CreateClipOnVideoTrack 0 "A" (13421773 / 134217728) 0).1
          ).CreateClipOnVideoTrack (10066330 / 33554432) "B" 10 0).1 []).map
        (fun g => g.kdenlive_file.track_entries) =
      some [[⟨EntryType.CLIP, 13421773 / 134217728, 0⟩,
        ⟨EntryType.BLANK, 6710887 / 33554432, 0⟩, ⟨EntryType.CLIP, 10, 0⟩]] ∧
    (10066330 / 33554432 : ℚ) - 13421773 / 134217728 = 26843547 / 134217728 ∧
    (6710887 / 33554432 : ℚ) ≠ 26843547 / 134217728) := by
  refine ⟨?_, ?_⟩
  · decide!
  · decide!

/-- When `ADD_CLIP` runs through and appends a placement `(t, clip)` to a track whose current
length is `L`, the entries recorded for that track grow by a Blank entry of length exactly
the `float` difference `t - L` followed by the clip entry if that difference exceeds the
literal 0.00099, and by the clip entry alone otherwise. -/
theorem ADD_CLIP_entries [Stale] {f : KdenliveFile} {names : List (String × Nat)}
    {id : Nat} {L t : ℚ} {clip : Clip} {f' : KdenliveFile}
    (hL : f.GetTrackLength id = some L) (h : ADD_CLIP f names id L t clip = some f') :
    ∃ es, f.track_entries[id]? = some es ∧
      f'.track_entries[id]? = some (es ++
        (if fsub t L > blankThreshold then [⟨EntryType.BLANK, fsub t L, 0⟩] else []) ++
        [⟨EntryType.CLIP, clip.length, clip.start_offset⟩]) ∧
      f'.GetTrackLength id =
        some (fadd (if fsub t L > blankThreshold then fadd L (fsub t L) else L)
          clip.length) := by
  obtain ⟨L0, es, cid, hL0, hes, -, he, hl, -, -⟩ := ADD_CLIP_book h
  refine ⟨es, hes, ?_, ?_⟩
  · rw [he]; exact getElem?_set_same _ _ _ _ hes
  · simp only [GetTrackLength] at hL ⊢
    rw [hL0] at hL
    cases hL
    rw [hl]; exact getElem?_set_same _ _ _ _ hL0

/-! ## The timeline loop on the entry lists of a channel -/

theorem foldl_addedEntries (L0 L t : ℚ) (clip : Clip) :
    (addedEntries L t clip).foldl (fun a e => fadd a e.length) L0 =
      fadd (if fsub t L > blankThreshold then fadd L0 (fsub t L) else L0) clip.length := by
  unfold addedEntries
  split <;> simp

theorem entriesLength_addedEntries (es : List TrackEntry) (L t : ℚ) (clip : Clip) :
    entriesLength (es ++ addedEntries L t clip) =
      fadd (if fsub t L > blankThreshold then fadd (entriesLength es) (fsub t L)
        else entriesLength es) clip.length := by
  rw [entriesLength_append, foldl_addedEntries]

theorem ADD_CLIP_effect [Stale] {f f' : KdenliveFile} {names : List (String × Nat)} {id : Nat}
    {L t : ℚ} {clip : Clip} (h : ADD_CLIP f names id L t clip = some f') :
    ∃ L0 es, f.track_lengths[id]? = some L0 ∧ f.track_entries[id]? = some es ∧
      f'.track_entries = f.track_entries.set id (es ++ addedEntries L t clip) ∧
      f'.track_lengths = f.track_lengths.set id
        ((addedEntries L t clip).foldl (fun a e => fadd a e.length) L0) ∧
      f'.track_count = f.track_count ∧ f'.chain_count = f.chain_count := by
  obtain ⟨L0, es, cid, hL0, hes, -, he, hl, hc, hch⟩ := ADD_CLIP_book h
  refine ⟨L0, es, hL0, hes, ?_, ?_, hc, hch⟩
  · rw [he, addedEntries, List.append_assoc]
  · rw [hl, foldl_addedEntries]

theorem ADD_CLIP_consistent [Stale] {f f' : KdenliveFile} {names : List (String × Nat)}
    {id : Nat} {L t : ℚ} {clip : Clip} (hc : Consistent f)
    (h : ADD_CLIP f names id L t clip = some f') : Consistent f' := by
  obtain ⟨L0, es, hL0, hes, he, hl, hcount, -⟩ := ADD_CLIP_effect h
  obtain ⟨hc1, hc2⟩ := hc
  refine ⟨by rw [he, hcount, List.length_set, hc1], fun j => ?_⟩
  simp only [GetTrackLength, he, hl] at hc2 ⊢
  exact set_consistent _ hc2 hL0 hes j

theorem channelEntries_congr {f f' : KdenliveFile} {ts : List Nat}
    (h : ∀ id ∈ ts, f'.track_entries[id]? = f.track_entries[id]?) :
    channelEntries f' ts = channelEntries f ts := by
  unfold channelEntries
  exact List.map_congr_left (fun id hid => by rw [h id hid])

theorem scanTracks_refines [Stale] {f : KdenliveFile} {names : List (String × Nat)} {t : ℚ}
    {clip : Clip} (hc : Consistent f) :
    ∀ (ts : List Nat) (r : Option KdenliveFile), ts.Nodup →
      scanTracks f names t clip ts = some r →
      (r = none ∧ packScan t clip (channelEntries f ts) = none) ∨
      (∃ f', r = some f' ∧
        packScan t clip (channelEntries f ts) = some (channelEntries f' ts) ∧
        Consistent f' ∧ f'.track_count = f.track_count ∧ f'.chain_count = f.chain_count ∧
        ∀ id, id ∉ ts → f'.track_entries[id]? = f.track_entries[id]?) := by
  intro ts
  induction ts with
  | nil =>
    intro r _ h
    simp only [scanTracks, Option.some.injEq] at h
    exact Or.inl ⟨h.symm, rfl⟩
  | cons id rest ih =>
    intro r hnd h
    rw [List.nodup_cons] at hnd
    unfold scanTracks at h
    cases hL : f.GetTrackLength id with
    | none => rw [hL] at h; cases h
    | some L =>
      rw [hL] at h
      simp only at h
      have hLe : f.track_entries[id]? = some ((f.track_entries[id]?).getD []) ∧
          L = entriesLength ((f.track_entries[id]?).getD []) := by
        have := hc.2 id
        rw [hL] at this
        cases he : f.track_entries[id]? with
        | none => rw [he] at this; cases this
        | some es =>
          rw [he] at this
          simp only [Option.map_some', Option.some.injEq] at this
          exact ⟨rfl, this⟩
      by_cases hfit : L ≤ t
      · rw [if_pos hfit, Option.map_eq_some'] at h
        obtain ⟨f', hadd, rfl⟩ := h
        obtain ⟨L0, es, hL0, hes, he, hl, hcount, hch⟩ := ADD_CLIP_effect hadd
        rw [hLe.1] at hes
        cases hes
        refine Or.inr ⟨f', rfl, ?_, ADD_CLIP_consistent hc hadd, hcount, hch, ?_⟩
        · have hrest : channelEntries f' rest = channelEntries f rest :=
            channelEntries_congr (fun j hj => by
              rw [he]
              exact List.getElem?_set_ne (fun hij : id = j => hnd.1 (hij ▸ hj)))
          simp only [channelEntries, List.map_cons, packScan]
          rw [← hLe.2, if_pos hfit]
          simp only [channelEntries] at hrest
          rw [hrest, he, getElem?_set_same _ _ _ _ hLe.1]
          rfl
        · intro j hj
          rw [he]
          exact List.getElem?_set_ne (fun hij : id = j => hj (hij ▸ List.mem_cons_self _ _))
      · rw [if_neg hfit] at h
        rcases ih r hnd.2 h with ⟨rfl, hp⟩ | ⟨f', rfl, hp, hc', hcount, hch, hframe⟩
        · refine Or.inl ⟨rfl, ?_⟩
          simp only [channelEntries, List.map_cons, packScan]
          rw [← hLe.2, if_neg hfit]
          simp only [channelEntries] at hp
          rw [hp]; rfl
        · refine Or.inr ⟨f', rfl, ?_, hc', hcount, hch, ?_⟩
          · simp only [channelEntries, List.map_cons, packScan]
            rw [← hLe.2, if_neg hfit]
            simp only [channelEntries] at hp
            rw [hp, hframe id hnd.1]; rfl
          · intro j hj
            exact hframe j (fun hjr => hj (List.mem_cons_of_mem _ hjr))

theorem placeClip_cases [Stale] {ty : TrackType} {names : List (String × Nat)} {clips : List Clip}
    {f : KdenliveFile} {tracks : List Nat} {t : ℚ} {c : Nat}
    {f' : KdenliveFile} {tracks' : List Nat}
    (h : placeClip ty names clips (f, tracks) (t, c) = some (f', tracks')) :
    ∃ clip, clips[c]? = some clip ∧
      ((scanTracks f names t clip tracks = some (some f') ∧ tracks' = tracks) ∨
       (scanTracks f names t clip tracks = some none ∧
         ∃ f1 id, f.AddTrack ty = some (f1, id) ∧ ADD_CLIP f1 names id 0 t clip = some f' ∧
           tracks' = tracks ++ [id])) := by
  unfold placeClip at h
  simp only [bind, Option.bind_eq_some, pure] at h
  obtain ⟨clip, hclip, r, hr, h⟩ := h
  refine ⟨clip, hclip, ?_⟩
  cases r with
  | some kf =>
    simp only [Option.some.injEq, Prod.mk.injEq] at h
    exact Or.inl ⟨by rw [hr, h.1], h.2.symm⟩
  | none =>
    simp only [Option.bind_eq_some, Option.some.injEq, Prod.mk.injEq] at h
    obtain ⟨⟨f1, id⟩, h1, f2, h2, rfl, rfl⟩ := h
    exact Or.inr ⟨hr, f1, id, h1, h2, rfl⟩

theorem placeClip_refines [Stale] {b : Nat} {ty : TrackType} {names : List (String × Nat)}
    {clips : List Clip} {f : KdenliveFile} {tracks : List Nat} {t : ℚ} {c : Nat}
    {clip : Clip} {f' : KdenliveFile} {tracks' : List Nat}
    (hok : ChannelOK b f tracks) (hb : b ≤ f.track_count) (hclip : clips[c]? = some clip)
    (h : placeClip ty names clips (f, tracks) (t, c) = some (f', tracks')) :
    ChannelOK b f' tracks' ∧
      channelEntries f' tracks' = packStep (channelEntries f tracks) (t, clip) ∧
      f'.chain_count = f.chain_count ∧
      (∀ id, id < f.track_count → id ∉ tracks →
        f'.track_entries[id]? = f.track_entries[id]?) ∧
      ((tracks' = tracks ∧ f'.track_count = f.track_count) ∨
        (tracks' = tracks ++ [f.track_count] ∧ f'.track_count = f.track_count + 1)) := by
  obtain ⟨hc, hnd, hids⟩ := hok
  obtain ⟨clip', hclip', hcase⟩ := placeClip_cases h
  rw [hclip] at hclip'
  cases hclip'
  rcases hcase with ⟨hscan, htr⟩ | ⟨hscan, f1, id, hadd, hclipadd, rfl⟩
  · rw [htr]
    rcases scanTracks_refines hc tracks _ hnd hscan with ⟨hr, -⟩ | ⟨f2, hr, hp, hc', hcount, hch, hfr⟩
    · cases hr
    · cases hr
      refine ⟨⟨hc', hnd, fun id hid => ?_⟩, ?_, hch, fun id _ hid => hfr id hid,
        Or.inl ⟨rfl, hcount⟩⟩
      · rw [hcount]; exact hids id hid
      · simp only [packStep, hp, Option.getD_some]
  · rcases scanTracks_refines hc tracks _ hnd hscan with ⟨-, hp⟩ | ⟨f2, hr, -⟩
    swap
    · cases hr
    obtain ⟨rfl, hcount1, hl1, he1, hch1, -⟩ := AddTrack_book hadd
    have hc1 : Consistent f1 := AddTrack_consistent hc hadd
    obtain ⟨L0, es, hL0, hes, he, hl, hcount, hch⟩ := ADD_CLIP_effect hclipadd
    have hes0 : es = [] := by
      rw [he1, List.getElem?_append_right (by rw [hc.1]), hc.1] at hes
      simpa using hes.symm
    subst hes0
    have hframe : ∀ j, j < f.track_count → f'.track_entries[j]? = f.track_entries[j]? := by
      intro j hj
      rw [he, List.getElem?_set_ne (by omega), he1,
        List.getElem?_append_left (by rw [hc.1]; exact hj)]
    refine ⟨⟨ADD_CLIP_consistent hc1 hclipadd, ?_, ?_⟩, ?_, by rw [hch, hch1],
      fun j hj _ => hframe j hj, Or.inr ⟨rfl, by rw [hcount, hcount1]⟩⟩
    · rw [List.nodup_append]
      refine ⟨hnd, List.nodup_singleton _, ?_⟩
      intro a ha hb'
      rw [List.mem_singleton] at hb'
      have := (hids a ha).2
      omega
    · intro j hj
      rw [hcount, hcount1]
      rcases List.mem_append.1 hj with hj | hj
      · have := hids j hj
        exact ⟨this.1, by omega⟩
      · rw [List.mem_singleton] at hj
        subst hj
        exact ⟨hb, by omega⟩
    · simp only [packStep, hp, Option.getD_none]
      simp only [channelEntries, List.map_append, List.map_cons, List.map_nil]
      congr 1
      · exact List.map_congr_left (fun j hj => by rw [hframe j (hids j hj).2])
      · rw [he, getElem?_set_same _ _ _ _ hes]
        simp

theorem addClips_refines [Stale] {b : Nat} {ty : TrackType} {names : List (String × Nat)}
    {clips : List Clip} :
    ∀ (tl : List (ℚ × Nat)) (f : KdenliveFile) (tracks : List Nat)
      (f' : KdenliveFile) (tracks' : List Nat),
      ChannelOK b f tracks → b ≤ f.track_count →
      addClips ty names clips tl (f, tracks) = some (f', tracks') →
      ChannelOK b f' tracks' ∧ (resolved clips tl).length = tl.length ∧
        channelEntries f' tracks' =
          (resolved clips tl).foldl packStep (channelEntries f tracks) ∧
        f'.chain_count = f.chain_count ∧ f.track_count ≤ f'.track_count ∧
        (∀ id, id < f.track_count → id ∉ tracks →
          f'.track_entries[id]? = f.track_entries[id]?) ∧
        f'.track_count + tracks.length = f.track_count + tracks'.length := by
  intro tl
  induction tl with
  | nil =>
    intro f tracks f' tracks' hok _ h
    simp only [addClips, Option.some.injEq, Prod.mk.injEq] at h
    obtain ⟨rfl, rfl⟩ := h
    exact ⟨hok, rfl, rfl, rfl, le_refl _, fun _ _ _ => rfl, rfl⟩
  | cons p rest ih =>
    intro f tracks f' tracks' hok hb h
    simp only [addClips, Option.bind_eq_some] at h
    obtain ⟨⟨f1, tracks1⟩, h1, h2⟩ := h
    obtain ⟨t, c⟩ := p
    obtain ⟨clip, hclip, -⟩ := placeClip_cases h1
    obtain ⟨hok1, hent1, hch1, hfr1, hcase⟩ := placeClip_refines hok hb hclip h1
    have hle1 : f.track_count ≤ f1.track_count := by
      rcases hcase with ⟨-, h⟩ | ⟨-, h⟩ <;> omega
    obtain ⟨hok2, hlen2, hent2, hch2, hle2, hfr2, hnum2⟩ :=
      ih f1 tracks1 f' tracks' hok1 (le_trans hb hle1) h2
    have hres : resolved clips ((t, c) :: rest) = (t, clip) :: resolved clips rest := by
      simp [resolved, hclip]
    refine ⟨hok2, ?_, ?_, by rw [hch2, hch1], le_trans hle1 hle2, ?_, ?_⟩
    · rw [hres, List.length_cons, hlen2, List.length_cons]
    · rw [hres, List.foldl_cons, ← hent1, hent2]
    · intro id hid hnot
      have hnot1 : id ∉ tracks1 := by
        rcases hcase with ⟨h, -⟩ | ⟨h, -⟩
        · rw [h]; exact hnot
        · rw [h, List.mem_append, List.mem_singleton]
          rintro (h' | h')
          · exact hnot h'
          · omega
      rw [hfr2 id (by omega) hnot1, hfr1 id hid hnot]
    · rcases hcase with ⟨h, h'⟩ | ⟨h, h'⟩
      · rw [h, h'] at hnum2; exact hnum2
      · rw [h, h', List.length_append, List.length_singleton] at hnum2; omega

/-! ## First fit -/

theorem scanTracks_spec [Stale] {f : KdenliveFile} {names : List (String × Nat)} {t : ℚ}
    {clip : Clip} :
    ∀ (ts : List Nat) (r : Option KdenliveFile), scanTracks f names t clip ts = some r →
      (r = none ∧ ∀ j (hj : j < ts.length), ∃ Lj, f.GetTrackLength ts[j] = some Lj ∧ t < Lj) ∨
      (∃ i, ∃ hi : i < ts.length, ∃ L f', r = some f' ∧ f.GetTrackLength ts[i] = some L ∧
        L ≤ t ∧ (∀ j (hj : j < i), ∃ Lj, f.GetTrackLength ts[j] = some Lj ∧ t < Lj) ∧
        ADD_CLIP f names ts[i] L t clip = some f') := by
  intro ts
  induction ts with
  | nil =>
    intro r h
    simp only [scanTracks, Option.some.injEq] at h
    exact Or.inl ⟨h.symm, fun j hj => absurd hj (Nat.not_lt_zero _)⟩
  | cons id rest ih =>
    intro r h
    unfold scanTracks at h
    cases hL : f.GetTrackLength id with
    | none => rw [hL] at h; cases h
    | some L =>
      rw [hL] at h
      simp only at h
      by_cases hfit : L ≤ t
      · rw [if_pos hfit, Option.map_eq_some'] at h
        obtain ⟨f', hadd, rfl⟩ := h
        exact Or.inr ⟨0, Nat.succ_pos _, L, f', rfl, hL, hfit,
          fun j hj => absurd hj (Nat.not_lt_zero _), hadd⟩
      · rw [if_neg hfit] at h
        have hlt : t < L := lt_of_not_le hfit
        rcases ih r h with ⟨rfl, hall⟩ | ⟨i, hi, L', f', rfl, hLi, hle, hbefore, hadd⟩
        · refine Or.inl ⟨rfl, fun j hj => ?_⟩
          cases j with
          | zero => exact ⟨L, hL, hlt⟩
          | succ j => exact hall j (Nat.lt_of_succ_lt_succ hj)
        · refine Or.inr ⟨i + 1, Nat.succ_lt_succ hi, L', f', rfl, hLi, hle, fun j hj => ?_, hadd⟩
          cases j with
          | zero => exact ⟨L, hL, hlt⟩
          | succ j => exact hbefore j (Nat.lt_of_succ_lt_succ hj)

/-- One iteration of a timeline loop of `GenerateFile` that runs through, for the placement
`(t, clip)` on a channel with track vector `tracks`, either appends the entries of
`ADD_CLIP` to the track `tracks[i]` of least index `i` whose current length is `≤ t` (every
track before it has length `> t`), creating no track, or, when every track of the channel has
length `> t`, creates one new track and records the entries there. -/
theorem placeClip_first_fit [Stale]
    {ty : TrackType} {names : List (String × Nat)} {clips : List Clip}
    {f : KdenliveFile} {tracks : List Nat} {t : ℚ} {c : Nat} {f' : KdenliveFile}
    {tracks' : List Nat} (hc : Consistent f)
    (h : placeClip ty names clips (f, tracks) (t, c) = some (f', tracks')) :
    ∃ clip, clips[c]? = some clip ∧
      ((∃ i, ∃ hi : i < tracks.length, ∃ L es,
          f.GetTrackLength tracks[i] = some L ∧ L ≤ t ∧
          (∀ j (hj : j < tracks.length), j < i →
            ∃ Lj, f.GetTrackLength tracks[j] = some Lj ∧ t < Lj) ∧
          tracks' = tracks ∧ f'.track_count = f.track_count ∧
          f.track_entries[tracks[i]]? = some es ∧
          f'.track_entries = f.track_entries.set tracks[i] (es ++ addedEntries L t clip)) ∨
       ((∀ j (hj : j < tracks.length), ∃ Lj, f.GetTrackLength tracks[j] = some Lj ∧ t < Lj) ∧
          tracks' = tracks ++ [f.track_count] ∧ f'.track_count = f.track_count + 1 ∧
          f'.track_entries = f.track_entries ++ [addedEntries 0 t clip])) := by
  obtain ⟨clip, hclip, hcase⟩ := placeClip_cases h
  refine ⟨clip, hclip, ?_⟩
  rcases hcase with ⟨hscan, htr⟩ | ⟨hscan, f1, id, hadd, hclipadd, htr⟩
  · rcases scanTracks_spec tracks _ hscan with ⟨hr, -⟩ | ⟨i, hi, L, f2, hr, hL, hle, hbefore, hadd⟩
    · cases hr
    · cases hr
      obtain ⟨L0, es, -, hes, he, -, hcount, -⟩ := ADD_CLIP_effect hadd
      exact Or.inl ⟨i, hi, L, es, hL, hle, fun j _ hji => hbefore j hji, htr, hcount, hes, he⟩
  · rcases scanTracks_spec tracks _ hscan with ⟨-, hall⟩ | ⟨i, hi, L, f2, hr, -⟩
    swap
    · cases hr
    obtain ⟨rfl, hcount1, -, he1, -, -⟩ := AddTrack_book hadd
    obtain ⟨L0, es, -, hes, he, -, hcount, -⟩ := ADD_CLIP_effect hclipadd
    refine Or.inr ⟨hall, htr, by rw [hcount, hcount1], ?_⟩
    rw [he1, List.getElem?_append_right (by rw [hc.1]), hc.1] at hes
    simp only [Nat.sub_self, List.getElem?_cons_zero, Option.some.injEq] at hes
    subst hes
    rw [he, he1, ← hc.1, List.set_append_right _ _ (le_refl _)]
    simp

/-! ## Start positions of the clip entries -/

theorem exactLength_append (es fs : List TrackEntry) :
    exactLength (es ++ fs) = exactLength es + exactLength fs := by
  simp [exactLength]

theorem clipStarts_append (off : ℚ) (es fs : List TrackEntry) :
    clipStarts off (es ++ fs) = clipStarts off es ++ clipStarts (off + exactLength es) fs := by
  induction es generalizing off with
  | nil => simp [clipStarts, exactLength]
  | cons e es ih =>
    have h := ih (off + e.length)
    have hsum : off + e.length + exactLength es = off + exactLength (e :: es) := by
      simp only [exactLength, List.map_cons, List.sum_cons]; ring
    show clipStarts off (e :: (es ++ fs)) = _
    simp only [clipStarts, h, List.append_assoc, hsum]

/-- On the grid the entries `ADD_CLIP` records are those of exact arithmetic. -/
theorem addedEntries_grid {k : Nat} (hk : k ≤ 149) {L t : ℚ} (hL : OnGrid k L)
    (ht : OnGrid k t) (hle : L ≤ t) (clip : Clip) :
    addedEntries L t clip =
      (if t - L > blankThreshold then [⟨EntryType.BLANK, t - L, 0⟩] else []) ++
        [⟨EntryType.CLIP, clip.length, clip.start_offset⟩] := by
  unfold addedEntries
  rw [fsub_grid hk ht hL hle]

theorem clipStarts_addedEntries {k : Nat} (hk : k ≤ 149) {L t : ℚ} (hL : OnGrid k L)
    (ht : OnGrid k t) (hle : L ≤ t) (clip : Clip) :
    clipStarts L (addedEntries L t clip) =
      [(if t - L > blankThreshold then t else L,
        ⟨EntryType.CLIP, clip.length, clip.start_offset⟩)] := by
  rw [addedEntries_grid hk hL ht hle]
  split <;> simp [clipStarts]

theorem entryOfPlacement_added {L t : ℚ} (clip : Clip) (hL : L ≤ t) :
    EntryOfPlacement
      (if t - L > blankThreshold then t else L,
        ⟨EntryType.CLIP, clip.length, clip.start_offset⟩)
      (t, clip) := by
  unfold EntryOfPlacement
  refine ⟨rfl, rfl, rfl, ?_⟩
  split
  · constructor <;> norm_num
  · rename_i hgap
    have := blankThreshold_lt
    constructor
    · simp only [gt_iff_lt, not_lt] at hgap
      norm_num at this ⊢
      linarith
    · exact hL

theorem addedEntries_pos {L t : ℚ} {clip : Clip} (hlen : 0 < clip.length) :
    ∀ e ∈ addedEntries L t clip, 0 < e.length := by
  intro e he
  unfold addedEntries at he
  split at he
  · rename_i hgap
    simp only [List.cons_append, List.nil_append, List.mem_cons, List.mem_singleton,
      List.not_mem_nil, or_false] at he
    rcases he with rfl | rfl
    · exact lt_trans blankThreshold_pos hgap
    · exact hlen
  · simp only [List.nil_append, List.mem_singleton] at he
    subst he
    exact hlen

/-- On the grid one expansion of `ADD_CLIP` keeps the recorded length of the track on the
grid and exact: the new length is `t + length` after a Blank and `L + length` without. -/
theorem GridTrack.grow {k : Nat} (hk : k ≤ 149) {es : List TrackEntry} {t : ℚ} {clip : Clip}
    (h : GridTrack k es) (hp : GridPlacement k (t, clip)) (hfit : entriesLength es ≤ t) :
    GridTrack k (es ++ addedEntries (entriesLength es) t clip) ∧
      entriesLength (es ++ addedEntries (entriesLength es) t clip) =
        (if t - entriesLength es > blankThreshold then t else entriesLength es)
          + clip.length := by
  obtain ⟨hg, hex⟩ := h
  obtain ⟨g1, g2, g3⟩ := hp
  simp only at g1 g2 g3
  have e1 : entriesLength (es ++ addedEntries (entriesLength es) t clip) =
      (if t - entriesLength es > blankThreshold then t else entriesLength es)
        + clip.length := by
    have hLt : entriesLength es + (t - entriesLength es) = t := by ring
    have i1 : fadd (entriesLength es) (t - entriesLength es) = t := by
      rw [fadd_grid hk (show OnGrid k (entriesLength es + (t - entriesLength es)) by
        rw [hLt]; exact g1), hLt]
    rw [entriesLength_addedEntries, fsub_grid hk g1 hg hfit]
    split
    · rw [i1, fadd_grid hk g3]
    · rw [fadd_grid hk (hg.add_le g2 g3 (by linarith))]
  refine ⟨⟨?_, ?_⟩, e1⟩
  · rw [e1]
    split
    · exact g3
    · exact hg.add_le g2 g3 (by linarith)
  · rw [e1, exactLength_append, addedEntries_grid hk hg g1 hfit, ← hex]
    split <;> simp [exactLength]
    ring

theorem gridTrack_nil (k : Nat) : GridTrack k [] := ⟨OnGrid.zero k, rfl⟩

theorem packScan_grid {k : Nat} (hk : k ≤ 149) {t : ℚ} {clip : Clip}
    (hp : GridPlacement k (t, clip)) :
    ∀ (cs cs' : List (List TrackEntry)), (∀ es ∈ cs, GridTrack k es) →
      packScan t clip cs = some cs' → ∀ es ∈ cs', GridTrack k es := by
  intro cs
  induction cs with
  | nil => intro cs' _ h; simp [packScan] at h
  | cons es rest ih =>
    intro cs' hall h
    unfold packScan at h
    by_cases hfit : entriesLength es ≤ t
    · rw [if_pos hfit, Option.some.injEq] at h
      subst h
      intro x hx
      rcases List.mem_cons.1 hx with rfl | hx
      · exact ((hall es (List.mem_cons_self _ _)).grow hk hp hfit).1
      · exact hall x (List.mem_cons_of_mem _ hx)
    · rw [if_neg hfit, Option.map_eq_some'] at h
      obtain ⟨r, hr, rfl⟩ := h
      intro x hx
      rcases List.mem_cons.1 hx with rfl | hx
      · exact hall _ (List.mem_cons_self _ _)
      · exact ih r (fun y hy => hall y (List.mem_cons_of_mem _ hy)) hr x hx

theorem packStep_grid {k : Nat} (hk : k ≤ 149) {cs : List (List TrackEntry)} {p : ℚ × Clip}
    (hall : ∀ es ∈ cs, GridTrack k es) (hp : GridPlacement k p) :
    ∀ es ∈ packStep cs p, GridTrack k es := by
  unfold packStep
  cases h : packScan p.1 p.2 cs with
  | some cs' => exact packScan_grid hk hp cs cs' hall h
  | none =>
    intro es hes
    simp only [Option.getD_none, List.mem_append, List.mem_singleton] at hes
    rcases hes with hes | rfl
    · exact hall es hes
    · have := ((gridTrack_nil k).grow hk hp (by simpa [entriesLength] using hp.1.nonneg)).1
      simpa [entriesLength] using this

theorem foldl_packStep_grid {k : Nat} (hk : k ≤ 149) :
    ∀ (rest : List (ℚ × Clip)) (cs : List (List TrackEntry)),
      (∀ es ∈ cs, GridTrack k es) → (∀ p ∈ rest, GridPlacement k p) →
      ∀ es ∈ rest.foldl packStep cs, GridTrack k es := by
  intro rest
  induction rest with
  | nil => intro cs hall _; simpa using hall
  | cons p rest ih =>
    intro cs hall hgrid
    exact ih (packStep cs p) (packStep_grid hk hall (hgrid p (List.mem_cons_self _ _)))
      (fun q hq => hgrid q (List.mem_cons_of_mem _ hq))

theorem TrackPlaced.mono {pre : List (ℚ × Clip)} {es : List TrackEntry} (p : ℚ × Clip)
    (h : TrackPlaced pre es) : TrackPlaced (pre ++ [p]) es := by
  obtain ⟨h1, ps, hsub, hf⟩ := h
  exact ⟨h1, ps, hsub.trans (List.sublist_append_left _ _), hf⟩

theorem TrackPlaced.add {k : Nat} (hk : k ≤ 149) {pre : List (ℚ × Clip)}
    {es : List TrackEntry} {t : ℚ} {clip : Clip}
    (h : TrackPlaced pre es) (hg : GridTrack k es) (hp : GridPlacement k (t, clip))
    (hfit : entriesLength es ≤ t) (hlen : 0 < clip.length) :
    TrackPlaced (pre ++ [(t, clip)]) (es ++ addedEntries (entriesLength es) t clip) := by
  obtain ⟨h1, ps, hsub, hf⟩ := h
  refine ⟨?_, ps ++ [(t, clip)], List.Sublist.append hsub (List.Sublist.refl _), ?_⟩
  · intro e he
    rcases List.mem_append.1 he with he | he
    · exact h1 e he
    · exact addedEntries_pos hlen e he
  · rw [clipStarts_append, zero_add, ← hg.2, clipStarts_addedEntries hk hg.1 hp.1 hfit]
    exact List.rel_append hf (List.Forall₂.cons (entryOfPlacement_added clip hfit) List.Forall₂.nil)

theorem packScan_placed {k : Nat} (hk : k ≤ 149) {pre : List (ℚ × Clip)} {t : ℚ} {clip : Clip}
    (hp : GridPlacement k (t, clip)) (hlen : 0 < clip.length) :
    ∀ (cs cs' : List (List TrackEntry)), (∀ es ∈ cs, GridTrack k es) →
      (∀ es ∈ cs, TrackPlaced pre es) →
      packScan t clip cs = some cs' → ∀ es ∈ cs', TrackPlaced (pre ++ [(t, clip)]) es := by
  intro cs
  induction cs with
  | nil => intro cs' _ _ h; simp [packScan] at h
  | cons es rest ih =>
    intro cs' hgrid hall h
    unfold packScan at h
    by_cases hfit : entriesLength es ≤ t
    · rw [if_pos hfit, Option.some.injEq] at h
      subst h
      intro x hx
      rcases List.mem_cons.1 hx with rfl | hx
      · exact (hall es (List.mem_cons_self _ _)).add hk (hgrid es (List.mem_cons_self _ _)) hp
          hfit hlen
      · exact (hall x (List.mem_cons_of_mem _ hx)).mono _
    · rw [if_neg hfit, Option.map_eq_some'] at h
      obtain ⟨r, hr, rfl⟩ := h
      intro x hx
      rcases List.mem_cons.1 hx with rfl | hx
      · exact (hall _ (List.mem_cons_self _ _)).mono _
      · exact ih r (fun y hy => hgrid y (List.mem_cons_of_mem _ hy))
          (fun y hy => hall y (List.mem_cons_of_mem _ hy)) hr x hx

theorem packStep_placed {k : Nat} (hk : k ≤ 149) {pre : List (ℚ × Clip)}
    {cs : List (List TrackEntry)} {p : ℚ × Clip}
    (hgrid : ∀ es ∈ cs, GridTrack k es) (hall : ∀ es ∈ cs, TrackPlaced pre es)
    (hp : GridPlacement k p) (hlen : 0 < p.2.length) :
    ∀ es ∈ packStep cs p, TrackPlaced (pre ++ [p]) es := by
  unfold packStep
  cases h : packScan p.1 p.2 cs with
  | some cs' => exact packScan_placed hk hp hlen cs cs' hgrid hall h
  | none =>
    intro es hes
    simp only [Option.getD_none, List.mem_append, List.mem_singleton] at hes
    rcases hes with hes | rfl
    · exact (hall es hes).mono _
    · have h0 : TrackPlaced pre [] := ⟨by simp, [], List.nil_sublist _, by simp [clipStarts]⟩
      have := @TrackPlaced.add k hk pre [] p.1 p.2 h0 (gridTrack_nil k) hp
        (by simpa [entriesLength] using hp.1.nonneg) hlen
      simpa [entriesLength] using this

theorem foldl_packStep_placed {k : Nat} (hk : k ≤ 149) :
    ∀ (rest pre : List (ℚ × Clip)) (cs : List (List TrackEntry)),
      (∀ es ∈ cs, GridTrack k es) → (∀ es ∈ cs, TrackPlaced pre es) →
      (∀ p ∈ rest, GridPlacement k p ∧ 0 < p.2.length) →
      ∀ es ∈ rest.foldl packStep cs, TrackPlaced (pre ++ rest) es := by
  intro rest
  induction rest with
  | nil => intro pre cs _ hall _; simpa using hall
  | cons p rest ih =>
    intro pre cs hgrid hall hpos
    have hp := hpos p (List.mem_cons_self _ _)
    have := ih (pre ++ [p]) (packStep cs p) (packStep_grid hk hgrid hp.1)
      (packStep_placed hk hgrid hall hp.1 hp.2)
      (fun q hq => hpos q (List.mem_cons_of_mem _ hq))
    simpa using this

theorem clipStarts_ge (off : ℚ) (es : List TrackEntry) (hpos : ∀ e ∈ es, 0 < e.length) :
    ∀ x ∈ clipStarts off es, off ≤ x.1 := by
  induction es generalizing off with
  | nil => simp [clipStarts]
  | cons e es ih =>
    intro x hx
    simp only [clipStarts, List.mem_append] at hx
    have he := hpos e (List.mem_cons_self _ _)
    rcases hx with hx | hx
    · split at hx
      · simp only [List.mem_singleton] at hx; subst hx; exact le_refl _
      · simp at hx
    · have := ih (off + e.length) (fun y hy => hpos y (List.mem_cons_of_mem _ hy)) x hx
      linarith

theorem clipStarts_disjoint (off : ℚ) (es : List TrackEntry) (hpos : ∀ e ∈ es, 0 < e.length) :
    (clipStarts off es).Pairwise (fun a b => a.1 + a.2.length ≤ b.1) := by
  induction es generalizing off with
  | nil => simp [clipStarts]
  | cons e es ih =>
    simp only [clipStarts]
    have hrest := ih (off + e.length) (fun y hy => hpos y (List.mem_cons_of_mem _ hy))
    split
    · rw [List.singleton_append, List.pairwise_cons]
      exact ⟨fun b hb => clipStarts_ge _ es
        (fun y hy => hpos y (List.mem_cons_of_mem _ hy)) b hb, hrest⟩
    · simpa using hrest

/-! ## `GenerateFile` as a whole -/

theorem SetProfile_book {f f' : KdenliveFile} {fr w h : Int}
    (hs : f.SetProfile fr w h = some f') :
    f'.track_count = f.track_count ∧ f'.track_lengths = f.track_lengths ∧
      f'.track_entries = f.track_entries ∧ f'.chain_count = f.chain_count ∧
      f'.filter_count = f.filter_count := by
  unfold KdenliveFile.SetProfile at hs
  simp only [bind, Option.bind_eq_some, pure, Option.some.injEq] at hs
  obtain ⟨_, _, _, _, _, _, _, _, rfl⟩ := hs
  simp

theorem Consistent.of_book {f f' : KdenliveFile} (hc : Consistent f)
    (h1 : f'.track_count = f.track_count) (h2 : f'.track_lengths = f.track_lengths)
    (h3 : f'.track_entries = f.track_entries) : Consistent f' := by
  unfold Consistent GetTrackLength at *
  rw [h1, h2, h3]
  exact hc

theorem registerClips_book [Stale] {ffp : List String → String → String} {paths : List String} :
    ∀ (clips : List Clip) (f : KdenliveFile) (names : List (String × Nat))
      (f' : KdenliveFile) (names' : List (String × Nat)),
      registerClips ffp paths clips (f, names) = some (f', names') →
      f'.track_count = f.track_count ∧ f'.track_lengths = f.track_lengths ∧
        f'.track_entries = f.track_entries ∧ f'.filter_count = f.filter_count := by
  intro clips
  induction clips with
  | nil =>
    intro f names f' names' h
    simp only [registerClips, Option.some.injEq, Prod.mk.injEq] at h
    obtain ⟨rfl, rfl⟩ := h
    exact ⟨rfl, rfl, rfl, rfl⟩
  | cons clip rest ih =>
    intro f names f' names' h
    unfold registerClips at h
    split at h
    · simp only [Option.bind_eq_some] at h
      obtain ⟨⟨f1, id⟩, h1, h2⟩ := h
      obtain ⟨-, -, b1, b2, b3, b4⟩ := AddClipToBin_book h1
      obtain ⟨c1, c2, c3, c4⟩ := ih _ _ _ _ h2
      exact ⟨by rw [c1, b1], by rw [c2, b2], by rw [c3, b3], by rw [c4, b4]⟩
    · exact ih _ _ _ _ h

theorem generate_stages [Stale] {template : XMLElement} {ffp : List String → String → String}
    {P : KdenliveProject} {paths : List String} {g : Generated}
    (h : generate template ffp P paths = some g) :
    ∃ f0 f1 f2 fv, KdenliveFile.new template = some f0 ∧
      f0.SetProfile (truncToInt P.framerate) P.frame_width P.frame_height = some f1 ∧
      registerClips ffp paths P.clips (f1, []) = some (f2, g.included_names) ∧
      addClips TrackType.VIDEO g.included_names P.clips P.video_timeline (f2, []) =
        some (fv, g.video_tracks) ∧
      addClips TrackType.AUDIO g.included_names P.clips P.audio_timeline (fv, []) =
        some (g.kdenlive_file, g.audio_tracks) := by
  unfold generate at h
  simp only [bind, Option.bind_eq_some, pure, Option.some.injEq] at h
  obtain ⟨f0, h0, f1, h1, ⟨f2, names⟩, h2, ⟨fv, vt⟩, h3, ⟨fa, at_⟩, h4, rfl⟩ := h
  exact ⟨f0, f1, f2, fv, h0, h1, h2, h3, h4⟩

theorem channelOK_nil {f : KdenliveFile} (hc : Consistent f) : ChannelOK f.track_count f [] :=
  ⟨hc, List.nodup_nil, fun _ h => absurd h (List.not_mem_nil _)⟩

theorem generate_channel [Stale] {template : XMLElement} {ffp : List String → String → String}
    {P : KdenliveProject} {paths : List String} {g : Generated}
    (h : generate template ffp P paths = some g) (ty : TrackType) :
    Consistent g.kdenlive_file ∧
    (resolved P.clips (P.timeline ty)).length = (P.timeline ty).length ∧
      channelEntries g.kdenlive_file (g.tracks ty) =
        (resolved P.clips (P.timeline ty)).foldl packStep [] ∧
      (g.tracks ty).Nodup ∧ ∀ id ∈ g.tracks ty, id < g.kdenlive_file.track_count := by
  obtain ⟨f0, f1, f2, fv, h0, h1, h2, h3, h4⟩ := generate_stages h
  have c0 := new_consistent h0
  obtain ⟨a1, a2, a3, -, -⟩ := SetProfile_book h1
  have c1 := c0.of_book a1 a2 a3
  obtain ⟨b1, b2, b3, -⟩ := registerClips_book _ _ _ _ _ h2
  have c2 := c1.of_book b1 b2 b3
  obtain ⟨okv, lenv, entv, -, lev, -, -⟩ :=
    addClips_refines _ _ _ _ _ (channelOK_nil c2) (le_refl _) h3
  obtain ⟨oka, lena, enta, -, lea, fra, -⟩ :=
    addClips_refines _ _ _ _ _ (channelOK_nil okv.1) (le_refl _) h4
  refine ⟨oka.1, ?_⟩
  cases ty with
  | VIDEO =>
    refine ⟨lenv, ?_, okv.2.1, fun id hid => lt_of_lt_of_le (okv.2.2 id hid).2 lea⟩
    have : channelEntries g.kdenlive_file g.video_tracks = channelEntries fv g.video_tracks :=
      channelEntries_congr (fun id hid => fra id (okv.2.2 id hid).2 (List.not_mem_nil _))
    simp only [Generated.tracks, timeline]
    rw [this, entv]
    rfl
  | AUDIO =>
    refine ⟨lena, ?_, oka.2.1, fun id hid => (oka.2.2 id hid).2⟩
    simp only [Generated.tracks, timeline]
    rw [enta]
    rfl

/-! ## The entries of a track, placement by placement -/

theorem laidOut_snoc (ps : List (ℚ × Clip)) (p : ℚ × Clip) :
    laidOut (ps ++ [p]) = laidOut ps ++ addedEntries (entriesLength (laidOut ps)) p.1 p.2 := by
  simp [laidOut, List.foldl_append]

theorem Laid.carry {pre : List (ℚ × Clip)} {es : List TrackEntry} (p : ℚ × Clip)
    (h : Laid pre es) : Laid (pre ++ [p]) es := by
  obtain ⟨ps, hsub, he, hfit⟩ := h
  exact ⟨ps, hsub.trans (List.sublist_append_left _ _), he, hfit⟩

theorem Laid.extend {pre : List (ℚ × Clip)} {es : List TrackEntry} {t : ℚ} {clip : Clip}
    (h : Laid pre es) (hfit : entriesLength es ≤ t) :
    Laid (pre ++ [(t, clip)]) (es ++ addedEntries (entriesLength es) t clip) := by
  obtain ⟨ps, hsub, he, hfits⟩ := h
  refine ⟨ps ++ [(t, clip)], List.Sublist.append hsub (List.Sublist.refl _), ?_, ?_⟩
  · rw [laidOut_snoc, ← he]
  · intro n hn
    rw [List.length_append, List.length_singleton] at hn
    by_cases hlt : n < ps.length
    · rw [List.take_append_of_le_length (Nat.le_of_lt hlt), List.getElem_append_left hlt]
      exact hfits n hlt
    · have hn' : n = ps.length := by omega
      subst hn'
      rw [List.take_append_of_le_length (le_refl _), List.take_length,
        List.getElem_append_right (le_refl _)]
      simp only [Nat.sub_self, List.getElem_cons_zero]
      rw [← he]
      exact hfit

theorem laid_nil (pre : List (ℚ × Clip)) : Laid pre [] :=
  ⟨[], List.nil_sublist _, rfl, fun _ hn => absurd hn (Nat.not_lt_zero _)⟩

theorem packScan_laid {pre : List (ℚ × Clip)} {t : ℚ} {clip : Clip} :
    ∀ (cs cs' : List (List TrackEntry)), (∀ es ∈ cs, Laid pre es) →
      packScan t clip cs = some cs' → ∀ es ∈ cs', Laid (pre ++ [(t, clip)]) es := by
  intro cs
  induction cs with
  | nil => intro cs' _ h; simp [packScan] at h
  | cons es rest ih =>
    intro cs' hall h
    unfold packScan at h
    by_cases hfit : entriesLength es ≤ t
    · rw [if_pos hfit, Option.some.injEq] at h
      subst h
      intro x hx
      rcases List.mem_cons.1 hx with rfl | hx
      · exact (hall es (List.mem_cons_self _ _)).extend hfit
      · exact (hall x (List.mem_cons_of_mem _ hx)).carry _
    · rw [if_neg hfit, Option.map_eq_some'] at h
      obtain ⟨r, hr, rfl⟩ := h
      intro x hx
      rcases List.mem_cons.1 hx with rfl | hx
      · exact (hall _ (List.mem_cons_self _ _)).carry _
      · exact ih r (fun y hy => hall y (List.mem_cons_of_mem _ hy)) hr x hx

theorem packStep_laid {pre : List (ℚ × Clip)} {cs : List (List TrackEntry)} {p : ℚ × Clip}
    (hall : ∀ es ∈ cs, Laid pre es) (ht : 0 ≤ p.1) :
    ∀ es ∈ packStep cs p, Laid (pre ++ [p]) es := by
  unfold packStep
  cases h : packScan p.1 p.2 cs with
  | some cs' => exact packScan_laid cs cs' hall h
  | none =>
    intro es hes
    simp only [Option.getD_none, List.mem_append, List.mem_singleton] at hes
    rcases hes with hes | rfl
    · exact (hall es hes).carry _
    · have := @Laid.extend pre [] p.1 p.2 (laid_nil pre) (by simpa [entriesLength] using ht)
      simpa [entriesLength] using this

theorem foldl_packStep_laid :
    ∀ (rest pre : List (ℚ × Clip)) (cs : List (List TrackEntry)),
      (∀ es ∈ cs, Laid pre es) → (∀ p ∈ rest, 0 ≤ p.1) →
      ∀ es ∈ rest.foldl packStep cs, Laid (pre ++ rest) es := by
  intro rest
  induction rest with
  | nil => intro pre cs hall _; simpa using hall
  | cons p rest ih =>
    intro pre cs hall hpos
    have := ih (pre ++ [p]) (packStep cs p)
      (packStep_laid hall (hpos p (List.mem_cons_self _ _)))
      (fun q hq => hpos q (List.mem_cons_of_mem _ hq))
    simpa using this

/-- When `GenerateFile` runs through and the placements of a channel have non-negative
timestamps, the entries of every track of the channel are those `ADD_CLIP` records for
placements of the timeline, taken in order, each of which found the recorded length of the
track at most at its timestamp. -/
theorem generate_laid [Stale] {template : XMLElement}
    {ffp : List String → String → String} {P : KdenliveProject} {paths : List String}
    {g : Generated} (ty : TrackType) (h : generate template ffp P paths = some g)
    (hpos : ∀ p ∈ resolved P.clips (P.timeline ty), 0 ≤ p.1) :
    ∀ es ∈ channelEntries g.kdenlive_file (g.tracks ty),
      Laid (resolved P.clips (P.timeline ty)) es := by
  obtain ⟨-, -, hent, -, -⟩ := generate_channel h ty
  intro es hes
  rw [hent] at hes
  have := foldl_packStep_laid (resolved P.clips (P.timeline ty)) [] []
    (fun _ hx => absurd hx (List.not_mem_nil _)) hpos es hes
  rwa [List.nil_append] at this

/-- When `GenerateFile` runs through and the placements of a channel have clips of positive
length and lie on a binary grid (timestamps, lengths and interval ends `t + length` are
multiples of `2 ^ (-k)` from 0 to `2 ^ (24 - k)`, so that the `float` operations of the loop
are exact), every track of that channel in the generated file is laid out as follows: its
recorded length is the exact sum of the lengths of its entries; its Clip entries, each taken
with its start position on the track (the sum of the lengths of the entries before it),
correspond one to one and in order to placements `(t, clip)` of the channel's timeline, the
entry having the clip's length and start offset and a start position `s` with
`t - 0.001 < s ≤ t`; and each Clip entry ends before the next one of the track starts.  No
placement of the timeline is without a clip. -/
theorem generate_clip_starts [Stale] {template : XMLElement}
    {ffp : List String → String → String} {P : KdenliveProject} {paths : List String}
    {g : Generated} (ty : TrackType) (h : generate template ffp P paths = some g)
    {k : Nat} (hk : k ≤ 149)
    (hpos : ∀ p ∈ resolved P.clips (P.timeline ty), GridPlacement k p ∧ 0 < p.2.length) :
    (resolved P.clips (P.timeline ty)).length = (P.timeline ty).length ∧
    ∀ es ∈ channelEntries g.kdenlive_file (g.tracks ty),
      GridTrack k es ∧
      (∃ ps, ps.Sublist (resolved P.clips (P.timeline ty)) ∧
        List.Forall₂ EntryOfPlacement (clipStarts 0 es) ps) ∧
      (clipStarts 0 es).Pairwise (fun a b => a.1 + a.2.length ≤ b.1) := by
  obtain ⟨-, hlen, hent, -, -⟩ := generate_channel h ty
  refine ⟨hlen, fun es hes => ?_⟩
  rw [hent] at hes
  have hgrid := foldl_packStep_grid hk (resolved P.clips (P.timeline ty)) []
    (fun _ hx => absurd hx (List.not_mem_nil _)) (fun p hp => (hpos p hp).1) es hes
  have hplaced := foldl_packStep_placed hk (resolved P.clips (P.timeline ty)) [] []
    (fun _ hx => absurd hx (List.not_mem_nil _))
    (fun _ hx => absurd hx (List.not_mem_nil _)) hpos es hes
  rw [List.nil_append] at hplaced
  exact ⟨hgrid, hplaced.2, clipStarts_disjoint 0 es hplaced.1⟩

theorem exampleProject_runs :
    (@generate Stale.intact minimalTemplate defaultFilePath exampleProject []).isSome = true := by
  decide!

theorem onGrid_natCast (n : Nat) (h : n ≤ 2 ^ 24) : OnGrid 0 (n : ℚ) :=
  ⟨n, h, by simp⟩

theorem exampleProject_grid (ty : TrackType) :
    ∀ p ∈ resolved exampleProject.clips (exampleProject.timeline ty),
      GridPlacement 0 p ∧ 0 < p.2.length := by
  have e1 : resolved exampleProject.clips (exampleProject.timeline TrackType.VIDEO) =
      [(((0 : Nat) : ℚ), ⟨"great_expanse", ((10 : Nat) : ℚ), 0, 0, 0, 0⟩),
       (((9 : Nat) : ℚ), ⟨"cavern_clinger_boss", ((15 : Nat) : ℚ), 0, 1, 0, 0⟩)] := by
    decide!
  have e2 : resolved exampleProject.clips (exampleProject.timeline TrackType.AUDIO) =
      [(((0 : Nat) : ℚ), ⟨"Free_Test_Data_500KB_MP3", ((20 : Nat) : ℚ), 0, 0, 0, 0⟩),
       (((9 : Nat) : ℚ), ⟨"cavern_clinger_boss", ((15 : Nat) : ℚ), 0, 1, 0, 0⟩)] := by
    decide!
  intro p hp
  cases ty with
  | VIDEO =>
    rw [e1] at hp
    simp only [List.mem_cons, List.mem_singleton, List.not_mem_nil, or_false] at hp
    rcases hp with rfl | rfl
    · exact ⟨⟨onGrid_natCast 0 (by norm_num), onGrid_natCast 10 (by norm_num), by
        have := onGrid_natCast 10 (by norm_num)
        simpa using this⟩, by norm_num⟩
    · exact ⟨⟨onGrid_natCast 9 (by norm_num), onGrid_natCast 15 (by norm_num), by
        have := onGrid_natCast 24 (by norm_num)
        norm_num at this ⊢
        exact this⟩, by norm_num⟩
  | AUDIO =>
    rw [e2] at hp
    simp only [List.mem_cons, List.mem_singleton, List.not_mem_nil, or_false] at hp
    rcases hp with rfl | rfl
    · exact ⟨⟨onGrid_natCast 0 (by norm_num), onGrid_natCast 20 (by norm_num), by
        have := onGrid_natCast 20 (by norm_num)
        simpa using this⟩, by norm_num⟩
    · exact ⟨⟨onGrid_natCast 9 (by norm_num), onGrid_natCast 15 (by norm_num), by
        have := onGrid_natCast 24 (by norm_num)
        norm_num at this ⊢
        exact this⟩, by norm_num⟩

/-! ## Number of tracks of a channel -/

theorem packScan_length {t : ℚ} {clip : Clip} :
    ∀ (cs cs' : List (List TrackEntry)), packScan t clip cs = some cs' →
      cs'.length = cs.length := by
  intro cs
  induction cs with
  | nil => intro cs' h; simp [packScan] at h
  | cons es rest ih =>
    intro cs' h
    unfold packScan at h
    split at h
    · rw [Option.some.injEq] at h; subst h; rfl
    · rw [Option.map_eq_some'] at h
      obtain ⟨r, hr, rfl⟩ := h
      simp [ih r hr]

theorem packScan_none {t : ℚ} {clip : Clip} :
    ∀ (cs : List (List TrackEntry)), packScan t clip cs = none →
      ∀ es ∈ cs, t < entriesLength es := by
  intro cs
  induction cs with
  | nil => intro _ es hes; exact absurd hes (List.not_mem_nil _)
  | cons e rest ih =>
    intro h es hes
    unfold packScan at h
    split at h
    · cases h
    · rename_i hfit
      rw [Option.map_eq_none'] at h
      rcases List.mem_cons.1 hes with rfl | hes
      · exact lt_of_not_le hfit
      · exact ih h es hes

theorem entriesLength_added_le {k : Nat} (hk : k ≤ 149) {es : List TrackEntry} {t : ℚ}
    {clip : Clip} (h : GridTrack k es) (hp : GridPlacement k (t, clip))
    (hfit : entriesLength es ≤ t) :
    entriesLength (es ++ addedEntries (entriesLength es) t clip) ≤ t + clip.length := by
  rw [(h.grow hk hp hfit).2]
  split <;> linarith

theorem packScan_lasts {k : Nat} (hk : k ≤ 149) {t : ℚ} {clip : Clip}
    (hp : GridPlacement k (t, clip)) :
    ∀ (cs cs' : List (List TrackEntry)) (lasts : List (ℚ × Clip)),
      (∀ es ∈ cs, GridTrack k es) →
      List.Forall₂ (fun es p => entriesLength es ≤ p.1 + p.2.length) cs lasts →
      packScan t clip cs = some cs' →
      ∃ lasts', lasts'.Subperm ((t, clip) :: lasts) ∧
        List.Forall₂ (fun es p => entriesLength es ≤ p.1 + p.2.length) cs' lasts' := by
  intro cs
  induction cs with
  | nil => intro cs' lasts _ _ h; simp [packScan] at h
  | cons es rest ih =>
    intro cs' lasts hgrid hf h
    cases hf with
    | cons hhead htail =>
      rename_i l lrest
      unfold packScan at h
      by_cases hfit : entriesLength es ≤ t
      · rw [if_pos hfit, Option.some.injEq] at h
        subst h
        refine ⟨(t, clip) :: lrest, ?_, List.Forall₂.cons ?_ htail⟩
        · exact (List.Sublist.cons₂ _ (List.sublist_cons_self _ _)).subperm
        · exact entriesLength_added_le hk (hgrid es (List.mem_cons_self _ _)) hp hfit
      · rw [if_neg hfit, Option.map_eq_some'] at h
        obtain ⟨r, hr, rfl⟩ := h
        obtain ⟨lasts', hsub, hf'⟩ := ih r lrest
          (fun y hy => hgrid y (List.mem_cons_of_mem _ hy)) htail hr
        refine ⟨l :: lasts', ?_, List.Forall₂.cons hhead hf'⟩
        exact ((List.subperm_cons l).2 hsub).trans (List.Perm.swap _ _ _).subperm

theorem forall₂_mem_right {α β : Type} {R : α → β → Prop} {xs : List α} {ys : List β}
    (h : List.Forall₂ R xs ys) {y : β} (hy : y ∈ ys) : ∃ x ∈ xs, R x y := by
  induction h with
  | nil => exact absurd hy (List.not_mem_nil _)
  | cons hh _ ih =>
    rcases List.mem_cons.1 hy with rfl | hy
    · exact ⟨_, List.mem_cons_self _ _, hh⟩
    · obtain ⟨x, hx, hr⟩ := ih hy
      exact ⟨x, List.mem_cons_of_mem _ hx, hr⟩

theorem overlapAt_mono {pre : List (ℚ × Clip)} (p : ℚ × Clip) (x : ℚ) :
    overlapAt pre x ≤ overlapAt (pre ++ [p]) x := by
  unfold overlapAt
  rw [List.filter_append, List.length_append]
  exact Nat.le_add_right _ _

theorem packStep_packed {k : Nat} (hk : k ≤ 149) {pre : List (ℚ × Clip)}
    {cs : List (List TrackEntry)} {p : ℚ × Clip}
    (hgrid : ∀ es ∈ cs, GridTrack k es) (hinv : Packed pre cs)
    (hsorted : ∀ q ∈ pre, q.1 ≤ p.1) (hp : GridPlacement k p)
    (hlen : 0 < p.2.length) : Packed (pre ++ [p]) (packStep cs p) := by
  obtain ⟨⟨lasts, hsub, hf⟩, x, hx⟩ := hinv
  obtain ⟨t, clip⟩ := p
  unfold packStep
  cases h : packScan t clip cs with
  | some cs' =>
    obtain ⟨lasts', hsub', hf'⟩ := packScan_lasts hk hp cs cs' lasts hgrid hf h
    refine ⟨⟨lasts', ?_, hf'⟩, x, ?_⟩
    · exact hsub'.trans (((List.subperm_cons _).2 hsub).trans
        (List.perm_append_singleton _ _).symm.subperm)
    · simp only [Option.getD_some]
      rw [packScan_length cs cs' h]
      exact le_trans hx (overlapAt_mono _ _)
  | none =>
    simp only [Option.getD_none]
    have hgt := packScan_none cs h
    have hsub' : (lasts ++ [(t, clip)]).Subperm (pre ++ [(t, clip)]) :=
      (List.subperm_append_right _).2 hsub
    refine ⟨⟨lasts ++ [(t, clip)], hsub', ?_⟩, t, ?_⟩
    · refine List.rel_append hf (List.Forall₂.cons ?_ List.Forall₂.nil)
      have := entriesLength_added_le hk (gridTrack_nil k) hp
        (by simpa [entriesLength] using hp.1.nonneg)
      simpa [entriesLength] using this
    · have hall : ∀ q ∈ lasts ++ [(t, clip)], covers t q = true := by
        intro q hq
        rcases List.mem_append.1 hq with hq | hq
        · have hq1 : q.1 ≤ t := hsorted q (hsub.subset hq)
          obtain ⟨es, hes, hle⟩ := forall₂_mem_right hf hq
          have := hgt es hes
          simp only [covers, Bool.and_eq_true, decide_eq_true_eq]
          exact ⟨hq1, lt_of_lt_of_le this hle⟩
        · rw [List.mem_singleton] at hq
          subst hq
          simp only [covers, Bool.and_eq_true, decide_eq_true_eq]
          exact ⟨le_refl _, by simp only at hlen ⊢; linarith⟩
      have hfilter : (lasts ++ [(t, clip)]).filter (covers t) = lasts ++ [(t, clip)] :=
        List.filter_eq_self.2 hall
      have hlen2 : cs.length = lasts.length := hf.length_eq
      calc (cs ++ [addedEntries 0 t clip]).length
          = (lasts ++ [(t, clip)]).length := by simp [hlen2]
        _ = ((lasts ++ [(t, clip)]).filter (covers t)).length := by rw [hfilter]
        _ ≤ ((pre ++ [(t, clip)]).filter (covers t)).length :=
            (hsub'.filter _).length_le

theorem foldl_packStep_packed {k : Nat} (hk : k ≤ 149) :
    ∀ (rest pre : List (ℚ × Clip)) (cs : List (List TrackEntry)),
      (∀ es ∈ cs, GridTrack k es) →
      Packed pre cs → (pre ++ rest).Pairwise (fun p q => p.1 ≤ q.1) →
      (∀ p ∈ rest, GridPlacement k p ∧ 0 < p.2.length) →
      Packed (pre ++ rest) (rest.foldl packStep cs) := by
  intro rest
  induction rest with
  | nil => intro pre cs _ hinv _ _; simpa using hinv
  | cons p rest ih =>
    intro pre cs hgrid hinv hsorted hpos
    have hp := hpos p (List.mem_cons_self _ _)
    have hle : ∀ q ∈ pre, q.1 ≤ p.1 := by
      intro q hq
      rw [List.pairwise_append] at hsorted
      exact hsorted.2.2 q hq p (List.mem_cons_self _ _)
    have hsorted' : (pre ++ [p] ++ rest).Pairwise (fun p q => p.1 ≤ q.1) := by
      simpa using hsorted
    have := ih (pre ++ [p]) (packStep cs p) (packStep_grid hk hgrid hp.1)
      (packStep_packed hk hgrid hinv hle hp.1 hp.2) hsorted'
      (fun q hq => hpos q (List.mem_cons_of_mem _ hq))
    simpa using this

theorem nodup_bounded_length (l : List Nat) (m : Nat) (hnd : l.Nodup) (hlt : ∀ k ∈ l, k < m) :
    l.length ≤ m := by
  have hcard : l.toFinset.card = l.length := List.toFinset_card_of_nodup hnd
  have hsub : l.toFinset ⊆ Finset.range m := by
    intro k hk
    rw [List.mem_toFinset] at hk
    exact Finset.mem_range.2 (hlt k hk)
  have := Finset.card_le_card hsub
  rw [hcard, Finset.card_range] at this
  exact this

theorem zip_filter_fst_length {α β : Type} (q : α → Bool) :
    ∀ (xs : List α) (ys : List β), xs.length = ys.length →
      ((xs.zip ys).filter (fun u => q u.1)).length = (xs.filter q).length := by
  intro xs
  induction xs with
  | nil => intro ys _; simp
  | cons x xs ih =>
    intro ys hlen
    cases ys with
    | nil => simp at hlen
    | cons y ys =>
      have := ih ys (by simpa using hlen)
      simp only [List.zip_cons_cons, List.filter_cons]
      split <;> simp [this]

theorem resolved_sorted {clips : List Clip} {tl : List (ℚ × Nat)}
    (h : tl.Pairwise (fun p q => p.1 ≤ q.1)) :
    (resolved clips tl).Pairwise (fun p q => p.1 ≤ q.1) := by
  unfold resolved
  refine List.Pairwise.filterMap _ ?_ h
  intro a a' haa b hb b' hb'
  simp only [Option.mem_def, Option.map_eq_some'] at hb hb'
  obtain ⟨_, _, rfl⟩ := hb
  obtain ⟨_, _, rfl⟩ := hb'
  exact haa

/-- When `GenerateFile` runs through, the timeline of a channel is in non-decreasing
timestamp order, and its placements have clips of positive length and lie on a binary grid
(timestamps, lengths and interval ends `t + length` are multiples of `2 ^ (-k)` from 0 to
`2 ^ (24 - k)`, so that the `float` operations of the loop are exact), there is an instant
that lies in the intervals `[t, t + length)` of at least as many placements as
`GenerateFile` creates tracks for the channel.  Hence every assignment of the placements to
`m` tracks in which two placements on one track never contain a common instant has at least
as many tracks: `assign` lists the track of each placement in timeline order. -/
theorem generate_minimal_tracks [Stale] {template : XMLElement}
    {ffp : List String → String → String}
    {P : KdenliveProject} {paths : List String} {g : Generated} (ty : TrackType)
    (h : generate template ffp P paths = some g)
    (hsorted : (P.timeline ty).Pairwise (fun p q => p.1 ≤ q.1))
    {k : Nat} (hk : k ≤ 149)
    (hpos : ∀ p ∈ resolved P.clips (P.timeline ty), GridPlacement k p ∧ 0 < p.2.length) :
    (∃ x, (g.tracks ty).length ≤ overlapAt (resolved P.clips (P.timeline ty)) x) ∧
    ∀ (m : Nat) (assign : List Nat), assign.length = (P.timeline ty).length →
      (∀ k ∈ assign, k < m) →
      ((resolved P.clips (P.timeline ty)).zip assign).Pairwise
        (fun u v => u.2 = v.2 → ∀ x, ¬ (covers x u.1 = true ∧ covers x v.1 = true)) →
      (g.tracks ty).length ≤ m := by
  obtain ⟨-, hlen, hent, -, -⟩ := generate_channel h ty
  have hpacked := foldl_packStep_packed hk (resolved P.clips (P.timeline ty)) [] []
    (fun _ hx => absurd hx (List.not_mem_nil _))
    ⟨⟨[], List.Subperm.refl _, List.Forall₂.nil⟩, 0, Nat.zero_le _⟩
    (by simpa using resolved_sorted hsorted) hpos
  rw [List.nil_append, ← hent] at hpacked
  obtain ⟨-, x, hx⟩ := hpacked
  simp only [channelEntries, List.length_map] at hx
  refine ⟨⟨x, hx⟩, fun m assign hal hlt hpair => ?_⟩
  refine le_trans hx ?_
  have hcount := zip_filter_fst_length (covers x) (resolved P.clips (P.timeline ty)) assign
    (by rw [hlen, hal])
  unfold overlapAt
  rw [← hcount, ← List.length_map _ Prod.snd]
  refine nodup_bounded_length _ m ?_ ?_
  · rw [List.Nodup, List.pairwise_map]
    refine List.Pairwise.imp_of_mem ?_ (hpair.filter _)
    intro u v hu hv huv heq
    rw [List.mem_filter] at hu hv
    exact huv heq x ⟨hu.2, hv.2⟩
  · intro k hk
    rw [List.mem_map] at hk
    obtain ⟨u, hu, rfl⟩ := hk
    exact hlt _ (List.of_mem_zip (List.mem_of_mem_filter hu)).2

theorem exampleProject_video_sorted :
    (exampleProject.timeline TrackType.VIDEO).Pairwise (fun p q => p.1 ≤ q.1) := by
  decide!

/-! ## The asset bin -/

theorem lookup_none_iff (names : List (String × Nat)) (n : String) :
    names.lookup n = none ↔ n ∉ names.map Prod.fst := by
  induction names with
  | nil => simp
  | cons e rest ih =>
    obtain ⟨k, v⟩ := e
    rw [List.lookup_cons]
    by_cases hk : n = k
    · subst hk; simp
    · have : (n == k) = false := by simpa using hk
      rw [this]
      simp only [List.map_cons, List.mem_cons, not_or]
      rw [ih]
      exact ⟨fun h => ⟨hk, h⟩, fun h => h.2⟩

theorem lookup_some_mem (names : List (String × Nat)) (n : String) (id : Nat)
    (h : names.lookup n = some id) : (n, id) ∈ names := by
  induction names with
  | nil => simp at h
  | cons e rest ih =>
    obtain ⟨k, v⟩ := e
    rw [List.lookup_cons] at h
    by_cases hk : n = k
    · subst hk
      simp only [beq_self_eq_true, Option.some.injEq] at h
      subst h
      exact List.mem_cons_self _ _
    · have : (n == k) = false := by simpa using hk
      rw [this] at h
      exact List.mem_cons_of_mem _ (ih h)

theorem registerClips_spec [Stale] {ffp : List String → String → String} {paths : List String}
    (b : Nat) :
    ∀ (clips : List Clip) (f : KdenliveFile) (names : List (String × Nat))
      (f' : KdenliveFile) (names' : List (String × Nat)),
      registerClips ffp paths clips (f, names) = some (f', names') →
      (names.map Prod.fst).Nodup → names.map Prod.snd = List.range' b names.length →
      f.chain_count = b + names.length →
      (names'.map Prod.fst).Nodup ∧ names'.map Prod.snd = List.range' b names'.length ∧
        f'.chain_count = b + names'.length ∧
        ∀ n, n ∈ names'.map Prod.fst ↔ (n ∈ names.map Prod.fst ∨ ∃ c ∈ clips, c.name = n) := by
  intro clips
  induction clips with
  | nil =>
    intro f names f' names' h hnd hids hcount
    simp only [registerClips, Option.some.injEq, Prod.mk.injEq] at h
    obtain ⟨rfl, rfl⟩ := h
    exact ⟨hnd, hids, hcount, fun n => by simp⟩
  | cons clip rest ih =>
    intro f names f' names' h hnd hids hcount
    unfold registerClips at h
    split at h
    · rename_i hnone
      simp only [Option.bind_eq_some] at h
      obtain ⟨⟨f1, id⟩, h1, h2⟩ := h
      obtain ⟨hid, hch, -⟩ := AddClipToBin_book h1
      have hnew : clip.name ∉ names.map Prod.fst := (lookup_none_iff _ _).1 hnone
      obtain ⟨r1, r2, r3, r4⟩ := ih f1 (names ++ [(clip.name, id)]) f' names' h2
        (by
          rw [List.map_append, List.nodup_append]
          refine ⟨hnd, List.nodup_singleton _, ?_⟩
          intro a ha hb'
          simp only [List.map_cons, List.map_nil, List.mem_singleton] at hb'
          exact hnew (hb' ▸ ha))
        (by
          rw [List.map_append, hids, List.length_append, List.length_singleton,
            List.range'_1_concat, hid, hcount]
          rfl)
        (by rw [hch, hcount, List.length_append, List.length_singleton]; omega)
      refine ⟨r1, r2, r3, fun n => ?_⟩
      rw [r4 n]
      simp only [List.map_append, List.map_cons, List.map_nil, List.mem_append,
        List.mem_singleton]
      constructor
      · rintro ((h | h) | ⟨c, hc, hcn⟩)
        · exact Or.inl h
        · exact Or.inr ⟨clip, List.mem_cons_self _ _, h.symm⟩
        · exact Or.inr ⟨c, List.mem_cons_of_mem _ hc, hcn⟩
      · rintro (h | ⟨c, hc, hcn⟩)
        · exact Or.inl (Or.inl h)
        · rcases List.mem_cons.1 hc with rfl | hc
          · exact Or.inl (Or.inr hcn.symm)
          · exact Or.inr ⟨c, hc, hcn⟩
    · rename_i hsome
      obtain ⟨r1, r2, r3, r4⟩ := ih f names f' names' h hnd hids hcount
      refine ⟨r1, r2, r3, fun n => ?_⟩
      rw [r4 n]
      have hin : clip.name ∈ names.map Prod.fst := by
        by_contra hc
        exact hsome ((lookup_none_iff _ _).2 hc)
      constructor
      · rintro (h | ⟨c, hc, hcn⟩)
        · exact Or.inl h
        · exact Or.inr ⟨c, List.mem_cons_of_mem _ hc, hcn⟩
      · rintro (h | ⟨c, hc, hcn⟩)
        · exact Or.inl h
        · rcases List.mem_cons.1 hc with rfl | hc
          · exact Or.inl (hcn ▸ hin)
          · exact Or.inr ⟨c, hc, hcn⟩

/-- In the file `GenerateFile` returns, `included_names` holds no name
twice, its asset ids are `0, 1, 2, ...` in registration order, and `AddClipToBin` ran once
per entry (`chain_count` is the number of entries).  Any two placements, on either channel,
whose clips have the same name look up the same asset id, and that name has exactly one
entry. -/
theorem generate_deduplicates [Stale] {template : XMLElement}
    {ffp : List String → String → String}
    {P : KdenliveProject} {paths : List String} {g : Generated}
    (h : generate template ffp P paths = some g) :
    (g.included_names.map Prod.fst).Nodup ∧
    g.included_names.map Prod.snd = List.range g.included_names.length ∧
    g.kdenlive_file.chain_count = g.included_names.length ∧
    ∀ p ∈ P.video_timeline ++ P.audio_timeline, ∀ q ∈ P.video_timeline ++ P.audio_timeline,
      ∀ c1 c2, P.clips[p.2]? = some c1 → P.clips[q.2]? = some c2 → c1.name = c2.name →
        (∃ id, g.included_names.lookup c1.name = some id ∧
          g.included_names.lookup c2.name = some id ∧ id < g.kdenlive_file.chain_count) ∧
        (g.included_names.map Prod.fst).count c1.name = 1 := by
  obtain ⟨f0, f1, f2, fv, h0, h1, h2, h3, h4⟩ := generate_stages h
  obtain ⟨hch0, -⟩ := new_book h0
  obtain ⟨-, -, -, hch1, -⟩ := SetProfile_book h1
  obtain ⟨r1, r2, r3, r4⟩ := registerClips_spec 0 P.clips f1 [] f2 g.included_names h2
    List.nodup_nil rfl (by rw [hch1, hch0]; rfl)
  have c0 := new_consistent h0
  obtain ⟨a1, a2, a3, -, -⟩ := SetProfile_book h1
  have c1 := c0.of_book a1 a2 a3
  obtain ⟨b1, b2, b3, -⟩ := registerClips_book _ _ _ _ _ h2
  have c2 := c1.of_book b1 b2 b3
  obtain ⟨okv, -, -, chv, -, -, -⟩ :=
    addClips_refines _ _ _ _ _ (channelOK_nil c2) (le_refl _) h3
  obtain ⟨-, -, -, cha, -, -, -⟩ :=
    addClips_refines _ _ _ _ _ (channelOK_nil okv.1) (le_refl _) h4
  have hcount : g.kdenlive_file.chain_count = g.included_names.length := by
    rw [cha, chv, r3, Nat.zero_add]
  refine ⟨r1, by rw [r2, List.range_eq_range'], hcount, ?_⟩
  intro p _ q _ c1 c2 hc1 hc2 hname
  have hmem : c1.name ∈ g.included_names.map Prod.fst :=
    (r4 c1.name).2 (Or.inr ⟨c1, List.getElem?_mem hc1, rfl⟩)
  refine ⟨?_, List.count_eq_one_of_mem r1 hmem⟩
  cases hl : g.included_names.lookup c1.name with
  | none => exact absurd hmem ((lookup_none_iff _ _).1 hl)
  | some id =>
    refine ⟨id, rfl, by rw [← hname, hl], ?_⟩
    have hin : id ∈ g.included_names.map Prod.snd :=
      List.mem_map.2 ⟨(c1.name, id), lookup_some_mem _ _ _ hl, rfl⟩
    rw [r2, List.mem_range'_1] at hin
    rw [hcount]
    omega

/-! ## The builder runs -/

/-- On a file in order, the macro `ADD_CLIP` runs through for an existing track and a
registered clip name. -/
theorem ADD_CLIP_ok [Stale] (f : KdenliveFile) (names : List (String × Nat)) (id : Nat) (L t : ℚ)
    (clip : Clip) (hdoc : DocOK f) (hcons : Consistent f) (hid : id < f.track_count)
    (hname : (names.lookup clip.name).isSome = true) :
    ∃ f', ADD_CLIP f names id L t clip = some f' ∧ DocOK f' := by
  have step1 : ∃ f1, (if fsub t L > blankThreshold then
        (f.AddBlankToTrack id (fsub t L)).map Prod.fst else some f) = some f1 ∧ DocOK f1 ∧
        Consistent f1 ∧ f1.track_count = f.track_count := by
    by_cases hb : fsub t L > blankThreshold
    · rw [if_pos hb]
      obtain ⟨f1, e, h1, hd1⟩ := AddBlankToTrack_ok f id (fsub t L) hdoc hcons hid
      obtain ⟨L1, es1, -, -, -, -, -, hc, -, -⟩ := AddBlankToTrack_book h1
      exact ⟨f1, by rw [h1]; rfl, hd1, AddBlankToTrack_consistent hcons h1, hc⟩
    · rw [if_neg hb]
      exact ⟨f, rfl, hdoc, hcons, rfl⟩
  obtain ⟨f1, h1, hd1, hc1, hcount1⟩ := step1
  obtain ⟨cid, hcid⟩ := Option.isSome_iff_exists.1 hname
  obtain ⟨f2, e2, h2, hd2⟩ := AddClipToTrack_ok f1 id cid clip.length clip.start_offset hd1 hc1
    (by rw [hcount1]; exact hid)
  obtain ⟨L2, es2, -, hes2, -, he2, hentry, hcount2, -, -⟩ := AddClipToTrack_book h2
  obtain ⟨f3, h3, hd3⟩ := FadeClip_ok f2 id e2 clip.fade_in_time clip.fade_out_time hd2
    (by rw [hcount2, hcount1]; exact hid) _
    (by rw [he2]; exact getElem?_set_same _ _ _ _ hes2)
    (by rw [hentry, List.length_append, List.length_singleton]; omega)
  refine ⟨f3, ?_, hd3⟩
  unfold ADD_CLIP
  simp only [h1, Option.some_bind, hcid, h2, h3]

/-- The scan of the tracks of a channel runs through. -/
theorem scanTracks_ok [Stale] (f : KdenliveFile) (names : List (String × Nat)) (t : ℚ) (clip : Clip)
    (hdoc : DocOK f) (hcons : Consistent f) (hname : (names.lookup clip.name).isSome = true) :
    ∀ tracks : List Nat, (∀ id ∈ tracks, id < f.track_count) →
      ∃ r, scanTracks f names t clip tracks = some r ∧ ∀ f', r = some f' → DocOK f' := by
  intro tracks
  induction tracks with
  | nil => intro _; exact ⟨none, rfl, fun _ h => by cases h⟩
  | cons id rest ih =>
    intro hids
    have hid := hids id (List.mem_cons_self _ _)
    have hL : ∃ L, f.GetTrackLength id = some L := by
      rw [hcons.2 id, List.getElem?_eq_getElem (by rw [hcons.1]; exact hid)]
      exact ⟨_, rfl⟩
    obtain ⟨L, hL⟩ := hL
    unfold scanTracks
    rw [hL]
    simp only []
    split
    · obtain ⟨f', h, hd⟩ := ADD_CLIP_ok f names id _ t clip hdoc hcons hid hname
      refine ⟨some f', by rw [h]; rfl, fun f'' h'' => ?_⟩
      cases h''
      exact hd
    · exact ih (fun j hj => hids j (List.mem_cons_of_mem _ hj))

/-- One iteration of the loop over a timeline runs through. -/
theorem placeClip_ok [Stale] (ty : TrackType) (names : List (String × Nat))
    (clips : List Clip) (f : KdenliveFile) (tracks : List Nat) (t : ℚ) (c : Nat)
    (hcons : Consistent f) (hids : ∀ id ∈ tracks, id < f.track_count) (hdoc : DocOK f)
    (hnames : ∀ cl ∈ clips, (names.lookup cl.name).isSome = true) (hc : c < clips.length) :
    ∃ f' tracks', placeClip ty names clips (f, tracks) (t, c) = some (f', tracks') ∧
      DocOK f' := by
  have hclip : clips[c]? = some clips[c] := List.getElem?_eq_getElem hc
  have hname := hnames clips[c] (List.getElem_mem _)
  generalize clips[c] = clip at hclip hname
  obtain ⟨r, hscan, hr⟩ := scanTracks_ok f names t clip hdoc hcons hname tracks hids
  unfold placeClip
  cases r with
  | some f' =>
    refine ⟨f', tracks, ?_, hr f' rfl⟩
    simp only [bind, Option.bind, hclip, hscan, pure]
  | none =>
    obtain ⟨f1, h1, hd1⟩ := AddTrack_ok f ty hdoc hcons
    obtain ⟨-, hcount, -⟩ := AddTrack_book h1
    obtain ⟨f2, h2, hd2⟩ := ADD_CLIP_ok f1 names f.track_count 0 t clip hd1
      (AddTrack_consistent hcons h1) (by rw [hcount]; exact Nat.lt_succ_self _) hname
    refine ⟨f2, tracks ++ [f.track_count], ?_, hd2⟩
    simp only [bind, Option.bind, hclip, hscan, h1, h2, pure]

/-- The loop over a timeline runs through when every placement points to a clip of the
project. -/
theorem addClips_ok [Stale] {b : Nat} (ty : TrackType) (names : List (String × Nat))
    (clips : List Clip) (hnames : ∀ cl ∈ clips, (names.lookup cl.name).isSome = true) :
    ∀ (tl : List (ℚ × Nat)) (f : KdenliveFile) (tracks : List Nat),
      (∀ p ∈ tl, p.2 < clips.length) → ChannelOK b f tracks → b ≤ f.track_count → DocOK f →
      ∃ f' tracks', addClips ty names clips tl (f, tracks) = some (f', tracks') ∧
        DocOK f' := by
  intro tl
  induction tl with
  | nil => intro f tracks _ _ _ hdoc; exact ⟨f, tracks, rfl, hdoc⟩
  | cons p rest ih =>
    intro f tracks hp hok hb hdoc
    obtain ⟨t, c⟩ := p
    have hc : c < clips.length := hp (t, c) (List.mem_cons_self _ _)
    obtain ⟨f1, tracks1, h1, hd1⟩ := placeClip_ok ty names clips f tracks t c hok.1
      (fun id hid => (hok.2.2 id hid).2) hdoc hnames hc
    obtain ⟨hok1, -, -, -, hcase⟩ :=
      placeClip_refines hok hb (List.getElem?_eq_getElem hc) h1
    have hb1 : b ≤ f1.track_count := by
      rcases hcase with ⟨-, h⟩ | ⟨-, h⟩ <;> omega
    obtain ⟨f2, tracks2, h2, hd2⟩ := ih f1 tracks1
      (fun q hq => hp q (List.mem_cons_of_mem _ hq)) hok1 hb1 hd1
    refine ⟨f2, tracks2, ?_, hd2⟩
    unfold addClips
    rw [h1]
    exact h2

/-- The loop that fills the asset bin runs through. -/
theorem registerClips_ok [Stale] (ffp : List String → String → String) (paths : List String) :
    ∀ (clips : List Clip) (f : KdenliveFile) (names : List (String × Nat)), DocOK f →
      ∃ f' names', registerClips ffp paths clips (f, names) = some (f', names') ∧
        DocOK f' := by
  intro clips
  induction clips with
  | nil => intro f names hdoc; exact ⟨f, names, rfl, hdoc⟩
  | cons clip rest ih =>
    intro f names hdoc
    unfold registerClips
    split
    · obtain ⟨f1, id, h1, hd1⟩ := AddClipToBin_ok f (ffp paths clip.name) hdoc
      obtain ⟨f2, names2, h2, hd2⟩ := ih f1 (names ++ [(clip.name, id)]) hd1
      refine ⟨f2, names2, ?_, hd2⟩
      show (f.AddClipToBin (ffp paths clip.name)).bind _ = _
      rw [h1]
      exact h2
    · exact ih f names hdoc

/-- A sequence of calls that names only existing tracks runs through on a file in
order. -/
theorem runCalls_ok [Stale] :
    ∀ (calls : List FileCall) (f : KdenliveFile), ValidCalls f.track_count calls →
      DocOK f → Consistent f → ∃ f', runCalls calls f = some f' := by
  intro calls
  induction calls with
  | nil => intro f _ _ _; exact ⟨f, rfl⟩
  | cons c cs ih =>
    intro f hv hdoc hcons
    cases c with
    | AddTrack ty =>
      obtain ⟨f1, h1, hd1⟩ := AddTrack_ok f ty hdoc hcons
      obtain ⟨-, hcount, -⟩ := AddTrack_book h1
      obtain ⟨f2, h2⟩ := ih f1 (by rw [hcount]; exact hv) hd1 (AddTrack_consistent hcons h1)
      refine ⟨f2, ?_⟩
      show ((f.AddTrack ty).map Prod.fst).bind (runCalls cs) = some f2
      rw [h1]
      exact h2
    | AddBlankToTrack id len =>
      obtain ⟨f1, e, h1, hd1⟩ := AddBlankToTrack_ok f id len hdoc hcons hv.1
      obtain ⟨L1, es1, -, -, -, -, -, hcount, -, -⟩ := AddBlankToTrack_book h1
      obtain ⟨f2, h2⟩ := ih f1 (by rw [hcount]; exact hv.2) hd1
        (AddBlankToTrack_consistent hcons h1)
      refine ⟨f2, ?_⟩
      show ((f.AddBlankToTrack id len).map Prod.fst).bind (runCalls cs) = some f2
      rw [h1]
      exact h2
    | AddClipToTrack id cid len off =>
      obtain ⟨f1, e, h1, hd1⟩ := AddClipToTrack_ok f id cid len off hdoc hcons hv.1
      obtain ⟨L1, es1, -, -, -, -, -, hcount, -, -⟩ := AddClipToTrack_book h1
      obtain ⟨f2, h2⟩ := ih f1 (by rw [hcount]; exact hv.2) hd1
        (AddClipToTrack_consistent hcons h1)
      refine ⟨f2, ?_⟩
      show ((f.AddClipToTrack id cid len off).map Prod.fst).bind (runCalls cs) = some f2
      rw [h1]
      exact h2

theorem lookup_isSome_of_mem (names : List (String × Nat)) (n : String)
    (h : n ∈ names.map Prod.fst) : (names.lookup n).isSome = true := by
  cases hl : names.lookup n with
  | none => exact absurd h ((lookup_none_iff _ _).1 hl)
  | some _ => rfl

/-- The body of `GenerateFile` runs through: when the constructor and `SetProfile` succeed
on the template and leave the anchors in order, and every placement points to a clip of the
project, the function returns. -/
theorem generate_ok [Stale] (template : XMLElement) (ffp : List String → String → String)
    (P : KdenliveProject) (paths : List String) (f0 f1 : KdenliveFile)
    (h0 : KdenliveFile.new template = some f0)
    (h1 : f0.SetProfile (truncToInt P.framerate) P.frame_width P.frame_height = some f1)
    (hanch : AnchorsOK f1)
    (hv : ∀ p ∈ P.video_timeline, p.2 < P.clips.length)
    (ha : ∀ p ∈ P.audio_timeline, p.2 < P.clips.length) :
    ∃ g, generate template ffp P paths = some g := by
  have c0 := new_consistent h0
  obtain ⟨-, t0, -⟩ := new_book h0
  obtain ⟨a1, a2, a3, a4, -⟩ := SetProfile_book h1
  have c1 := c0.of_book a1 a2 a3
  have hd1 : DocOK f1 := ⟨hanch, fun k hk => by rw [a1, t0] at hk; exact absurd hk (Nat.not_lt_zero _)⟩
  obtain ⟨f2, names, h2, hd2⟩ := registerClips_ok ffp paths P.clips f1 [] hd1
  obtain ⟨b1, b2, b3, -⟩ := registerClips_book _ _ _ _ _ h2
  have c2 := c1.of_book b1 b2 b3
  obtain ⟨-, -, -, hn⟩ := registerClips_spec f1.chain_count _ _ _ _ _ h2 List.nodup_nil rfl rfl
  have hnames : ∀ cl ∈ P.clips, (names.lookup cl.name).isSome = true :=
    fun cl hcl => lookup_isSome_of_mem _ _ ((hn cl.name).2 (Or.inr ⟨cl, hcl, rfl⟩))
  obtain ⟨fv, vt, h3, hd3⟩ := addClips_ok TrackType.VIDEO names P.clips hnames
    P.video_timeline f2 [] hv (channelOK_nil c2) (le_refl _) hd2
  obtain ⟨okv, -⟩ := addClips_refines _ _ _ _ _ (channelOK_nil c2) (le_refl _) h3
  obtain ⟨fa, at_, h4, -⟩ := addClips_ok TrackType.AUDIO names P.clips hnames
    P.audio_timeline fv [] ha (channelOK_nil okv.1) (le_refl _) hd3
  refine ⟨⟨fa, names, vt, at_⟩, ?_⟩
  unfold generate
  simp only [bind, Option.bind, h0, h1, h2, h3, h4, pure]

/-! ## The statements about `GenerateFile` and the builder -/

theorem DocOK_of_new {template : XMLElement} {f0 : KdenliveFile}
    (h0 : KdenliveFile.new template = some f0) (hanch : AnchorsOK f0) : DocOK f0 :=
  ⟨hanch, fun k hk => by
    rw [(new_book h0).2.1] at hk
    exact absurd hk (Nat.not_lt_zero _)⟩

theorem minimalTemplate_new : ∃ f0 ∈ KdenliveFile.new minimalTemplate, AnchorsOK f0 := by
  decide!

theorem minimalTemplate_ready :
    ∃ f0 ∈ KdenliveFile.new minimalTemplate,
      ∃ f1 ∈ f0.SetProfile (truncToInt exampleProject.framerate) exampleProject.frame_width
        exampleProject.frame_height, AnchorsOK f1 := by
  decide!

theorem exampleProject_placements :
    (∀ p ∈ exampleProject.video_timeline, p.2 < exampleProject.clips.length) ∧
      ∀ p ∈ exampleProject.audio_timeline, p.2 < exampleProject.clips.length := by
  decide!

/-- C1. First-fit policy.  One iteration of a timeline loop of `GenerateFile`, for the
placement `(t, clip)` on a channel with track vector `tracks`, runs through on a file in
order when its tracks exist and the clip is registered.  Whenever it runs through, it either
appends the entries of `ADD_CLIP` to the track `tracks[i]` of least index `i` whose current
length is `≤ t` (every track before it has length `> t`), creating no track, or, when every
track of the channel has length `> t`, creates one new track and records the entries there.
On the minimal template, clips of length 10 at 0 and 5 end on two tracks, and clips of
length 10 at 0 and 10 end on track 0 with no Blank entry (evaluated with the dangling reads
returning the text the destroyed strings held). -/
theorem first_fit_policy [Stale] (ty : TrackType) (names : List (String × Nat)) (clips : List Clip)
    (f : KdenliveFile) (tracks : List Nat) (t : ℚ) (c : Nat) (hc : Consistent f) :
    (DocOK f → (∀ id ∈ tracks, id < f.track_count) →
      (∀ cl ∈ clips, (names.lookup cl.name).isSome = true) → c < clips.length →
      ∃ f' tracks', placeClip ty names clips (f, tracks) (t, c) = some (f', tracks')) ∧
    (∀ f' tracks', placeClip ty names clips (f, tracks) (t, c) = some (f', tracks') →
      ∃ clip, clips[c]? = some clip ∧
        ((∃ i, ∃ hi : i < tracks.length, ∃ L es,
            f.GetTrackLength tracks[i] = some L ∧ L ≤ t ∧
            (∀ j (hj : j < tracks.length), j < i →
              ∃ Lj, f.GetTrackLength tracks[j] = some Lj ∧ t < Lj) ∧
            tracks' = tracks ∧ f'.track_count = f.track_count ∧
            f.track_entries[tracks[i]]? = some es ∧
            f'.track_entries = f.track_entries.set tracks[i] (es ++ addedEntries L t clip)) ∨
         ((∀ j (hj : j < tracks.length),
              ∃ Lj, f.GetTrackLength tracks[j] = some Lj ∧ t < Lj) ∧
            tracks' = tracks ++ [f.track_count] ∧ f'.track_count = f.track_count + 1 ∧
            f'.track_entries = f.track_entries ++ [addedEntries 0 t clip]))) ∧
    (@generate Stale.intact minimalTemplate defaultFilePath
        ((KdenliveProject.new.CreateClipOnVideoTrack 0 "A" 10 0).1.CreateClipOnVideoTrack
          5 "B" 10 0).1 []).map (fun g => (g.video_tracks, g.kdenlive_file.track_entries)) =
      some ([0, 1], [[⟨EntryType.CLIP, 10, 0⟩],
        [⟨EntryType.BLANK, 5, 0⟩, ⟨EntryType.CLIP, 10, 0⟩]]) ∧
    (@generate Stale.intact minimalTemplate defaultFilePath
        ((KdenliveProject.new.CreateClipOnVideoTrack 0 "A" 10 0).1.CreateClipOnVideoTrack
          10 "B" 10 0).1 []).map (fun g => (g.video_tracks, g.kdenlive_file.track_entries)) =
      some ([0], [[⟨EntryType.CLIP, 10, 0⟩, ⟨EntryType.CLIP, 10, 0⟩]]) := by
  refine ⟨fun hdoc hids hnames hlt => ?_, fun f' tracks' h => placeClip_first_fit hc h,
    by decide!, by decide!⟩
  obtain ⟨f', tracks', h, -⟩ := placeClip_ok ty names clips f tracks t c hc hids hdoc hnames hlt
  exact ⟨f', tracks', h⟩

/-- Witness of C1: the first placement on an empty channel of a fresh file runs through and
creates the first track. -/
theorem first_fit_policy_witness :
    ∃ f f' tracks', Consistent f ∧ DocOK f ∧
      @placeClip Stale.intact TrackType.VIDEO [("A", 0)] [Clip.new "A" 10 0] (f, []) (0, 0) =
        some (f', tracks') ∧ tracks' = [f.track_count] := by
  obtain ⟨f, hf, hanch⟩ := minimalTemplate_new
  have hc := new_consistent hf
  have hd := DocOK_of_new hf hanch
  have T := @first_fit_policy Stale.intact TrackType.VIDEO [("A", 0)] [Clip.new "A" 10 0] f []
    0 0 hc
  obtain ⟨f', tracks', hr⟩ := T.1 hd (fun _ h => absurd h (List.not_mem_nil _)) (by decide!)
    (by decide)
  obtain ⟨clip, -, hcase⟩ := T.2.1 f' tracks' hr
  refine ⟨f, f', tracks', hc, hd, hr, ?_⟩
  rcases hcase with ⟨i, hi, -⟩ | ⟨-, htr, -⟩
  · exact absurd hi (Nat.not_lt_zero _)
  · simpa using htr

theorem tieProject_resolved :
    resolved tieProject.clips (tieProject.timeline TrackType.VIDEO) =
      [(0, ⟨"A", 3 / 16777216, 0, 0, 0, 0⟩), (8388611 / 8388608, ⟨"B", 1 / 8, 0, 0, 0, 0⟩),
       (9437187 / 8388608, ⟨"C", 1, 0, 0, 0, 0⟩)] := by
  decide!

/-- C2 as stated fails.  The three clips of `tieProject` have `float` timestamps and lengths
and no instant lies in two of their intervals `[t, t + length)`: the first ends at `1.5 u`,
the second covers `[1 + 3 u, 9/8 + 3 u)`, the third starts at `9/8 + 3 u` (`u = 2 ^ (-23)`).
One track would do, and `GenerateFile` creates two: the Blank before the second clip gets the
`float` length `1 + 2 u`, the track is recorded with length `9/8 + 4 u` after the clip, and
that is greater than the timestamp of the third clip. -/
theorem minimal_track_count_counterexample :
    (∀ p ∈ resolved tieProject.clips (tieProject.timeline TrackType.VIDEO),
      IsF32 p.1 ∧ IsF32 p.2.length ∧ 0 ≤ p.1 ∧ 0 < p.2.length) ∧
    (tieProject.timeline TrackType.VIDEO).Pairwise (fun p q => p.1 ≤ q.1) ∧
    (∀ x, overlapAt (resolved tieProject.clips (tieProject.timeline TrackType.VIDEO)) x ≤ 1) ∧
    (@generate Stale.intact minimalTemplate defaultFilePath tieProject []).map
        (fun g => (g.video_tracks, g.kdenlive_file.track_lengths,
          g.kdenlive_file.track_entries)) =
      some ([0, 1], [2359297 / 2097152, 4456449 / 2097152],
        [[⟨EntryType.CLIP, 3 / 16777216, 0⟩, ⟨EntryType.BLANK, 4194305 / 4194304, 0⟩,
          ⟨EntryType.CLIP, 1 / 8, 0⟩],
         [⟨EntryType.BLANK, 9437187 / 8388608, 0⟩, ⟨EntryType.CLIP, 1, 0⟩]]) ∧
    (9437187 / 8388608 : ℚ) < 2359297 / 2097152 := by
  refine ⟨by decide!, by decide!, ?_, by decide!, by norm_num⟩
  intro x
  rw [tieProject_resolved]
  unfold overlapAt
  simp only [List.filter_cons, List.filter_nil, covers, Bool.and_eq_true, decide_eq_true_eq]
  by_cases c1 : x < 1
  · have n2 : ¬ ((8388611 / 8388608 : ℚ) ≤ x) := by
      intro a
      linarith
    have n3 : ¬ ((9437187 / 8388608 : ℚ) ≤ x) := by
      intro a
      linarith
    simp only [n2, n3, false_and, if_false]
    split_ifs <;> simp
  · have n1 : ¬ (x < 0 + 3 / 16777216) := by
      intro a
      linarith
    by_cases c2 : x < 9437187 / 8388608
    · have n3 : ¬ ((9437187 / 8388608 : ℚ) ≤ x) := by
        intro a
        linarith
      simp only [n1, n3, false_and, and_false, if_false]
      split_ifs <;> simp
    · have n2 : ¬ (x < 8388611 / 8388608 + 1 / 8) := by
        intro a
        linarith
      simp only [n1, n2, false_and, and_false, if_false]
      split_ifs <;> simp

/-- C2, amended. Minimal track count.  `GenerateFile` runs through when the constructor and
`SetProfile` succeed on the template and leave the anchors in order and every placement
points to a clip of the project.  Whenever it runs through, and the timeline of a channel is
in non-decreasing timestamp order and its placements have clips of positive length and lie
on a binary grid (timestamps, lengths and interval ends `t + length` are multiples of
`2 ^ (-k)` from 0 to `2 ^ (24 - k)`, for one `k ≤ 149`, which makes every `float` operation
of the loop exact), there is an instant that lies in the intervals `[t, t + length)` of at
least as many placements as `GenerateFile` creates tracks for the channel.  Hence every
assignment of the placements to `m` tracks in which two placements on one track never
contain a common instant has at least as many tracks: `assign` lists the track of each
placement in timeline order. -/
theorem minimal_track_count [Stale] (template : XMLElement)
    (ffp : List String → String → String)
    (P : KdenliveProject) (paths : List String) (ty : TrackType) (k : Nat) (hk : k ≤ 149)
    (hsorted : (P.timeline ty).Pairwise (fun p q => p.1 ≤ q.1))
    (hpos : ∀ p ∈ resolved P.clips (P.timeline ty), GridPlacement k p ∧ 0 < p.2.length) :
    (∀ f0 f1, KdenliveFile.new template = some f0 →
      f0.SetProfile (truncToInt P.framerate) P.frame_width P.frame_height = some f1 →
      AnchorsOK f1 → (∀ p ∈ P.video_timeline, p.2 < P.clips.length) →
      (∀ p ∈ P.audio_timeline, p.2 < P.clips.length) →
      ∃ g, generate template ffp P paths = some g) ∧
    (∀ p ∈ resolved P.clips (P.timeline ty), IsF32 p.1 ∧ IsF32 p.2.length) ∧
    ∀ g, generate template ffp P paths = some g →
      (∃ x, (g.tracks ty).length ≤ overlapAt (resolved P.clips (P.timeline ty)) x) ∧
      ∀ (m : Nat) (assign : List Nat), assign.length = (P.timeline ty).length →
        (∀ k ∈ assign, k < m) →
        ((resolved P.clips (P.timeline ty)).zip assign).Pairwise
          (fun u v => u.2 = v.2 → ∀ x, ¬ (covers x u.1 = true ∧ covers x v.1 = true)) →
        (g.tracks ty).length ≤ m :=
  ⟨fun f0 f1 h0 h1 hanch hv ha => generate_ok template ffp P paths f0 f1 h0 h1 hanch hv ha,
    fun p hp => ⟨(hpos p hp).1.1.isF32 hk, (hpos p hp).1.2.1.isF32 hk⟩,
    fun _ h => generate_minimal_tracks ty h hsorted hk hpos⟩

/-- Witness of C2: the video channel of the example project on the minimal template, whose
two tracks are needed at the instant 9; its timestamps and lengths are whole numbers. -/
theorem minimal_track_count_witness :
    ∃ g, @generate Stale.intact minimalTemplate defaultFilePath exampleProject [] = some g ∧
      (g.tracks TrackType.VIDEO).length = 2 ∧
      ∃ x, (g.tracks TrackType.VIDEO).length ≤
        overlapAt (resolved exampleProject.clips (exampleProject.timeline TrackType.VIDEO)) x := by
  have T := @minimal_track_count Stale.intact minimalTemplate defaultFilePath exampleProject []
    TrackType.VIDEO 0 (by norm_num) exampleProject_video_sorted
    (exampleProject_grid TrackType.VIDEO)
  obtain ⟨f0, h0, f1, h1, hanch⟩ := minimalTemplate_ready
  obtain ⟨g, hg⟩ := T.1 f0 f1 h0 h1 hanch exampleProject_placements.1
    exampleProject_placements.2
  have hlen : ∀ g' ∈ @generate Stale.intact minimalTemplate defaultFilePath exampleProject [],
      (g'.tracks TrackType.VIDEO).length = 2 := by
    decide!
  exact ⟨g, hg, hlen g hg, (T.2.2 g hg).1⟩

theorem driftProject_resolved :
    resolved driftProject.clips (driftProject.timeline TrackType.VIDEO) =
      [(0, ⟨"A", 13421773 / 33554432, 0, 0, 0, 0⟩),
       (13421773 / 33554432, ⟨"B", 13421773 / 134217728, 0, 0, 0, 0⟩),
       (1 / 2, ⟨"C", 10, 0, 0, 0, 0⟩)] := by
  decide!

/-- C3 as stated fails.  The three clips of `driftProject` have `float` timestamps and
lengths.  `GenerateFile` puts them on one track without a Blank: the `float` sum of the first
two lengths is 1/2, the timestamp of the third clip.  The exact sum of the two lengths, the
position at which the third Clip entry begins, is 67108865 / 2^27, which is greater. -/
theorem clip_start_counterexample :
    (∀ p ∈ resolved driftProject.clips (driftProject.timeline TrackType.VIDEO),
      IsF32 p.1 ∧ IsF32 p.2.length ∧ 0 ≤ p.1 ∧ 0 < p.2.length) ∧
    (@generate Stale.intact minimalTemplate defaultFilePath driftProject []).map
        (fun g => (g.video_tracks, g.kdenlive_file.track_lengths,
          (channelEntries g.kdenlive_file g.video_tracks).map (clipStarts 0))) =
      some ([0], [21 / 2],
        [[(0, ⟨EntryType.CLIP, 13421773 / 33554432, 0⟩),
          (13421773 / 33554432, ⟨EntryType.CLIP, 13421773 / 134217728, 0⟩),
          (67108865 / 134217728, ⟨EntryType.CLIP, 10, 0⟩)]]) ∧
    fadd (13421773 / 33554432) (13421773 / 134217728) = 1 / 2 ∧
    ¬ EntryOfPlacement (67108865 / 134217728, ⟨EntryType.CLIP, 10, 0⟩)
      (1 / 2, ⟨"C", 10, 0, 0, 0, 0⟩) := by
  refine ⟨by decide!, by decide!, by decide!, ?_⟩
  unfold EntryOfPlacement
  norm_num

/-- C3, amended.  `GenerateFile` runs through when the constructor and `SetProfile` succeed
on the template and leave the anchors in order and every placement points to a clip of the
project.  Whenever it runs through, no placement of a channel is without a clip, and:

* If the timestamps of the channel are non-negative, the entries of every track of the
  channel are those `ADD_CLIP` records, one placement after the other, for placements
  `(t, clip)` of the timeline taken in order (`laidOut`): each found the recorded length `L`
  of the track, the `float` sum of the lengths before it, with `L ≤ t`, and added a Blank of
  the `float` length `t - L` if that exceeds the literal 0.00099, and then the Clip entry.
  Without a Blank, `t - L < 0.001`.
* If moreover the clips have positive length and the placements lie on a binary grid
  (timestamps, lengths and interval ends `t + length` are multiples of `2 ^ (-k)` from 0 to
  `2 ^ (24 - k)`, `k ≤ 149`), every `float` operation of the loop is exact: the recorded
  length of each track is the exact sum of the lengths of its entries, each Clip entry has
  the length and start offset of its clip and begins at a position `s` (the sum of the
  lengths of the entries before it) with `t - 0.001 < s ≤ t`, and each Clip entry ends
  before the next one of the track starts. -/
theorem clip_entries_start_at_placements [Stale] (template : XMLElement)
    (ffp : List String → String → String) (P : KdenliveProject) (paths : List String)
    (ty : TrackType) :
    (∀ f0 f1, KdenliveFile.new template = some f0 →
      f0.SetProfile (truncToInt P.framerate) P.frame_width P.frame_height = some f1 →
      AnchorsOK f1 → (∀ p ∈ P.video_timeline, p.2 < P.clips.length) →
      (∀ p ∈ P.audio_timeline, p.2 < P.clips.length) →
      ∃ g, generate template ffp P paths = some g) ∧
    (∀ L t : ℚ, ¬ fsub t L > blankThreshold → t - L < 0.001) ∧
    ∀ g, generate template ffp P paths = some g →
      (resolved P.clips (P.timeline ty)).length = (P.timeline ty).length ∧
      ((∀ p ∈ resolved P.clips (P.timeline ty), 0 ≤ p.1) →
        ∀ es ∈ channelEntries g.kdenlive_file (g.tracks ty),
          ∃ ps, ps.Sublist (resolved P.clips (P.timeline ty)) ∧ es = laidOut ps ∧
            ∀ n (hn : n < ps.length), entriesLength (laidOut (ps.take n)) ≤ ps[n].1) ∧
      ∀ k, k ≤ 149 →
        (∀ p ∈ resolved P.clips (P.timeline ty), GridPlacement k p ∧ 0 < p.2.length) →
        ∀ es ∈ channelEntries g.kdenlive_file (g.tracks ty),
          entriesLength es = exactLength es ∧
          (∃ ps, ps.Sublist (resolved P.clips (P.timeline ty)) ∧
            List.Forall₂ EntryOfPlacement (clipStarts 0 es) ps) ∧
          (clipStarts 0 es).Pairwise (fun a b => a.1 + a.2.length ≤ b.1) := by
  refine ⟨fun f0 f1 h0 h1 hanch hv ha =>
    generate_ok template ffp P paths f0 f1 h0 h1 hanch hv ha,
    fun L t h => lt_milli_of_fsub_le h, fun g h => ?_⟩
  refine ⟨(generate_channel h ty).2.1, fun hpos => generate_laid ty h hpos,
    fun k hk hpos es hes => ?_⟩
  obtain ⟨-, hall⟩ := generate_clip_starts ty h hk hpos
  obtain ⟨a, b, c⟩ := hall es hes
  exact ⟨a.2, b, c⟩

/-- Witness of C3: the video channel of the example project on the minimal template.  Clip C,
placed at 9 on the second track, begins at position 9 behind a Blank of length 9. -/
theorem clip_entries_start_at_placements_witness :
    ∃ g, @generate Stale.intact minimalTemplate defaultFilePath exampleProject [] = some g ∧
      (channelEntries g.kdenlive_file (g.tracks TrackType.VIDEO)).map (clipStarts 0) =
        [[(0, ⟨EntryType.CLIP, 10, 0⟩)], [(9, ⟨EntryType.CLIP, 15, 0⟩)]] ∧
      ∀ es ∈ channelEntries g.kdenlive_file (g.tracks TrackType.VIDEO),
        entriesLength es = exactLength es ∧
        (∃ ps, ps.Sublist
            (resolved exampleProject.clips (exampleProject.timeline TrackType.VIDEO)) ∧
          es = laidOut ps) ∧
        ∃ ps, ps.Sublist
            (resolved exampleProject.clips (exampleProject.timeline TrackType.VIDEO)) ∧
          List.Forall₂ EntryOfPlacement (clipStarts 0 es) ps := by
  have T := @clip_entries_start_at_placements Stale.intact minimalTemplate defaultFilePath
    exampleProject [] TrackType.VIDEO
  obtain ⟨f0, h0, f1, h1, hanch⟩ := minimalTemplate_ready
  obtain ⟨g, hg⟩ := T.1 f0 f1 h0 h1 hanch exampleProject_placements.1
    exampleProject_placements.2
  have hval : ∀ g' ∈ @generate Stale.intact minimalTemplate defaultFilePath exampleProject [],
      (channelEntries g'.kdenlive_file (g'.tracks TrackType.VIDEO)).map (clipStarts 0) =
        [[(0, ⟨EntryType.CLIP, 10, 0⟩)], [(9, ⟨EntryType.CLIP, 15, 0⟩)]] := by
    decide!
  obtain ⟨-, hA, hB⟩ := T.2.2 g hg
  refine ⟨g, hg, hval g hg, fun es hes => ?_⟩
  obtain ⟨ps, hsub, he, -⟩ :=
    hA (fun p hp => (exampleProject_grid TrackType.VIDEO p hp).1.1.nonneg) es hes
  obtain ⟨b1, b2, -⟩ := hB 0 (by norm_num) (exampleProject_grid TrackType.VIDEO) es hes
  exact ⟨b1, ⟨ps, hsub, he⟩, b2⟩

/-- C4, amended.  On a file in order, `ADD_CLIP` runs through for a track of length `L` and
a registered clip.  Whenever it runs through for a placement `(t, clip)` and a track whose
current length is `L`, the entries recorded for that track grow by a Blank entry followed by
the clip entry if the `float` difference `t - L` (the exact difference rounded to the
nearest `float`) is greater than the `double` literal 0.00099, and by the clip entry alone
otherwise.  The Blank entry has the `float` difference as its length, and the recorded
length of the track grows by `float` additions of the Blank length and the clip length.  The
literal is below 0.001, so without a Blank `t - L < 0.001`; and where `t`, `L` and `t - L`
are multiples of `2 ^ (-k)` from 0 to `2 ^ (24 - k)` (`k ≤ 149`), the `float` difference is
`t - L`. -/
theorem blank_padding_rule [Stale] (f : KdenliveFile) (names : List (String × Nat))
    (id : Nat) (L t : ℚ) (clip : Clip) (hL : f.GetTrackLength id = some L) :
    (DocOK f → Consistent f → (names.lookup clip.name).isSome = true →
      ∃ f', ADD_CLIP f names id L t clip = some f') ∧
    (∀ f', ADD_CLIP f names id L t clip = some f' →
      ∃ es, f.track_entries[id]? = some es ∧
        f'.track_entries[id]? = some (es ++
          (if fsub t L > blankThreshold then [⟨EntryType.BLANK, fsub t L, 0⟩] else []) ++
          [⟨EntryType.CLIP, clip.length, clip.start_offset⟩]) ∧
        f'.GetTrackLength id =
          some (fadd (if fsub t L > blankThreshold then fadd L (fsub t L) else L)
            clip.length)) ∧
    blankThreshold = 2282784579121557 / 2 ^ 61 ∧ blankThreshold < 0.00099 ∧
    (989999 : ℚ) / 1000000000 < blankThreshold ∧
    (¬ fsub t L > blankThreshold → t - L < 0.001) ∧
    ∀ k, k ≤ 149 → OnGrid k t → OnGrid k L → L ≤ t → fsub t L = t - L := by
  refine ⟨fun hdoc hcons hname => ?_, fun f' h => ADD_CLIP_entries hL h, ?_, ?_, ?_,
    fun h => lt_milli_of_fsub_le h, fun k hk ht hl hle => fsub_grid hk ht hl hle⟩
  · have hid : id < f.track_count := by
      rw [← hcons.lengths_length]
      by_contra hge
      rw [GetTrackLength, List.getElem?_eq_none (by omega)] at hL
      cases hL
    obtain ⟨f', h, -⟩ := ADD_CLIP_ok f names id L t clip hdoc hcons hid hname
    exact ⟨f', h⟩
  · unfold blankThreshold
    norm_num
  · unfold blankThreshold
    norm_num
  · unfold blankThreshold
    norm_num

/-- Witness of the amended C4: on a track that holds a blank of 13421773 / 2^27 (the `float`
nearest to 0.1), a clip of length 10 placed at 10066330 / 2^25 (the `float` nearest to 0.3)
gets a Blank of the `float` length 6710887 / 2^25 in front. -/
theorem blank_padding_rule_witness :
    ∃ f f' es, f.GetTrackLength 0 = some (13421773 / 134217728) ∧
      @ADD_CLIP Stale.intact f [("A", 0)] 0 (13421773 / 134217728) (10066330 / 33554432)
        (Clip.new "A" 10 0) = some f' ∧
      f.track_entries[0]? = some es ∧
      f'.track_entries[0]? = some (es ++ [⟨EntryType.BLANK, 6710887 / 33554432, 0⟩] ++
        [⟨EntryType.CLIP, 10, 0⟩]) ∧
      f'.GetTrackLength 0 = some (10800333 / 1048576) := by
  obtain ⟨f0, h0, hanch⟩ := minimalTemplate_new
  have hb := new_book h0
  obtain ⟨f1, hadd, hd1⟩ := AddTrack_ok f0 TrackType.VIDEO (DocOK_of_new h0 hanch)
    (new_consistent h0)
  have hc1 := AddTrack_consistent (new_consistent h0) hadd
  obtain ⟨-, hcount1, hl1, -⟩ := AddTrack_book hadd
  have hid : 0 < f1.track_count := by
    rw [hcount1]
    omega
  obtain ⟨f, e, hblank, hd⟩ := AddBlankToTrack_ok f1 0 (13421773 / 134217728) hd1 hc1 hid
  have hc := AddBlankToTrack_consistent hc1 hblank
  obtain ⟨L1, es1, hL1, -, hl, -⟩ := AddBlankToTrack_book hblank
  have hL10 : L1 = 0 := by
    rw [hl1, hb.2.2.2.1] at hL1
    simpa using hL1.symm
  have hL : f.GetTrackLength 0 = some (13421773 / 134217728) := by
    rw [GetTrackLength, hl, hL10, hl1, hb.2.2.2.1]
    decide!
  have T := @blank_padding_rule Stale.intact f [("A", 0)] 0 (13421773 / 134217728)
    (10066330 / 33554432) (Clip.new "A" 10 0) hL
  obtain ⟨f', hf'⟩ := T.1 hd hc (by decide!)
  obtain ⟨es, h1, h2, h3⟩ := T.2.1 f' hf'
  have e1 : fsub (10066330 / 33554432) (13421773 / 134217728) = 6710887 / 33554432 := by
    decide!
  have e2 : (6710887 / 33554432 : ℚ) > blankThreshold := by
    decide!
  have e3 : fadd (fadd (13421773 / 134217728) (6710887 / 33554432)) 10 = 10800333 / 1048576 := by
    decide!
  rw [e1, if_pos e2] at h2
  have e4 : (Clip.new "A" 10 0).length = 10 := rfl
  rw [e1, if_pos e2, e4, e3] at h3
  exact ⟨f, f', es, hL, hf', h1, h2, h3⟩

/-- The `float` sum of the entry lengths is their exact sum when every partial sum of the
lengths is a `float`. -/
theorem entriesLength_eq_exact (es : List TrackEntry)
    (h : ∀ n, n ≤ es.length → IsF32 (exactLength (es.take n))) :
    entriesLength es = exactLength es := by
  induction es using List.reverseRecOn with
  | nil => rfl
  | append_singleton es e ih =>
    have ih1 : entriesLength es = exactLength es := by
      refine ih (fun n hn => ?_)
      have := h n (by simp; omega)
      rwa [List.take_append_of_le_length hn] at this
    have hall := h (es ++ [e]).length le_rfl
    rw [List.take_length] at hall
    rw [entriesLength_snoc, ih1]
    have e1 : exactLength (es ++ [e]) = exactLength es + e.length := by
      simp [exactLength]
    rw [e1] at hall ⊢
    exact hall

/-- C5 as stated fails.  After `AddTrack`, a clip entry of length 13421773 / 2^25 (the
`float` nearest to 0.4) and one of length 13421773 / 2^27 (the `float` nearest to 0.1),
`GetTrackLength(0)` is 1/2, the `float` sum, and the lengths of the two entries recorded for
the track add up to 67108865 / 2^27. -/
theorem track_length_counterexample :
    IsF32 (13421773 / 33554432) ∧ IsF32 (13421773 / 134217728) ∧
    ((KdenliveFile.new minimalTemplate).bind
        (@runCalls Stale.intact [FileCall.AddTrack TrackType.VIDEO,
          FileCall.AddClipToTrack 0 0 (13421773 / 33554432) 0,
          FileCall.AddClipToTrack 0 0 (13421773 / 134217728) 0])).map
        (fun f => (f.GetTrackLength 0, f.track_entries[0]?,
          (f.track_entries[0]?).map exactLength)) =
      some (some (1 / 2),
        some [⟨EntryType.CLIP, 13421773 / 33554432, 0⟩,
          ⟨EntryType.CLIP, 13421773 / 134217728, 0⟩],
        some (67108865 / 134217728)) := by
  refine ⟨by decide!, by decide!, by decide!⟩

/-- C5, amended.  Track-length invariant.  On a freshly constructed file whose anchors are
in order, every sequence of calls of `AddTrack`, `AddBlankToTrack` and `AddClipToTrack` that
names only existing tracks runs through.  In every file reached by such calls,
`GetTrackLength(id)` is the `float` sum of the lengths of the entries recorded for track
`id`: the lengths added one by one from 0 in the order of the entries, each sum rounded to
the nearest `float` (and both are absent for an id that is no track).  It is the exact sum
of the lengths when every partial sum of them is a `float`.  A further `AddTrack` returns a
track of length 0 without entries and changes no other track; a further `AddBlankToTrack`
or `AddClipToTrack` on track `id` leaves the length and the entries of every other track
unchanged. -/
theorem track_length_invariant [Stale] (template : XMLElement) (f0 : KdenliveFile)
    (calls : List FileCall) (h0 : KdenliveFile.new template = some f0) :
    (AnchorsOK f0 → ValidCalls 0 calls → ∃ f, runCalls calls f0 = some f) ∧
    ∀ f, runCalls calls f0 = some f →
      (∀ id, f.GetTrackLength id = (f.track_entries[id]?).map
        (fun es => es.foldl (fun a e => roundF32 (a + e.length)) 0)) ∧
      (∀ id es, f.track_entries[id]? = some es →
        (∀ n, n ≤ es.length → IsF32 ((es.take n).map TrackEntry.length).sum) →
        f.GetTrackLength id = some (es.map TrackEntry.length).sum) ∧
      (∀ ty f' id, f.AddTrack ty = some (f', id) →
        f'.GetTrackLength id = some 0 ∧ f'.track_entries[id]? = some [] ∧
        ∀ j, j ≠ id → f'.GetTrackLength j = f.GetTrackLength j ∧
          f'.track_entries[j]? = f.track_entries[j]?) ∧
      (∀ id len f' e, f.AddBlankToTrack id len = some (f', e) →
        ∀ j, j ≠ id → f'.GetTrackLength j = f.GetTrackLength j ∧
          f'.track_entries[j]? = f.track_entries[j]?) ∧
      (∀ id cid len off f' e, f.AddClipToTrack id cid len off = some (f', e) →
        ∀ j, j ≠ id → f'.GetTrackLength j = f.GetTrackLength j ∧
          f'.track_entries[j]? = f.track_entries[j]?) := by
  refine ⟨fun hanch hv => ?_, fun f h => ?_⟩
  · refine runCalls_ok calls f0 ?_ (DocOK_of_new h0 hanch) (new_consistent h0)
    rw [(new_book h0).2.1]
    exact hv
  · obtain ⟨a, b, c, d⟩ := runCalls_invariant h0 h
    refine ⟨a, fun id es hes hpre => ?_, b, c, d⟩
    rw [a id, hes]
    exact congrArg some (entriesLength_eq_exact es hpre)

/-- Witness of C5: a video track with a blank of 13421773 / 2^25 (the `float` nearest to
0.4) and a clip of 13421773 / 2^27 (the `float` nearest to 0.1), and an audio track, built
on the minimal template.  The recorded length of the video track is 1/2. -/
theorem track_length_invariant_witness :
    ∃ f0 f, KdenliveFile.new minimalTemplate = some f0 ∧
      @runCalls Stale.intact [FileCall.AddTrack TrackType.VIDEO,
        FileCall.AddBlankToTrack 0 (13421773 / 33554432),
        FileCall.AddTrack TrackType.AUDIO,
        FileCall.AddClipToTrack 0 0 (13421773 / 134217728) 0] f0 = some f ∧
      f.GetTrackLength 0 = (f.track_entries[0]?).map
        (fun es => es.foldl (fun a e => roundF32 (a + e.length)) 0) ∧
      f.GetTrackLength 0 = some (1 / 2) ∧ f.GetTrackLength 1 = some 0 := by
  obtain ⟨f0, h0, hanch⟩ := minimalTemplate_new
  have T := @track_length_invariant Stale.intact minimalTemplate f0
    [FileCall.AddTrack TrackType.VIDEO, FileCall.AddBlankToTrack 0 (13421773 / 33554432),
      FileCall.AddTrack TrackType.AUDIO,
      FileCall.AddClipToTrack 0 0 (13421773 / 134217728) 0] h0
  obtain ⟨f, hf⟩ := T.1 hanch ⟨by decide, by decide, trivial⟩
  have hval : ∀ g0 ∈ KdenliveFile.new minimalTemplate,
      ∀ g ∈ @runCalls Stale.intact [FileCall.AddTrack TrackType.VIDEO,
        FileCall.AddBlankToTrack 0 (13421773 / 33554432),
        FileCall.AddTrack TrackType.AUDIO,
        FileCall.AddClipToTrack 0 0 (13421773 / 134217728) 0] g0,
      g.GetTrackLength 0 = some (1 / 2) ∧ g.GetTrackLength 1 = some 0 := by
    decide!
  exact ⟨f0, f, h0, hf, (T.2 f hf).1 0, hval f0 h0 f hf⟩

/-! ## Order of a timeline -/

theorem multimapInsert_perm (t : ℚ) (c : Nat) (l : List (ℚ × Nat)) :
    (multimapInsert t c l).Perm ((t, c) :: l) := by
  induction l with
  | nil => exact List.Perm.refl _
  | cons e rest ih =>
    unfold multimapInsert
    split
    · exact List.Perm.refl _
    · exact (List.Perm.cons e ih).trans (List.Perm.swap _ _ _)

theorem multimapInsert_sorted (t : ℚ) (c : Nat) (l : List (ℚ × Nat))
    (h : l.Pairwise (fun p q => p.1 ≤ q.1)) :
    (multimapInsert t c l).Pairwise (fun p q => p.1 ≤ q.1) := by
  induction l with
  | nil => simp [multimapInsert]
  | cons e rest ih =>
    rw [List.pairwise_cons] at h
    unfold multimapInsert
    split
    · rename_i hlt
      refine List.Pairwise.cons ?_ (List.Pairwise.cons h.1 h.2)
      intro q hq
      rcases List.mem_cons.1 hq with rfl | hq
      · exact le_of_lt hlt
      · exact le_trans (le_of_lt hlt) (h.1 q hq)
    · rename_i hnlt
      refine List.Pairwise.cons ?_ (ih h.2)
      intro q hq
      rcases List.mem_cons.1 ((multimapInsert_perm t c rest).subset hq) with rfl | hq
      · exact le_of_not_lt hnlt
      · exact h.1 q hq

theorem multimapInsert_filter (t : ℚ) (c : Nat) (k : ℚ) (l : List (ℚ × Nat))
    (h : l.Pairwise (fun p q => p.1 ≤ q.1)) :
    (multimapInsert t c l).filter (fun p => decide (p.1 = k)) =
      l.filter (fun p => decide (p.1 = k)) ++ (if t = k then [(t, c)] else []) := by
  induction l with
  | nil =>
    unfold multimapInsert
    by_cases htk : t = k <;> simp [htk]
  | cons e rest ih =>
    rw [List.pairwise_cons] at h
    unfold multimapInsert
    split
    · rename_i hlt
      by_cases htk : t = k
      · have hrest : ∀ q ∈ e :: rest, ¬ q.1 = k := by
          intro q hq hqk
          have : e.1 ≤ q.1 := by
            rcases List.mem_cons.1 hq with rfl | hq
            · exact le_refl _
            · exact h.1 q hq
          rw [hqk, ← htk] at this
          exact absurd hlt (not_lt.2 this)
        have hnil : (e :: rest).filter (fun p => decide (p.1 = k)) = [] := by
          rw [List.filter_eq_nil_iff]
          intro q hq
          simpa using hrest q hq
        rw [List.filter_cons, hnil]
        simp [htk]
      · rw [List.filter_cons]
        simp [htk]
    · rw [List.filter_cons, ih h.2, List.filter_cons]
      split <;> simp

theorem foldl_multimapInsert (ins : List (ℚ × Nat)) :
    (ins.foldl (fun l p => multimapInsert p.1 p.2 l) []).Pairwise (fun p q => p.1 ≤ q.1) ∧
    (ins.foldl (fun l p => multimapInsert p.1 p.2 l) []).Perm ins ∧
    ∀ k : ℚ, (ins.foldl (fun l p => multimapInsert p.1 p.2 l) []).filter
        (fun p => decide (p.1 = k)) = ins.filter (fun p => decide (p.1 = k)) := by
  induction ins using List.reverseRecOn with
  | nil => simp
  | append_singleton ins p ih =>
    obtain ⟨h1, h2, h3⟩ := ih
    rw [List.foldl_append, List.foldl_cons, List.foldl_nil]
    refine ⟨multimapInsert_sorted _ _ _ h1, ?_, fun k => ?_⟩
    · exact (multimapInsert_perm _ _ _).trans
        ((List.Perm.cons _ h2).trans (List.perm_append_singleton _ _).symm)
    · rw [multimapInsert_filter _ _ _ _ h1, h3 k, List.filter_append]
      congr 1
      obtain ⟨t, c⟩ := p
      by_cases hk : t = k <;> simp [hk]

theorem video_timeline_foldl (ins : List (ℚ × Nat)) (P0 : KdenliveProject) :
    (ins.foldl (fun P p => P.AddClipToVideoTrack p.1 p.2) P0).video_timeline =
      ins.foldl (fun l p => multimapInsert p.1 p.2 l) P0.video_timeline := by
  induction ins generalizing P0 with
  | nil => rfl
  | cons p rest ih => rw [List.foldl_cons, ih]; rfl

theorem audio_timeline_foldl (ins : List (ℚ × Nat)) (P0 : KdenliveProject) :
    (ins.foldl (fun P p => P.AddClipToAudioTrack p.1 p.2) P0).audio_timeline =
      ins.foldl (fun l p => multimapInsert p.1 p.2 l) P0.audio_timeline := by
  induction ins generalizing P0 with
  | nil => rfl
  | cons p rest ih => rw [List.foldl_cons, ih]; rfl

/-- C6.  After the calls `AddClipToVideoTrack(t, clip)` for the pairs of `ins`, in that
order, on a project whose video timeline was empty, the video timeline, which `GenerateFile`
walks from front to back, is the stable sort of `ins` by timestamp: timestamps are
non-decreasing, it is a permutation of `ins`, and for every timestamp the placements with
that timestamp appear in their insertion order.  The same holds for `AddClipToAudioTrack` and
the audio timeline. -/
theorem timeline_is_stable_sort (P0 : KdenliveProject) (ins : List (ℚ × Nat))
    (hv : P0.video_timeline = []) (ha : P0.audio_timeline = []) :
    ((ins.foldl (fun P p => P.AddClipToVideoTrack p.1 p.2) P0).video_timeline.Pairwise
        (fun p q => p.1 ≤ q.1) ∧
      (ins.foldl (fun P p => P.AddClipToVideoTrack p.1 p.2) P0).video_timeline.Perm ins ∧
      ∀ k : ℚ, (ins.foldl (fun P p => P.AddClipToVideoTrack p.1 p.2) P0).video_timeline.filter
        (fun p => decide (p.1 = k)) = ins.filter (fun p => decide (p.1 = k))) ∧
    ((ins.foldl (fun P p => P.AddClipToAudioTrack p.1 p.2) P0).audio_timeline.Pairwise
        (fun p q => p.1 ≤ q.1) ∧
      (ins.foldl (fun P p => P.AddClipToAudioTrack p.1 p.2) P0).audio_timeline.Perm ins ∧
      ∀ k : ℚ, (ins.foldl (fun P p => P.AddClipToAudioTrack p.1 p.2) P0).audio_timeline.filter
        (fun p => decide (p.1 = k)) = ins.filter (fun p => decide (p.1 = k))) := by
  rw [video_timeline_foldl, audio_timeline_foldl, hv, ha]
  exact ⟨foldl_multimapInsert ins, foldl_multimapInsert ins⟩

/-- Witness of C6: three placements inserted out of order, two of them at the same time. -/
theorem timeline_is_stable_sort_witness :
    KdenliveProject.new.video_timeline = [] ∧ KdenliveProject.new.audio_timeline = [] ∧
      ([((9 : ℚ), 2), (0, 0), (9, 1)].foldl (fun P p => P.AddClipToVideoTrack p.1 p.2)
        KdenliveProject.new).video_timeline.Pairwise (fun p q => p.1 ≤ q.1) :=
  ⟨rfl, rfl, (timeline_is_stable_sort KdenliveProject.new [(9, 2), (0, 0), (9, 1)] rfl rfl).1.1⟩

/-! ## Timestamp codec -/

theorem truncToInt_nonneg {x : ℚ} (hx : 0 ≤ x) : truncToInt x = ((⌊x⌋₊ : ℕ) : ℤ) := by
  unfold truncToInt
  rw [if_pos hx]
  exact (Int.natCast_floor_eq_floor hx).symm

theorem floor_nat_add_frac (n : ℕ) {φ : ℚ} (h0 : 0 ≤ φ) (h1 : φ < 1) :
    ⌊(n : ℚ) + φ⌋₊ = n := by
  rw [Nat.floor_eq_iff (by positivity)]
  constructor <;> linarith

theorem fmod_nat_add_frac (q m : ℕ) (hm : 0 < m) {φ : ℚ} (h0 : 0 ≤ φ) (h1 : φ < 1) :
    fmod ((q : ℚ) + φ) (m : ℚ) = ((q % m : ℕ) : ℚ) + φ := by
  have hmq : (0 : ℚ) < m := by exact_mod_cast hm
  have hx : (0 : ℚ) ≤ ((q : ℚ) + φ) / m := by positivity
  unfold fmod
  rw [truncToInt_nonneg hx, Nat.floor_div_nat, floor_nat_add_frac q h0 h1]
  have hdm : ((q / m * m + q % m : ℕ) : ℚ) = (q : ℚ) := by
    rw [Nat.div_add_mod']
  rw [Int.cast_natCast]
  rw [Nat.cast_add, Nat.cast_mul] at hdm
  linarith

/-- The fields of the timestamp of a non-negative `float`: the two `fmod` results and the
difference `seconds - secs` are `float`s, so only the product with 1000 is rounded. -/
theorem timestampFields_nonneg {s : ℚ} (hf : IsF32 s) (hs : 0 ≤ s) :
    timestampFields s =
      ⟨((⌊s⌋₊ / 3600 : ℕ) : ℤ), ((⌊s⌋₊ % 3600 / 60 : ℕ) : ℤ), ((⌊s⌋₊ % 60 : ℕ) : ℤ),
        ((⌊roundF32 ((s - (⌊s⌋₊ : ℚ)) * 1000)⌋₊ : ℕ) : ℤ)⟩ ∧
      IsF32 (s - (⌊s⌋₊ : ℚ)) := by
  have h0 : 0 ≤ s - (⌊s⌋₊ : ℚ) := sub_nonneg.2 (Nat.floor_le hs)
  have h1 : s - (⌊s⌋₊ : ℚ) < 1 := by
    have := Nat.lt_floor_add_one s
    linarith
  have hsplit : s = (⌊s⌋₊ : ℚ) + (s - (⌊s⌋₊ : ℚ)) := by ring
  have hA : fmod s 3600 = ((⌊s⌋₊ % 3600 : ℕ) : ℚ) + (s - (⌊s⌋₊ : ℚ)) := by
    have := fmod_nat_add_frac ⌊s⌋₊ 3600 (by norm_num) h0 h1
    rw [← hsplit] at this
    exact_mod_cast this
  have hB : fmod (((⌊s⌋₊ % 3600 : ℕ) : ℚ) + (s - (⌊s⌋₊ : ℚ))) 60 =
      ((⌊s⌋₊ % 60 : ℕ) : ℚ) + (s - (⌊s⌋₊ : ℚ)) := by
    have := fmod_nat_add_frac (⌊s⌋₊ % 3600) 60 (by norm_num) h0 h1
    rw [Nat.mod_mod_of_dvd _ (by norm_num : 60 ∣ 3600)] at this
    exact_mod_cast this
  have hA0 : (0 : ℚ) ≤ ((⌊s⌋₊ % 3600 : ℕ) : ℚ) + (s - (⌊s⌋₊ : ℚ)) := by positivity
  have hB0 : (0 : ℚ) ≤ ((⌊s⌋₊ % 60 : ℕ) : ℚ) + (s - (⌊s⌋₊ : ℚ)) := by positivity
  have m1 : ⌊s⌋₊ % 3600 < 3600 := Nat.mod_lt _ (by norm_num)
  have m2 : ⌊s⌋₊ % 60 < 60 := Nat.mod_lt _ (by norm_num)
  have m1q : ((⌊s⌋₊ % 3600 : ℕ) : ℚ) < 3600 := by exact_mod_cast m1
  have m2q : ((⌊s⌋₊ % 60 : ℕ) : ℚ) < 60 := by exact_mod_cast m2
  have fA : IsF32 (((⌊s⌋₊ % 3600 : ℕ) : ℚ) + (s - (⌊s⌋₊ : ℚ))) := by
    have hq : ((⌊s⌋₊ % 3600 : ℕ) : ℚ) + ((3600 * (⌊s⌋₊ / 3600) : ℕ) : ℚ) = (⌊s⌋₊ : ℚ) := by
      exact_mod_cast Nat.mod_add_div ⌊s⌋₊ 3600
    have e : ((⌊s⌋₊ % 3600 : ℕ) : ℚ) + (s - (⌊s⌋₊ : ℚ)) =
        s - ((3600 * (⌊s⌋₊ / 3600) : ℕ) : ℚ) := by linarith
    rw [e]
    refine hf.sub_natCast _ (by linarith) ?_
    rw [← e]
    norm_num
    linarith
  have fB : IsF32 (((⌊s⌋₊ % 60 : ℕ) : ℚ) + (s - (⌊s⌋₊ : ℚ))) := by
    have hq : ((⌊s⌋₊ % 60 : ℕ) : ℚ) + ((60 * (⌊s⌋₊ % 3600 / 60) : ℕ) : ℚ) =
        ((⌊s⌋₊ % 3600 : ℕ) : ℚ) := by
      have := Nat.mod_add_div (⌊s⌋₊ % 3600) 60
      rw [Nat.mod_mod_of_dvd _ (by norm_num : 60 ∣ 3600)] at this
      exact_mod_cast this
    have e : ((⌊s⌋₊ % 60 : ℕ) : ℚ) + (s - (⌊s⌋₊ : ℚ)) =
        ((⌊s⌋₊ % 3600 : ℕ) : ℚ) + (s - (⌊s⌋₊ : ℚ)) -
          ((60 * (⌊s⌋₊ % 3600 / 60) : ℕ) : ℚ) := by linarith
    rw [e]
    refine fA.sub_natCast _ (by linarith) ?_
    rw [← e]
    norm_num
    linarith
  have fC : IsF32 (((⌊s⌋₊ % 60 : ℕ) : ℚ)) := isF32_natCast _ (by omega)
  have fD : IsF32 (s - (⌊s⌋₊ : ℚ)) := by
    have e : s - (⌊s⌋₊ : ℚ) =
        ((⌊s⌋₊ % 60 : ℕ) : ℚ) + (s - (⌊s⌋₊ : ℚ)) - ((⌊s⌋₊ % 60 : ℕ) : ℚ) := by ring
    rw [e]
    refine fB.sub_natCast _ (by linarith) ?_
    rw [← e]
    norm_num
    linarith
  refine ⟨?_, fD⟩
  unfold timestampFields
  simp only [hA]
  rw [show roundF32 (((⌊s⌋₊ % 3600 : ℕ) : ℚ) + (s - (⌊s⌋₊ : ℚ))) = _ from fA]
  simp only [hB]
  rw [show roundF32 (((⌊s⌋₊ % 60 : ℕ) : ℚ) + (s - (⌊s⌋₊ : ℚ))) = _ from fB]
  rw [truncToInt_nonneg hs, truncToInt_nonneg hA0, truncToInt_nonneg hB0,
    floor_nat_add_frac _ h0 h1, floor_nat_add_frac _ h0 h1]
  have hsub : fsub (((⌊s⌋₊ % 60 : ℕ) : ℚ) + (s - (⌊s⌋₊ : ℚ)))
      (roundF32 (((⌊s⌋₊ % 60 : ℕ) : ℤ) : ℚ)) = s - (⌊s⌋₊ : ℚ) := by
    rw [Int.cast_natCast, show roundF32 ((⌊s⌋₊ % 60 : ℕ) : ℚ) = _ from fC]
    unfold fsub
    rw [show ((⌊s⌋₊ % 60 : ℕ) : ℚ) + (s - (⌊s⌋₊ : ℚ)) - ((⌊s⌋₊ % 60 : ℕ) : ℚ) =
      s - (⌊s⌋₊ : ℚ) by ring]
    exact fD
  rw [hsub]
  unfold fmul
  rw [truncToInt_nonneg (roundF32_nonneg (by positivity))]
  rw [Int.tdiv_eq_ediv (Int.natCast_nonneg _) (by norm_num),
    Int.tdiv_eq_ediv (Int.natCast_nonneg _) (by norm_num)]
  rfl

set_option maxRecDepth 100000 in
theorem setwFill_two : ∀ m : Nat, m < 100 →
    setwFill 2 (m : Int) = [Nat.digitChar (m / 10), Nat.digitChar (m % 10)] := by
  decide

set_option maxRecDepth 100000 in
theorem setwFill_three : ∀ m : Nat, m < 1000 →
    setwFill 3 (m : Int) =
      [Nat.digitChar (m / 100), Nat.digitChar (m / 10 % 10), Nat.digitChar (m % 10)] := by
  decide!

theorem digitValue_digitChar : ∀ d : Nat, d < 10 → digitValue (Nat.digitChar d) = some d := by
  decide

theorem formatTimestamp_shape {H M S F : Nat} (hH : H < 100) (hM : M < 60) (hS : S < 60)
    (hF : F < 1000) :
    formatTimestamp ⟨(H : Int), (M : Int), (S : Int), (F : Int)⟩ =
      [Nat.digitChar (H / 10), Nat.digitChar (H % 10), ':',
        Nat.digitChar (M / 10), Nat.digitChar (M % 10), ':',
        Nat.digitChar (S / 10), Nat.digitChar (S % 10), '.',
        Nat.digitChar (F / 100), Nat.digitChar (F / 10 % 10), Nat.digitChar (F % 10)] := by
  unfold formatTimestamp
  rw [setwFill_two H hH, setwFill_two M (by omega), setwFill_two S (by omega),
    setwFill_three F hF]
  rfl

theorem parseTimestamp_format {H M S F : Nat} (hH : H < 100) (hM : M < 60) (hS : S < 60)
    (hF : F < 1000) :
    parseTimestamp (String.mk (formatTimestamp ⟨(H : Int), (M : Int), (S : Int), (F : Int)⟩)) =
      some (((H * 3600 + M * 60 + S : ℕ) : ℚ) + ((F : ℕ) : ℚ) / 1000) := by
  rw [formatTimestamp_shape hH hM hS hF]
  unfold parseTimestamp
  simp only
  rw [digitValue_digitChar _ (by omega), digitValue_digitChar _ (by omega),
    digitValue_digitChar _ (by omega), digitValue_digitChar _ (by omega),
    digitValue_digitChar _ (by omega), digitValue_digitChar _ (by omega),
    digitValue_digitChar _ (by omega), digitValue_digitChar _ (by omega),
    digitValue_digitChar _ (by omega)]
  simp only [Option.some_bind]
  have e1 : H / 10 * 10 + H % 10 = H := by omega
  have e2 : M / 10 * 10 + M % 10 = M := by omega
  have e3 : S / 10 * 10 + S % 10 = S := by omega
  have e4 : F / 100 * 100 + F / 10 % 10 * 10 + F % 10 = F := by omega
  rw [e1, e2, e3, e4]

theorem fields_of_millis (k : ℕ) (hf : IsF32 ((k : ℚ) / 1000)) :
    timestampFields ((k : ℚ) / 1000) =
      ⟨((k / 1000 / 3600 : ℕ) : ℤ), ((k / 1000 % 3600 / 60 : ℕ) : ℤ),
        ((k / 1000 % 60 : ℕ) : ℤ), ((k % 1000 : ℕ) : ℤ)⟩ := by
  have hs : (0 : ℚ) ≤ (k : ℚ) / 1000 := by positivity
  have hfloor : ⌊(k : ℚ) / 1000⌋₊ = k / 1000 := by
    have := Nat.floor_div_eq_div (α := ℚ) k 1000
    exact_mod_cast this
  have hfrac : ((k : ℚ) / 1000 - ((k / 1000 : ℕ) : ℚ)) * 1000 = ((k % 1000 : ℕ) : ℚ) := by
    have hdm : ((1000 * (k / 1000) + k % 1000 : ℕ) : ℚ) = (k : ℚ) := by
      rw [Nat.div_add_mod]
    rw [Nat.cast_add, Nat.cast_mul] at hdm
    push_cast at hdm
    linarith
  have hexact : roundF32 ((k % 1000 : ℕ) : ℚ) = ((k % 1000 : ℕ) : ℚ) :=
    isF32_natCast _ (le_trans (Nat.mod_lt _ (by norm_num)).le (by norm_num))
  rw [(timestampFields_nonneg hf hs).1, hfloor, hfrac, hexact, Nat.floor_natCast]

/-- C7 as stated fails.  The duration 1.3 s is a whole number of milliseconds but not a
`float`; the `float` a caller passes for it is 5452595 / 2^22, and `convertToTimestamp`
returns `00:00:01.299` for that, which reads back to 1.299. -/
theorem timestamp_round_trip_counterexample :
    ¬ IsF32 (1300 / 1000) ∧ roundF32 (1300 / 1000) = 5452595 / 4194304 ∧
      convertToTimestamp (roundF32 (1300 / 1000)) = "00:00:01.299" ∧
      parseTimestamp (convertToTimestamp (roundF32 (1300 / 1000))) = some (1299 / 1000) := by
  decide!

/-- C7, amended. Timestamp round trip.  For every duration of `k` milliseconds, `k` below 100
hours, that is a `float`, the fields computed by `convertToTimestamp` satisfy
`hours * 3600 + minutes * 60 + secs + milliseconds / 1000 = k / 1000` exactly, and the text
returned reads back, as `HH:MM:SS.mmm`, to the input; `convertToTimestamp(3661.25)` is
`"01:01:01.250"`.  Every multiple of 1/8 s below 100 hours is such a duration. -/
theorem timestamp_round_trip (k : ℕ) (hk : k < 360000000) (hf : IsF32 ((k : ℚ) / 1000)) :
    ((timestampFields ((k : ℚ) / 1000)).hours : ℚ) * 3600
        + ((timestampFields ((k : ℚ) / 1000)).minutes : ℚ) * 60
        + ((timestampFields ((k : ℚ) / 1000)).secs : ℚ)
        + ((timestampFields ((k : ℚ) / 1000)).milliseconds : ℚ) / 1000 = (k : ℚ) / 1000 ∧
    parseTimestamp (convertToTimestamp ((k : ℚ) / 1000)) = some ((k : ℚ) / 1000) ∧
    convertToTimestamp 3661.25 = "01:01:01.250" ∧
    ∀ j : ℕ, j < 2880000 → IsF32 (((125 * j : ℕ) : ℚ) / 1000) := by
  have hsum : k / 1000 / 3600 * 3600 + k / 1000 % 3600 / 60 * 60 + k / 1000 % 60 = k / 1000 := by
    omega
  have hk1000 : ((k / 1000 : ℕ) : ℚ) + ((k % 1000 : ℕ) : ℚ) / 1000 = (k : ℚ) / 1000 := by
    have hdm : ((1000 * (k / 1000) + k % 1000 : ℕ) : ℚ) = (k : ℚ) := by
      rw [Nat.div_add_mod]
    rw [Nat.cast_add, Nat.cast_mul] at hdm
    push_cast at hdm
    linarith
  refine ⟨?_, ?_, by decide!, ?_⟩
  · rw [fields_of_millis k hf]
    simp only [Int.cast_natCast]
    have hsumQ : ((k / 1000 / 3600 : ℕ) : ℚ) * 3600 + ((k / 1000 % 3600 / 60 : ℕ) : ℚ) * 60
        + ((k / 1000 % 60 : ℕ) : ℚ) = ((k / 1000 : ℕ) : ℚ) := by
      exact_mod_cast hsum
    linarith
  · unfold convertToTimestamp
    rw [fields_of_millis k hf,
      parseTimestamp_format (by omega) (by omega) (by omega) (by omega), hsum, hk1000]
  · intro j hj
    have := isF32_natCast_mul_zpow j (-3) (by omega) (by norm_num)
    have e : ((125 * j : ℕ) : ℚ) / 1000 = (j : ℚ) * (2 : ℚ) ^ (-3 : ℤ) := by
      push_cast
      norm_num
      ring
    rw [e]
    exact this

/-- Witness of C7: 3661.25 s, that is 3661250 ms. -/
theorem timestamp_round_trip_witness :
    3661250 < 360000000 ∧ IsF32 (((3661250 : ℕ) : ℚ) / 1000) ∧
      parseTimestamp (convertToTimestamp (((3661250 : ℕ) : ℚ) / 1000)) =
        some (((3661250 : ℕ) : ℚ) / 1000) :=
  ⟨by decide, by decide!, (timestamp_round_trip 3661250 (by decide) (by decide!)).2.1⟩

/-- C8 as stated fails.  For the `float` nearest to 0.0009 s, which is 7730941 / 2^33, the
fractional second is 0.9 ms, which rounds to 1, but the milliseconds field computed by
`convertToTimestamp` is 0.  Nor is the field the floor of the exact product: for the `float`
13371441 / 2^24 the product with 1000 is 796.99999, its `float` value is 797, and the field
is 797. -/
theorem milliseconds_rounding_counterexample :
    (IsF32 (7730941 / 8589934592) ∧
      (timestampFields (7730941 / 8589934592)).milliseconds = 0 ∧
      round ((((7730941 / 8589934592 : ℚ) - 60 * (⌊(7730941 / 8589934592 : ℚ) / 60⌋ : ℚ))
        - (⌊(7730941 / 8589934592 : ℚ) - 60 * (⌊(7730941 / 8589934592 : ℚ) / 60⌋ : ℚ)⌋ : ℚ))
          * 1000) = 1) ∧
    (IsF32 (13371441 / 16777216) ∧
      (timestampFields (13371441 / 16777216)).milliseconds = 797 ∧
      ⌊(13371441 / 16777216 : ℚ) * 1000⌋ = 796) := by
  refine ⟨?_, ?_⟩
  · decide!
  · decide!

/-- C8, amended.  For every non-negative `float` duration in the range of `int`, the
milliseconds field computed by `convertToTimestamp` is the floor of the `float` product
`(remainder - seconds) * 1000`, where `remainder` is the duration modulo 60 and `seconds` is
its floor: the difference `remainder - seconds` is a `float` itself, its product with 1000 is
rounded to `float` and then cut to a whole number, not rounded to the nearest one.  The
first conversion of the function, `static_cast<int>(seconds)`, stays in the range of `int`. -/
theorem milliseconds_truncated (s : ℚ) (hf : IsF32 s) (h0 : 0 ≤ s) (h1 : s < 2147483648) :
    (timestampFields s).milliseconds =
      ⌊roundF32 (((s - 60 * (⌊s / 60⌋ : ℚ)) - (⌊s - 60 * (⌊s / 60⌋ : ℚ)⌋ : ℚ)) * 1000)⌋ ∧
    IsF32 ((s - 60 * (⌊s / 60⌋ : ℚ)) - (⌊s - 60 * (⌊s / 60⌋ : ℚ)⌋ : ℚ)) ∧
    0 ≤ truncToInt s ∧ truncToInt s < 2147483648 := by
  have hfloor : (⌊s - 60 * (⌊s / 60⌋ : ℚ)⌋ : ℚ) = (⌊s⌋ : ℚ) - 60 * (⌊s / 60⌋ : ℚ) := by
    have hcast : (60 : ℚ) * (⌊s / 60⌋ : ℚ) = ((60 * ⌊s / 60⌋ : ℤ) : ℚ) := by push_cast; ring
    rw [hcast, Int.floor_sub_int]
    push_cast
    ring
  have hfrac : (s - 60 * (⌊s / 60⌋ : ℚ)) - (⌊s - 60 * (⌊s / 60⌋ : ℚ)⌋ : ℚ) =
      s - ((⌊s⌋₊ : ℕ) : ℚ) := by
    rw [hfloor, ← Int.natCast_floor_eq_floor h0, Int.cast_natCast]
    ring
  have hnn : (0 : ℚ) ≤ roundF32 ((s - ((⌊s⌋₊ : ℕ) : ℚ)) * 1000) :=
    roundF32_nonneg (mul_nonneg (sub_nonneg.2 (Nat.floor_le h0)) (by norm_num))
  obtain ⟨e1, e2⟩ := timestampFields_nonneg hf h0
  rw [e1, hfrac]
  refine ⟨Int.natCast_floor_eq_floor hnn, e2, ?_, ?_⟩
  · rw [truncToInt_nonneg h0]
    exact Int.natCast_nonneg _
  · rw [truncToInt_nonneg h0]
    have : ⌊s⌋₊ < 2147483648 := (Nat.floor_lt h0).2 (by exact_mod_cast h1)
    exact_mod_cast this

/-- Witness of the amended C8: the `float` 13371441 / 2^24, whose field is 797. -/
theorem milliseconds_truncated_witness :
    IsF32 (13371441 / 16777216) ∧ (0 : ℚ) ≤ 13371441 / 16777216 ∧
      (13371441 / 16777216 : ℚ) < 2147483648 ∧
      (timestampFields (13371441 / 16777216)).milliseconds =
        ⌊roundF32 ((((13371441 / 16777216 : ℚ) - 60 * (⌊(13371441 / 16777216 : ℚ) / 60⌋ : ℚ))
          - (⌊(13371441 / 16777216 : ℚ)
            - 60 * (⌊(13371441 / 16777216 : ℚ) / 60⌋ : ℚ)⌋ : ℚ)) * 1000)⌋ :=
  ⟨by decide!, by norm_num, by norm_num,
    (milliseconds_truncated (13371441 / 16777216) (by decide!) (by norm_num)
      (by norm_num)).1⟩

theorem roundF32_below_thousand :
    roundF32 ((1 - 1 / 2 ^ 24) * 1000) = 16383999 / 16384 := by
  decide!

/-- C9. Fixed-width format.  For every `float` duration `s` with `0 ≤ s < 360000` (100
hours) the fields computed by `convertToTimestamp` are natural numbers `H ≤ 99`, `M ≤ 59`,
`S ≤ 59` and `F ≤ 999` with `H = ⌊s / 3600⌋`, and the text returned is the 12 characters
`HH:MM:SS.FFF`, each field written with all its decimal digits, leading zeros included. -/
theorem timestamp_fixed_width (s : ℚ) (hf : IsF32 s) (h0 : 0 ≤ s) (h1 : s < 360000) :
    ∃ H M S F : ℕ, H ≤ 99 ∧ M ≤ 59 ∧ S ≤ 59 ∧ F ≤ 999 ∧ (H : ℤ) = ⌊s / 3600⌋ ∧
      timestampFields s = ⟨(H : ℤ), (M : ℤ), (S : ℤ), (F : ℤ)⟩ ∧
      (convertToTimestamp s).data =
        [Nat.digitChar (H / 10), Nat.digitChar (H % 10), ':',
          Nat.digitChar (M / 10), Nat.digitChar (M % 10), ':',
          Nat.digitChar (S / 10), Nat.digitChar (S % 10), '.',
          Nat.digitChar (F / 100), Nat.digitChar (F / 10 % 10), Nat.digitChar (F % 10)] ∧
      (convertToTimestamp s).length = 12 := by
  have hq : ⌊s⌋₊ < 360000 := (Nat.floor_lt h0).2 (by exact_mod_cast h1)
  have hfr0 : 0 ≤ s - ((⌊s⌋₊ : ℕ) : ℚ) := sub_nonneg.2 (Nat.floor_le h0)
  have hfr1 : s - ((⌊s⌋₊ : ℕ) : ℚ) < 1 := by
    have := Nat.lt_floor_add_one s
    linarith
  obtain ⟨e1, e2⟩ := timestampFields_nonneg hf h0
  have hfr2 := e2.le_pred_one hfr0 hfr1
  have hF : ⌊roundF32 ((s - ((⌊s⌋₊ : ℕ) : ℚ)) * 1000)⌋₊ < 1000 := by
    rw [Nat.floor_lt (roundF32_nonneg (mul_nonneg hfr0 (by norm_num)))]
    have hm := roundF32_mono (mul_nonneg hfr0 (by norm_num))
      (mul_le_mul_of_nonneg_right hfr2 (by norm_num : (0 : ℚ) ≤ 1000))
    rw [roundF32_below_thousand] at hm
    push_cast
    refine lt_of_le_of_lt hm ?_
    norm_num
  have hH : ⌊s⌋₊ / 3600 < 100 := by omega
  have hM : ⌊s⌋₊ % 3600 / 60 < 60 := by omega
  have hS : ⌊s⌋₊ % 60 < 60 := by omega
  have hshape := formatTimestamp_shape hH hM hS hF
  refine ⟨⌊s⌋₊ / 3600, ⌊s⌋₊ % 3600 / 60, ⌊s⌋₊ % 60,
    ⌊roundF32 ((s - ((⌊s⌋₊ : ℕ) : ℚ)) * 1000)⌋₊,
    by omega, by omega, by omega, by omega, ?_, e1, ?_, ?_⟩
  · rw [← Int.natCast_floor_eq_floor (div_nonneg h0 (by norm_num)), Nat.floor_div_ofNat]
  · unfold convertToTimestamp
    rw [e1, hshape]
  · unfold convertToTimestamp
    rw [e1, hshape]
    rfl

/-- Witness of C9: the `float` nearest to 59.9995 s, written `00:00:59.999`. -/
theorem timestamp_fixed_width_witness :
    IsF32 (15728509 / 262144) ∧ (0 : ℚ) ≤ 15728509 / 262144 ∧
      (15728509 / 262144 : ℚ) < 360000 ∧
      ∃ H M S F : ℕ, H ≤ 99 ∧ M ≤ 59 ∧ S ≤ 59 ∧ F ≤ 999 ∧
        (H : ℤ) = ⌊(15728509 / 262144 : ℚ) / 3600⌋ ∧
        timestampFields (15728509 / 262144) = ⟨(H : ℤ), (M : ℤ), (S : ℤ), (F : ℤ)⟩ ∧
        (convertToTimestamp (15728509 / 262144)).data =
          [Nat.digitChar (H / 10), Nat.digitChar (H % 10), ':',
            Nat.digitChar (M / 10), Nat.digitChar (M % 10), ':',
            Nat.digitChar (S / 10), Nat.digitChar (S % 10), '.',
            Nat.digitChar (F / 100), Nat.digitChar (F / 10 % 10), Nat.digitChar (F % 10)] ∧
        (convertToTimestamp (15728509 / 262144)).length = 12 :=
  ⟨by decide!, by norm_num, by norm_num,
    timestamp_fixed_width (15728509 / 262144) (by decide!) (by norm_num) (by norm_num)⟩

theorem sameNameProject_ready :
    (∃ f0 ∈ KdenliveFile.new minimalTemplate,
      ∃ f1 ∈ f0.SetProfile
        (truncToInt ((KdenliveProject.new.CreateClipOnVideoTrack 0 "intro" 10
          0).1.CreateClipOnAudioTrack 0 "intro" 10 0).1.framerate)
        ((KdenliveProject.new.CreateClipOnVideoTrack 0 "intro" 10
          0).1.CreateClipOnAudioTrack 0 "intro" 10 0).1.frame_width
        ((KdenliveProject.new.CreateClipOnVideoTrack 0 "intro" 10
          0).1.CreateClipOnAudioTrack 0 "intro" 10 0).1.frame_height, AnchorsOK f1) ∧
    (∀ p ∈ ((KdenliveProject.new.CreateClipOnVideoTrack 0 "intro" 10
        0).1.CreateClipOnAudioTrack 0 "intro" 10 0).1.video_timeline,
      p.2 < ((KdenliveProject.new.CreateClipOnVideoTrack 0 "intro" 10
        0).1.CreateClipOnAudioTrack 0 "intro" 10 0).1.clips.length) ∧
    (∀ p ∈ ((KdenliveProject.new.CreateClipOnVideoTrack 0 "intro" 10
        0).1.CreateClipOnAudioTrack 0 "intro" 10 0).1.audio_timeline,
      p.2 < ((KdenliveProject.new.CreateClipOnVideoTrack 0 "intro" 10
        0).1.CreateClipOnAudioTrack 0 "intro" 10 0).1.clips.length) ∧
    ((@generate Stale.intact minimalTemplate defaultFilePath
      ((KdenliveProject.new.CreateClipOnVideoTrack 0 "intro" 10 0).1.CreateClipOnAudioTrack
        0 "intro" 10 0).1 []).map (fun g => g.kdenlive_file.chain_count)) = some 1 := by
  decide!

/-- C10. Deduplication.  `GenerateFile` runs through when the constructor and `SetProfile`
succeed on the template and leave the anchors in order and every placement points to a clip
of the project.  In the file it returns, `included_names` holds no name twice, its asset ids
are `0, 1, 2, ...` in registration order, and `AddClipToBin` ran once per entry
(`chain_count` is the number of entries).  Any two placements, on either channel, whose
clips have the same name look up the same asset id, and that name has exactly one entry. -/
theorem asset_deduplication [Stale] (template : XMLElement) (ffp : List String → String → String)
    (P : KdenliveProject) (paths : List String) :
    (∀ f0 f1, KdenliveFile.new template = some f0 →
      f0.SetProfile (truncToInt P.framerate) P.frame_width P.frame_height = some f1 →
      AnchorsOK f1 → (∀ p ∈ P.video_timeline, p.2 < P.clips.length) →
      (∀ p ∈ P.audio_timeline, p.2 < P.clips.length) →
      ∃ g, generate template ffp P paths = some g) ∧
    ∀ g, generate template ffp P paths = some g →
      (g.included_names.map Prod.fst).Nodup ∧
      g.included_names.map Prod.snd = List.range g.included_names.length ∧
      g.kdenlive_file.chain_count = g.included_names.length ∧
      ∀ p ∈ P.video_timeline ++ P.audio_timeline,
        ∀ q ∈ P.video_timeline ++ P.audio_timeline,
        ∀ c1 c2, P.clips[p.2]? = some c1 → P.clips[q.2]? = some c2 → c1.name = c2.name →
          (∃ id, g.included_names.lookup c1.name = some id ∧
            g.included_names.lookup c2.name = some id ∧ id < g.kdenlive_file.chain_count) ∧
          (g.included_names.map Prod.fst).count c1.name = 1 :=
  ⟨fun f0 f1 h0 h1 hanch hv ha => generate_ok template ffp P paths f0 f1 h0 h1 hanch hv ha,
    fun _ h => generate_deduplicates h⟩

/-- Witness of C10: two clips named `intro`, one placed on each channel, give one asset. -/
theorem asset_deduplication_witness :
    ∃ g, @generate Stale.intact minimalTemplate defaultFilePath
        ((KdenliveProject.new.CreateClipOnVideoTrack 0 "intro" 10 0).1.CreateClipOnAudioTrack
          0 "intro" 10 0).1 [] = some g ∧
      g.kdenlive_file.chain_count = 1 ∧ g.included_names.length = 1 ∧
      (g.included_names.map Prod.fst).Nodup := by
  have T := @asset_deduplication Stale.intact minimalTemplate defaultFilePath
    ((KdenliveProject.new.CreateClipOnVideoTrack 0 "intro" 10 0).1.CreateClipOnAudioTrack
      0 "intro" 10 0).1 []
  obtain ⟨⟨f0, h0, f1, h1, hanch⟩, hv, ha, hcount⟩ := sameNameProject_ready
  obtain ⟨g, hg⟩ := T.1 f0 f1 h0 h1 hanch hv ha
  rw [hg] at hcount
  have hc : g.kdenlive_file.chain_count = 1 := by simpa using hcount
  have h := T.2 g hg
  exact ⟨g, hg, hc, by rw [← h.2.2.1, hc], h.1⟩

/-! ## Assets of unplaced clips -/

theorem registerClips_names [Stale] {ffp : List String → String → String} {paths : List String} :
    ∀ (clips : List Clip) (f : KdenliveFile) (names : List (String × Nat))
      (f' : KdenliveFile) (names' : List (String × Nat)),
      registerClips ffp paths clips (f, names) = some (f', names') →
      names'.map Prod.fst = registerNames clips (names.map Prod.fst) := by
  intro clips
  induction clips with
  | nil =>
    intro f names f' names' h
    simp only [registerClips, Option.some.injEq, Prod.mk.injEq] at h
    rw [← h.2]
    rfl
  | cons clip rest ih =>
    intro f names f' names' h
    unfold registerClips at h
    unfold registerNames
    split at h
    · rename_i hnone
      have hnew : clip.name ∉ names.map Prod.fst := (lookup_none_iff _ _).1 hnone
      rw [if_neg hnew]
      simp only [Option.bind_eq_some] at h
      obtain ⟨⟨f1, id⟩, -, h2⟩ := h
      have := ih _ _ _ _ h2
      rw [this, List.map_append]
      rfl
    · rename_i hsome
      have hold : clip.name ∈ names.map Prod.fst := by
        by_contra hc
        exact hsome ((lookup_none_iff _ _).2 hc)
      rw [if_pos hold]
      exact ih _ _ _ _ h

/-- The keys and the asset ids of `included_names` after `GenerateFile`. -/
theorem generate_names [Stale] {template : XMLElement} {ffp : List String → String → String}
    {P : KdenliveProject} {paths : List String} {g : Generated}
    (h : generate template ffp P paths = some g) :
    g.included_names.map Prod.fst = registerNames P.clips [] ∧
      (∀ n, n ∈ g.included_names.map Prod.fst ↔ ∃ c ∈ P.clips, c.name = n) := by
  obtain ⟨f0, f1, f2, fv, h0, h1, h2, -, -⟩ := generate_stages h
  refine ⟨registerClips_names _ _ _ _ _ h2, fun n => ?_⟩
  obtain ⟨-, -, -, r4⟩ := registerClips_spec f1.chain_count P.clips f1 [] f2 g.included_names h2
    List.nodup_nil rfl rfl
  rw [r4 n]
  simp

/-- C11 as stated fails.  A project with one clip that is created with `CreateClip` and
never placed: both timelines are empty, yet `GenerateFile` registers the name, calls
`AddClipToBin` once and links one `chain` node into the document. -/
theorem unplaced_clip_counterexample :
    (@generate Stale.intact minimalTemplate defaultFilePath
        (KdenliveProject.new.CreateClip "unused" 10 0).1 []).map
        (fun g => (g.included_names, g.kdenlive_file.chain_count,
          (g.kdenlive_file.xml_doc.root.children.filter (fun c => c.name == "chain")).map
            (fun c => c.Attribute "id"))) =
      some ([("unused", 0)], 1, [some "chain0"]) ∧
    (KdenliveProject.new.CreateClip "unused" 10 0).1.video_timeline = [] ∧
    (KdenliveProject.new.CreateClip "unused" 10 0).1.audio_timeline = [] := by
  decide!

/-- C11, amended.  `GenerateFile` runs through when the constructor and `SetProfile` succeed
on the template and leave the anchors in order and every placement points to a clip of the
project.  In the file it returns, the names that have an asset are exactly the names of the
clips of the project, placed or not, each once: the keys of `included_names` are the names
of `clips` in order of first occurrence, and `AddClipToBin` ran once for each. -/
theorem assets_for_all_clips [Stale] (template : XMLElement) (ffp : List String → String → String)
    (P : KdenliveProject) (paths : List String) :
    (∀ f0 f1, KdenliveFile.new template = some f0 →
      f0.SetProfile (truncToInt P.framerate) P.frame_width P.frame_height = some f1 →
      AnchorsOK f1 → (∀ p ∈ P.video_timeline, p.2 < P.clips.length) →
      (∀ p ∈ P.audio_timeline, p.2 < P.clips.length) →
      ∃ g, generate template ffp P paths = some g) ∧
    ∀ g, generate template ffp P paths = some g →
      (∀ n, n ∈ g.included_names.map Prod.fst ↔ ∃ c ∈ P.clips, c.name = n) ∧
      g.included_names.map Prod.fst = registerNames P.clips [] ∧
      (g.included_names.map Prod.fst).Nodup ∧
      g.kdenlive_file.chain_count = g.included_names.length :=
  ⟨fun f0 f1 h0 h1 hanch hv ha => generate_ok template ffp P paths f0 f1 h0 h1 hanch hv ha,
    fun _ h => ⟨(generate_names h).2, (generate_names h).1, (generate_deduplicates h).1,
      (generate_deduplicates h).2.2.1⟩⟩

/-- Witness of the amended C11: the example project has three clips with three names, all
of which get an asset. -/
theorem assets_for_all_clips_witness :
    ∃ g, @generate Stale.intact minimalTemplate defaultFilePath exampleProject [] = some g ∧
      g.included_names.map Prod.fst =
        ["great_expanse", "Free_Test_Data_500KB_MP3", "cavern_clinger_boss"] := by
  have T := @assets_for_all_clips Stale.intact minimalTemplate defaultFilePath exampleProject []
  obtain ⟨f0, h0, f1, h1, hanch⟩ := minimalTemplate_ready
  obtain ⟨g, hg⟩ := T.1 f0 f1 h0 h1 hanch exampleProject_placements.1
    exampleProject_placements.2
  refine ⟨g, hg, ?_⟩
  rw [(T.2 g hg).2.1]
  decide!

/-! ## Blank entries and fades -/

/-- C13.  When the entry `entry_id` recorded for track `track_id` is a Blank, `FadeClip`
returns at once, for every pair of fade times: the file after the call is the file before
it, with the same document tree, filter counter and track data. -/
theorem blank_never_fades [Stale] (f : KdenliveFile) (track_id entry_id : Nat)
    (fade_in_time fade_out_time : ℚ) (entries : List TrackEntry) (this_entry : TrackEntry)
    (htrack : f.track_entries[track_id]? = some entries)
    (hentry : entries[entry_id]? = some this_entry)
    (hblank : this_entry.entry_type = EntryType.BLANK) :
    f.FadeClip track_id entry_id fade_in_time fade_out_time = some f := by
  unfold FadeClip
  rw [htrack]
  simp only [Option.some_bind, hentry]
  rw [if_pos hblank]

theorem blank_sample_runs :
    ((KdenliveFile.new minimalTemplate).bind (@runCalls Stale.intact
      [FileCall.AddTrack TrackType.VIDEO, FileCall.AddBlankToTrack 0 5])).map
        (fun f => f.track_entries) = some [[⟨EntryType.BLANK, 5, 0⟩]] := by
  decide!

/-- Witness of C13: a fade of one second on both sides of the Blank of a track built on the
minimal template changes nothing. -/
theorem blank_never_fades_witness :
    ∃ f : KdenliveFile,
      f.track_entries = [[⟨EntryType.BLANK, 5, 0⟩]] ∧
        @KdenliveFile.FadeClip Stale.intact f 0 0 1 1 = some f := by
  obtain ⟨f, -, hf⟩ := Option.map_eq_some'.1 blank_sample_runs
  exact ⟨f, hf, @blank_never_fades Stale.intact f 0 0 1 1 [⟨EntryType.BLANK, 5, 0⟩]
    ⟨EntryType.BLANK, 5, 0⟩ (by rw [hf]; rfl) rfl rfl⟩

/-! ## The setters of `Clip` -/

/-- C16. Permissive setter.  `SetBounds` is a total function on clips.  A length `≤ 0`
leaves the length as it is and a start offset `< 0` leaves the start offset as it is; each
of the two fields depends on its own argument only (the length is replaced exactly when the
argument is `> 0`, and so is the start offset); the name, the fade times and the priority
are never changed. -/
theorem set_bounds_permissive (c : Clip) (length start_offset : ℚ) :
    (length ≤ 0 → (c.SetBounds length start_offset).length = c.length) ∧
    (start_offset < 0 → (c.SetBounds length start_offset).start_offset = c.start_offset) ∧
    (c.SetBounds length start_offset).length = (if length > 0 then length else c.length) ∧
    (c.SetBounds length start_offset).start_offset =
      (if start_offset > 0 then start_offset else c.start_offset) ∧
    (c.SetBounds length start_offset).name = c.name ∧
    (c.SetBounds length start_offset).fade_in_time = c.fade_in_time ∧
    (c.SetBounds length start_offset).fade_out_time = c.fade_out_time ∧
    (c.SetBounds length start_offset).priority = c.priority := by
  have hlen : (c.SetBounds length start_offset).length =
      (if length > 0 then length else c.length) := by
    unfold Clip.SetBounds
    by_cases h1 : length > 0 <;> by_cases h2 : start_offset > 0 <;> simp [h1, h2]
  have hoff : (c.SetBounds length start_offset).start_offset =
      (if start_offset > 0 then start_offset else c.start_offset) := by
    unfold Clip.SetBounds
    by_cases h1 : length > 0 <;> by_cases h2 : start_offset > 0 <;> simp [h1, h2]
  refine ⟨fun h => ?_, fun h => ?_, hlen, hoff, ?_, ?_, ?_, ?_⟩
  · rw [hlen, if_neg (not_lt.2 h)]
  · rw [hoff, if_neg (not_lt.2 (le_of_lt h))]
  all_goals
    unfold Clip.SetBounds
    by_cases h1 : length > 0 <;> by_cases h2 : start_offset > 0 <;> simp [h1, h2]

/-- C17 as stated fails.  A clip with start offset 5 keeps it under `SetBounds(20, 0)`,
although 20 is positive and 0 is not negative: the offset is not reset to 0. -/
theorem set_bounds_zero_offset_counterexample :
    ((Clip.new "A" 10 5).SetBounds 20 0).start_offset = 5 ∧
      ((Clip.new "A" 10 5).SetBounds 20 0).start_offset ≠ 0 ∧ (20 : ℚ) > 0 ∧ (0 : ℚ) ≥ 0 := by
  decide!

/-- C17, amended.  For a length `> 0` and every start offset, after `SetBounds` the length
of the clip is the given length.  Its start offset is the given one exactly when that is
`> 0`; a start offset of 0 and a negative start offset both leave the start offset the clip
had.  The name, the fade times and the priority stay as they were. -/
theorem set_bounds_applies (c : Clip) (length start_offset : ℚ) (hlength : 0 < length) :
    (c.SetBounds length start_offset).length = length ∧
    (c.SetBounds length start_offset).start_offset =
      (if start_offset > 0 then start_offset else c.start_offset) ∧
    (0 < start_offset → (c.SetBounds length start_offset).start_offset = start_offset) ∧
    (start_offset = 0 → (c.SetBounds length start_offset).start_offset = c.start_offset) ∧
    (start_offset < 0 → (c.SetBounds length start_offset).start_offset = c.start_offset) ∧
    (c.SetBounds length start_offset).name = c.name ∧
    (c.SetBounds length start_offset).fade_in_time = c.fade_in_time ∧
    (c.SetBounds length start_offset).fade_out_time = c.fade_out_time ∧
    (c.SetBounds length start_offset).priority = c.priority := by
  have hl : length > 0 := hlength
  have hlen : (c.SetBounds length start_offset).length = length := by
    unfold Clip.SetBounds
    by_cases h2 : start_offset > 0 <;> simp [hl, h2]
  have hoff : (c.SetBounds length start_offset).start_offset =
      (if start_offset > 0 then start_offset else c.start_offset) := by
    unfold Clip.SetBounds
    by_cases h2 : start_offset > 0 <;> simp [hl, h2]
  refine ⟨hlen, hoff, fun h => ?_, fun h => ?_, fun h => ?_, ?_, ?_, ?_, ?_⟩
  · rw [hoff, if_pos h]
  · rw [hoff, if_neg (by rw [h]; exact lt_irrefl _)]
  · rw [hoff, if_neg (not_lt.2 (le_of_lt h))]
  all_goals
    unfold Clip.SetBounds
    by_cases h2 : start_offset > 0 <;> simp [hl, h2]

/-- Witness of the amended C17: on a clip of length 10 with start offset 5, `SetBounds(20, 7)`
gives length 20 and start offset 7, and `SetBounds(20, 0)` and `SetBounds(20, -3)` give
length 20 and leave the start offset 5. -/
theorem set_bounds_applies_witness :
    (((Clip.new "A" 10 5).SetBounds 20 7).length = 20 ∧
      ((Clip.new "A" 10 5).SetBounds 20 7).start_offset = 7) ∧
    (((Clip.new "A" 10 5).SetBounds 20 0).length = 20 ∧
      ((Clip.new "A" 10 5).SetBounds 20 0).start_offset = 5) ∧
    (((Clip.new "A" 10 5).SetBounds 20 (-3)).length = 20 ∧
      ((Clip.new "A" 10 5).SetBounds 20 (-3)).start_offset = 5) :=
  ⟨⟨(set_bounds_applies (Clip.new "A" 10 5) 20 7 (by norm_num)).1,
      (set_bounds_applies (Clip.new "A" 10 5) 20 7 (by norm_num)).2.2.1 (by norm_num)⟩,
    ⟨(set_bounds_applies (Clip.new "A" 10 5) 20 0 (by norm_num)).1,
      (set_bounds_applies (Clip.new "A" 10 5) 20 0 (by norm_num)).2.2.2.1 rfl⟩,
    ⟨(set_bounds_applies (Clip.new "A" 10 5) 20 (-3) (by norm_num)).1,
      (set_bounds_applies (Clip.new "A" 10 5) 20 (-3) (by norm_num)).2.2.2.2.1 (by norm_num)⟩⟩

/-! ## Clips are shared by reference -/

/-- C14. Shared-reference semantics.  A change `change` of the clip behind the pointer
`clip` (such as `SetBounds` or `SetFadeOffsets`) made after a placement of that clip gives
the same project as the change made before the placement, on either channel, so
`GenerateFile` cannot tell the two apart.  The change leaves the timelines as they are and
replaces the one clip record that every placement of `clip` points to: `GenerateFile` looks
up each placement in the clip list as it is at generation time, and builds the entries of a
channel from the changed clip for every placement of `clip` and from the unchanged clips for
the others.  On the minimal template, a clip placed with length 10 and then given
`SetBounds(15)` and `SetFadeOffsets(1, 0)` yields one entry of length 15 and one filter
(evaluated with the dangling reads returning the text the destroyed strings held). -/
theorem shared_reference [Stale] (P : KdenliveProject) (clip : Nat) (change : Clip → Clip) :
    (∀ t, (P.AddClipToVideoTrack t clip).onClip clip change =
      (P.onClip clip change).AddClipToVideoTrack t clip) ∧
    (∀ t, (P.AddClipToAudioTrack t clip).onClip clip change =
      (P.onClip clip change).AddClipToAudioTrack t clip) ∧
    (P.onClip clip change).video_timeline = P.video_timeline ∧
    (P.onClip clip change).audio_timeline = P.audio_timeline ∧
    (∀ c, P.clips[clip]? = some c → (P.onClip clip change).clips[clip]? = some (change c)) ∧
    (∀ j, j ≠ clip → (P.onClip clip change).clips[j]? = P.clips[j]?) ∧
    (∀ ty, resolved (P.onClip clip change).clips ((P.onClip clip change).timeline ty) =
      (P.timeline ty).filterMap (fun p =>
        (P.clips[p.2]?).map (fun c => (p.1, if p.2 = clip then change c else c)))) ∧
    (∀ template ffp paths g ty, generate template ffp (P.onClip clip change) paths = some g →
      channelEntries g.kdenlive_file (g.tracks ty) =
        ((P.timeline ty).filterMap (fun p =>
          (P.clips[p.2]?).map (fun c => (p.1, if p.2 = clip then change c else c)))).foldl
          packStep []) ∧
    (@generate Stale.intact minimalTemplate defaultFilePath
        (((KdenliveProject.new.CreateClipOnVideoTrack 0 "A" 10 0).1.onClip 0
          (fun c => c.SetBounds 15 0)).onClip 0 (fun c => c.SetFadeOffsets 1 0)) []).map
        (fun g => (g.kdenlive_file.track_entries, g.kdenlive_file.filter_count)) =
      some ([[⟨EntryType.CLIP, 15, 0⟩]], 1) := by
  have hget : ∀ j, (P.onClip clip change).clips[j]? =
      (P.clips[j]?).map (fun c => if j = clip then change c else c) := by
    intro j
    show (List.modify change clip P.clips)[j]? = _
    rw [List.getElem?_modify]
    by_cases hj : clip = j
    · subst hj; simp
    · have hj' : ¬ j = clip := fun h => hj h.symm
      simp [hj, hj']
  have hres : ∀ ty, resolved (P.onClip clip change).clips ((P.onClip clip change).timeline ty) =
      (P.timeline ty).filterMap (fun p =>
        (P.clips[p.2]?).map (fun c => (p.1, if p.2 = clip then change c else c))) := by
    intro ty
    have htl : (P.onClip clip change).timeline ty = P.timeline ty := by cases ty <;> rfl
    rw [htl]
    unfold resolved
    congr 1
    funext p
    rw [hget, Option.map_map]
    rfl
  refine ⟨fun _ => rfl, fun _ => rfl, rfl, rfl, fun c hc => ?_, fun j hj => ?_, hres, ?_,
    by decide!⟩
  · rw [hget, hc]; simp
  · rw [hget]
    cases P.clips[j]? with
    | none => rfl
    | some c => simp [hj]
  · intro template ffp paths g ty h
    rw [← hres ty]
    exact (generate_channel h ty).2.2.1

/-! ## The example project -/

theorem eq_zip_of_maps {α β : Type} (l : List (α × β)) :
    l = (l.map Prod.fst).zip (l.map Prod.snd) := by
  induction l with
  | nil => rfl
  | cons a l ih => rw [List.map_cons, List.map_cons, List.zip_cons_cons, ← ih]

/-- C15, as far as it holds.  For the project of `example.cpp`, on every template on which
`GenerateFile` runs through, the video channel and the audio channel get two tracks each and
three assets are registered; the second track of each channel holds a Blank of length 9
followed by the third clip with length 15, the first track holds the clip placed at 0.  On
the minimal template, where the reads through the dangling pointers return the text the
destroyed strings held, the tracks are 0, 1 (video) and 2, 3 (audio), two filters are
created, and in the first playlist of track 1 and of track 3 the node after the blank of
`00:00:09.000` is the entry of `chain2` from `00:00:00.000` to `00:00:15.000` with exactly
one child, a filter from `00:00:00.000` to `00:00:01.000` whose `kdenlive_id` is
`fade_from_black`.  The run with the marking oracle shows which attributes come from
destroyed strings: `in` and `out` of the entry and `in` and `out` of its filter. -/
theorem example_scenario [Stale] :
    (∀ template ffp paths g, generate template ffp exampleProject paths = some g →
      g.video_tracks.length = 2 ∧ g.audio_tracks.length = 2 ∧
      g.included_names =
        [("great_expanse", 0), ("Free_Test_Data_500KB_MP3", 1), ("cavern_clinger_boss", 2)] ∧
      g.kdenlive_file.chain_count = 3 ∧
      channelEntries g.kdenlive_file g.video_tracks =
        [[⟨EntryType.CLIP, 10, 0⟩], [⟨EntryType.BLANK, 9, 0⟩, ⟨EntryType.CLIP, 15, 0⟩]] ∧
      channelEntries g.kdenlive_file g.audio_tracks =
        [[⟨EntryType.CLIP, 20, 0⟩], [⟨EntryType.BLANK, 9, 0⟩, ⟨EntryType.CLIP, 15, 0⟩]]) ∧
    (@generate Stale.intact minimalTemplate defaultFilePath exampleProject []).map (fun g =>
        (g.video_tracks, g.audio_tracks, g.kdenlive_file.filter_count)) =
      some ([0, 1], [2, 3], 2) ∧
    (∀ pid ∈ ["playlist2", "playlist6"],
      (((@generate Stale.intact minimalTemplate defaultFilePath exampleProject []).bind
        (fun g => FindPlaylistElement g.kdenlive_file.xml_doc pid)).map (fun pl =>
          pl.children.map (fun e => (e.name, e.attrs, e.children.map XMLElement.name)))).getD
          [] =
      [("blank", [("length", "00:00:09.000")], []),
        ("entry", [("in", "00:00:00.000"), ("out", "00:00:15.000"), ("producer", "chain2")],
          ["filter"])]) ∧
    ["playlist2", "playlist6"].map (fun pid =>
        (Option.map (fun e : XMLElement => e.children.map XMLElement.attrs)
          (((@generate Stale.intact minimalTemplate defaultFilePath exampleProject []).bind
            (fun g => FindPlaylistEntry g.kdenlive_file.xml_doc pid 1)).bind
              (fun o : Option XMLElement => o))).getD []) =
      [[[("id", "filter0"), ("in", "00:00:00.000"), ("out", "00:00:01.000")]],
        [[("id", "filter1"), ("in", "00:00:00.000"), ("out", "00:00:01.000")]]] ∧
    (∀ pid ∈ ["playlist2", "playlist6"],
      (Option.map (fun e : XMLElement => e.children.map (fun x =>
          x.children.map (fun p => ((p.Attribute "name").getD "", p.text.getD ""))))
        (((@generate Stale.intact minimalTemplate defaultFilePath exampleProject []).bind
          (fun g => FindPlaylistEntry g.kdenlive_file.xml_doc pid 1)).bind
            (fun o : Option XMLElement => o))).getD [] =
      [[("start", "1"), ("level", "1"), ("mlt_service", "brightness"),
        ("kdenlive_id", "fade_from_black"), ("alpha", "0=0;-1=1")]]) ∧
    ["playlist2", "playlist6"].map (fun pid =>
        (((@generate Stale.tagged minimalTemplate defaultFilePath exampleProject []).bind
          (fun g => FindPlaylistElement g.kdenlive_file.xml_doc pid)).map (fun pl =>
            pl.children.map XMLElement.attrs)).getD []) =
      [[[("length", "00:00:09.000")],
        [("in", "37/in/00:00:00.000"), ("out", "37/out/00:00:15.000"), ("producer", "chain2")]],
       [[("length", "00:00:09.000")],
        [("in", "60/in/00:00:00.000"), ("out", "60/out/00:00:15.000"),
          ("producer", "chain2")]]] ∧
    ["playlist2", "playlist6"].map (fun pid =>
        (Option.map (fun e : XMLElement => e.children.map XMLElement.attrs)
          (((@generate Stale.tagged minimalTemplate defaultFilePath exampleProject []).bind
            (fun g => FindPlaylistEntry g.kdenlive_file.xml_doc pid 1)).bind
              (fun o : Option XMLElement => o))).getD []) =
      [[[("id", "filter0"), ("in", "38/in/00:00:00.000"), ("out", "38/out/00:00:01.000")]],
        [[("id", "filter1"), ("in", "61/in/00:00:00.000"), ("out", "61/out/00:00:01.000")]]] := by
  refine ⟨fun template ffp paths g h => ?_, by decide!, by decide!, by decide!, by decide!,
    by decide!, by decide!⟩
  obtain ⟨-, -, hv, -, -⟩ := generate_channel h TrackType.VIDEO
  obtain ⟨-, -, ha, -, -⟩ := generate_channel h TrackType.AUDIO
  have hv' : channelEntries g.kdenlive_file g.video_tracks =
      [[⟨EntryType.CLIP, 10, 0⟩], [⟨EntryType.BLANK, 9, 0⟩, ⟨EntryType.CLIP, 15, 0⟩]] := by
    have : channelEntries g.kdenlive_file (g.tracks TrackType.VIDEO) = _ := hv
    rw [show g.tracks TrackType.VIDEO = g.video_tracks from rfl] at this
    rw [this]
    decide!
  have ha' : channelEntries g.kdenlive_file g.audio_tracks =
      [[⟨EntryType.CLIP, 20, 0⟩], [⟨EntryType.BLANK, 9, 0⟩, ⟨EntryType.CLIP, 15, 0⟩]] := by
    have : channelEntries g.kdenlive_file (g.tracks TrackType.AUDIO) = _ := ha
    rw [show g.tracks TrackType.AUDIO = g.audio_tracks from rfl] at this
    rw [this]
    decide!
  have hnames : g.included_names.map Prod.fst =
      ["great_expanse", "Free_Test_Data_500KB_MP3", "cavern_clinger_boss"] := by
    rw [(generate_names h).1]
    decide!
  obtain ⟨-, hids, hcount, -⟩ := generate_deduplicates h
  have hlen : g.included_names.length = 3 := by
    rw [← List.length_map g.included_names Prod.fst, hnames]
    rfl
  refine ⟨?_, ?_, ?_, by rw [hcount, hlen], hv', ha'⟩
  · have := congrArg List.length hv'
    simpa [channelEntries] using this
  · have := congrArg List.length ha'
    simpa [channelEntries] using this
  · rw [eq_zip_of_maps g.included_names, hnames, hids, hlen]
    rfl

/-- C15 fails where the destroyed strings are read as empty.  The run of `GenerateFile` on
the project of `example.cpp` and the minimal template still creates the tracks 0, 1 and 2, 3
and two filters, but on each channel the entry of the third clip and its filter have empty
`in` and `out` attributes: the entry does not show the length 15, and the filter does not
cover `00:00:00.000` to `00:00:01.000`. -/
theorem example_scenario_counterexample :
    (@generate Stale.cleared minimalTemplate defaultFilePath exampleProject []).map (fun g =>
        (g.video_tracks, g.audio_tracks, g.kdenlive_file.filter_count)) =
      some ([0, 1], [2, 3], 2) ∧
    ["playlist2", "playlist6"].map (fun pid =>
        (((@generate Stale.cleared minimalTemplate defaultFilePath exampleProject []).bind
          (fun g => FindPlaylistElement g.kdenlive_file.xml_doc pid)).map (fun pl =>
            pl.children.map XMLElement.attrs)).getD []) =
      [[[("length", "00:00:09.000")], [("in", ""), ("out", ""), ("producer", "chain2")]],
       [[("length", "00:00:09.000")], [("in", ""), ("out", ""), ("producer", "chain2")]]] ∧
    ["playlist2", "playlist6"].map (fun pid =>
        (Option.map (fun e : XMLElement => e.children.map XMLElement.attrs)
          (((@generate Stale.cleared minimalTemplate defaultFilePath exampleProject []).bind
            (fun g => FindPlaylistEntry g.kdenlive_file.xml_doc pid 1)).bind
              (fun o : Option XMLElement => o))).getD []) =
      [[[("id", "filter0"), ("in", ""), ("out", "")]],
        [[("id", "filter1"), ("in", ""), ("out", "")]]] ∧
    convertToTimestamp 0 = "00:00:00.000" ∧ convertToTimestamp 1 = "00:00:01.000" ∧
    convertToTimestamp 15 = "00:00:15.000" := by
  refine ⟨by decide!, by decide!, by decide!, by decide!, by decide!, by decide!⟩

/-! ## Exact effect of the writes on a well-formed document -/

theorem allPtrs_node (p : Nat) (n : String) (a : List (String × String)) (t : Option String)
    (cs : List XMLElement) :
    (XMLElement.node p n a t cs).allPtrs = p :: XMLElement.allPtrsList cs := by
  rw [XMLElement.allPtrs]

theorem allPtrs_eq (e : XMLElement) : e.allPtrs = e.ptr :: XMLElement.allPtrsList e.children := by
  cases e with
  | node p n a t cs => exact allPtrs_node p n a t cs

theorem allPtrsList_nil : XMLElement.allPtrsList [] = [] := by
  rw [XMLElement.allPtrsList]

theorem allPtrsList_cons (c : XMLElement) (cs : List XMLElement) :
    XMLElement.allPtrsList (c :: cs) = c.allPtrs ++ XMLElement.allPtrsList cs := by
  rw [XMLElement.allPtrsList]

theorem allPtrsList_append (l1 l2 : List XMLElement) :
    XMLElement.allPtrsList (l1 ++ l2) =
      XMLElement.allPtrsList l1 ++ XMLElement.allPtrsList l2 := by
  induction l1 with
  | nil => rw [allPtrsList_nil]; rfl
  | cons c cs ih => rw [List.cons_append, allPtrsList_cons, allPtrsList_cons, ih, List.append_assoc]

theorem ptr_mem_allPtrs (e : XMLElement) : e.ptr ∈ e.allPtrs := by
  rw [allPtrs_eq]; exact List.mem_cons_self _ _

theorem allPtrs_withChildren (e : XMLElement) (cs : List XMLElement) :
    (e.withChildren cs).allPtrs = e.ptr :: XMLElement.allPtrsList cs := by
  rw [allPtrs_eq, withChildren_ptr, withChildren_children]

theorem mem_allPtrsList_of_mem {c : XMLElement} {cs : List XMLElement} (hc : c ∈ cs) {p : Nat}
    (hp : p ∈ c.allPtrs) : p ∈ XMLElement.allPtrsList cs := by
  obtain ⟨l1, l2, rfl⟩ := List.append_of_mem hc
  rw [allPtrsList_append, allPtrsList_cons]
  exact List.mem_append_right _ (List.mem_append_left _ hp)

/-- A write through an address that is not in the tree changes nothing. -/
theorem update_of_not_mem (q : Nat) (g : XMLElement → XMLElement) :
    ∀ (n : Nat) (t : XMLElement), sizeOf t ≤ n → q ∉ t.allPtrs → XMLElement.update q g t = t := by
  intro n
  induction n with
  | zero =>
    intro t hn
    cases t with
    | node p nm a tx cs => simp at hn
  | succ n ih =>
    intro t hn hq
    cases t with
    | node p nm a tx cs =>
      rw [allPtrs_node, List.mem_cons, not_or] at hq
      rw [update_of_ne (fun h : (XMLElement.node p nm a tx cs).ptr = q => hq.1 h.symm)]
      show XMLElement.node p nm a tx (XMLElement.updateList q g cs) = _
      congr 1
      have hsize : ∀ c ∈ cs, sizeOf c ≤ n := by
        intro c hc
        have := List.sizeOf_lt_of_mem hc
        simp only [XMLElement.node.sizeOf_spec] at hn
        omega
      have hmem := hq.2
      clear hn hq
      induction cs with
      | nil => exact updateList_nil _ _
      | cons c cs ihc =>
        rw [allPtrsList_cons, List.mem_append, not_or] at hmem
        rw [updateList_cons, ih c (hsize c (List.mem_cons_self _ _)) hmem.1,
          ihc (fun c' hc' => hsize c' (List.mem_cons_of_mem _ hc')) hmem.2]

theorem updateList_of_not_mem (q : Nat) (g : XMLElement → XMLElement) :
    ∀ cs : List XMLElement, q ∉ XMLElement.allPtrsList cs → XMLElement.updateList q g cs = cs := by
  intro cs
  induction cs with
  | nil => intro _; exact updateList_nil _ _
  | cons c cs ih =>
    intro h
    rw [allPtrsList_cons, List.mem_append, not_or] at h
    rw [updateList_cons, update_of_not_mem q g _ c (le_refl _) h.1, ih h.2]

/-- Unlinking an address that is not in the tree changes nothing. -/
theorem unlink_of_not_mem (q : Nat) :
    ∀ (n : Nat) (t : XMLElement), sizeOf t ≤ n → q ∉ t.allPtrs → XMLElement.unlink q t = t := by
  intro n
  induction n with
  | zero =>
    intro t hn
    cases t with
    | node p nm a tx cs => simp at hn
  | succ n ih =>
    intro t hn hq
    cases t with
    | node p nm a tx cs =>
      rw [allPtrs_node, List.mem_cons, not_or] at hq
      rw [XMLElement.unlink]
      congr 1
      have hsize : ∀ c ∈ cs, sizeOf c ≤ n := by
        intro c hc
        have := List.sizeOf_lt_of_mem hc
        simp only [XMLElement.node.sizeOf_spec] at hn
        omega
      have hmem := hq.2
      clear hn hq
      induction cs with
      | nil => exact unlinkList_nil _
      | cons c cs ihc =>
        rw [allPtrsList_cons, List.mem_append, not_or] at hmem
        have hc : c.ptr ≠ q := fun h => hmem.1 (h ▸ ptr_mem_allPtrs c)
        rw [unlinkList_cons, if_neg hc, ih c (hsize c (List.mem_cons_self _ _)) hmem.1,
          ihc (fun c' hc' => hsize c' (List.mem_cons_of_mem _ hc')) hmem.2]

theorem unlinkList_of_not_mem (q : Nat) :
    ∀ cs : List XMLElement, q ∉ XMLElement.allPtrsList cs → XMLElement.unlinkList q cs = cs := by
  intro cs
  induction cs with
  | nil => intro _; exact unlinkList_nil _
  | cons c cs ih =>
    intro h
    rw [allPtrsList_cons, List.mem_append, not_or] at h
    have hc : c.ptr ≠ q := fun hq => h.1 (hq ▸ ptr_mem_allPtrs c)
    rw [unlinkList_cons, if_neg hc, unlink_of_not_mem q _ c (le_refl _) h.1, ih h.2]

theorem unlinkList_append (q : Nat) (l1 l2 : List XMLElement) :
    XMLElement.unlinkList q (l1 ++ l2) =
      XMLElement.unlinkList q l1 ++ XMLElement.unlinkList q l2 := by
  induction l1 with
  | nil => rw [unlinkList_nil]; rfl
  | cons c cs ih =>
    rw [List.cons_append, unlinkList_cons, unlinkList_cons, ih]
    split <;> rfl

theorem updateList_append (q : Nat) (g : XMLElement → XMLElement) (l1 l2 : List XMLElement) :
    XMLElement.updateList q g (l1 ++ l2) =
      XMLElement.updateList q g l1 ++ XMLElement.updateList q g l2 := by
  rw [updateList_eq_map, updateList_eq_map, updateList_eq_map, List.map_append]

theorem modify_eq {d d' : XMLDocument} {q : Nat} {g : XMLElement → XMLElement}
    (h : d.modify q g = some d') : d' = { d with root := d.root.update q g } := by
  unfold XMLDocument.modify at h
  split at h
  · cases h
  · cases h; rfl

/-- A write through the address of a child of the root, in a tree where the address is used
once: that child is replaced, nothing else changes. -/
theorem update_root_child {root : XMLElement} {q : Nat} (g : XMLElement → XMLElement)
    {l1 l2 : List XMLElement} {c : XMLElement} (hr : root.ptr ≠ q)
    (hch : root.children = l1 ++ c :: l2) (hc : c.ptr = q)
    (h1 : q ∉ XMLElement.allPtrsList l1) (h2 : q ∉ XMLElement.allPtrsList l2) :
    XMLElement.update q g root = root.withChildren (l1 ++ g c :: l2) := by
  rw [update_of_ne hr, hch, updateList_append, updateList_cons, updateList_of_not_mem q g l1 h1,
    updateList_of_not_mem q g l2 h2, update_of_eq hc]

/-- A write through the address of a child of a child of the root. -/
theorem update_root_grandchild {root : XMLElement} {q : Nat} (g : XMLElement → XMLElement)
    {l1 l2 a b : List XMLElement} {c gc : XMLElement} (hr : root.ptr ≠ q)
    (hch : root.children = l1 ++ c :: l2) (hcq : c.ptr ≠ q)
    (hcc : c.children = a ++ gc :: b) (hgc : gc.ptr = q)
    (h1 : q ∉ XMLElement.allPtrsList l1) (h2 : q ∉ XMLElement.allPtrsList l2)
    (ha : q ∉ XMLElement.allPtrsList a) (hb : q ∉ XMLElement.allPtrsList b) :
    XMLElement.update q g root =
      root.withChildren (l1 ++ c.withChildren (a ++ g gc :: b) :: l2) := by
  rw [update_of_ne hr, hch, updateList_append, updateList_cons, updateList_of_not_mem q g l1 h1,
    updateList_of_not_mem q g l2 h2, update_of_ne hcq, hcc, updateList_append, updateList_cons,
    updateList_of_not_mem q g a ha, updateList_of_not_mem q g b hb, update_of_eq hgc]

theorem find_append_cons {p : XMLElement → Bool} {l1 l2 : List XMLElement} {c : XMLElement}
    (h1 : ∀ a ∈ l1, (!p a) = true) (hc : p c = true) : (l1 ++ c :: l2).find? p = some c :=
  List.find?_eq_some.2 ⟨hc, l1, l2, rfl, h1⟩

/-- What the distinctness of the addresses says about a child of the root. -/
theorem nodup_root_child {root : XMLElement} {l1 l2 : List XMLElement} {c : XMLElement}
    (hnd : root.allPtrs.Nodup) (hch : root.children = l1 ++ c :: l2) :
    root.ptr ≠ c.ptr ∧ c.ptr ∉ XMLElement.allPtrsList l1 ∧ c.ptr ∉ XMLElement.allPtrsList l2 ∧
      c.allPtrs.Nodup ∧
      (∀ p ∈ c.allPtrs, p ≠ root.ptr ∧ p ∉ XMLElement.allPtrsList l1 ∧
        p ∉ XMLElement.allPtrsList l2) := by
  rw [allPtrs_eq, hch, allPtrsList_append, allPtrsList_cons, List.nodup_cons] at hnd
  obtain ⟨hroot, hnd⟩ := hnd
  rw [List.nodup_append] at hnd
  obtain ⟨-, hnd2, hdis⟩ := hnd
  rw [List.nodup_append] at hnd2
  obtain ⟨hcnd, -, hdis2⟩ := hnd2
  have key : ∀ p ∈ c.allPtrs, p ≠ root.ptr ∧ p ∉ XMLElement.allPtrsList l1 ∧
      p ∉ XMLElement.allPtrsList l2 := by
    intro p hp
    refine ⟨?_, ?_, ?_⟩
    · intro h
      exact hroot (h ▸ List.mem_append_right _ (List.mem_append_left _ hp))
    · intro h
      exact hdis h (List.mem_append_left _ hp)
    · exact hdis2 hp
  obtain ⟨k1, k2, k3⟩ := key c.ptr (ptr_mem_allPtrs c)
  exact ⟨fun h => k1 h.symm, k2, k3, hcnd, key⟩

/-! ## Well-formed documents stay well-formed -/

/-- Replacing a child by a node that has the same addresses and some more adds these
addresses to the tree. -/
theorem allPtrs_perm_child {root c c' : XMLElement} {l1 l2 : List XMLElement}
    {extra : List Nat} (hch : root.children = l1 ++ c :: l2)
    (hc : c'.allPtrs.Perm (c.allPtrs ++ extra)) :
    (root.withChildren (l1 ++ c' :: l2)).allPtrs.Perm (root.allPtrs ++ extra) := by
  rw [allPtrs_withChildren, allPtrs_eq root, hch, allPtrsList_append, allPtrsList_append,
    allPtrsList_cons, allPtrsList_cons, List.cons_append]
  refine List.Perm.cons _ ?_
  rw [List.append_assoc]
  refine List.Perm.append_left _ ?_
  have h1 : (c'.allPtrs ++ XMLElement.allPtrsList l2).Perm
      ((c.allPtrs ++ extra) ++ XMLElement.allPtrsList l2) := List.Perm.append_right _ hc
  refine h1.trans ?_
  rw [List.append_assoc, List.append_assoc]
  exact List.Perm.append_left _ List.perm_append_comm

/-- Appending nodes to the children of a node adds their addresses behind its own. -/
theorem allPtrs_append_children (c : XMLElement) (xs : List XMLElement) :
    (c.withChildren (c.children ++ xs)).allPtrs = c.allPtrs ++ XMLElement.allPtrsList xs := by
  rw [allPtrs_withChildren, allPtrsList_append, allPtrs_eq c, List.cons_append]

/-- A tree that has the addresses of a well-formed document and, beyond them, distinct
addresses that were free is well-formed. -/
theorem wellFormed_of_perm {d d' : XMLDocument} {extra : List Nat} (hwf : d.WellFormed)
    (hp : d'.root.allPtrs.Perm (d.root.allPtrs ++ extra)) (hnd : extra.Nodup)
    (hlo : ∀ p ∈ extra, d.next_ptr ≤ p) (hhi : ∀ p ∈ extra, p < d'.next_ptr)
    (hn : d.next_ptr ≤ d'.next_ptr) : d'.WellFormed := by
  refine ⟨?_, ?_⟩
  · rw [hp.nodup_iff, List.nodup_append]
    refine ⟨hwf.1, hnd, ?_⟩
    intro p h1 h2
    have := hwf.2 p h1
    have := hlo p h2
    omega
  · intro p hpm
    rcases List.mem_append.1 (hp.mem_iff.1 hpm) with h | h
    · exact Nat.lt_of_lt_of_le (hwf.2 p h) hn
    · exact hhi p h

/-- The document after new nodes `xs` with free addresses were appended to a child of the
root is well-formed. -/
theorem wellFormed_append_to_child {d d' : XMLDocument} {l1 l2 : List XMLElement}
    {c : XMLElement} {xs : List XMLElement} (hwf : d.WellFormed)
    (hch : d.root.children = l1 ++ c :: l2)
    (hroot : d'.root = d.root.withChildren (l1 ++ c.withChildren (c.children ++ xs) :: l2))
    (hnd : (XMLElement.allPtrsList xs).Nodup)
    (hlo : ∀ p ∈ XMLElement.allPtrsList xs, d.next_ptr ≤ p)
    (hhi : ∀ p ∈ XMLElement.allPtrsList xs, p < d'.next_ptr)
    (hn : d.next_ptr ≤ d'.next_ptr) : d'.WellFormed := by
  refine wellFormed_of_perm hwf ?_ hnd hlo hhi hn
  rw [hroot]
  refine allPtrs_perm_child hch ?_
  rw [allPtrs_append_children]

/-- The document after new nodes `xs` with free addresses were appended to a child of a
child of the root is well-formed. -/
theorem wellFormed_append_to_grandchild {d d' : XMLDocument} {l1 l2 a b : List XMLElement}
    {c gc : XMLElement} {xs : List XMLElement} (hwf : d.WellFormed)
    (hch : d.root.children = l1 ++ c :: l2) (hgc : c.children = a ++ gc :: b)
    (hroot : d'.root = d.root.withChildren
      (l1 ++ c.withChildren (a ++ gc.withChildren (gc.children ++ xs) :: b) :: l2))
    (hnd : (XMLElement.allPtrsList xs).Nodup)
    (hlo : ∀ p ∈ XMLElement.allPtrsList xs, d.next_ptr ≤ p)
    (hhi : ∀ p ∈ XMLElement.allPtrsList xs, p < d'.next_ptr)
    (hn : d.next_ptr ≤ d'.next_ptr) : d'.WellFormed := by
  refine wellFormed_of_perm hwf ?_ hnd hlo hhi hn
  rw [hroot]
  refine allPtrs_perm_child hch (allPtrs_perm_child hgc ?_)
  rw [allPtrs_append_children]

/-- The children of a node of a tree with distinct addresses have distinct addresses. -/
theorem childPtrs_nodup : ∀ cs : List XMLElement, (XMLElement.allPtrsList cs).Nodup →
    (cs.map XMLElement.ptr).Nodup := by
  intro cs
  induction cs with
  | nil => intro _; exact List.nodup_nil
  | cons c cs ih =>
    intro h
    rw [allPtrsList_cons, List.nodup_append] at h
    obtain ⟨h1, h2, h3⟩ := h
    rw [List.map_cons, List.nodup_cons]
    refine ⟨?_, ih h2⟩
    intro hm
    obtain ⟨y, hy, hyp⟩ := List.mem_map.1 hm
    exact h3 (ptr_mem_allPtrs c) (hyp ▸ mem_allPtrsList_of_mem hy (ptr_mem_allPtrs y))

/-- Appending a node `t` to the one child with address `q` adds the addresses of `t`. -/
theorem allPtrsList_map_append {q : Nat} (t : XMLElement) :
    ∀ cs : List XMLElement, (cs.map XMLElement.ptr).Nodup → q ∈ cs.map XMLElement.ptr →
      (XMLElement.allPtrsList (cs.map (fun x =>
        if x.ptr = q then x.withChildren (x.children ++ [t]) else x))).Perm
        (XMLElement.allPtrsList cs ++ t.allPtrs) := by
  intro cs
  induction cs with
  | nil => intro _ h; exact absurd h (List.not_mem_nil _)
  | cons c cs ih =>
    intro hnd hq
    rw [List.map_cons, List.nodup_cons] at hnd
    rw [List.map_cons, allPtrsList_cons, allPtrsList_cons]
    by_cases hc : c.ptr = q
    · have hrest : cs.map (fun x =>
          if x.ptr = q then x.withChildren (x.children ++ [t]) else x) = cs := by
        conv_rhs => rw [← List.map_id cs]
        apply List.map_congr_left
        intro x hx
        have : x.ptr ≠ q := fun he => hnd.1 (by rw [hc, ← he]; exact List.mem_map_of_mem _ hx)
        rw [if_neg this]; rfl
      rw [hrest, if_pos hc, allPtrs_append_children, allPtrsList_cons, allPtrsList_nil,
        List.append_nil, List.append_assoc, List.append_assoc]
      exact List.Perm.append_left _ List.perm_append_comm
    · rw [if_neg hc, List.append_assoc]
      refine List.Perm.append_left _ (ih hnd.2 ?_)
      rw [List.map_cons, List.mem_cons] at hq
      rcases hq with hq | hq
      · exact absurd hq.symm hc
      · exact hq

/-- Linking new children `xs` in between the children of a node adds their addresses. -/
theorem allPtrs_perm_insert (root : XMLElement) (l1 l2 xs : List XMLElement) (c : XMLElement)
    (hch : root.children = l1 ++ c :: l2) :
    (root.withChildren (l1 ++ c :: xs ++ l2)).allPtrs.Perm
      (root.allPtrs ++ XMLElement.allPtrsList xs) := by
  rw [allPtrs_withChildren, allPtrs_eq root, hch, List.cons_append]
  refine List.Perm.cons _ ?_
  simp only [allPtrsList_append, allPtrsList_cons, List.append_assoc]
  refine List.Perm.append_left _ (List.Perm.append_left _ ?_)
  exact List.perm_append_comm

/-- A new node is appended to a child of the root of a well-formed tree: that child gets
one more child, nothing else changes. -/
theorem InsertEndChild_root_child {d d' : XMLDocument} {q : Nat} {x : XMLElement}
    {l1 l2 : List XMLElement} {c : XMLElement} (h : d.InsertEndChild q x = some d')
    (hnd : d.root.allPtrs.Nodup) (hx : x.ptr ∉ d.root.allPtrs)
    (hch : d.root.children = l1 ++ c :: l2) (hc : c.ptr = q) :
    d' = { d with root := d.root.withChildren (l1 ++ c.withChildren (c.children ++ [x]) :: l2) } := by
  unfold XMLDocument.InsertEndChild at h
  have h' := modify_eq h
  rw [h']
  obtain ⟨n1, n2, n3, -, -⟩ := nodup_root_child hnd hch
  show ({ d with root := XMLElement.update q _ (XMLElement.unlink x.ptr d.root) } : XMLDocument) = _
  rw [unlink_of_not_mem x.ptr _ d.root (le_refl _) hx,
    update_root_child _ (by rw [← hc]; exact n1) hch hc (by rw [← hc]; exact n2)
      (by rw [← hc]; exact n3)]

theorem CreateEntryElement_eq [Stale] (d : XMLDocument) (i o : ℚ) (producer : String) :
    CreateEntryElement d i o producer =
      ({ d with next_ptr := d.next_ptr + 1 },
        XMLElement.node d.next_ptr "entry"
          [("in", Stale.read d.next_ptr "in" (convertToTimestamp i)),
            ("out", Stale.read d.next_ptr "out" (convertToTimestamp o)),
            ("producer", producer)] none []) := by
  unfold CreateEntryElement XMLDocument.NewElement XMLElement.SetAttribute
  simp only [XMLElement.setAttr]
  have h1 : ("in" == "out") = false := by decide
  have h2 : ("in" == "producer") = false := by decide
  have h3 : ("out" == "producer") = false := by decide
  simp [h1, h2, h3, XMLElement.ptr]

theorem CreateBlankElement_eq (d : XMLDocument) (length : ℚ) :
    CreateBlankElement d length =
      ({ d with next_ptr := d.next_ptr + 1 },
        XMLElement.node d.next_ptr "blank" [("length", convertToTimestamp length)] none []) := by
  unfold CreateBlankElement XMLDocument.NewElement XMLElement.SetAttribute
  simp only [XMLElement.setAttr]

theorem find_decompose {p : XMLElement → Bool} {cs : List XMLElement} {c : XMLElement}
    (h : cs.find? p = some c) :
    p c = true ∧ ∃ l1 l2, cs = l1 ++ c :: l2 ∧ ∀ a ∈ l1, (!p a) = true :=
  List.find?_eq_some.1 h

theorem playlist_test_withChildren (id : String) (c : XMLElement) (cs : List XMLElement) :
    ((c.withChildren cs).name == "playlist" && (c.withChildren cs).AttributeIs "id" (some id)) =
      (c.name == "playlist" && c.AttributeIs "id" (some id)) :=
  playlist_test_congr id c _ (withChildren_name _ _) (withChildren_attrs _ _)

/-- A new timed node is appended to the first playlist of a track of a well-formed file. -/
theorem append_to_playlist {f : KdenliveFile} {d' : XMLDocument} {id : String} {x : XMLElement}
    {pl : XMLElement} (hwf : f.xml_doc.WellFormed)
    (hpl : FindPlaylistElement f.xml_doc id = some pl)
    (hx : x.ptr = f.xml_doc.next_ptr)
    (h : ({ f.xml_doc with next_ptr := f.xml_doc.next_ptr + 1 } : XMLDocument).InsertEndChild
      pl.ptr x = some d') :
    ∃ l1 l2, f.xml_doc.root.children = l1 ++ pl :: l2 ∧
      d'.root = f.xml_doc.root.withChildren
        (l1 ++ pl.withChildren (pl.children ++ [x]) :: l2) ∧
      d'.next_ptr = f.xml_doc.next_ptr + 1 ∧
      FindPlaylistElement d' id = some (pl.withChildren (pl.children ++ [x])) := by
  rw [FindPlaylistElement_eq] at hpl
  obtain ⟨hp, l1, l2, hch, hl1⟩ := find_decompose hpl
  have hfresh : x.ptr ∉ f.xml_doc.root.allPtrs := by
    intro hmem
    have := hwf.2 _ hmem
    omega
  have hd := InsertEndChild_root_child h hwf.1 hfresh hch rfl
  refine ⟨l1, l2, hch, by rw [hd], by rw [hd], ?_⟩
  rw [FindPlaylistElement_eq, hd]
  show (XMLElement.children (f.xml_doc.root.withChildren _)).find? _ = _
  rw [withChildren_children]
  refine find_append_cons hl1 ?_
  rw [playlist_test_withChildren]
  exact hp

/-! ## Encoding of the entries -/

/-- The exact effect of `AddClipToTrack` and of `AddBlankToTrack` on a well-formed file in
order: one new node at the end of the first playlist of the track. -/
theorem track_append_exact [Stale] (f : KdenliveFile) (track_id clip_id : Nat)
    (length start_offset : ℚ) (hdoc : DocOK f) (hcons : Consistent f)
    (hwf : f.xml_doc.WellFormed) (hid : track_id < f.track_count) :
    ∃ l1 pl l2, f.xml_doc.root.children = l1 ++ pl :: l2 ∧
      FindPlaylistElement f.xml_doc ("playlist" ++ toString (track_id * 2)) = some pl ∧
      (∃ f' e, f.AddClipToTrack track_id clip_id length start_offset = some (f', e) ∧
        f'.xml_doc.root = f.xml_doc.root.withChildren (l1 ++ pl.withChildren (pl.children ++
          [XMLElement.node f.xml_doc.next_ptr "entry"
            [("in", Stale.read f.xml_doc.next_ptr "in" (convertToTimestamp start_offset)),
              ("out", Stale.read f.xml_doc.next_ptr "out"
                (convertToTimestamp (fadd length start_offset))),
              ("producer", "chain" ++ toString clip_id)] none []]) :: l2) ∧
        FindPlaylistElement f'.xml_doc ("playlist" ++ toString (track_id * 2)) =
          some (pl.withChildren (pl.children ++
            [XMLElement.node f.xml_doc.next_ptr "entry"
              [("in", Stale.read f.xml_doc.next_ptr "in" (convertToTimestamp start_offset)),
                ("out", Stale.read f.xml_doc.next_ptr "out"
                  (convertToTimestamp (fadd length start_offset))),
                ("producer", "chain" ++ toString clip_id)] none []])) ∧
        DocOK f' ∧ Consistent f' ∧ f'.xml_doc.WellFormed) ∧
      (∃ f' e, f.AddBlankToTrack track_id length = some (f', e) ∧
        f'.xml_doc.root = f.xml_doc.root.withChildren (l1 ++ pl.withChildren (pl.children ++
          [XMLElement.node f.xml_doc.next_ptr "blank"
            [("length", convertToTimestamp length)] none []]) :: l2) ∧
        FindPlaylistElement f'.xml_doc ("playlist" ++ toString (track_id * 2)) =
          some (pl.withChildren (pl.children ++
            [XMLElement.node f.xml_doc.next_ptr "blank"
              [("length", convertToTimestamp length)] none []])) ∧
        DocOK f' ∧ Consistent f' ∧ f'.xml_doc.WellFormed) ∧
      ∀ names L t clip f', ADD_CLIP f names track_id L t clip = some f' →
        ∃ (asset : Nat) (f1 f2 : KdenliveFile) (e : Nat), names.lookup clip.name = some asset ∧
          f1.AddClipToTrack track_id asset clip.length clip.start_offset = some (f2, e) ∧
          f2.FadeClip track_id e clip.fade_in_time clip.fade_out_time = some f' := by
  obtain ⟨pl, hpl, -⟩ := hdoc.2 track_id hid
  have hpl' := hpl
  rw [FindPlaylistElement_eq] at hpl'
  obtain ⟨-, l1, l2, hch, hl1⟩ := find_decompose hpl'
  have hnd := hwf.1
  have same : ∀ (a b : List XMLElement), f.xml_doc.root.children = a ++ pl :: b →
      a = l1 ∧ b = l2 := by
    intro a b hab
    rw [hch] at hab
    have hp1 : pl.ptr ∉ (l1.map XMLElement.ptr) := by
      intro hm
      obtain ⟨y, hy, hyp⟩ := List.mem_map.1 hm
      exact (nodup_root_child hnd hch).2.1 (hyp ▸ mem_allPtrsList_of_mem hy (ptr_mem_allPtrs y))
    have hp2 : pl.ptr ∉ (a.map XMLElement.ptr) := by
      intro hm
      obtain ⟨y, hy, hyp⟩ := List.mem_map.1 hm
      have hch' : f.xml_doc.root.children = a ++ pl :: b := by rw [hch, hab]
      exact (nodup_root_child hnd hch').2.1 (hyp ▸ mem_allPtrsList_of_mem hy (ptr_mem_allPtrs y))
    have hmap := congrArg (List.map XMLElement.ptr) hab
    rw [List.map_append, List.map_append, List.map_cons, List.map_cons] at hmap
    have hlen : l1.length = a.length := by
      have := List.append_eq_append_iff.1 hmap
      rcases this with ⟨a', h1, h2⟩ | ⟨c', h1, h2⟩
      · cases a' with
        | nil =>
          rw [List.append_nil] at h1
          have := congrArg List.length h1
          simpa using this.symm
        | cons z zs =>
          rw [List.cons_append] at h2
          have hz : pl.ptr = z := (List.cons.inj h2).1
          exact absurd (h1 ▸ List.mem_append_right _ (hz ▸ List.mem_cons_self _ _)) hp2
      · cases c' with
        | nil =>
          rw [List.append_nil] at h1
          have := congrArg List.length h1
          simpa using this
        | cons z zs =>
          rw [List.cons_append] at h2
          have hz : pl.ptr = z := (List.cons.inj h2).1
          exact absurd (h1 ▸ List.mem_append_right _ (hz ▸ List.mem_cons_self _ _)) hp1
    have := List.append_inj hab hlen
    exact ⟨this.1.symm, (List.cons.inj this.2).2.symm⟩
  refine ⟨l1, pl, l2, hch, hpl, ?_, ?_, ?_⟩
  · obtain ⟨f', e, h, hdoc'⟩ :=
      AddClipToTrack_ok f track_id clip_id length start_offset hdoc hcons hid
    have hcons' := AddClipToTrack_consistent hcons h
    refine ⟨f', e, h, ?_⟩
    unfold AddClipToTrack at h
    simp only [bind, Option.bind_eq_some, pure, Option.some.injEq] at h
    obtain ⟨pl0, hpl0, ⟨d', en⟩, hadd, L, -, es, -, h⟩ := h
    rw [hpl] at hpl0
    cases hpl0
    unfold AddEntryElement at hadd
    rw [CreateEntryElement_eq] at hadd
    simp only [Option.map_eq_some', Prod.mk.injEq] at hadd
    obtain ⟨d0, hd0, hd, -⟩ := hadd
    subst hd
    obtain ⟨a, b, hab, hroot, hnext, hfind⟩ := append_to_playlist hwf hpl (by rfl) hd0
    obtain ⟨rfl, rfl⟩ := same a b hab
    have hwf' : d0.WellFormed :=
      wellFormed_append_to_child hwf hch hroot (List.nodup_singleton _)
        (fun p hp => by
          rw [List.mem_singleton.1 hp])
        (fun p hp => by
          rw [List.mem_singleton.1 hp, hnext]; exact Nat.lt_succ_self _)
        (by rw [hnext]; exact Nat.le_succ _)
    simp only [Option.some.injEq, Prod.mk.injEq] at h
    refine ⟨?_, ?_, hdoc', hcons', ?_⟩
    · rw [← h.1]
      show d0.root = _
      exact hroot
    · rw [← h.1]
      show FindPlaylistElement d0 _ = _
      exact hfind
    · rw [← h.1]
      exact hwf'
  · obtain ⟨f', e, h, hdoc'⟩ := AddBlankToTrack_ok f track_id length hdoc hcons hid
    have hcons' := AddBlankToTrack_consistent hcons h
    refine ⟨f', e, h, ?_⟩
    unfold AddBlankToTrack at h
    simp only [bind, Option.bind_eq_some, pure, Option.some.injEq] at h
    obtain ⟨pl0, hpl0, ⟨d', en⟩, hadd, L, -, es, -, h⟩ := h
    rw [hpl] at hpl0
    cases hpl0
    unfold AddBlankElement at hadd
    rw [CreateBlankElement_eq] at hadd
    simp only [Option.map_eq_some', Prod.mk.injEq] at hadd
    obtain ⟨d0, hd0, hd, -⟩ := hadd
    subst hd
    obtain ⟨a, b, hab, hroot, hnext, hfind⟩ := append_to_playlist hwf hpl (by rfl) hd0
    obtain ⟨rfl, rfl⟩ := same a b hab
    have hwf' : d0.WellFormed :=
      wellFormed_append_to_child hwf hch hroot (List.nodup_singleton _)
        (fun p hp => by
          rw [List.mem_singleton.1 hp])
        (fun p hp => by
          rw [List.mem_singleton.1 hp, hnext]; exact Nat.lt_succ_self _)
        (by rw [hnext]; exact Nat.le_succ _)
    simp only [Option.some.injEq, Prod.mk.injEq] at h
    refine ⟨?_, ?_, hdoc', hcons', ?_⟩
    · rw [← h.1]; exact hroot
    · rw [← h.1]; exact hfind
    · rw [← h.1]; exact hwf'
  · intro names L t clip f' h
    unfold ADD_CLIP at h
    simp only [Option.bind_eq_some] at h
    obtain ⟨f1, -, asset, hasset, ⟨f2, e⟩, h2, h3⟩ := h
    exact ⟨asset, f1, f2, e, hasset, h2, h3⟩

/-- C20, as far as it holds.  On a well-formed file in order, `AddClipToTrack` on an
existing track runs through and appends to the first playlist of the track, the node `pl`
that the search for `playlist(2*track)` finds, one new `entry` node whose `producer` is
`chain(asset id)`.  Its attributes `in` and `out` are set from pointers into timestamp
strings that `CreateEntryElement` has already destroyed: they hold whatever is read there,
in place of `convertToTimestamp(start_offset)` and of `convertToTimestamp` of the `float`
sum `length + start_offset`.  `AddBlankToTrack` appends one new `blank` node whose only
attribute is `length = convertToTimestamp(length)`.  Every other node of the tree stays as
it is, and the file after the call is again in order, consistent and well-formed.
`ADD_CLIP`, whenever it runs through, passes to `AddClipToTrack` the asset id that
`included_names` holds for the name of the clip, with the length and the start offset of
the clip. -/
theorem clip_entry_encoding [Stale] (f : KdenliveFile) (track_id clip_id : Nat)
    (length start_offset : ℚ) (hdoc : DocOK f) (hcons : Consistent f)
    (hwf : f.xml_doc.WellFormed) (hid : track_id < f.track_count) :
    ∃ l1 pl l2, f.xml_doc.root.children = l1 ++ pl :: l2 ∧
      FindPlaylistElement f.xml_doc ("playlist" ++ toString (track_id * 2)) = some pl ∧
      (∃ f' e, f.AddClipToTrack track_id clip_id length start_offset = some (f', e) ∧
        f'.xml_doc.root = f.xml_doc.root.withChildren (l1 ++ pl.withChildren (pl.children ++
          [XMLElement.node f.xml_doc.next_ptr "entry"
            [("in", Stale.read f.xml_doc.next_ptr "in" (convertToTimestamp start_offset)),
              ("out", Stale.read f.xml_doc.next_ptr "out"
                (convertToTimestamp (fadd length start_offset))),
              ("producer", "chain" ++ toString clip_id)] none []]) :: l2) ∧
        FindPlaylistElement f'.xml_doc ("playlist" ++ toString (track_id * 2)) =
          some (pl.withChildren (pl.children ++
            [XMLElement.node f.xml_doc.next_ptr "entry"
              [("in", Stale.read f.xml_doc.next_ptr "in" (convertToTimestamp start_offset)),
                ("out", Stale.read f.xml_doc.next_ptr "out"
                  (convertToTimestamp (fadd length start_offset))),
                ("producer", "chain" ++ toString clip_id)] none []])) ∧
        DocOK f' ∧ Consistent f' ∧ f'.xml_doc.WellFormed) ∧
      (∃ f' e, f.AddBlankToTrack track_id length = some (f', e) ∧
        f'.xml_doc.root = f.xml_doc.root.withChildren (l1 ++ pl.withChildren (pl.children ++
          [XMLElement.node f.xml_doc.next_ptr "blank"
            [("length", convertToTimestamp length)] none []]) :: l2) ∧
        FindPlaylistElement f'.xml_doc ("playlist" ++ toString (track_id * 2)) =
          some (pl.withChildren (pl.children ++
            [XMLElement.node f.xml_doc.next_ptr "blank"
              [("length", convertToTimestamp length)] none []])) ∧
        DocOK f' ∧ Consistent f' ∧ f'.xml_doc.WellFormed) ∧
      ∀ names L t clip f', ADD_CLIP f names track_id L t clip = some f' →
        ∃ (asset : Nat) (f1 f2 : KdenliveFile) (e : Nat), names.lookup clip.name = some asset ∧
          f1.AddClipToTrack track_id asset clip.length clip.start_offset = some (f2, e) ∧
          f2.FadeClip track_id e clip.fade_in_time clip.fade_out_time = some f' :=
  track_append_exact f track_id clip_id length start_offset hdoc hcons hwf hid

theorem minimalTemplate_track_wellFormed :
    ∀ f0 ∈ KdenliveFile.new minimalTemplate, ∀ r ∈ f0.AddTrack TrackType.VIDEO,
      r.1.xml_doc.WellFormed := by
  decide!

/-- A file with one video track on the minimal template: in order, consistent and
well-formed. -/
theorem minimalTemplate_track :
    ∃ f : KdenliveFile, DocOK f ∧ Consistent f ∧ f.xml_doc.WellFormed ∧ f.track_count = 1 ∧
      f.track_entries = [[]] ∧ f.filter_count = 0 := by
  obtain ⟨f0, h0, hanch⟩ := minimalTemplate_new
  obtain ⟨f, hadd, hd⟩ := AddTrack_ok f0 TrackType.VIDEO (DocOK_of_new h0 hanch)
    (new_consistent h0)
  obtain ⟨-, hc, -, he, -, hfc⟩ := AddTrack_book hadd
  obtain ⟨-, hc0, hf0, -, he0⟩ := new_book h0
  exact ⟨f, hd, AddTrack_consistent (new_consistent h0) hadd,
    minimalTemplate_track_wellFormed f0 h0 _ hadd, by rw [hc, hc0], by rw [he, he0]; rfl,
    by rw [hfc, hf0]⟩

/-- Witness of C20: a clip of asset 7 with length 10 and start offset 2 on the first track
of a file built on the minimal template.  Where the reads return the text the destroyed
strings held, the entry runs from `00:00:02.000` to `00:00:12.000`. -/
theorem clip_entry_encoding_witness :
    ∃ (f f' : KdenliveFile) (e : Nat) (pl : XMLElement),
      @KdenliveFile.AddClipToTrack Stale.intact f 0 7 10 2 = some (f', e) ∧
      FindPlaylistElement f'.xml_doc "playlist0" = some pl ∧
      (pl.children.getLast?).map XMLElement.attrs =
        some [("in", "00:00:02.000"), ("out", "00:00:12.000"), ("producer", "chain7")] := by
  obtain ⟨f, hd, hc, hwf, hcount, -⟩ := minimalTemplate_track
  obtain ⟨l1, pl, l2, -, -, ⟨f', e, h, -, hfind, -⟩, -⟩ :=
    @clip_entry_encoding Stale.intact f 0 7 10 2 hd hc hwf (by rw [hcount]; exact Nat.zero_lt_one)
  refine ⟨f, f', e, _, h, hfind, ?_⟩
  rw [withChildren_children, List.getLast?_append, List.getLast?_singleton]
  show some [("in", convertToTimestamp 2), ("out", convertToTimestamp (fadd 10 2)),
    ("producer", "chain" ++ toString 7)] = _
  decide!

/-- C20 fails where the destroyed strings are read as empty: the entry of a clip of asset 7
with length 10 and start offset 2, appended to the first track of a file built on the
minimal template, has empty `in` and `out` attributes, not `00:00:02.000` and
`00:00:12.000`. -/
theorem clip_entry_encoding_counterexample :
    (((KdenliveFile.new minimalTemplate).bind
        (@runCalls Stale.cleared [FileCall.AddTrack TrackType.VIDEO,
          FileCall.AddClipToTrack 0 7 10 2])).bind
        (fun f => FindPlaylistElement f.xml_doc "playlist0")).map
        (fun pl => pl.children.map XMLElement.attrs) =
      some [[("in", ""), ("out", ""), ("producer", "chain7")]] ∧
    convertToTimestamp 2 = "00:00:02.000" ∧ convertToTimestamp (2 + 10) = "00:00:12.000" := by
  decide!

/-! ## Fade filters -/

theorem withChildren_withChildren (e : XMLElement) (cs ds : List XMLElement) :
    (e.withChildren cs).withChildren ds = e.withChildren ds := by
  cases e with
  | node p n a t c => rfl

/-- What the distinctness of the addresses says about a child of a child of the root. -/
theorem nodup_root_grandchild {root : XMLElement} {l1 l2 a b : List XMLElement}
    {c gc : XMLElement} (hnd : root.allPtrs.Nodup) (hch : root.children = l1 ++ c :: l2)
    (hcc : c.children = a ++ gc :: b) :
    root.ptr ≠ gc.ptr ∧ c.ptr ≠ gc.ptr ∧ gc.ptr ∉ XMLElement.allPtrsList l1 ∧
      gc.ptr ∉ XMLElement.allPtrsList l2 ∧ gc.ptr ∉ XMLElement.allPtrsList a ∧
      gc.ptr ∉ XMLElement.allPtrsList b := by
  obtain ⟨-, -, -, hcnd, hc⟩ := nodup_root_child hnd hch
  obtain ⟨g1, g2, g3, -, -⟩ := nodup_root_child hcnd hcc
  have hmem : gc.ptr ∈ c.allPtrs := by
    rw [allPtrs_eq]
    refine List.mem_cons_of_mem _ (mem_allPtrsList_of_mem (c := gc) ?_ (ptr_mem_allPtrs gc))
    rw [hcc]
    exact List.mem_append_right _ (List.mem_cons_self _ _)
  obtain ⟨k1, k2, k3⟩ := hc gc.ptr hmem
  exact ⟨fun h => k1 h.symm, g1, k2, k3, g2, g3⟩

/-- A new node is appended to a child of a child of the root: that node gets one more child,
nothing else changes. -/
theorem InsertEndChild_grandchild {d d' : XMLDocument} {q : Nat} {x : XMLElement}
    {l1 l2 a b : List XMLElement} {c gc : XMLElement} (h : d.InsertEndChild q x = some d')
    (hx : x.ptr ∉ d.root.allPtrs) (hch : d.root.children = l1 ++ c :: l2)
    (hcc : c.children = a ++ gc :: b) (hgc : gc.ptr = q) (hr : d.root.ptr ≠ q)
    (hcq : c.ptr ≠ q) (h1 : q ∉ XMLElement.allPtrsList l1) (h2 : q ∉ XMLElement.allPtrsList l2)
    (ha : q ∉ XMLElement.allPtrsList a) (hb : q ∉ XMLElement.allPtrsList b) :
    d' = { d with root := (d.root.withChildren
      (l1 ++ c.withChildren (a ++ gc.withChildren (gc.children ++ [x]) :: b) :: l2)) } := by
  unfold XMLDocument.InsertEndChild at h
  have h' := modify_eq h
  rw [h']
  show ({ d with root := XMLElement.update q _ (XMLElement.unlink x.ptr d.root) } : XMLDocument) = _
  rw [unlink_of_not_mem x.ptr _ d.root (le_refl _) hx,
    update_root_grandchild _ hr hch hcq hcc hgc h1 h2 ha hb]

theorem mem_allPtrs_attached {root c gc x : XMLElement} {l1 l2 a b : List XMLElement}
    (hch : root.children = l1 ++ c :: l2) (hcc : c.children = a ++ gc :: b) {p : Nat}
    (hp : p ∈ (root.withChildren
      (l1 ++ c.withChildren (a ++ gc.withChildren (gc.children ++ [x]) :: b) :: l2)).allPtrs) :
    p ∈ root.allPtrs ∨ p ∈ x.allPtrs := by
  rw [allPtrs_withChildren, allPtrsList_append, allPtrsList_cons, allPtrs_withChildren,
    allPtrsList_append, allPtrsList_cons, allPtrs_withChildren, allPtrsList_append,
    allPtrsList_cons, allPtrsList_nil] at hp
  rw [allPtrs_eq root, hch, allPtrsList_append, allPtrsList_cons, allPtrs_eq c, hcc,
    allPtrsList_append, allPtrsList_cons, allPtrs_eq gc]
  simp only [List.mem_cons, List.mem_append, List.append_nil] at hp ⊢
  tauto

theorem filter_index_decompose {p : XMLElement → Bool} :
    ∀ (cs : List XMLElement) (e : Nat) (x : XMLElement), (cs.filter p)[e]? = some x →
      ∃ a b, cs = a ++ x :: b ∧ (a.filter p).length = e ∧ p x = true := by
  intro cs
  induction cs with
  | nil => intro e x h; simp at h
  | cons c cs ih =>
    intro e x h
    by_cases hc : p c = true
    · rw [List.filter_cons_of_pos hc] at h
      cases e with
      | zero =>
        simp only [List.getElem?_cons_zero, Option.some.injEq] at h
        subst h
        exact ⟨[], cs, rfl, rfl, hc⟩
      | succ e =>
        rw [List.getElem?_cons_succ] at h
        obtain ⟨a, b, rfl, hlen, hx⟩ := ih e x h
        refine ⟨c :: a, b, rfl, ?_, hx⟩
        rw [List.filter_cons_of_pos hc, List.length_cons, hlen]
    · rw [List.filter_cons_of_neg hc] at h
      obtain ⟨a, b, rfl, hlen, hx⟩ := ih e x h
      refine ⟨c :: a, b, rfl, ?_, hx⟩
      rw [List.filter_cons_of_neg hc, hlen]

theorem filter_index_compose {p : XMLElement → Bool} (a b : List XMLElement) (x : XMLElement)
    (hx : p x = true) : ((a ++ x :: b).filter p)[(a.filter p).length]? = some x := by
  rw [List.filter_append, List.filter_cons_of_pos hx,
    List.getElem?_append_right (le_refl _), Nat.sub_self, List.getElem?_cons_zero]

theorem fadeFilter_eq [Stale] (d : XMLDocument) (id : String) (i o : ℚ) (k al : String) :
    fadeFilter d id i o k al =
      ({ d with next_ptr := d.next_ptr + 6 }, filterNode d.next_ptr id i o k al) := by
  unfold fadeFilter CreateFilterElement AddPropertyElement CreatePropertyElement appendTo
    XMLDocument.NewElement XMLElement.SetAttribute XMLElement.SetText filterNode
  simp only [XMLElement.setAttr]
  have h1 : ("id" == "in") = false := by decide
  have h2 : ("id" == "out") = false := by decide
  have h3 : ("in" == "out") = false := by decide
  simp [h1, h2, h3, XMLElement.withChildren, XMLElement.children, XMLElement.ptr]

theorem filterNode_allPtrs [Stale] (p : Nat) (id : String) (i o : ℚ) (k al : String) :
    (filterNode p id i o k al).allPtrs = [p, p + 1, p + 2, p + 3, p + 4, p + 5] := by
  unfold filterNode
  simp only [allPtrs_node, allPtrsList_cons, allPtrsList_nil, List.append_nil,
    List.cons_append, List.nil_append]

/-- One fade filter is attached to the entry `gc` of the playlist `c`. -/
theorem attachFilter_exact [Stale] {f f' : KdenliveFile} {entry0 : XMLElement} {i o : ℚ}
    {k al : String} {l1 l2 a b : List XMLElement} {c gc : XMLElement}
    (h : attachFilter f (some entry0) i o k al = some f')
    (hch : f.xml_doc.root.children = l1 ++ c :: l2) (hcc : c.children = a ++ gc :: b)
    (hq : gc.ptr = entry0.ptr) (hr : f.xml_doc.root.ptr ≠ entry0.ptr)
    (hcq : c.ptr ≠ entry0.ptr) (h1 : entry0.ptr ∉ XMLElement.allPtrsList l1)
    (h2 : entry0.ptr ∉ XMLElement.allPtrsList l2) (ha : entry0.ptr ∉ XMLElement.allPtrsList a)
    (hb : entry0.ptr ∉ XMLElement.allPtrsList b)
    (hbound : ∀ p ∈ f.xml_doc.root.allPtrs, p < f.xml_doc.next_ptr) :
    f' = { f with
      xml_doc := ⟨f.xml_doc.root.withChildren (l1 ++ c.withChildren (a ++ gc.withChildren
        (gc.children ++ [filterNode f.xml_doc.next_ptr ("filter" ++ toString f.filter_count)
          i o k al]) :: b) :: l2), f.xml_doc.next_ptr + 6⟩
      filter_count := f.filter_count + 1 } := by
  unfold attachFilter at h
  simp only [Option.map_eq_some'] at h
  obtain ⟨d', hd', rfl⟩ := h
  rw [fadeFilter_eq] at hd'
  simp only [] at hd'
  have hx : (filterNode f.xml_doc.next_ptr ("filter" ++ toString f.filter_count) i o k al).ptr ∉
      f.xml_doc.root.allPtrs := by
    intro hmem
    have := hbound _ hmem
    exact absurd this (lt_irrefl _)
  have := InsertEndChild_grandchild hd' hx hch hcc hq hr hcq h1 h2 ha hb
  rw [this]

theorem withChildren_self (e : XMLElement) : e.withChildren e.children = e := by
  cases e with
  | node p n a t c => rfl

theorem fadeFilters_length [Stale] (p count : Nat) (o l fin fout : ℚ) :
    (fadeFilters p count o l fin fout).length =
      (if fin > 0 then 1 else 0) + (if fout > 0 then 1 else 0) := by
  unfold fadeFilters
  by_cases h1 : fin > 0 <;> by_cases h2 : fout > 0 <;> simp [h1, h2]

theorem fadeFilters_allPtrs [Stale] (p count : Nat) (o l fin fout : ℚ) :
    XMLElement.allPtrsList (fadeFilters p count o l fin fout) =
      List.range' p (6 * ((if fin > 0 then 1 else 0) + (if fout > 0 then 1 else 0))) := by
  unfold fadeFilters
  by_cases h1 : fin > 0 <;> by_cases h2 : fout > 0
  · simp only [if_pos h1, if_pos h2, List.singleton_append, allPtrsList_cons, allPtrsList_nil,
      filterNode_allPtrs, List.append_nil]
    rfl
  · simp only [if_pos h1, if_neg h2, List.append_nil, allPtrsList_cons, allPtrsList_nil,
      filterNode_allPtrs]
    rfl
  · simp only [if_neg h1, if_pos h2, List.nil_append, allPtrsList_cons, allPtrsList_nil,
      filterNode_allPtrs, List.append_nil]
    rfl
  · simp only [if_neg h1, if_neg h2, List.append_nil, allPtrsList_nil]
    rfl

/-- The exact effect of `FadeClip` on a Clip entry of a well-formed file in order: the
filters of `fadeFilters` at the end of the entry node. -/
theorem FadeClip_exact [Stale] (f : KdenliveFile) (track_id entry_id : Nat)
    (fade_in_time fade_out_time : ℚ) (entries : List TrackEntry) (this_entry : TrackEntry)
    (hdoc : DocOK f) (hwf : f.xml_doc.WellFormed) (hid : track_id < f.track_count)
    (htrack : f.track_entries[track_id]? = some entries)
    (hentry : entries[entry_id]? = some this_entry)
    (hclip : this_entry.entry_type = EntryType.CLIP) :
    ∃ l1 pl l2 a entry b f',
      f.xml_doc.root.children = l1 ++ pl :: l2 ∧
      FindPlaylistElement f.xml_doc ("playlist" ++ toString (track_id * 2)) = some pl ∧
      pl.children = a ++ entry :: b ∧
      FindPlaylistEntry f.xml_doc ("playlist" ++ toString (track_id * 2)) entry_id =
        some (some entry) ∧
      f.FadeClip track_id entry_id fade_in_time fade_out_time = some f' ∧
      f'.xml_doc.root = f.xml_doc.root.withChildren (l1 ++ pl.withChildren
        (a ++ entry.withChildren (entry.children ++
          fadeFilters f.xml_doc.next_ptr f.filter_count this_entry.start_offset
            this_entry.length fade_in_time fade_out_time) :: b) :: l2) ∧
      FindPlaylistEntry f'.xml_doc ("playlist" ++ toString (track_id * 2)) entry_id =
        some (some (entry.withChildren (entry.children ++
          fadeFilters f.xml_doc.next_ptr f.filter_count this_entry.start_offset
            this_entry.length fade_in_time fade_out_time))) ∧
      f'.filter_count = f.filter_count +
        ((if fade_in_time > 0 then 1 else 0) + (if fade_out_time > 0 then 1 else 0)) ∧
      f'.track_count = f.track_count ∧ f'.track_lengths = f.track_lengths ∧
      f'.track_entries = f.track_entries ∧ f'.chain_count = f.chain_count ∧
      DocOK f' ∧ f'.xml_doc.WellFormed := by
  have he : entry_id < entries.length := by
    by_contra hge
    rw [List.getElem?_eq_none (by omega)] at hentry
    cases hentry
  obtain ⟨pl, hpl, hcount⟩ := hdoc.2 track_id hid
  rw [htrack] at hcount
  have hpl' := hpl
  rw [FindPlaylistElement_eq] at hpl'
  obtain ⟨hp, l1, l2, hch, hl1⟩ := find_decompose hpl'
  have hlt : entry_id < (pl.children.filter XMLElement.isTimed).length :=
    lt_of_lt_of_le he hcount
  obtain ⟨a, b, hcc, hlen, hx⟩ := filter_index_decompose pl.children entry_id _
    (List.getElem?_eq_getElem hlt)
  generalize (pl.children.filter XMLElement.isTimed)[entry_id] = entry at hcc hx
  have hfind : FindPlaylistEntry f.xml_doc ("playlist" ++ toString (track_id * 2)) entry_id =
      some (some entry) := by
    unfold FindPlaylistEntry
    rw [hpl]
    show some ((pl.children.filter XMLElement.isTimed)[entry_id]?) = _
    rw [hcc, ← hlen, filter_index_compose a b entry hx]
  obtain ⟨n1, n2, n3, n4, n5, n6⟩ := nodup_root_grandchild hwf.1 hch hcc
  -- the search in a tree where the entry has more children
  have hfind' : ∀ (d : XMLDocument) (fs : List XMLElement),
      d.root = f.xml_doc.root.withChildren
        (l1 ++ pl.withChildren (a ++ entry.withChildren fs :: b) :: l2) →
      FindPlaylistEntry d ("playlist" ++ toString (track_id * 2)) entry_id =
        some (some (entry.withChildren fs)) := by
    intro d fs hd
    unfold FindPlaylistEntry
    rw [FindPlaylistElement_eq, hd, withChildren_children,
      find_append_cons hl1 (by rw [playlist_test_withChildren]; exact hp)]
    show some (((pl.withChildren _).children.filter XMLElement.isTimed)[entry_id]?) = _
    rw [withChildren_children, ← hlen,
      filter_index_compose a b _ (by rw [← hx]; exact isTimed_congr (withChildren_name _ _))]
  obtain ⟨f', h, hdoc'⟩ := FadeClip_ok f track_id entry_id fade_in_time fade_out_time hdoc hid
    entries htrack he
  obtain ⟨b1, b2, b3, b4⟩ := FadeClip_book h
  have hscrut : (f.track_entries[track_id]?).bind (fun es => es[entry_id]?) =
      some this_entry := by
    rw [htrack]
    exact hentry
  have hnb : ¬ this_entry.entry_type = EntryType.BLANK := by
    rw [hclip]
    exact fun hc => EntryType.noConfusion hc
  have h0 := h
  unfold FadeClip at h
  rw [hscrut] at h
  simp only [] at h
  rw [if_neg hnb, hfind] at h
  simp only [Option.some_bind] at h
  have key : f'.xml_doc.root = f.xml_doc.root.withChildren (l1 ++ pl.withChildren
        (a ++ entry.withChildren (entry.children ++
          fadeFilters f.xml_doc.next_ptr f.filter_count this_entry.start_offset
            this_entry.length fade_in_time fade_out_time) :: b) :: l2) ∧
      f'.filter_count = f.filter_count +
        ((if fade_in_time > 0 then 1 else 0) + (if fade_out_time > 0 then 1 else 0)) ∧
      f'.xml_doc.next_ptr = f.xml_doc.next_ptr +
        6 * ((if fade_in_time > 0 then 1 else 0) + (if fade_out_time > 0 then 1 else 0)) := by
    unfold fadeFilters
    by_cases hin : fade_in_time > 0
    · rw [if_pos hin] at h
      simp only [Option.bind_eq_some] at h
      obtain ⟨f1, h1, h2⟩ := h
      have e1 := attachFilter_exact h1 hch hcc rfl n1 n2 n3 n4 n5 n6 hwf.2
      by_cases hout : fade_out_time > 0
      · rw [if_pos hout] at h2
        have hch1 : f1.xml_doc.root.children = l1 ++ pl.withChildren (a ++
            entry.withChildren (entry.children ++ [filterNode f.xml_doc.next_ptr
              ("filter" ++ toString f.filter_count) this_entry.start_offset
              (fadd this_entry.start_offset fade_in_time) "fade_from_black" "0=0;-1=1"]) :: b)
            :: l2 := by
          rw [e1]
          exact withChildren_children _ _
        have hb1 : ∀ p ∈ f1.xml_doc.root.allPtrs, p < f1.xml_doc.next_ptr := by
          intro p hp
          rw [e1] at hp ⊢
          rcases mem_allPtrs_attached hch hcc hp with hp | hp
          · exact lt_of_lt_of_le (hwf.2 p hp) (Nat.le_add_right _ _)
          · rw [filterNode_allPtrs] at hp
            show p < f.xml_doc.next_ptr + 6
            simp only [List.mem_cons, List.mem_singleton, List.not_mem_nil, or_false] at hp
            omega
        have e2 := attachFilter_exact h2 hch1 (withChildren_children _ _)
          (withChildren_ptr _ _) (by rw [e1]; exact (withChildren_ptr _ _).symm ▸ n1)
          (by rw [withChildren_ptr]; exact n2) n3 n4 n5 n6 hb1
        rw [e2, e1]
        refine ⟨?_, ?_, ?_⟩
        · simp only [if_pos hin, if_pos hout, withChildren_withChildren, withChildren_children,
            List.append_assoc, List.singleton_append]
        · simp only [if_pos hin, if_pos hout]
        · simp only [if_pos hin, if_pos hout]
      · rw [if_neg hout] at h2
        cases h2
        rw [e1]
        refine ⟨?_, ?_, ?_⟩
        · simp only [if_pos hin, if_neg hout, List.append_nil]
        · simp only [if_pos hin, if_neg hout]
        · simp only [if_pos hin, if_neg hout]
    · rw [if_neg hin] at h
      simp only [Option.some_bind] at h
      by_cases hout : fade_out_time > 0
      · rw [if_pos hout] at h
        have e1 := attachFilter_exact h hch hcc rfl n1 n2 n3 n4 n5 n6 hwf.2
        rw [e1]
        refine ⟨?_, ?_, ?_⟩
        · simp only [if_neg hin, if_pos hout, List.nil_append]
        · simp only [if_neg hin, if_pos hout]
        · simp only [if_neg hin, if_pos hout]
      · rw [if_neg hout] at h
        cases h
        simp only [if_neg hin, if_neg hout, List.append_nil, Nat.add_zero, Nat.mul_zero,
          and_true]
        rw [withChildren_self, ← hcc, withChildren_self, ← hch, withChildren_self]
  have hwf' : f'.xml_doc.WellFormed := by
    refine wellFormed_append_to_grandchild hwf hch hcc key.1 ?_ ?_ ?_ ?_
    · rw [fadeFilters_allPtrs]
      exact List.nodup_range' _ _
    · intro p hp
      rw [fadeFilters_allPtrs, List.mem_range'_1] at hp
      exact hp.1
    · intro p hp
      rw [fadeFilters_allPtrs, List.mem_range'_1] at hp
      rw [key.2.2]
      exact hp.2
    · rw [key.2.2]
      exact Nat.le_add_right _ _
  refine ⟨l1, pl, l2, a, entry, b, f', hch, hpl, hcc, hfind, h0, key.1, hfind' _ _ key.1,
    key.2.1, b1, b2, b3, b4, hdoc', hwf'⟩

/-- C12, as far as it holds.  On a well-formed file in order, for a Clip entry of an
existing track with start offset `o` and length `l`, `FadeClip` runs through and appends to
the entry node of the document, the node `entry` that `FindPlaylistEntry` finds in the first
playlist of the track, exactly the filters of `fadeFilters`: a fade-in filter when
`fade_in_time > 0`, then a fade-out filter when `fade_out_time > 0`, and none for a side
whose time is not positive.  The attributes `in` and `out` of a filter are set from pointers
into timestamp strings that `CreateFilterElement` has already destroyed: they hold whatever
is read there, in place of the timestamps of `o` and the `float` sum `o + fade_in_time`
(fade-in) and of the `float` results `(o + l) - fade_out_time` and `o + l` (fade-out).
Nothing else in the tree changes, the filter counter grows by the number of filters
attached, the track data stay as they are, and the file after the call is again in order
and well-formed. -/
theorem fade_filters [Stale] (f : KdenliveFile) (track_id entry_id : Nat)
    (fade_in_time fade_out_time : ℚ) (entries : List TrackEntry) (this_entry : TrackEntry)
    (hdoc : DocOK f) (hwf : f.xml_doc.WellFormed) (hid : track_id < f.track_count)
    (htrack : f.track_entries[track_id]? = some entries)
    (hentry : entries[entry_id]? = some this_entry)
    (hclip : this_entry.entry_type = EntryType.CLIP) :
    ∃ l1 pl l2 a entry b f',
      f.xml_doc.root.children = l1 ++ pl :: l2 ∧ pl.children = a ++ entry :: b ∧
      FindPlaylistEntry f.xml_doc ("playlist" ++ toString (track_id * 2)) entry_id =
        some (some entry) ∧
      f.FadeClip track_id entry_id fade_in_time fade_out_time = some f' ∧
      f'.xml_doc.root = f.xml_doc.root.withChildren (l1 ++ pl.withChildren
        (a ++ entry.withChildren (entry.children ++
          fadeFilters f.xml_doc.next_ptr f.filter_count this_entry.start_offset
            this_entry.length fade_in_time fade_out_time) :: b) :: l2) ∧
      FindPlaylistEntry f'.xml_doc ("playlist" ++ toString (track_id * 2)) entry_id =
        some (some (entry.withChildren (entry.children ++
          fadeFilters f.xml_doc.next_ptr f.filter_count this_entry.start_offset
            this_entry.length fade_in_time fade_out_time))) ∧
      f'.filter_count = f.filter_count +
        ((if fade_in_time > 0 then 1 else 0) + (if fade_out_time > 0 then 1 else 0)) ∧
      f'.track_count = f.track_count ∧ f'.track_lengths = f.track_lengths ∧
      f'.track_entries = f.track_entries ∧ f'.chain_count = f.chain_count ∧
      DocOK f' ∧ f'.xml_doc.WellFormed :=
  let ⟨l1, pl, l2, a, entry, b, f', h1, _, h2⟩ :=
    FadeClip_exact f track_id entry_id fade_in_time fade_out_time entries this_entry hdoc hwf
      hid htrack hentry hclip
  ⟨l1, pl, l2, a, entry, b, f', h1, h2⟩

theorem minimalTemplate_clip_wellFormed :
    ∀ f0 ∈ KdenliveFile.new minimalTemplate, ∀ r ∈ f0.AddTrack TrackType.VIDEO,
      ∀ r2 ∈ @KdenliveFile.AddClipToTrack Stale.intact r.1 0 7 10 2,
        r2.1.xml_doc.WellFormed := by
  decide!

/-- A file on the minimal template with one video track that holds one clip of length 10
with start offset 2: in order, consistent and well-formed. -/
theorem minimalTemplate_clip :
    ∃ f : KdenliveFile, DocOK f ∧ Consistent f ∧ f.xml_doc.WellFormed ∧ f.track_count = 1 ∧
      f.track_entries = [[⟨EntryType.CLIP, 10, 2⟩]] ∧ f.filter_count = 0 := by
  obtain ⟨f0, h0, hanch⟩ := minimalTemplate_new
  obtain ⟨f1, hadd, hd1⟩ := AddTrack_ok f0 TrackType.VIDEO (DocOK_of_new h0 hanch)
    (new_consistent h0)
  obtain ⟨-, hc1, -, he1, -, hfc1⟩ := AddTrack_book hadd
  obtain ⟨-, hc0, hf0, -, he0⟩ := new_book h0
  have hcons1 := AddTrack_consistent (new_consistent h0) hadd
  obtain ⟨f, e, hclip, hd⟩ := @AddClipToTrack_ok Stale.intact f1 0 7 10 2 hd1 hcons1
    (by rw [hc1, hc0]; exact Nat.zero_lt_one)
  obtain ⟨L, es, -, hes, -, he, -, hc, -, hfc⟩ := @AddClipToTrack_book Stale.intact _ _ _ _ _ _ _
    hclip
  have hes' : es = [] := by
    rw [he1, he0] at hes
    simpa using hes.symm
  refine ⟨f, hd, @AddClipToTrack_consistent Stale.intact _ _ _ _ _ _ _ hcons1 hclip,
    minimalTemplate_clip_wellFormed f0 h0 _ hadd _ hclip, by rw [hc, hc1, hc0], ?_,
    by rw [hfc, hfc1, hf0]⟩
  rw [he, he1, he0, hes']
  rfl

/-- Witness of C12: a fade-in of one second on a clip of length 10 with start offset 2 that
is the first entry of its track.  Where the reads return the text the destroyed strings
held, the filter runs from `00:00:02.000` to `00:00:03.000`. -/
theorem fade_filters_witness :
    ∃ (f f' : KdenliveFile) (entry : XMLElement),
      @KdenliveFile.FadeClip Stale.intact f 0 0 1 0 = some f' ∧
      FindPlaylistEntry f'.xml_doc "playlist0" 0 = some (some entry) ∧
      (entry.children.getLast?).map XMLElement.attrs =
        some [("id", "filter0"), ("in", "00:00:02.000"), ("out", "00:00:03.000")] ∧
      f'.filter_count = f.filter_count + 1 := by
  obtain ⟨f, hd, hc, hwf, hcount, hent, hfc⟩ := minimalTemplate_clip
  obtain ⟨l1, pl, l2, a, entry, b, f', -, -, -, h, -, hfind, hfilters, -⟩ :=
    @fade_filters Stale.intact f 0 0 1 0 [⟨EntryType.CLIP, 10, 2⟩] ⟨EntryType.CLIP, 10, 2⟩ hd
      hwf (by rw [hcount]; exact Nat.zero_lt_one) (by rw [hent]; rfl) rfl rfl
  refine ⟨f, f', _, h, hfind, ?_, ?_⟩
  · have hf : @fadeFilters Stale.intact f.xml_doc.next_ptr f.filter_count 2 10 1 0 =
        [@filterNode Stale.intact f.xml_doc.next_ptr ("filter" ++ toString f.filter_count) 2
          (fadd 2 1) "fade_from_black" "0=0;-1=1"] := by
      unfold fadeFilters
      rw [if_pos (by norm_num), if_neg (by norm_num), List.append_nil]
    show ((entry.withChildren (entry.children ++
      @fadeFilters Stale.intact f.xml_doc.next_ptr f.filter_count
        2 10 1 0)).children.getLast?).map XMLElement.attrs = _
    rw [hf, hfc, withChildren_children, List.getLast?_append, List.getLast?_singleton]
    show some [("id", "filter" ++ toString 0), ("in", convertToTimestamp 2),
      ("out", convertToTimestamp (fadd 2 1))] = _
    decide!
  · rw [hfilters, if_pos (by norm_num), if_neg (by norm_num)]

/-- C12 fails where the destroyed strings are read as empty: the fade-in filter of one second
on a clip of length 10 with start offset 2 has empty `in` and `out` attributes, and does
not span `[o, o + fade_in_time]`, which is `00:00:02.000` to `00:00:03.000`. -/
theorem fade_filters_counterexample :
    ((((KdenliveFile.new minimalTemplate).bind
        (@runCalls Stale.cleared [FileCall.AddTrack TrackType.VIDEO,
          FileCall.AddClipToTrack 0 7 10 2])).bind
        (fun f => @KdenliveFile.FadeClip Stale.cleared f 0 0 1 0)).bind
        (fun f => FindPlaylistEntry f.xml_doc "playlist0" 0)).map
        (fun e => e.map (fun x => x.children.map XMLElement.attrs)) =
      some (some [[("id", "filter0"), ("in", ""), ("out", "")]]) ∧
    convertToTimestamp 2 = "00:00:02.000" ∧ convertToTimestamp (2 + 1) = "00:00:03.000" := by
  decide!

/-! ## Exact effect of `AddTrack` -/

theorem insertAfter_exact {after : Nat} (x : XMLElement) :
    ∀ (l1 : List XMLElement) (c : XMLElement) (l2 : List XMLElement), c.ptr = after →
      (∀ y ∈ l1, y.ptr ≠ after) →
      XMLElement.insertAfter after x (l1 ++ c :: l2) = some (l1 ++ c :: x :: l2) := by
  intro l1
  induction l1 with
  | nil =>
    intro c l2 hc _
    show XMLElement.insertAfter after x (c :: l2) = _
    rw [XMLElement.insertAfter, if_pos hc]
    rfl
  | cons y ys ih =>
    intro c l2 hc hne
    show XMLElement.insertAfter after x (y :: (ys ++ c :: l2)) = _
    rw [XMLElement.insertAfter, if_neg (hne y (List.mem_cons_self _ _)),
      ih c l2 hc (fun z hz => hne z (List.mem_cons_of_mem _ hz))]
    rfl

/-- The value of `AddElementToRoot` when the cursor points to the child `c` of the root. -/
theorem AddElementToRoot_exact (f : KdenliveFile) (d : XMLDocument) (x : XMLElement)
    {l1 l2 : List XMLElement} {c : XMLElement} (hch : d.root.children = l1 ++ c :: l2)
    (hc : c.ptr = f.last_added_root_element)
    (hl1 : ∀ y ∈ l1, y.ptr ≠ f.last_added_root_element) :
    AddElementToRoot f d x = some { f with
      xml_doc := { d with root := d.root.withChildren (l1 ++ c :: x :: l2) }
      last_added_root_element := x.ptr } := by
  unfold AddElementToRoot XMLDocument.InsertAfterRootChild
  rw [hch, insertAfter_exact x l1 c l2 hc hl1]
  rfl

theorem update_withChildren {root : XMLElement} {q : Nat} (g : XMLElement → XMLElement)
    (cs : List XMLElement) (hr : root.ptr ≠ q) :
    XMLElement.update q g (root.withChildren cs) =
      root.withChildren (XMLElement.updateList q g cs) := by
  rw [update_of_ne (by rw [withChildren_ptr]; exact hr), withChildren_children,
    withChildren_withChildren]

theorem unlink_withChildren (root : XMLElement) (q : Nat) (cs : List XMLElement) :
    XMLElement.unlink q (root.withChildren cs) =
      root.withChildren (XMLElement.unlinkList q cs) := by
  rw [unlink_eq, withChildren_children, withChildren_withChildren]

/-- All addresses of the nodes of `cs` and below them are smaller than `n`. -/
theorem not_mem_of_below {n q : Nat} {cs : List XMLElement}
    (h : ∀ p ∈ XMLElement.allPtrsList cs, p < n) (hq : n ≤ q) :
    q ∉ XMLElement.allPtrsList cs :=
  fun hm => absurd (h q hm) (by omega)

/-- In a tree with distinct addresses, a write through the address of a child of the root
replaces that child and leaves the other children as they are. -/
theorem updateList_eq_map_if {q : Nat} (g : XMLElement → XMLElement) :
    ∀ cs : List XMLElement, (∀ x ∈ cs, x.ptr ≠ q → q ∉ x.allPtrs) →
      XMLElement.updateList q g cs = cs.map (fun x => if x.ptr = q then g x else x) := by
  intro cs
  induction cs with
  | nil => intro _; exact updateList_nil _ _
  | cons c cs ih =>
    intro h
    rw [updateList_cons, List.map_cons, ih (fun x hx => h x (List.mem_cons_of_mem _ hx))]
    by_cases hc : c.ptr = q
    · rw [update_of_eq hc, if_pos hc]
    · rw [update_of_not_mem q g _ c (le_refl _) (h c (List.mem_cons_self _ _) hc), if_neg hc]

theorem not_mem_allPtrs_of_other_child {root : XMLElement} {x : XMLElement} {q : Nat}
    (hnd : root.allPtrs.Nodup) (hx : x ∈ root.children)
    (hq : q ∈ root.children.map XMLElement.ptr) (hne : x.ptr ≠ q) : q ∉ x.allPtrs := by
  obtain ⟨t, ht, rfl⟩ := List.mem_map.1 hq
  obtain ⟨l1, l2, hch⟩ := List.append_of_mem ht
  obtain ⟨-, n2, n3, -, -⟩ := nodup_root_child hnd hch
  rw [hch] at hx
  intro hm
  rcases List.mem_append.1 hx with h | h
  · exact n2 (mem_allPtrsList_of_mem h hm)
  · rcases List.mem_cons.1 h with h | h
    · exact hne (by rw [h])
    · exact n3 (mem_allPtrsList_of_mem h hm)

theorem below_of_wellFormed {d : XMLDocument} (hwf : d.WellFormed) {cs : List XMLElement}
    (h : ∀ c ∈ cs, c ∈ d.root.children) : ∀ p ∈ XMLElement.allPtrsList cs, p < d.next_ptr := by
  intro p hp
  apply hwf.2
  rw [allPtrs_eq]
  refine List.mem_cons_of_mem _ ?_
  induction cs with
  | nil => rw [allPtrsList_nil] at hp; exact absurd hp (List.not_mem_nil _)
  | cons c cs ih =>
    rw [allPtrsList_cons] at hp
    rcases List.mem_append.1 hp with hp | hp
    · exact mem_allPtrsList_of_mem (h c (List.mem_cons_self _ _)) hp
    · exact ih (fun c' hc' => h c' (List.mem_cons_of_mem _ hc')) hp

theorem CreatePlaylistElement_eq (d : XMLDocument) (s : String) :
    CreatePlaylistElement d s =
      ({ d with next_ptr := d.next_ptr + 1 },
        XMLElement.node d.next_ptr "playlist" [("id", s)] none []) := rfl

theorem CreateTractorElement_eq (d : XMLDocument) (s : String) :
    CreateTractorElement d s =
      ({ d with next_ptr := d.next_ptr + 1 },
        XMLElement.node d.next_ptr "tractor" [("id", s)] none []) := rfl

theorem CreateTrackElement_eq (d : XMLDocument) (s : String) :
    CreateTrackElement d s =
      ({ d with next_ptr := d.next_ptr + 1 },
        XMLElement.node d.next_ptr "track" [("producer", s)] none []) := rfl

theorem CreatePropertyElement_eq (d : XMLDocument) (k v : String) :
    CreatePropertyElement d k v =
      ({ d with next_ptr := d.next_ptr + 1 },
        XMLElement.node d.next_ptr "property" [("name", k)] (some v) []) := rfl

theorem InsertEndChild_eq {d d' : XMLDocument} {q : Nat} {x : XMLElement}
    (h : d.InsertEndChild q x = some d') :
    d' = { d with root := ((d.root.unlink x.ptr).update q
      (fun y => y.withChildren (y.children ++ [x]))) } := by
  unfold XMLDocument.InsertEndChild at h
  exact modify_eq h

theorem InsertFirstChild_eq {d d' : XMLDocument} {q : Nat} {x : XMLElement}
    (h : d.InsertFirstChild q x = some d') :
    d' = { d with root := ((d.root.unlink x.ptr).update q
      (fun y => y.withChildren (x :: y.children))) } := by
  unfold XMLDocument.InsertFirstChild at h
  exact modify_eq h

theorem AddTrackElement_eq {d d' : XMLDocument} {q : Nat} {s : String} {t : XMLElement}
    (h : AddTrackElement d q s = some (d', t)) :
    t = XMLElement.node d.next_ptr "track" [("producer", s)] none [] ∧
      d' = XMLDocument.mk ((d.root.unlink d.next_ptr).update q
              (fun y => y.withChildren (y.children ++
                [XMLElement.node d.next_ptr "track" [("producer", s)] none []])))
             (d.next_ptr + 1) := by
  unfold AddTrackElement at h
  rw [CreateTrackElement_eq] at h
  simp only [Option.map_eq_some', Prod.mk.injEq] at h
  obtain ⟨d1, h1, rfl, rfl⟩ := h
  exact ⟨rfl, InsertEndChild_eq h1⟩

/-- An insertion into a node among the children `M` of the root, when neither the address
of the target nor that of the inserted node occurs in the other children `A` and `B`. -/
theorem insert_mid {root : XMLElement} {q x : Nat} (g : XMLElement → XMLElement)
    (A M B : List XMLElement) (hr : root.ptr ≠ q)
    (hqA : q ∉ XMLElement.allPtrsList A) (hqB : q ∉ XMLElement.allPtrsList B)
    (hxA : x ∉ XMLElement.allPtrsList A) (hxB : x ∉ XMLElement.allPtrsList B) :
    XMLElement.update q g (XMLElement.unlink x (root.withChildren (A ++ M ++ B))) =
      root.withChildren (A ++ XMLElement.updateList q g (XMLElement.unlinkList x M) ++ B) := by
  rw [unlink_withChildren, update_withChildren g _ hr, unlinkList_append, unlinkList_append,
    updateList_append, updateList_append, unlinkList_of_not_mem x A hxA,
    unlinkList_of_not_mem x B hxB, updateList_of_not_mem q g A hqA,
    updateList_of_not_mem q g B hqB]

theorem update_mid {root : XMLElement} {q : Nat} (g : XMLElement → XMLElement)
    (A M B : List XMLElement) (hr : root.ptr ≠ q)
    (hqA : q ∉ XMLElement.allPtrsList A) (hqB : q ∉ XMLElement.allPtrsList B) :
    XMLElement.update q g (root.withChildren (A ++ M ++ B)) =
      root.withChildren (A ++ XMLElement.updateList q g M ++ B) := by
  rw [update_withChildren g _ hr, updateList_append, updateList_append,
    updateList_of_not_mem q g A hqA, updateList_of_not_mem q g B hqB]

/-- The two `track` nodes of a new tractor, before the attribute `hide` is set. -/
theorem track_pair {d3 d4 d5 : XMLDocument} {t1 t2 : XMLElement}
    {root : XMLElement} {A B : List XMLElement} {n : Nat} {s1 s2 st : String}
    (hroot : d3.root = root.withChildren (A ++
      [XMLElement.node n "playlist" [("id", s1)] none [],
       XMLElement.node (n + 1) "playlist" [("id", s2)] none [],
       XMLElement.node (n + 2) "tractor" [("id", st)] none []] ++ B))
    (hnext : d3.next_ptr = n + 3) (hr : root.ptr < n)
    (hA : ∀ p ∈ XMLElement.allPtrsList A, p < n) (hB : ∀ p ∈ XMLElement.allPtrsList B, p < n)
    (h4 : AddTrackElement d3 (n + 2) s1 = some (d4, t1))
    (h5 : AddTrackElement d4 (n + 2) s2 = some (d5, t2)) :
    d5.root = root.withChildren (A ++
      [XMLElement.node n "playlist" [("id", s1)] none [],
       XMLElement.node (n + 1) "playlist" [("id", s2)] none [],
       XMLElement.node (n + 2) "tractor" [("id", st)] none
        [XMLElement.node (n + 3) "track" [("producer", s1)] none [],
         XMLElement.node (n + 4) "track" [("producer", s2)] none []]] ++ B) ∧
      d5.next_ptr = n + 5 ∧ t1.ptr = n + 3 ∧ t2.ptr = n + 4 := by
  have nmB : ∀ q, n ≤ q → q ∉ XMLElement.allPtrsList B := fun q hq => not_mem_of_below hB hq
  have nmA : ∀ q, n ≤ q → q ∉ XMLElement.allPtrsList A := fun q hq => not_mem_of_below hA hq
  obtain ⟨ht1, hd4⟩ := AddTrackElement_eq h4
  have r4 : d4.root = root.withChildren (A ++
      [XMLElement.node n "playlist" [("id", s1)] none [],
       XMLElement.node (n + 1) "playlist" [("id", s2)] none [],
       XMLElement.node (n + 2) "tractor" [("id", st)] none
        [XMLElement.node (n + 3) "track" [("producer", s1)] none []]] ++ B) := by
    rw [hd4]
    show XMLElement.update _ _ (XMLElement.unlink _ d3.root) = _
    rw [hroot, hnext, insert_mid _ A _ B (by omega) (nmA _ (by omega)) (nmB _ (by omega))
      (nmA _ (by omega)) (nmB _ (by omega))]
    simp [unlinkList_cons, unlinkList_nil, updateList_cons, updateList_nil, XMLElement.ptr,
      XMLElement.unlink, XMLElement.update, XMLElement.withChildren, XMLElement.children]
  have n4 : d4.next_ptr = n + 4 := by rw [hd4]; show d3.next_ptr + 1 = _; rw [hnext]
  have p1 : t1.ptr = n + 3 := by rw [ht1, hnext]; rfl
  obtain ⟨ht2, hd5⟩ := AddTrackElement_eq h5
  have r5 : d5.root = root.withChildren (A ++
      [XMLElement.node n "playlist" [("id", s1)] none [],
       XMLElement.node (n + 1) "playlist" [("id", s2)] none [],
       XMLElement.node (n + 2) "tractor" [("id", st)] none
        [XMLElement.node (n + 3) "track" [("producer", s1)] none [],
         XMLElement.node (n + 4) "track" [("producer", s2)] none []]] ++ B) := by
    rw [hd5]
    show XMLElement.update _ _ (XMLElement.unlink _ d4.root) = _
    rw [r4, n4, insert_mid _ A _ B (by omega) (nmA _ (by omega)) (nmB _ (by omega))
      (nmA _ (by omega)) (nmB _ (by omega))]
    simp [unlinkList_cons, unlinkList_nil, updateList_cons, updateList_nil, XMLElement.ptr,
      XMLElement.unlink, XMLElement.update, XMLElement.withChildren, XMLElement.children]
  have n5 : d5.next_ptr = n + 5 := by rw [hd5]; show d4.next_ptr + 1 = _; rw [n4]
  have p2 : t2.ptr = n + 4 := by rw [ht2, n4]; rfl
  exact ⟨r5, n5, p1, p2⟩

/-- The type-dependent properties of a new track, on the document with the two `track`
nodes in place. -/
theorem track_properties (ty : TrackType) {d5 d6 : XMLDocument}
    {root : XMLElement} {A B : List XMLElement} {n : Nat} {s1 s2 st : String}
    (r5 : d5.root = root.withChildren (A ++
      [XMLElement.node n "playlist" [("id", s1)] none [],
       XMLElement.node (n + 1) "playlist" [("id", s2)] none [],
       XMLElement.node (n + 2) "tractor" [("id", st)] none
        [XMLElement.node (n + 3) "track" [("producer", s1)] none [],
         XMLElement.node (n + 4) "track" [("producer", s2)] none []]] ++ B))
    (n5 : d5.next_ptr = n + 5) (hr : root.ptr < n)
    (hA : ∀ p ∈ XMLElement.allPtrsList A, p < n) (hB : ∀ p ∈ XMLElement.allPtrsList B, p < n)
    (h6 : setTrackTypeProperties d5 ty n (n + 1) (n + 2) (n + 3) (n + 4) = some d6) :
    d6.root = root.withChildren (A ++
      [XMLElement.node n "playlist" [("id", s1)] none [],
       XMLElement.node (n + 1) "playlist" [("id", s2)] none [],
       XMLElement.node (n + 2) "tractor" [("id", st)] none
        ((if ty = TrackType.VIDEO then []
          else [XMLElement.node (n + 5) "property" [("name", "kdenlive:audio_track")]
              (some "1") []]) ++
        [XMLElement.node (n + 3) "track" [("producer", s1), ("hide", hideValue ty)] none [],
         XMLElement.node (n + 4) "track" [("producer", s2), ("hide", hideValue ty)] none []])]
        ++ B) ∧
      d6.next_ptr = (if ty = TrackType.VIDEO then n + 5 else n + 6) := by
  have nmB : ∀ q, n ≤ q → q ∉ XMLElement.allPtrsList B := fun q hq => not_mem_of_below hB hq
  have nmA : ∀ q, n ≤ q → q ∉ XMLElement.allPtrsList A := fun q hq => not_mem_of_below hA hq
  have hh : ("producer" == "hide") = false := by decide
  cases ty with
  | VIDEO =>
    unfold setTrackTypeProperties at h6
    simp only [bind, Option.bind_eq_some] at h6
    obtain ⟨d5a, h6a, h6b⟩ := h6
    have e6a := modify_eq h6a
    have e6b := modify_eq h6b
    refine ⟨?_, ?_⟩
    · rw [e6b, e6a]
      show XMLElement.update _ _ (XMLElement.update _ _ d5.root) = _
      rw [r5, update_mid _ A _ B (by omega) (nmA _ (by omega)) (nmB _ (by omega)),
        update_mid _ A _ B (by omega) (nmA _ (by omega)) (nmB _ (by omega))]
      simp [updateList_cons, updateList_nil, XMLElement.ptr, XMLElement.update,
        XMLElement.withChildren, XMLElement.children, XMLElement.SetAttribute,
        XMLElement.setAttr, hh, hideValue]
    · rw [e6b, e6a]
      exact n5
  | AUDIO =>
    unfold setTrackTypeProperties at h6
    simp only [CreatePropertyElement_eq, bind, Option.bind_eq_some] at h6
    obtain ⟨d5a, h6a, d5b, h6b, d5c, h6c, d5d, h6d, h6e⟩ := h6
    have e6a := modify_eq h6a
    have e6b := modify_eq h6b
    have e6c := InsertFirstChild_eq h6c
    have e6d := InsertFirstChild_eq h6d
    have e6e := InsertFirstChild_eq h6e
    have ra : d5b.root = root.withChildren (A ++
      [XMLElement.node n "playlist" [("id", s1)] none [],
       XMLElement.node (n + 1) "playlist" [("id", s2)] none [],
       XMLElement.node (n + 2) "tractor" [("id", st)] none
        [XMLElement.node (n + 3) "track" [("producer", s1), ("hide", "video")] none [],
         XMLElement.node (n + 4) "track" [("producer", s2), ("hide", "video")] none []]]
        ++ B) := by
      rw [e6b, e6a]
      show XMLElement.update _ _ (XMLElement.update _ _ d5.root) = _
      rw [r5, update_mid _ A _ B (by omega) (nmA _ (by omega)) (nmB _ (by omega)),
        update_mid _ A _ B (by omega) (nmA _ (by omega)) (nmB _ (by omega))]
      simp [updateList_cons, updateList_nil, XMLElement.ptr, XMLElement.update,
        XMLElement.withChildren, XMLElement.children, XMLElement.SetAttribute,
        XMLElement.setAttr, hh]
    have na : d5b.next_ptr = n + 5 := by rw [e6b, e6a]; exact n5
    refine ⟨?_, ?_⟩
    · rw [e6e, e6d, e6c]
      show XMLElement.update _ _ (XMLElement.unlink _ (XMLElement.update _ _
        (XMLElement.unlink _ (XMLElement.update _ _ (XMLElement.unlink _ d5b.root))))) = _
      simp only [XMLElement.ptr, na]
      rw [ra, insert_mid _ A _ B (by omega) (nmA _ (by omega)) (nmB _ (by omega))
          (nmA _ (by omega)) (nmB _ (by omega)),
        insert_mid _ A _ B (by omega) (nmA _ (by omega)) (nmB _ (by omega))
          (nmA _ (by omega)) (nmB _ (by omega)),
        insert_mid _ A _ B (by omega) (nmA _ (by omega)) (nmB _ (by omega))
          (nmA _ (by omega)) (nmB _ (by omega))]
      simp [unlinkList_cons, unlinkList_nil, updateList_cons, updateList_nil, XMLElement.ptr,
        XMLElement.unlink, XMLElement.update, XMLElement.withChildren, XMLElement.children,
        hideValue]
    · rw [e6e, e6d, e6c]
      show d5b.next_ptr + 1 = _
      rw [na]
      rfl

theorem cursor_decompose {f : KdenliveFile} (hanch : AnchorsOK f)
    (hnd : f.xml_doc.root.allPtrs.Nodup) :
    ∃ l1 c l2, f.xml_doc.root.children = l1 ++ c :: l2 ∧ c.ptr = f.last_added_root_element ∧
      ∀ y ∈ l1, y.ptr ≠ f.last_added_root_element := by
  obtain ⟨-, -, -, hlast, -, -⟩ := hanch
  obtain ⟨c, hc, hcp⟩ := List.mem_map.1 hlast
  obtain ⟨l1, l2, hch⟩ := List.append_of_mem hc
  obtain ⟨-, n2, -, -, -⟩ := nodup_root_child hnd hch
  refine ⟨l1, c, l2, hch, hcp, fun y hy he => n2 ?_⟩
  rw [hcp, ← he]
  exact mem_allPtrsList_of_mem hy (ptr_mem_allPtrs y)

theorem AddElementToRoot_step {f f1 : KdenliveFile} {d : XMLDocument} {x : XMLElement}
    {l1 l2 : List XMLElement} {c : XMLElement} (h : AddElementToRoot f d x = some f1)
    (hch : d.root.children = l1 ++ c :: l2) (hc : c.ptr = f.last_added_root_element)
    (hl1 : ∀ y ∈ l1, y.ptr ≠ f.last_added_root_element) :
    f1.xml_doc.root = d.root.withChildren (l1 ++ c :: x :: l2) ∧
      f1.xml_doc.next_ptr = d.next_ptr ∧ f1.last_added_root_element = x.ptr ∧
      f1.track_count = f.track_count ∧ f1.timeline_tractor = f.timeline_tractor := by
  rw [AddElementToRoot_exact f d x hch hc hl1] at h
  cases h
  exact ⟨rfl, rfl, rfl, rfl, rfl⟩

theorem AddTrack_exact (f f' : KdenliveFile) (ty : TrackType) (id : Nat)
    (l1 l2 : List XMLElement) (c : XMLElement)
    (h : f.AddTrack ty = some (f', id)) (hwf : f.xml_doc.WellFormed)
    (hch : f.xml_doc.root.children = l1 ++ c :: l2) (hc : c.ptr = f.last_added_root_element)
    (hl1 : ∀ y ∈ l1, y.ptr ≠ f.last_added_root_element) :
    ∃ tt, f.timeline_tractor = some tt ∧
      f'.xml_doc.root = XMLElement.update tt (fun x => x.withChildren (x.children ++
          [timelineTrack ty f.xml_doc.next_ptr f.track_count]))
        (f.xml_doc.root.withChildren
          (l1 ++ c :: trackNodes ty f.xml_doc.next_ptr f.track_count ++ l2)) ∧
      f'.xml_doc.next_ptr = (if ty = TrackType.VIDEO then f.xml_doc.next_ptr + 6
        else f.xml_doc.next_ptr + 7) ∧
      f'.last_added_root_element = f.xml_doc.next_ptr + 2 := by
  have hbound := hwf.2
  have hcl : ∀ y ∈ l1 ++ [c], y ∈ f.xml_doc.root.children := by
    intro y hy; rw [hch]; simp only [List.mem_append, List.mem_singleton, List.mem_cons] at hy ⊢
    tauto
  have hA : ∀ p ∈ XMLElement.allPtrsList (l1 ++ [c]), p < f.xml_doc.next_ptr :=
    below_of_wellFormed hwf hcl
  have hB : ∀ p ∈ XMLElement.allPtrsList l2, p < f.xml_doc.next_ptr :=
    below_of_wellFormed hwf (fun y hy => by rw [hch]; simp [hy])
  have hr : f.xml_doc.root.ptr < f.xml_doc.next_ptr := hbound _ (ptr_mem_allPtrs _)
  have hptrA : ∀ y ∈ l1 ++ [c], y.ptr < f.xml_doc.next_ptr := fun y hy =>
    hA _ (mem_allPtrsList_of_mem hy (ptr_mem_allPtrs y))
  unfold AddTrack at h
  simp only [bind, Option.bind_eq_some, pure, Option.some.injEq] at h
  obtain ⟨f1, h1, f2, h2, f3, h3, ⟨d4, t1⟩, h4, ⟨d5, t2⟩, h5, d6, h6, tt, htt, ⟨d7, t3⟩, h7, h⟩ := h
  simp only [Option.some.injEq, Prod.mk.injEq] at h
  obtain ⟨rfl, rfl⟩ := h
  obtain ⟨a1, a2, a3, a4, a5⟩ := AddElementToRoot_step h1 hch hc hl1
  have a1' : f1.xml_doc.root = f.xml_doc.root.withChildren ((l1 ++ [c]) ++
      XMLElement.node f.xml_doc.next_ptr "playlist"
        [("id", "playlist" ++ toString (f.track_count * 2))] none [] :: l2) := by
    rw [a1, List.append_assoc]; rfl
  have a2' : f1.xml_doc.next_ptr = f.xml_doc.next_ptr + 1 := a2
  have a3' : f1.last_added_root_element = f.xml_doc.next_ptr := a3
  obtain ⟨b1, b2, b3, b4, b5⟩ := AddElementToRoot_step h2
    (show _ = (l1 ++ [c]) ++ _ :: l2 by
      show f1.xml_doc.root.children = _
      rw [a1', withChildren_children])
    (by rw [a3']; rfl)
    (fun y hy => by rw [a3']; exact Nat.ne_of_lt (hptrA y hy))
  have b1' : f2.xml_doc.root = f.xml_doc.root.withChildren ((l1 ++
      [c, XMLElement.node f.xml_doc.next_ptr "playlist"
        [("id", "playlist" ++ toString (f.track_count * 2))] none []]) ++
      XMLElement.node (f.xml_doc.next_ptr + 1) "playlist"
        [("id", "playlist" ++ toString (f.track_count * 2 + 1))] none [] :: l2) := by
    rw [b1]
    show f1.xml_doc.root.withChildren (_ ++ _ :: XMLElement.node f1.xml_doc.next_ptr _ _ _ _ :: _) = _
    rw [a1', a2', withChildren_withChildren]
    simp only [List.append_assoc, List.cons_append, List.nil_append]
    rfl
  have b2' : f2.xml_doc.next_ptr = f.xml_doc.next_ptr + 2 := by
    rw [b2]; show f1.xml_doc.next_ptr + 1 = _; rw [a2']
  have b3' : f2.last_added_root_element = f.xml_doc.next_ptr + 1 := by
    rw [b3]; show f1.xml_doc.next_ptr = _; rw [a2']
  have b4' : f2.track_count = f.track_count := by rw [b4, a4]
  obtain ⟨c1, c2, c3, c4, c5⟩ := AddElementToRoot_step h3
    (show _ = (l1 ++ [c, _]) ++ _ :: l2 by
      show f2.xml_doc.root.children = _
      rw [b1', withChildren_children])
    (by rw [b3']; rfl)
    (fun y hy => by
      rw [b3']
      rw [show l1 ++ [c, XMLElement.node f.xml_doc.next_ptr "playlist"
        [("id", "playlist" ++ toString (f.track_count * 2))] none []] = (l1 ++ [c]) ++
        [XMLElement.node f.xml_doc.next_ptr "playlist"
        [("id", "playlist" ++ toString (f.track_count * 2))] none []] by simp] at hy
      rcases List.mem_append.1 hy with hy | hy
      · exact Nat.ne_of_lt (Nat.lt_succ_of_lt (hptrA y hy))
      · rw [List.mem_singleton] at hy
        rw [hy]
        show f.xml_doc.next_ptr ≠ _
        omega)
  have c1' : f3.xml_doc.root = f.xml_doc.root.withChildren ((l1 ++ [c]) ++
      [XMLElement.node f.xml_doc.next_ptr "playlist"
        [("id", "playlist" ++ toString (f.track_count * 2))] none [],
       XMLElement.node (f.xml_doc.next_ptr + 1) "playlist"
        [("id", "playlist" ++ toString (f.track_count * 2 + 1))] none [],
       XMLElement.node (f.xml_doc.next_ptr + 2) "tractor"
        [("id", "tractor" ++ toString f.track_count)] none []] ++ l2) := by
    rw [c1]
    show f2.xml_doc.root.withChildren (_ ++ _ :: XMLElement.node f2.xml_doc.next_ptr _
      [("id", "tractor" ++ toString f2.track_count)] _ _ :: _) = _
    rw [b1', b2', b4', withChildren_withChildren]
    simp only [List.append_assoc, List.cons_append, List.nil_append]
  have c2' : f3.xml_doc.next_ptr = f.xml_doc.next_ptr + 3 := by
    rw [c2]; show f2.xml_doc.next_ptr + 1 = _; rw [b2']
  have c3' : f3.last_added_root_element = f.xml_doc.next_ptr + 2 := by
    rw [c3]; show f2.xml_doc.next_ptr = _; rw [b2']
  have h4' : AddTrackElement f3.xml_doc f2.xml_doc.next_ptr
      ("playlist" ++ toString (f.track_count * 2)) = some (d4, t1) := h4
  have h5' : AddTrackElement d4 f2.xml_doc.next_ptr
      ("playlist" ++ toString (f.track_count * 2 + 1)) = some (d5, t2) := h5
  rw [b2'] at h4' h5'
  obtain ⟨r5, n5, p1, p2⟩ := track_pair c1' c2' hr hA hB h4' h5'
  have h6' : setTrackTypeProperties d5 ty f.xml_doc.next_ptr f1.xml_doc.next_ptr
      f2.xml_doc.next_ptr t1.ptr t2.ptr = some d6 := h6
  rw [a2', b2', p1, p2] at h6'
  obtain ⟨r6, n6⟩ := track_properties ty r5 n5 hr hA hB h6'
  have htt' : f.timeline_tractor = some tt := by rw [← a5, ← b5, ← c5]; exact htt
  obtain ⟨-, hd7⟩ := AddTrackElement_eq h7
  refine ⟨tt, htt', ?_, ?_, c3'⟩
  · show d7.root = _
    rw [hd7]
    show XMLElement.update _ _ (XMLElement.unlink _ d6.root) = _
    have nmB : ∀ q, f.xml_doc.next_ptr ≤ q → q ∉ XMLElement.allPtrsList l2 :=
      fun q hq => not_mem_of_below hB hq
    have nmA : ∀ q, f.xml_doc.next_ptr ≤ q → q ∉ XMLElement.allPtrsList (l1 ++ [c]) :=
      fun q hq => not_mem_of_below hA hq
    rw [r6, n6, b4', unlink_withChildren, unlinkList_append, unlinkList_append,
      unlinkList_of_not_mem _ _ (nmA _ (by split <;> omega)),
      unlinkList_of_not_mem _ _ (nmB _ (by split <;> omega))]
    cases ty
    · simp [unlinkList_cons, unlinkList_nil, XMLElement.ptr, XMLElement.unlink,
        trackNodes, timelineTrack, hideValue]
    · simp [unlinkList_cons, unlinkList_nil, XMLElement.ptr, XMLElement.unlink,
        trackNodes, timelineTrack, hideValue]
  · show d7.next_ptr = _
    rw [hd7]
    show d6.next_ptr + 1 = _
    rw [n6]
    cases ty <;> rfl

theorem runCalls_track_count [Stale] :
    ∀ (calls : List FileCall) (f f' : KdenliveFile), runCalls calls f = some f' →
      f'.track_count = f.track_count + trackCalls calls := by
  intro calls
  induction calls with
  | nil =>
    intro f f' h
    simp only [runCalls, Option.some.injEq] at h
    rw [← h]; rfl
  | cons c cs ih =>
    intro f f' h
    simp only [runCalls, Option.bind_eq_some] at h
    obtain ⟨f1, h1, h2⟩ := h
    have := ih f1 f' h2
    cases c with
    | AddTrack ty =>
      simp only [FileCall.run, Option.map_eq_some', Prod.exists, exists_and_right,
        exists_eq_right] at h1
      obtain ⟨id, h1⟩ := h1
      obtain ⟨-, hc, -⟩ := AddTrack_book h1
      rw [this, hc, trackCalls]; omega
    | AddBlankToTrack id len =>
      simp only [FileCall.run, Option.map_eq_some', Prod.exists, exists_and_right,
        exists_eq_right] at h1
      obtain ⟨e, h1⟩ := h1
      obtain ⟨L, es, -, -, -, -, -, hc, -⟩ := AddBlankToTrack_book h1
      rw [this, hc, trackCalls]
    | AddClipToTrack id cid len off =>
      simp only [FileCall.run, Option.map_eq_some', Prod.exists, exists_and_right,
        exists_eq_right] at h1
      obtain ⟨e, h1⟩ := h1
      obtain ⟨L, es, -, -, -, -, -, hc, -⟩ := AddClipToTrack_book h1
      rw [this, hc, trackCalls]

theorem trackNodes_allPtrs (ty : TrackType) (n k : Nat) :
    (XMLElement.allPtrsList (trackNodes ty n k)).Nodup ∧
      (∀ p ∈ XMLElement.allPtrsList (trackNodes ty n k),
        n ≤ p ∧ p < (timelineTrack ty n k).ptr) ∧
      n ≤ (timelineTrack ty n k).ptr ∧
      (timelineTrack ty n k).allPtrs = [(timelineTrack ty n k).ptr] := by
  cases ty
  · refine ⟨?_, ?_, ?_, ?_⟩
    · simp [trackNodes, allPtrsList_cons, allPtrsList_nil, allPtrs_node]
    · intro p hp
      simp only [trackNodes, timelineTrack, allPtrsList_cons, allPtrsList_nil, allPtrs_node,
        List.nil_append, List.append_nil, List.cons_append, List.mem_cons, List.not_mem_nil,
        or_false, XMLElement.ptr] at hp ⊢
      omega
    · simp only [timelineTrack, XMLElement.ptr]; omega
    · simp only [timelineTrack, allPtrs_node, allPtrsList_nil, XMLElement.ptr]
  · refine ⟨?_, ?_, ?_, ?_⟩
    · simp [trackNodes, allPtrsList_cons, allPtrsList_nil, allPtrs_node]
    · intro p hp
      simp only [trackNodes, timelineTrack, allPtrsList_cons, allPtrsList_nil, allPtrs_node,
        List.nil_append, List.append_nil, List.cons_append, List.mem_cons, List.not_mem_nil,
        or_false, XMLElement.ptr] at hp ⊢
      omega
    · simp only [timelineTrack, XMLElement.ptr]; omega
    · simp only [timelineTrack, allPtrs_node, allPtrsList_nil, XMLElement.ptr]

/-- The document after `AddTrack` is well-formed. -/
theorem wellFormed_add_track {d d' : XMLDocument} {l1 l2 : List XMLElement} {c : XMLElement}
    {ty : TrackType} {k tt : Nat} (hwf : d.WellFormed)
    (hch : d.root.children = l1 ++ c :: l2)
    (htt : tt ∈ d.root.children.map XMLElement.ptr)
    (hroot : d'.root = d.root.withChildren
      ((l1 ++ c :: trackNodes ty d.next_ptr k ++ l2).map (fun x =>
        if x.ptr = tt then x.withChildren (x.children ++ [timelineTrack ty d.next_ptr k])
        else x)))
    (hnext : d'.next_ptr = (timelineTrack ty d.next_ptr k).ptr + 1) : d'.WellFormed := by
  obtain ⟨t1, t2, t3, t4⟩ := trackNodes_allPtrs ty d.next_ptr k
  have hD1 : (XMLDocument.mk (d.root.withChildren (l1 ++ c :: trackNodes ty d.next_ptr k ++ l2))
      (timelineTrack ty d.next_ptr k).ptr).WellFormed :=
    wellFormed_of_perm hwf (allPtrs_perm_insert d.root l1 l2 _ c hch) t1
      (fun p hp => (t2 p hp).1) (fun p hp => (t2 p hp).2) t3
  have hnd : (XMLElement.allPtrsList (l1 ++ c :: trackNodes ty d.next_ptr k ++ l2)).Nodup := by
    have := hD1.1
    rw [allPtrs_withChildren, List.nodup_cons] at this
    exact this.2
  have hmem : tt ∈ (l1 ++ c :: trackNodes ty d.next_ptr k ++ l2).map XMLElement.ptr := by
    rw [hch] at htt
    simp only [List.map_append, List.map_cons, List.mem_append, List.mem_cons] at htt ⊢
    tauto
  refine wellFormed_of_perm hD1 ?_ (List.nodup_singleton (timelineTrack ty d.next_ptr k).ptr)
    (fun p hp => by rw [List.mem_singleton.1 hp])
    (fun p hp => by rw [List.mem_singleton.1 hp, hnext]; exact Nat.lt_succ_self _)
    (by rw [hnext]; exact Nat.le_succ _)
  rw [hroot, allPtrs_withChildren]
  show List.Perm _ ((d.root.withChildren _).allPtrs ++ _)
  rw [allPtrs_withChildren, List.cons_append, ← t4]
  exact List.Perm.cons _ (allPtrsList_map_append _ _ (childPtrs_nodup _ hnd) hmem)

/-- The root after `AddTrack` on a well-formed file in order. -/
theorem AddTrack_map {f f' : KdenliveFile} {ty : TrackType} {id : Nat} (hanch : AnchorsOK f)
    (hwf : f.xml_doc.WellFormed) (hf' : f.AddTrack ty = some (f', id)) :
    ∃ (l1 : List XMLElement) (c : XMLElement) (l2 : List XMLElement) (tt : Nat),
      f.xml_doc.root.children = l1 ++ c :: l2 ∧ c.ptr = f.last_added_root_element ∧
      f.timeline_tractor = some tt ∧ tt ∈ f.xml_doc.root.children.map XMLElement.ptr ∧
      f'.xml_doc.root = f.xml_doc.root.withChildren
        ((l1 ++ c :: trackNodes ty f.xml_doc.next_ptr f.track_count ++ l2).map
          (fun x => if x.ptr = tt then
            x.withChildren (x.children ++ [timelineTrack ty f.xml_doc.next_ptr f.track_count])
            else x)) ∧
      f'.xml_doc.next_ptr = (timelineTrack ty f.xml_doc.next_ptr f.track_count).ptr + 1 := by
  obtain ⟨l1, c, l2, hch, hc, hl1⟩ := cursor_decompose hanch hwf.1
  obtain ⟨tt, htt, hroot, hnext, -⟩ := AddTrack_exact f f' ty _ l1 l2 c hf' hwf hch hc hl1
  obtain ⟨-, hchild, -, -, -, tt', htt', httm⟩ := hanch
  rw [htt] at htt'
  cases htt'
  have hrt : f.xml_doc.root.ptr ≠ tt := by
    obtain ⟨T, hT, hTp⟩ := List.mem_map.1 httm
    rw [← hTp]
    exact fun h => (hchild T hT).2.1 h.symm
  have httlt : tt < f.xml_doc.next_ptr := by
    obtain ⟨T, hT, hTp⟩ := List.mem_map.1 httm
    rw [← hTp]
    exact (hchild T hT).1
  refine ⟨l1, c, l2, tt, hch, hc, htt, httm, ?_, ?_⟩
  · rw [hroot, update_withChildren _ _ hrt, updateList_eq_map_if]
    intro x hx hne
    have hx' : x ∈ f.xml_doc.root.children ∨
        x ∈ trackNodes ty f.xml_doc.next_ptr f.track_count := by
      rw [hch]
      simp only [List.mem_append, List.mem_cons, List.cons_append] at hx ⊢
      tauto
    rcases hx' with hx' | hx'
    · exact not_mem_allPtrs_of_other_child hwf.1 hx' httm hne
    · intro hm
      cases ty <;>
      · simp only [trackNodes, List.mem_cons, List.mem_singleton, List.not_mem_nil,
          or_false] at hx'
        rcases hx' with rfl | rfl | rfl <;>
        · simp only [allPtrs_node, allPtrsList_cons, allPtrsList_nil, List.mem_cons,
            List.mem_append, List.not_mem_nil, or_false, false_or, List.nil_append,
            List.append_nil, List.cons_append] at hm
          omega
  · rw [hnext]
    cases ty <;> rfl

/-- The document after `AddTrack` on a well-formed file in order is well-formed. -/
theorem AddTrack_wellFormed {f f' : KdenliveFile} {ty : TrackType} {id : Nat}
    (hanch : AnchorsOK f) (hwf : f.xml_doc.WellFormed) (hf' : f.AddTrack ty = some (f', id)) :
    f'.xml_doc.WellFormed := by
  obtain ⟨l1, c, l2, tt, hch, -, -, httm, hmap, hnext⟩ := AddTrack_map hanch hwf hf'
  exact wellFormed_add_track hwf hch httm hmap hnext

/-- The document after `AddClipToTrack` on a well-formed file is well-formed. -/
theorem AddClipToTrack_wellFormed [Stale] {f f' : KdenliveFile} {id cid e : Nat} {len off : ℚ}
    (hwf : f.xml_doc.WellFormed) (h : f.AddClipToTrack id cid len off = some (f', e)) :
    f'.xml_doc.WellFormed := by
  unfold AddClipToTrack at h
  simp only [bind, Option.bind_eq_some, pure, Option.some.injEq] at h
  obtain ⟨pl, hpl, ⟨d', en⟩, hadd, L, -, es, -, h⟩ := h
  unfold AddEntryElement at hadd
  rw [CreateEntryElement_eq] at hadd
  simp only [Option.map_eq_some', Prod.mk.injEq] at hadd
  obtain ⟨d0, hd0, hd, -⟩ := hadd
  subst hd
  obtain ⟨a, b, hab, hroot, hnext, -⟩ := append_to_playlist hwf hpl (by rfl) hd0
  simp only [Option.some.injEq, Prod.mk.injEq] at h
  rw [← h.1]
  exact wellFormed_append_to_child hwf hab hroot (List.nodup_singleton _)
    (fun p hp => by rw [List.mem_singleton.1 hp])
    (fun p hp => by rw [List.mem_singleton.1 hp, hnext]; exact Nat.lt_succ_self _)
    (by rw [hnext]; exact Nat.le_succ _)

/-- The document after `AddBlankToTrack` on a well-formed file is well-formed. -/
theorem AddBlankToTrack_wellFormed {f f' : KdenliveFile} {id e : Nat} {len : ℚ}
    (hwf : f.xml_doc.WellFormed) (h : f.AddBlankToTrack id len = some (f', e)) :
    f'.xml_doc.WellFormed := by
  unfold AddBlankToTrack at h
  simp only [bind, Option.bind_eq_some, pure, Option.some.injEq] at h
  obtain ⟨pl, hpl, ⟨d', en⟩, hadd, L, -, es, -, h⟩ := h
  unfold AddBlankElement at hadd
  rw [CreateBlankElement_eq] at hadd
  simp only [Option.map_eq_some', Prod.mk.injEq] at hadd
  obtain ⟨d0, hd0, hd, -⟩ := hadd
  subst hd
  obtain ⟨a, b, hab, hroot, hnext, -⟩ := append_to_playlist hwf hpl (by rfl) hd0
  simp only [Option.some.injEq, Prod.mk.injEq] at h
  rw [← h.1]
  exact wellFormed_append_to_child hwf hab hroot (List.nodup_singleton _)
    (fun p hp => by rw [List.mem_singleton.1 hp])
    (fun p hp => by rw [List.mem_singleton.1 hp, hnext]; exact Nat.lt_succ_self _)
    (by rw [hnext]; exact Nat.le_succ _)

/-- Every file reached by calls of `AddTrack`, `AddBlankToTrack` and `AddClipToTrack` from a
well-formed file in order is again in order, consistent and well-formed, so that the
contracts of these methods apply at every call of a sequence. -/
theorem runCalls_reachable [Stale] :
    ∀ (calls : List FileCall) (f f' : KdenliveFile), DocOK f → Consistent f →
      f.xml_doc.WellFormed → runCalls calls f = some f' →
      DocOK f' ∧ Consistent f' ∧ f'.xml_doc.WellFormed := by
  intro calls
  induction calls with
  | nil =>
    intro f f' hd hc hw h
    simp only [runCalls, Option.some.injEq] at h
    rw [← h]
    exact ⟨hd, hc, hw⟩
  | cons c cs ih =>
    intro f f' hd hc hw h
    simp only [runCalls, Option.bind_eq_some] at h
    obtain ⟨f1, h1, h2⟩ := h
    cases c with
    | AddTrack ty =>
      simp only [FileCall.run, Option.map_eq_some', Prod.exists, exists_and_right,
        exists_eq_right] at h1
      obtain ⟨id, h1⟩ := h1
      obtain ⟨g, hg, hdg⟩ := AddTrack_ok f ty hd hc
      rw [h1] at hg
      simp only [Option.some.injEq, Prod.mk.injEq] at hg
      rw [← hg.1] at hdg
      exact ih f1 f' hdg (AddTrack_consistent hc h1) (AddTrack_wellFormed hd.1 hw h1) h2
    | AddBlankToTrack id len =>
      simp only [FileCall.run, Option.map_eq_some', Prod.exists, exists_and_right,
        exists_eq_right] at h1
      obtain ⟨e, h1⟩ := h1
      obtain ⟨L, es, hL, -, -, -, -, -, -, -⟩ := AddBlankToTrack_book h1
      have hid : id < f.track_count := by
        rw [← hc.lengths_length]
        by_contra hge
        rw [List.getElem?_eq_none (Nat.le_of_not_lt hge)] at hL
        cases hL
      obtain ⟨g, e', hg, hdg⟩ := AddBlankToTrack_ok f id len hd hc hid
      rw [h1] at hg
      simp only [Option.some.injEq, Prod.mk.injEq] at hg
      rw [← hg.1] at hdg
      exact ih f1 f' hdg (AddBlankToTrack_consistent hc h1) (AddBlankToTrack_wellFormed hw h1)
        h2
    | AddClipToTrack id cid len off =>
      simp only [FileCall.run, Option.map_eq_some', Prod.exists, exists_and_right,
        exists_eq_right] at h1
      obtain ⟨e, h1⟩ := h1
      obtain ⟨L, es, hL, -, -, -, -, -, -, -⟩ := AddClipToTrack_book h1
      have hid : id < f.track_count := by
        rw [← hc.lengths_length]
        by_contra hge
        rw [List.getElem?_eq_none (Nat.le_of_not_lt hge)] at hL
        cases hL
      obtain ⟨g, e', hg, hdg⟩ := AddClipToTrack_ok f id cid len off hd hc hid
      rw [h1] at hg
      simp only [Option.some.injEq, Prod.mk.injEq] at hg
      rw [← hg.1] at hdg
      exact ih f1 f' hdg (AddClipToTrack_consistent hc h1) (AddClipToTrack_wellFormed hw h1)
        h2

/-- C18. `AddTrack` contract.  On a file in order whose document is well-formed, the call
`AddTrack(track_type)` runs through and returns the current track count `k`, which is the
number of `AddTrack` calls made before on a file built from a fresh one.  The root's children
afterwards are the old ones with the three nodes `trackNodes` linked in behind the cursor
node `c` (the playlists `playlist(2k)` and `playlist(2k+1)`, both empty, and the tractor
`tractor(k)` whose two `track` children name those playlists and carry `hide="audio"` on a
video and `hide="video"` on an audio track), and with one `track` node naming `tractor(k)`
appended to the timeline tractor; nothing else in the document changes.  The new track has
length 0 and no entries, the lengths and entries of the other tracks stay, and the file
after the call is again in order, consistent and well-formed.  These three conditions hold
for every file that calls of `AddTrack`, `AddBlankToTrack` and `AddClipToTrack` build from
a fresh file in order with a well-formed document. -/
theorem add_track_contract [Stale] (f : KdenliveFile) (track_type : TrackType) (hdoc : DocOK f)
    (hcons : Consistent f) (hwf : f.xml_doc.WellFormed) :
    ∃ (f' : KdenliveFile) (l1 : List XMLElement) (c : XMLElement) (l2 : List XMLElement)
      (tt : Nat),
      f.AddTrack track_type = some (f', f.track_count) ∧
      f.xml_doc.root.children = l1 ++ c :: l2 ∧ c.ptr = f.last_added_root_element ∧
      f.timeline_tractor = some tt ∧ tt ∈ f.xml_doc.root.children.map XMLElement.ptr ∧
      f'.xml_doc.root = f.xml_doc.root.withChildren
        ((l1 ++ c :: trackNodes track_type f.xml_doc.next_ptr f.track_count ++ l2).map
          (fun x => if x.ptr = tt then
            x.withChildren (x.children ++
              [timelineTrack track_type f.xml_doc.next_ptr f.track_count])
            else x)) ∧
      f'.track_count = f.track_count + 1 ∧
      f'.GetTrackLength f.track_count = some 0 ∧
      f'.track_entries[f.track_count]? = some [] ∧
      (∀ id, id < f.track_count → f'.GetTrackLength id = f.GetTrackLength id ∧
        f'.track_entries[id]? = f.track_entries[id]?) ∧
      (∀ template f0 calls, KdenliveFile.new template = some f0 →
        runCalls calls f0 = some f → f.track_count = trackCalls calls) ∧
      DocOK f' ∧ Consistent f' ∧ f'.xml_doc.WellFormed ∧
      (∀ template f0 calls g, KdenliveFile.new template = some f0 → AnchorsOK f0 →
        f0.xml_doc.WellFormed → runCalls calls f0 = some g →
        DocOK g ∧ Consistent g ∧ g.xml_doc.WellFormed) := by
  obtain ⟨f', hf', hdoc'⟩ := AddTrack_ok f track_type hdoc hcons
  have hcons' := AddTrack_consistent hcons hf'
  obtain ⟨l1, c, l2, tt, hch, hc, htt, httm, hmap, hnext⟩ := AddTrack_map hdoc.1 hwf hf'
  obtain ⟨-, hcount, hlen, hent, -, -⟩ := AddTrack_book hf'
  refine ⟨f', l1, c, l2, tt, hf', hch, hc, htt, httm, hmap, hcount, ?_, ?_, ?_, ?_, hdoc',
    hcons', wellFormed_add_track hwf hch httm hmap hnext,
    fun template f0 calls g h0 hanch hwf0 hrun =>
      runCalls_reachable calls f0 g (DocOK_of_new h0 hanch) (new_consistent h0) hwf0 hrun⟩
  · show f'.track_lengths[f.track_count]? = some 0
    rw [hlen, ← hcons.lengths_length]
    simp
  · rw [hent, ← hcons.1]
    simp
  · intro id hid
    refine ⟨?_, ?_⟩
    · show f'.track_lengths[id]? = f.track_lengths[id]?
      rw [hlen, List.getElem?_append_left (by rw [hcons.lengths_length]; exact hid)]
    · rw [hent, List.getElem?_append_left (by rw [hcons.1]; exact hid)]
  · intro template f0 calls h0 hrun
    rw [runCalls_track_count calls f0 f hrun, (new_book h0).2.1, Nat.zero_add]

theorem minimalTemplate_wellFormed :
    ∀ f0 ∈ KdenliveFile.new minimalTemplate, f0.xml_doc.WellFormed := by
  decide!

theorem minimalTemplate_audio_track :
    ∀ f0 ∈ KdenliveFile.new minimalTemplate, ∀ r ∈ f0.AddTrack TrackType.AUDIO,
      r.1.xml_doc.root.children.map XMLElement.label =
        [("profile", none), ("producer", some "producer0"), ("playlist", some "playlist0"),
         ("playlist", some "playlist1"), ("tractor", some "tractor0"),
         ("tractor", some "timeline-uuid"), ("playlist", some "main_bin"),
         ("tractor", some "final_tractor")] ∧
      ((r.1.xml_doc.root.children[4]?).map
          (fun x : XMLElement => x.children.map XMLElement.attrs)).getD [] =
        [[("name", "kdenlive:audio_track")], [("producer", "playlist0"), ("hide", "video")],
         [("producer", "playlist1"), ("hide", "video")]] ∧
      ((r.1.xml_doc.root.children[5]?).map
          (fun x : XMLElement => x.children.map XMLElement.attrs)).getD [] =
        [[("producer", "tractor0")]] := by
  decide!

/-- Witness of C18: the first `AddTrack(AUDIO)` on a file built on the minimal template. -/
theorem add_track_contract_witness :
    ∃ (f f' : KdenliveFile), f.AddTrack TrackType.AUDIO = some (f', 0) ∧
      f'.GetTrackLength 0 = some 0 ∧
      f'.xml_doc.root.children.map XMLElement.label =
        [("profile", none), ("producer", some "producer0"), ("playlist", some "playlist0"),
         ("playlist", some "playlist1"), ("tractor", some "tractor0"),
         ("tractor", some "timeline-uuid"), ("playlist", some "main_bin"),
         ("tractor", some "final_tractor")] ∧
      ((f'.xml_doc.root.children[4]?).map
          (fun x : XMLElement => x.children.map XMLElement.attrs)).getD [] =
        [[("name", "kdenlive:audio_track")], [("producer", "playlist0"), ("hide", "video")],
         [("producer", "playlist1"), ("hide", "video")]] ∧
      ((f'.xml_doc.root.children[5]?).map
          (fun x : XMLElement => x.children.map XMLElement.attrs)).getD [] =
        [[("producer", "tractor0")]] := by
  obtain ⟨f0, h0, hanch⟩ := minimalTemplate_new
  obtain ⟨f', l1, c, l2, tt, h, -, -, -, -, -, -, hlen, -⟩ :=
    @add_track_contract Stale.intact f0 TrackType.AUDIO (DocOK_of_new h0 hanch) (new_consistent h0)
      (minimalTemplate_wellFormed f0 h0)
  rw [(new_book h0).2.1] at h hlen
  obtain ⟨e1, e2, e3⟩ := minimalTemplate_audio_track f0 h0 _ h
  exact ⟨f0, f', h, hlen, e1, e2, e3⟩

/-! ## The order of the root's children -/

theorem sig_withChildren (e : XMLElement) (cs : List XMLElement) :
    (e.withChildren cs).sig = e.sig := by
  unfold XMLElement.sig
  rw [withChildren_ptr, withChildren_name, withChildren_attrs]

theorem sig_unlink (q : Nat) (e : XMLElement) : (XMLElement.unlink q e).sig = e.sig := by
  rw [unlink_eq, sig_withChildren]

theorem sig_update_ne {q : Nat} (g : XMLElement → XMLElement) {e : XMLElement}
    (h : e.ptr ≠ q) : (XMLElement.update q g e).sig = e.sig := by
  rw [update_of_ne h, sig_withChildren]

theorem sig_ptr (e : XMLElement) : e.sig.1 = e.ptr := rfl

theorem children_update_sig {root : XMLElement} {q : Nat} (g : XMLElement → XMLElement)
    (hr : root.ptr ≠ q) (hg : ∀ c ∈ root.children, c.ptr = q → (g c).sig = c.sig) :
    (XMLElement.update q g root).children.map XMLElement.sig =
      root.children.map XMLElement.sig := by
  rw [update_of_ne hr, withChildren_children, updateList_eq_map, List.map_map]
  apply List.map_congr_left
  intro c hc
  show (XMLElement.update q g c).sig = c.sig
  by_cases h : c.ptr = q
  · rw [update_of_eq h]; exact hg c hc h
  · exact sig_update_ne g h

theorem children_unlink_sig {root : XMLElement} {x : Nat}
    (hx : ∀ c ∈ root.children, c.ptr ≠ x) :
    (XMLElement.unlink x root).children.map XMLElement.sig =
      root.children.map XMLElement.sig := by
  rw [unlink_eq, withChildren_children, unlinkList_of_ne _ hx, List.map_map]
  apply List.map_congr_left
  intro c _
  exact sig_unlink x c

theorem update_root_ptr {root : XMLElement} {q : Nat} (g : XMLElement → XMLElement)
    (hr : root.ptr ≠ q) : (XMLElement.update q g root).ptr = root.ptr := by
  rw [update_of_ne hr, withChildren_ptr]

/-- An insertion below a node other than the root, of a node that is no child of the root,
leaves the order of the root's children as it is. -/
theorem insert_sig {d d' : XMLDocument} {q : Nat} {x : XMLElement}
    {g : XMLElement → XMLElement}
    (h : d' = { d with root := (XMLElement.update q g (d.root.unlink x.ptr)) })
    (hg : ∀ c, (g c).sig = c.sig)
    (hr : d.root.ptr ≠ q) (hx : ∀ c ∈ d.root.children, c.ptr ≠ x.ptr) :
    d'.root.children.map XMLElement.sig = d.root.children.map XMLElement.sig ∧
      d'.root.ptr = d.root.ptr ∧ d'.next_ptr = d.next_ptr := by
  subst h
  refine ⟨?_, ?_, rfl⟩
  · show (XMLElement.update q g (d.root.unlink x.ptr)).children.map XMLElement.sig = _
    rw [children_update_sig g (by rw [unlink_ptr]; exact hr) (fun c _ _ => hg c),
      children_unlink_sig hx]
  · show (XMLElement.update q g (d.root.unlink x.ptr)).ptr = _
    rw [update_root_ptr g (by rw [unlink_ptr]; exact hr), unlink_ptr]

theorem InsertEndChild_sig {d d' : XMLDocument} {q : Nat} {x : XMLElement}
    (h : d.InsertEndChild q x = some d') (hr : d.root.ptr ≠ q)
    (hx : ∀ c ∈ d.root.children, c.ptr ≠ x.ptr) :
    d'.root.children.map XMLElement.sig = d.root.children.map XMLElement.sig ∧
      d'.root.ptr = d.root.ptr ∧ d'.next_ptr = d.next_ptr :=
  insert_sig (InsertEndChild_eq h) (fun c => sig_withChildren c _) hr hx

theorem InsertFirstChild_sig {d d' : XMLDocument} {q : Nat} {x : XMLElement}
    (h : d.InsertFirstChild q x = some d') (hr : d.root.ptr ≠ q)
    (hx : ∀ c ∈ d.root.children, c.ptr ≠ x.ptr) :
    d'.root.children.map XMLElement.sig = d.root.children.map XMLElement.sig ∧
      d'.root.ptr = d.root.ptr ∧ d'.next_ptr = d.next_ptr :=
  insert_sig (InsertFirstChild_eq h) (fun c => sig_withChildren c _) hr hx

/-- A write through an address that is neither the root's nor that of a child of the root
leaves the order of the root's children as it is. -/
theorem modify_sig {d d' : XMLDocument} {q : Nat} {g : XMLElement → XMLElement}
    (h : d.modify q g = some d') (hr : d.root.ptr ≠ q)
    (hq : ∀ c ∈ d.root.children, c.ptr ≠ q) :
    d'.root.children.map XMLElement.sig = d.root.children.map XMLElement.sig ∧
      d'.root.ptr = d.root.ptr ∧ d'.next_ptr = d.next_ptr := by
  have e := modify_eq h
  subst e
  refine ⟨?_, ?_, rfl⟩
  · show (XMLElement.update q g d.root).children.map XMLElement.sig = _
    exact children_update_sig g hr (fun c hc hcq => absurd hcq (hq c hc))
  · exact update_root_ptr g hr

theorem AddTrackElement_sig {d d' : XMLDocument} {q : Nat} {s : String} {t : XMLElement}
    (h : AddTrackElement d q s = some (d', t)) (hr : d.root.ptr ≠ q)
    (hb : ∀ c ∈ d.root.children, c.ptr < d.next_ptr) :
    d'.root.children.map XMLElement.sig = d.root.children.map XMLElement.sig ∧
      d'.root.ptr = d.root.ptr ∧ d'.next_ptr = d.next_ptr + 1 ∧ t.ptr = d.next_ptr := by
  unfold AddTrackElement at h
  rw [CreateTrackElement_eq] at h
  simp only [Option.map_eq_some', Prod.mk.injEq] at h
  obtain ⟨d1, h1, rfl, rfl⟩ := h
  obtain ⟨e1, e2, e3⟩ := InsertEndChild_sig h1 hr
    (fun c hc => Nat.ne_of_lt (hb c hc))
  exact ⟨e1, e2, e3, rfl⟩

theorem AddEntryElement_sig [Stale] {d d' : XMLDocument} {q : Nat} {i o : ℚ} {s : String}
    {t : XMLElement}
    (h : AddEntryElement d q i o s = some (d', t)) (hr : d.root.ptr ≠ q)
    (hb : ∀ c ∈ d.root.children, c.ptr < d.next_ptr) :
    d'.root.children.map XMLElement.sig = d.root.children.map XMLElement.sig ∧
      d'.root.ptr = d.root.ptr ∧ d'.next_ptr = d.next_ptr + 1 := by
  unfold AddEntryElement at h
  rw [CreateEntryElement_eq] at h
  simp only [Option.map_eq_some', Prod.mk.injEq] at h
  obtain ⟨d1, h1, rfl, rfl⟩ := h
  exact InsertEndChild_sig h1 hr (fun c hc => Nat.ne_of_lt (hb c hc))

theorem insertAfter_sig {after : Nat} (x : XMLElement) {s : Nat × String × List (String × String)}
    {S2 : List (Nat × String × List (String × String))} (hs : s.1 = after) :
    ∀ (cs cs' : List XMLElement) (S1 : List (Nat × String × List (String × String))),
      XMLElement.insertAfter after x cs = some cs' →
      cs.map XMLElement.sig = S1 ++ s :: S2 → (∀ y ∈ S1, y.1 ≠ after) →
      cs'.map XMLElement.sig = S1 ++ s :: x.sig :: S2 := by
  intro cs
  induction cs with
  | nil =>
    intro cs' S1 h
    simp [XMLElement.insertAfter] at h
  | cons c cs ih =>
    intro cs' S1 h hmap hS1
    rw [XMLElement.insertAfter] at h
    cases S1 with
    | nil =>
      simp only [List.map_cons, List.nil_append, List.cons.injEq] at hmap
      have hc : c.ptr = after := by rw [← hs, ← hmap.1]; rfl
      rw [if_pos hc] at h
      cases h
      simp only [List.map_cons, List.nil_append, hmap.1, hmap.2]
    | cons y ys =>
      simp only [List.map_cons, List.cons_append, List.cons.injEq] at hmap
      have hc : c.ptr ≠ after := by
        have := hS1 y (List.mem_cons_self _ _)
        rw [← hmap.1] at this
        exact this
      rw [if_neg hc] at h
      simp only [Option.map_eq_some'] at h
      obtain ⟨r, hr, rfl⟩ := h
      rw [List.map_cons, ih r ys hr hmap.2 (fun z hz => hS1 z (List.mem_cons_of_mem _ hz)),
        hmap.1]
      rfl

theorem ptr_transfer (P : Nat → Prop) {cs cs' : List XMLElement}
    (hsig : cs'.map XMLElement.sig = cs.map XMLElement.sig)
    (h : ∀ c ∈ cs, P c.ptr) : ∀ c ∈ cs', P c.ptr := by
  intro c hc
  have hm : c.sig ∈ cs.map XMLElement.sig := by
    rw [← hsig]; exact List.mem_map_of_mem _ hc
  obtain ⟨c0, hc0, he⟩ := List.mem_map.1 hm
  have : c0.ptr = c.ptr := congrArg Prod.fst he
  rw [← this]
  exact h c0 hc0

theorem ptr_of_sigs (P : Nat → Prop) {cs : List XMLElement}
    {S : List (Nat × String × List (String × String))}
    (hsig : cs.map XMLElement.sig = S) (h : ∀ y ∈ S, P y.1) :
    ∀ c ∈ cs, P c.ptr := by
  intro c hc
  exact h c.sig (by rw [← hsig]; exact List.mem_map_of_mem _ hc)

theorem AddElementToRoot_sig {f f1 : KdenliveFile} {d : XMLDocument} {x : XMLElement}
    {s : Nat × String × List (String × String)}
    {S1 S2 : List (Nat × String × List (String × String))}
    (h : AddElementToRoot f d x = some f1)
    (hmap : d.root.children.map XMLElement.sig = S1 ++ s :: S2)
    (hs : s.1 = f.last_added_root_element)
    (hS1 : ∀ y ∈ S1, y.1 ≠ f.last_added_root_element) :
    f1.xml_doc.root.children.map XMLElement.sig = S1 ++ s :: x.sig :: S2 ∧
      f1.xml_doc.root.ptr = d.root.ptr ∧ f1.xml_doc.next_ptr = d.next_ptr ∧
      f1.last_added_root_element = x.ptr ∧ f1.track_count = f.track_count ∧
      f1.chain_count = f.chain_count ∧ f1.main_producer = f.main_producer ∧
      f1.main_bin = f.main_bin ∧ f1.timeline_tractor = f.timeline_tractor := by
  unfold AddElementToRoot XMLDocument.InsertAfterRootChild at h
  simp only [Option.map_eq_some'] at h
  obtain ⟨d1, ⟨cs', hcs, rfl⟩, rfl⟩ := h
  refine ⟨?_, withChildren_ptr _ _, rfl, rfl, rfl, rfl, rfl, rfl, rfl⟩
  show (d.root.withChildren cs').children.map XMLElement.sig = _
  rw [withChildren_children]
  exact insertAfter_sig x hs _ _ _ hcs hmap hS1

theorem AddElementToTopOfRoot_sig {f f1 : KdenliveFile} {d : XMLDocument} {x : XMLElement}
    {s : Nat × String × List (String × String)}
    {S1 S2 : List (Nat × String × List (String × String))}
    (h : AddElementToTopOfRoot f d x = some f1)
    (hmap : d.root.children.map XMLElement.sig = S1 ++ s :: S2)
    (hs : s.1 = f.main_producer)
    (hS1 : ∀ y ∈ S1, y.1 ≠ f.main_producer) :
    f1.xml_doc.root.children.map XMLElement.sig = S1 ++ s :: x.sig :: S2 ∧
      f1.xml_doc.root.ptr = d.root.ptr ∧ f1.xml_doc.next_ptr = d.next_ptr ∧
      f1.last_added_root_element =
        (if f.last_added_root_element = f.main_producer then x.ptr
          else f.last_added_root_element) ∧
      f1.track_count = f.track_count ∧
      f1.chain_count = f.chain_count ∧ f1.main_producer = f.main_producer ∧
      f1.main_bin = f.main_bin ∧ f1.timeline_tractor = f.timeline_tractor := by
  unfold AddElementToTopOfRoot XMLDocument.InsertAfterRootChild at h
  simp only [Option.map_eq_some'] at h
  obtain ⟨d1, ⟨cs', hcs, rfl⟩, rfl⟩ := h
  refine ⟨?_, withChildren_ptr _ _, rfl, rfl, rfl, rfl, rfl, rfl, rfl⟩
  show (d.root.withChildren cs').children.map XMLElement.sig = _
  rw [withChildren_children]
  exact insertAfter_sig x hs _ _ _ hcs hmap hS1

theorem setTrackTypeProperties_sig {d d' : XMLDocument} {ty : TrackType}
    {p1 p2 tr t1 t2 : Nat}
    (h : setTrackTypeProperties d ty p1 p2 tr t1 t2 = some d')
    (hr1 : d.root.ptr ≠ p1) (hr2 : d.root.ptr ≠ p2) (hr3 : d.root.ptr ≠ tr)
    (hr4 : d.root.ptr ≠ t1) (hr5 : d.root.ptr ≠ t2)
    (ht1 : ∀ c ∈ d.root.children, c.ptr ≠ t1) (ht2 : ∀ c ∈ d.root.children, c.ptr ≠ t2)
    (hb : ∀ c ∈ d.root.children, c.ptr < d.next_ptr) :
    d'.root.children.map XMLElement.sig = d.root.children.map XMLElement.sig ∧
      d'.root.ptr = d.root.ptr ∧ d.next_ptr ≤ d'.next_ptr := by
  cases ty with
  | VIDEO =>
    unfold setTrackTypeProperties at h
    simp only [bind, Option.bind_eq_some] at h
    obtain ⟨da, ha, hb'⟩ := h
    obtain ⟨a1, a2, a3⟩ := modify_sig ha hr4 ht1
    obtain ⟨b1, b2, b3⟩ := modify_sig hb' (by rw [a2]; exact hr5) (ptr_transfer (fun p => p ≠ t2) a1 ht2)
    exact ⟨by rw [b1, a1], by rw [b2, a2], by rw [b3, a3]⟩
  | AUDIO =>
    unfold setTrackTypeProperties at h
    simp only [CreatePropertyElement_eq, bind, Option.bind_eq_some] at h
    obtain ⟨da, ha, db, hb', dc, hc, dd, hd, he⟩ := h
    obtain ⟨a1, a2, a3⟩ := modify_sig ha hr4 ht1
    obtain ⟨b1, b2, b3⟩ := modify_sig hb' (by rw [a2]; exact hr5) (ptr_transfer (fun p => p ≠ t2) a1 ht2)
    have hbb : ∀ c ∈ db.root.children, c.ptr ≠ db.next_ptr := by
      rw [b3, a3]
      exact ptr_transfer (fun p => p ≠ d.next_ptr) (b1.trans a1)
        (fun c hc => Nat.ne_of_lt (hb c hc))
    obtain ⟨c1, c2, c3⟩ := InsertFirstChild_sig hc
      (show db.root.ptr ≠ p1 by rw [b2, a2]; exact hr1) hbb
    obtain ⟨d1, d2, d3⟩ := InsertFirstChild_sig hd
      (show dc.root.ptr ≠ p2 by rw [c2]; show db.root.ptr ≠ p2; rw [b2, a2]; exact hr2)
      (ptr_transfer (fun p => p ≠ db.next_ptr) c1 hbb)
    obtain ⟨e1, e2, e3⟩ := InsertFirstChild_sig he
      (show dd.root.ptr ≠ tr by
        rw [d2, c2]; show db.root.ptr ≠ tr; rw [b2, a2]; exact hr3)
      (ptr_transfer (fun p => p ≠ db.next_ptr) (d1.trans c1) hbb)
    refine ⟨?_, ?_, ?_⟩
    · rw [e1, d1, c1]; exact b1.trans a1
    · rw [e2, d2, c2]; show db.root.ptr = _; rw [b2, a2]
    · rw [e3, d3, c3]; show d.next_ptr ≤ db.next_ptr + 1; rw [b3, a3]; omega

/-- The steps of `AddTrack` after the three insertions below the root leave the order of
the root's children as it is. -/
theorem track_tail_sig {d3 d4 d5 d6 d7 : XMLDocument} {t1 t2 t3 : XMLElement}
    {ty : TrackType} {n tt : Nat} {s1 s2 st : String}
    (hr : d3.root.ptr < n) (hn : d3.next_ptr = n + 3)
    (hb3 : ∀ c ∈ d3.root.children, c.ptr < n + 3) (hrt : d3.root.ptr ≠ tt)
    (h4 : AddTrackElement d3 (n + 2) s1 = some (d4, t1))
    (h5 : AddTrackElement d4 (n + 2) s2 = some (d5, t2))
    (h6 : setTrackTypeProperties d5 ty n (n + 1) (n + 2) t1.ptr t2.ptr = some d6)
    (h7 : AddTrackElement d6 tt st = some (d7, t3)) :
    d7.root.children.map XMLElement.sig = d3.root.children.map XMLElement.sig ∧
      d7.root.ptr = d3.root.ptr ∧ n + 3 ≤ d7.next_ptr := by
  obtain ⟨e1, e2, e3, e4⟩ := AddTrackElement_sig h4 (Nat.ne_of_lt (Nat.lt_add_right 2 hr))
    (by rw [hn]; exact hb3)
  rw [hn] at e3 e4
  have hb4 : ∀ c ∈ d4.root.children, c.ptr < n + 3 :=
    ptr_transfer (fun p => p < n + 3) e1 hb3
  obtain ⟨g1, g2, g3, g4⟩ := AddTrackElement_sig h5
    (by rw [e2]; exact Nat.ne_of_lt (Nat.lt_add_right 2 hr))
    (by rw [e3]; exact fun c hc => Nat.lt_succ_of_lt (hb4 c hc))
  rw [e3] at g3 g4
  have hb5 : ∀ c ∈ d5.root.children, c.ptr < n + 3 :=
    ptr_transfer (fun p => p < n + 3) g1 hb4
  have r5 : d5.root.ptr = d3.root.ptr := by rw [g2, e2]
  rw [e4, g4] at h6
  have hr5 : d5.root.ptr < n := by rw [r5]; exact hr
  obtain ⟨k1, k2, k3⟩ := setTrackTypeProperties_sig h6 (Nat.ne_of_lt hr5)
    (Nat.ne_of_lt (Nat.lt_add_right 1 hr5)) (Nat.ne_of_lt (Nat.lt_add_right 2 hr5))
    (Nat.ne_of_lt (Nat.lt_add_right 3 hr5)) (Nat.ne_of_lt (Nat.lt_add_right 4 hr5))
    (fun c hc => Nat.ne_of_lt (hb5 c hc))
    (fun c hc => Nat.ne_of_lt (Nat.lt_succ_of_lt (hb5 c hc)))
    (by rw [g3]; exact fun c hc => Nat.lt_add_right 2 (hb5 c hc))
  rw [g3] at k3
  have hb6 : ∀ c ∈ d6.root.children, c.ptr < n + 3 :=
    ptr_transfer (fun p => p < n + 3) k1 hb5
  have k3' : n + 3 ≤ d6.next_ptr := Nat.le_trans (Nat.le_add_right (n + 3) 2) k3
  obtain ⟨m1, m2, m3, -⟩ := AddTrackElement_sig h7
    (by rw [k2, r5]; exact hrt)
    (fun c hc => Nat.lt_of_lt_of_le (hb6 c hc) k3')
  refine ⟨?_, ?_, ?_⟩
  · rw [m1, k1, g1, e1]
  · rw [m2, k2, r5]
  · rw [m3]; exact Nat.le_succ_of_le k3'

/-- The order of the root's children after `AddTrack`: the two playlists and the tractor of
the new track stand behind the cursor node, in this order, and the other children keep
their places. -/
theorem AddTrack_sig {f f' : KdenliveFile} {ty : TrackType} {id : Nat}
    {s : Nat × String × List (String × String)}
    {S1 S2 : List (Nat × String × List (String × String))}
    (h : f.AddTrack ty = some (f', id))
    (hr : f.xml_doc.root.ptr < f.xml_doc.next_ptr)
    (hmap : f.xml_doc.root.children.map XMLElement.sig = S1 ++ s :: S2)
    (hb : ∀ y ∈ S1 ++ s :: S2, y.1 < f.xml_doc.next_ptr)
    (hs : s.1 = f.last_added_root_element)
    (hS1 : ∀ y ∈ S1, y.1 ≠ f.last_added_root_element)
    (htt : ∀ tt, f.timeline_tractor = some tt → f.xml_doc.root.ptr ≠ tt) :
    f'.xml_doc.root.children.map XMLElement.sig =
        S1 ++ s ::
          (f.xml_doc.next_ptr, "playlist", [("id", "playlist" ++ toString (f.track_count * 2))]) ::
          (f.xml_doc.next_ptr + 1, "playlist",
            [("id", "playlist" ++ toString (f.track_count * 2 + 1))]) ::
          (f.xml_doc.next_ptr + 2, "tractor", [("id", "tractor" ++ toString f.track_count)]) ::
          S2 ∧
      f'.xml_doc.root.ptr = f.xml_doc.root.ptr ∧
      f.xml_doc.next_ptr + 3 ≤ f'.xml_doc.next_ptr ∧
      f'.last_added_root_element = f.xml_doc.next_ptr + 2 ∧
      f'.track_count = f.track_count + 1 ∧ f'.chain_count = f.chain_count ∧
      f'.main_producer = f.main_producer ∧ f'.main_bin = f.main_bin ∧
      f'.timeline_tractor = f.timeline_tractor := by
  have hbS1 : ∀ y ∈ S1, y.1 < f.xml_doc.next_ptr :=
    fun y hy => hb y (List.mem_append_left _ hy)
  have hbs : s.1 < f.xml_doc.next_ptr :=
    hb s (List.mem_append_right _ (List.mem_cons_self _ _))
  unfold AddTrack at h
  simp only [bind, Option.bind_eq_some, pure, Option.some.injEq] at h
  obtain ⟨f1, h1, f2, h2, f3, h3, ⟨d4, t1⟩, h4, ⟨d5, t2⟩, h5, d6, h6, tt, htt', ⟨d7, t3⟩, h7, h⟩ := h
  simp only [Option.some.injEq, Prod.mk.injEq] at h
  obtain ⟨rfl, rfl⟩ := h
  obtain ⟨a1, a2, a3, a4, a5, a6, a7, a8, a9⟩ :=
    AddElementToRoot_sig h1 (show _ = S1 ++ s :: S2 from hmap) hs hS1
  have a1' : f1.xml_doc.root.children.map XMLElement.sig = (S1 ++ [s]) ++
      (f.xml_doc.next_ptr, "playlist", [("id", "playlist" ++ toString (f.track_count * 2))]) ::
      S2 := by
    rw [a1, List.append_assoc]; rfl
  have a2' : f1.xml_doc.root.ptr = f.xml_doc.root.ptr := a2
  have a3' : f1.xml_doc.next_ptr = f.xml_doc.next_ptr + 1 := a3
  have a4' : f1.last_added_root_element = f.xml_doc.next_ptr := a4
  obtain ⟨b1, b2, b3, b4, b5, b6, b7, b8, b9⟩ :=
    AddElementToRoot_sig h2 (show _ = (S1 ++ [s]) ++ _ :: S2 from a1') (by rw [a4'])
      (fun y hy => by
        rw [a4']
        rcases List.mem_append.1 hy with hy | hy
        · exact Nat.ne_of_lt (hbS1 y hy)
        · rw [List.mem_singleton] at hy
          rw [hy]; exact Nat.ne_of_lt hbs)
  have b1' : f2.xml_doc.root.children.map XMLElement.sig = (S1 ++ [s,
      (f.xml_doc.next_ptr, "playlist", [("id", "playlist" ++ toString (f.track_count * 2))])])
      ++ (f.xml_doc.next_ptr + 1, "playlist",
        [("id", "playlist" ++ toString (f.track_count * 2 + 1))]) :: S2 := by
    rw [b1]
    show _ ++ _ :: (f1.xml_doc.next_ptr, _, _) :: _ = _
    rw [a3']
    simp only [List.append_assoc, List.cons_append, List.nil_append]
    rfl
  have b2' : f2.xml_doc.root.ptr = f.xml_doc.root.ptr := by rw [b2]; exact a2'
  have b3' : f2.xml_doc.next_ptr = f.xml_doc.next_ptr + 2 := by
    rw [b3]; show f1.xml_doc.next_ptr + 1 = _; rw [a3']
  have b4' : f2.last_added_root_element = f.xml_doc.next_ptr + 1 := by
    rw [b4]; show f1.xml_doc.next_ptr = _; rw [a3']
  have b5' : f2.track_count = f.track_count := by rw [b5, a5]
  obtain ⟨c1, c2, c3, c4, c5, c6, c7, c8, c9⟩ :=
    AddElementToRoot_sig h3 (show _ = (S1 ++ [s, _]) ++ _ :: S2 from b1') (by rw [b4'])
      (fun y hy => by
        rw [b4']
        simp only [List.mem_append, List.mem_cons, List.mem_singleton, List.not_mem_nil,
          or_false] at hy
        rcases hy with hy | hy | hy
        · exact Nat.ne_of_lt (Nat.lt_succ_of_lt (hbS1 y hy))
        · rw [hy]; exact Nat.ne_of_lt (Nat.lt_succ_of_lt hbs)
        · rw [hy]; show f.xml_doc.next_ptr ≠ _; omega)
  have c1' : f3.xml_doc.root.children.map XMLElement.sig = S1 ++ s ::
      (f.xml_doc.next_ptr, "playlist", [("id", "playlist" ++ toString (f.track_count * 2))]) ::
      (f.xml_doc.next_ptr + 1, "playlist",
        [("id", "playlist" ++ toString (f.track_count * 2 + 1))]) ::
      (f.xml_doc.next_ptr + 2, "tractor", [("id", "tractor" ++ toString f.track_count)]) ::
      S2 := by
    rw [c1]
    show _ ++ _ :: (f2.xml_doc.next_ptr, _, [("id", "tractor" ++ toString f2.track_count)]) :: _
      = _
    rw [b3', b5']
    simp only [List.append_assoc, List.cons_append, List.nil_append]
    rfl
  have c2' : f3.xml_doc.root.ptr = f.xml_doc.root.ptr := by rw [c2]; exact b2'
  have c3' : f3.xml_doc.next_ptr = f.xml_doc.next_ptr + 3 := by
    rw [c3]; show f2.xml_doc.next_ptr + 1 = _; rw [b3']
  have c4' : f3.last_added_root_element = f.xml_doc.next_ptr + 2 := by
    rw [c4]; show f2.xml_doc.next_ptr = _; rw [b3']
  have hb3 : ∀ c ∈ f3.xml_doc.root.children, c.ptr < f.xml_doc.next_ptr + 3 := by
    apply ptr_of_sigs (fun p => p < f.xml_doc.next_ptr + 3) c1'
    intro y hy
    simp only [List.mem_append, List.mem_cons] at hy
    rcases hy with hy | hy | hy | hy | hy | hy
    · exact Nat.lt_add_right 3 (hbS1 y hy)
    · rw [hy]; exact Nat.lt_add_right 3 hbs
    · rw [hy]; show f.xml_doc.next_ptr < _; omega
    · rw [hy]; show f.xml_doc.next_ptr + 1 < _; omega
    · rw [hy]; show f.xml_doc.next_ptr + 2 < _; omega
    · exact Nat.lt_add_right 3 (hb y (List.mem_append_right _ (List.mem_cons_of_mem _ hy)))
  have h4' : AddTrackElement f3.xml_doc f2.xml_doc.next_ptr
      ("playlist" ++ toString (f.track_count * 2)) = some (d4, t1) := h4
  have h5' : AddTrackElement d4 f2.xml_doc.next_ptr
      ("playlist" ++ toString (f.track_count * 2 + 1)) = some (d5, t2) := h5
  rw [b3'] at h4' h5'
  have h6' : setTrackTypeProperties d5 ty f.xml_doc.next_ptr f1.xml_doc.next_ptr
      f2.xml_doc.next_ptr t1.ptr t2.ptr = some d6 := h6
  rw [a3', b3'] at h6'
  have htt'' : f.timeline_tractor = some tt := by rw [← a9, ← b9, ← c9]; exact htt'
  obtain ⟨m1, m2, m3⟩ := track_tail_sig (by rw [c2']; exact hr) c3' hb3
    (by rw [c2']; exact htt tt htt'') h4' h5' h6' h7
  refine ⟨?_, ?_, ?_, c4', ?_, ?_, ?_, ?_, ?_⟩
  · show d7.root.children.map XMLElement.sig = _
    rw [m1, c1']
  · show d7.root.ptr = _
    rw [m2, c2']
  · exact m3
  · show f3.track_count + 1 = _
    rw [c5, b5']
  · show f3.chain_count = _
    rw [c6, b6, a6]
  · show f3.main_producer = _
    rw [c7, b7, a7]
  · show f3.main_bin = _
    rw [c8, b8, a8]
  · show f3.timeline_tractor = _
    rw [c9, b9, a9]

theorem CreateChainElement_eq (d : XMLDocument) (id resource : String) :
    CreateChainElement d id resource =
      ({ d with next_ptr := d.next_ptr + 2 },
        XMLElement.node d.next_ptr "chain" [("id", id)] none
          [XMLElement.node (d.next_ptr + 1) "property" [("name", "resource")]
            (some resource) []]) := rfl

/-- The order of the root's children after `AddClipToBin`: the new chain stands behind the
main producer, and the other children keep their places. -/
theorem AddClipToBin_sig [Stale] {f f' : KdenliveFile} {path : String} {id : Nat}
    {s : Nat × String × List (String × String)}
    {S1 S2 : List (Nat × String × List (String × String))}
    (h : f.AddClipToBin path = some (f', id))
    (hmap : f.xml_doc.root.children.map XMLElement.sig = S1 ++ s :: S2)
    (hb : ∀ y ∈ S1 ++ s :: S2, y.1 < f.xml_doc.next_ptr)
    (hs : s.1 = f.main_producer)
    (hS1 : ∀ y ∈ S1, y.1 ≠ f.main_producer)
    (hmb : f.xml_doc.root.ptr ≠ f.main_bin) :
    f'.xml_doc.root.children.map XMLElement.sig =
        S1 ++ s :: (f.xml_doc.next_ptr, "chain",
          [("id", Stale.read f.xml_doc.next_ptr "id" ("chain" ++ toString f.chain_count))]) ::
          S2 ∧
      f'.xml_doc.root.ptr = f.xml_doc.root.ptr ∧
      f'.xml_doc.next_ptr = f.xml_doc.next_ptr + 3 ∧
      f'.last_added_root_element =
        (if f.last_added_root_element = f.main_producer then f.xml_doc.next_ptr
          else f.last_added_root_element) ∧
      f'.track_count = f.track_count ∧ f'.chain_count = f.chain_count + 1 ∧
      f'.main_producer = f.main_producer ∧ f'.main_bin = f.main_bin ∧
      f'.timeline_tractor = f.timeline_tractor := by
  unfold AddClipToBin at h
  simp only [bind, Option.bind_eq_some, pure, Option.some.injEq] at h
  obtain ⟨f1, h1, ⟨d2, e2⟩, h2, h⟩ := h
  simp only [Option.some.injEq, Prod.mk.injEq] at h
  obtain ⟨rfl, rfl⟩ := h
  obtain ⟨a1, a2, a3, a4, a5, a6, a7, a8, a9⟩ :=
    AddElementToTopOfRoot_sig h1 (show _ = S1 ++ s :: S2 from hmap) hs hS1
  have a1' : f1.xml_doc.root.children.map XMLElement.sig = S1 ++ s ::
      (f.xml_doc.next_ptr, "chain",
        [("id", Stale.read f.xml_doc.next_ptr "id" ("chain" ++ toString f.chain_count))]) ::
        S2 := a1
  have a2' : f1.xml_doc.root.ptr = f.xml_doc.root.ptr := a2
  have a3' : f1.xml_doc.next_ptr = f.xml_doc.next_ptr + 2 := a3
  have hb1 : ∀ c ∈ f1.xml_doc.root.children, c.ptr < f1.xml_doc.next_ptr := by
    rw [a3']
    apply ptr_of_sigs (fun p => p < f.xml_doc.next_ptr + 2) a1'
    intro y hy
    simp only [List.mem_append, List.mem_cons] at hy
    rcases hy with hy | hy | hy | hy
    · exact Nat.lt_add_right 2 (hb y (List.mem_append_left _ hy))
    · rw [hy]; exact Nat.lt_add_right 2 (hb s (List.mem_append_right _ (List.mem_cons_self _ _)))
    · rw [hy]; exact Nat.lt_add_of_pos_right (by decide)
    · exact Nat.lt_add_right 2 (hb y (List.mem_append_right _ (List.mem_cons_of_mem _ hy)))
  have h2' : AddEntryElement f1.xml_doc f.main_bin 0 0
      (Stale.read f1.xml_doc.next_ptr "producer" ("chain" ++ toString f.chain_count)) =
      some (d2, e2) := by
    rw [← a8]; exact h2
  obtain ⟨m1, m2, m3⟩ := AddEntryElement_sig h2' (by rw [a2']; exact hmb) hb1
  refine ⟨?_, ?_, ?_, a4, a5, ?_, a7, a8, a9⟩
  · show d2.root.children.map XMLElement.sig = _
    rw [m1, a1']
  · show d2.root.ptr = _
    rw [m2, a2']
  · show d2.next_ptr = _
    rw [m3, a3']
  · show f1.chain_count + 1 = _
    rw [a6]

theorem chainLabels_length [Stale] (first : Nat) (ptrs : List Nat) :
    (chainLabels first ptrs).length = ptrs.length := by
  induction ptrs with
  | nil => rfl
  | cons p ps ih => simp [chainLabels, ih]

theorem trackLabels_succ (first n : Nat) :
    trackLabels first (n + 1) = trackLabels first n ++
      [("playlist", some ("playlist" ++ toString ((first + n) * 2))),
       ("playlist", some ("playlist" ++ toString ((first + n) * 2 + 1))),
       ("tractor", some ("tractor" ++ toString (first + n)))] := by
  unfold trackLabels
  rw [List.range_succ, List.flatMap_append]
  simp

theorem sigLabel_id (p : Nat) (n v : String) : sigLabel (p, n, [("id", v)]) = (n, some v) := by
  have h : ("id" == "id") = true := by decide
  simp [sigLabel, List.find?, h]

theorem label_eq_sigLabel (e : XMLElement) : e.label = sigLabel e.sig := rfl

theorem RootLayout.addTrack [Stale] {PRE POST : List (Nat × String × List (String × String))}
    {MP : Nat × String × List (String × String)} {n0 c0 k0 a b : Nat}
    {f f' : KdenliveFile} {ty : TrackType} {id : Nat}
    (hl : RootLayout PRE MP POST n0 c0 k0 f a b) (h : f.AddTrack ty = some (f', id)) :
    RootLayout PRE MP POST n0 c0 k0 f' a (b + 1) := by
  obtain ⟨C, T, i1, i2, i3, i4, i5, i6, i7, i8, i9, ⟨L, cur, j1, j2, j3⟩, i10, i11, i12, i13⟩ := hl
  have hsplit : PRE ++ MP :: (C ++ T ++ POST) = (PRE ++ L) ++ cur :: POST := by
    have : MP :: (C ++ T ++ POST) = (MP :: (C ++ T)) ++ POST := by simp
    rw [this, j1]; simp
  have hold : ∀ y ∈ (PRE ++ L) ++ cur :: POST, y.1 < f.xml_doc.next_ptr := by
    intro y hy
    rw [← hsplit] at hy
    have hy' : y ∈ PRE ++ MP :: POST ∨ y ∈ C ++ T := by
      simp only [List.mem_append, List.mem_cons] at hy ⊢
      tauto
    rcases hy' with hy' | hy'
    · exact Nat.lt_of_lt_of_le (i7 y hy') i8
    · exact (i9 y hy').2
  have hroot : f.xml_doc.root.ptr < f.xml_doc.next_ptr := Nat.lt_of_lt_of_le i11 i8
  obtain ⟨e1, e2, e3, e4, e5, e6, e7, e8, e9⟩ := AddTrack_sig h hroot (i1.trans hsplit) hold j2
    (fun y hy => by rw [← j2]; exact j3 y hy) i13
  refine ⟨C, T ++ [(f.xml_doc.next_ptr, "playlist",
      [("id", "playlist" ++ toString (f.track_count * 2))]),
    (f.xml_doc.next_ptr + 1, "playlist",
      [("id", "playlist" ++ toString (f.track_count * 2 + 1))]),
    (f.xml_doc.next_ptr + 2, "tractor", [("id", "tractor" ++ toString f.track_count)])],
    ?_, i2, ?_, by rw [e6, i4], by rw [e5, i5, Nat.add_assoc], by rw [e7]; exact i6, i7,
    Nat.le_trans i8 (Nat.le_trans (Nat.le_add_right _ 3) e3), ?_, ?_, i10,
    by rw [e2]; exact i11, by rw [e2, e8]; exact i12, by rw [e2, e9]; exact i13⟩
  · rw [e1]
    have : MP :: (C ++ (T ++ [(f.xml_doc.next_ptr, "playlist",
        [("id", "playlist" ++ toString (f.track_count * 2))]),
      (f.xml_doc.next_ptr + 1, "playlist",
        [("id", "playlist" ++ toString (f.track_count * 2 + 1))]),
      (f.xml_doc.next_ptr + 2, "tractor", [("id", "tractor" ++ toString f.track_count)])]) ++
        POST) = (MP :: (C ++ T)) ++ ((f.xml_doc.next_ptr, "playlist",
        [("id", "playlist" ++ toString (f.track_count * 2))]) ::
      (f.xml_doc.next_ptr + 1, "playlist",
        [("id", "playlist" ++ toString (f.track_count * 2 + 1))]) ::
      (f.xml_doc.next_ptr + 2, "tractor", [("id", "tractor" ++ toString f.track_count)]) ::
        POST) := by simp
    rw [this, j1]
    simp
  · rw [List.map_append, i3, trackLabels_succ, i5]
    simp only [List.map_cons, List.map_nil, sigLabel_id]
  · intro y hy
    have hy' : y ∈ C ++ T ∨ y.1 = f.xml_doc.next_ptr ∨ y.1 = f.xml_doc.next_ptr + 1 ∨
        y.1 = f.xml_doc.next_ptr + 2 := by
      simp only [List.mem_append, List.mem_cons, List.not_mem_nil, or_false] at hy ⊢
      rcases hy with hy | hy | hy | hy | hy
      · exact Or.inl (Or.inl hy)
      · exact Or.inl (Or.inr hy)
      · exact Or.inr (Or.inl (by rw [hy]))
      · exact Or.inr (Or.inr (Or.inl (by rw [hy])))
      · exact Or.inr (Or.inr (Or.inr (by rw [hy])))
    rcases hy' with hy' | hy' | hy' | hy'
    · exact ⟨(i9 y hy').1, Nat.lt_of_lt_of_le (i9 y hy').2
        (Nat.le_trans (Nat.le_add_right _ 3) e3)⟩
    · rw [hy']; exact ⟨i8, by omega⟩
    · rw [hy']; exact ⟨by omega, by omega⟩
    · rw [hy']; exact ⟨by omega, by omega⟩
  · refine ⟨L ++ [cur, (f.xml_doc.next_ptr, "playlist",
        [("id", "playlist" ++ toString (f.track_count * 2))]),
      (f.xml_doc.next_ptr + 1, "playlist",
        [("id", "playlist" ++ toString (f.track_count * 2 + 1))])],
      (f.xml_doc.next_ptr + 2, "tractor", [("id", "tractor" ++ toString f.track_count)]),
      ?_, e4.symm, ?_⟩
    · have : MP :: (C ++ (T ++ [(f.xml_doc.next_ptr, "playlist",
          [("id", "playlist" ++ toString (f.track_count * 2))]),
        (f.xml_doc.next_ptr + 1, "playlist",
          [("id", "playlist" ++ toString (f.track_count * 2 + 1))]),
        (f.xml_doc.next_ptr + 2, "tractor", [("id", "tractor" ++ toString f.track_count)])]))
          = (MP :: (C ++ T)) ++ [(f.xml_doc.next_ptr, "playlist",
          [("id", "playlist" ++ toString (f.track_count * 2))]),
        (f.xml_doc.next_ptr + 1, "playlist",
          [("id", "playlist" ++ toString (f.track_count * 2 + 1))]),
        (f.xml_doc.next_ptr + 2, "tractor", [("id", "tractor" ++ toString f.track_count)])] := by
        simp
      rw [this, j1]
      simp
    · intro y hy
      show y.1 ≠ f.xml_doc.next_ptr + 2
      have hy' : y ∈ (PRE ++ L) ++ cur :: POST ∨ y.1 = f.xml_doc.next_ptr ∨
          y.1 = f.xml_doc.next_ptr + 1 := by
        simp only [List.mem_append, List.mem_cons, List.not_mem_nil, or_false] at hy ⊢
        rcases hy with hy | hy | hy | hy | hy
        · exact Or.inl (Or.inl (Or.inl hy))
        · exact Or.inl (Or.inl (Or.inr hy))
        · exact Or.inl (Or.inr (Or.inl hy))
        · exact Or.inr (Or.inl (by rw [hy]))
        · exact Or.inr (Or.inr (by rw [hy]))
      rcases hy' with hy' | hy' | hy'
      · have := hold y hy'
        omega
      · omega
      · omega

theorem RootLayout.addClipToBin [Stale] {PRE POST : List (Nat × String × List (String × String))}
    {MP : Nat × String × List (String × String)} {n0 c0 k0 a b : Nat}
    {f f' : KdenliveFile} {path : String} {id : Nat}
    (hl : RootLayout PRE MP POST n0 c0 k0 f a b) (h : f.AddClipToBin path = some (f', id)) :
    RootLayout PRE MP POST n0 c0 k0 f' (a + 1) b := by
  obtain ⟨C, T, i1, i2, i3, i4, i5, i6, i7, i8, i9, ⟨L, cur, j1, j2, j3⟩, i10, i11, i12, i13⟩ := hl
  have hold : ∀ y ∈ PRE ++ MP :: (C ++ T ++ POST), y.1 < f.xml_doc.next_ptr := by
    intro y hy
    have hy' : y ∈ PRE ++ MP :: POST ∨ y ∈ C ++ T := by
      simp only [List.mem_append, List.mem_cons] at hy ⊢
      tauto
    rcases hy' with hy' | hy'
    · exact Nat.lt_of_lt_of_le (i7 y hy') i8
    · exact (i9 y hy').2
  obtain ⟨e1, e2, e3, e4, e5, e6, e7, e8, e9⟩ := AddClipToBin_sig h i1 hold i6
    (fun y hy => by rw [← i6]; exact i10 y hy) i12
  refine ⟨(f.xml_doc.next_ptr, "chain",
    [("id", Stale.read f.xml_doc.next_ptr "id" ("chain" ++ toString f.chain_count))]) :: C, T,
    ?_, ?_, i3, by rw [e6, i4, Nat.add_assoc], by rw [e5, i5], by rw [e7]; exact i6, i7,
    by rw [e3]; exact Nat.le_trans i8 (Nat.le_add_right _ 3), ?_, ?_, i10,
    by rw [e2]; exact i11, by rw [e2, e8]; exact i12, by rw [e2, e9]; exact i13⟩
  · rw [e1]; simp
  · refine ⟨?_, by rw [List.length_cons, i2.2]⟩
    rw [List.map_cons, List.map_cons, i2.1, sigLabel_id, i4]
    show _ = ("chain", some (Stale.read f.xml_doc.next_ptr "id"
      ("chain" ++ toString (c0 + (C.map Prod.fst).length)))) :: _
    rw [List.length_map, i2.2]
  · intro y hy
    rw [e3]
    rw [List.cons_append, List.mem_cons] at hy
    rcases hy with hy | hy
    · rw [hy]; exact ⟨i8, Nat.lt_add_of_pos_right (by decide)⟩
    · exact ⟨(i9 y hy).1, Nat.lt_add_right 3 (i9 y hy).2⟩
  · cases L with
    | nil =>
      simp only [List.nil_append, List.cons.injEq] at j1
      obtain ⟨hcur, hCT⟩ := j1
      refine ⟨[MP], (f.xml_doc.next_ptr, "chain",
        [("id", Stale.read f.xml_doc.next_ptr "id" ("chain" ++ toString f.chain_count))]),
        ?_, ?_, ?_⟩
      · rw [List.cons_append, hCT]; rfl
      · rw [e4, if_pos (by rw [← j2, ← hcur, i6])]
      · intro y hy
        show y.1 ≠ f.xml_doc.next_ptr
        have : y.1 < n0 := i7 y (by
          simp only [List.mem_append, List.mem_cons, List.mem_singleton, List.not_mem_nil,
            or_false] at hy ⊢
          tauto)
        omega
    | cons m L0 =>
      simp only [List.cons_append, List.cons.injEq] at j1
      obtain ⟨hm, hCT⟩ := j1
      have hne : f.last_added_root_element ≠ f.main_producer := by
        rw [← j2, ← i6]
        exact fun he => j3 MP (by rw [hm]; simp) he.symm
      have hcurlt : cur.1 < f.xml_doc.next_ptr := (i9 cur (by rw [hCT]; simp)).2
      refine ⟨MP :: (f.xml_doc.next_ptr, "chain",
        [("id", Stale.read f.xml_doc.next_ptr "id" ("chain" ++ toString f.chain_count))]) ::
        L0, cur, ?_, ?_, ?_⟩
      · rw [List.cons_append, hCT]; rfl
      · rw [e4, if_neg hne]; exact j2
      · intro y hy
        have hy' : y ∈ PRE ++ m :: L0 ∨ y.1 = f.xml_doc.next_ptr := by
          simp only [List.mem_append, List.mem_cons] at hy ⊢
          rcases hy with hy | hy | hy | hy
          · exact Or.inl (Or.inl hy)
          · exact Or.inl (Or.inr (Or.inl (by rw [hy, hm])))
          · exact Or.inr (by rw [hy])
          · exact Or.inl (Or.inr (Or.inr hy))
        rcases hy' with hy' | hy'
        · exact j3 y hy'
        · omega

theorem AddClipToBin_consistent [Stale] {f f' : KdenliveFile} {path : String} {id : Nat}
    (hc : Consistent f) (h : f.AddClipToBin path = some (f', id)) : Consistent f' := by
  obtain ⟨-, -, h1, h2, h3, -⟩ := AddClipToBin_book h
  refine ⟨by rw [h3, h1]; exact hc.1, fun j => ?_⟩
  show f'.track_lengths[j]? = _
  rw [h2, h3]
  exact hc.2 j

theorem AddElementToRoot_anchors {f f1 : KdenliveFile} {d : XMLDocument} {x : XMLElement}
    (h : AddElementToRoot f d x = some f1) :
    f1.main_producer = f.main_producer ∧ f1.main_bin = f.main_bin ∧
      f1.timeline_tractor = f.timeline_tractor ∧ f1.final_tractor = f.final_tractor ∧
      f1.profile = f.profile := by
  unfold AddElementToRoot at h
  simp only [Option.map_eq_some'] at h
  obtain ⟨d1, -, rfl⟩ := h
  exact ⟨rfl, rfl, rfl, rfl, rfl⟩

theorem AddElementToTopOfRoot_anchors {f f1 : KdenliveFile} {d : XMLDocument}
    {x : XMLElement} (h : AddElementToTopOfRoot f d x = some f1) :
    f1.main_producer = f.main_producer ∧ f1.main_bin = f.main_bin ∧
      f1.timeline_tractor = f.timeline_tractor ∧ f1.final_tractor = f.final_tractor ∧
      f1.profile = f.profile := by
  unfold AddElementToTopOfRoot at h
  simp only [Option.map_eq_some'] at h
  obtain ⟨d1, -, rfl⟩ := h
  exact ⟨rfl, rfl, rfl, rfl, rfl⟩

theorem AddTrack_anchors {f f' : KdenliveFile} {ty : TrackType} {id : Nat}
    (h : f.AddTrack ty = some (f', id)) :
    f'.main_producer = f.main_producer ∧ f'.main_bin = f.main_bin ∧
      f'.timeline_tractor = f.timeline_tractor ∧ f'.final_tractor = f.final_tractor ∧
      f'.profile = f.profile := by
  unfold AddTrack at h
  simp only [bind, Option.bind_eq_some, pure, Option.some.injEq] at h
  obtain ⟨f1, h1, f2, h2, f3, h3, ⟨d4, t1⟩, -, ⟨d5, t2⟩, -, d6, -, tt, -, ⟨d7, t3⟩, -, h⟩ := h
  simp only [Option.some.injEq, Prod.mk.injEq] at h
  obtain ⟨rfl, rfl⟩ := h
  obtain ⟨a1, a2, a3, a4, a5⟩ := AddElementToRoot_anchors h1
  obtain ⟨b1, b2, b3, b4, b5⟩ := AddElementToRoot_anchors h2
  obtain ⟨c1, c2, c3, c4, c5⟩ := AddElementToRoot_anchors h3
  exact ⟨by show f3.main_producer = _; rw [c1, b1, a1], by show f3.main_bin = _; rw [c2, b2, a2],
    by show f3.timeline_tractor = _; rw [c3, b3, a3],
    by show f3.final_tractor = _; rw [c4, b4, a4], by show f3.profile = _; rw [c5, b5, a5]⟩

theorem AddClipToBin_anchors [Stale] {f f' : KdenliveFile} {path : String} {id : Nat}
    (h : f.AddClipToBin path = some (f', id)) :
    f'.main_producer = f.main_producer ∧ f'.main_bin = f.main_bin ∧
      f'.timeline_tractor = f.timeline_tractor ∧ f'.final_tractor = f.final_tractor ∧
      f'.profile = f.profile := by
  unfold AddClipToBin at h
  simp only [bind, Option.bind_eq_some, pure, Option.some.injEq] at h
  obtain ⟨f1, h1, ⟨d2, e2⟩, -, h⟩ := h
  simp only [Option.some.injEq, Prod.mk.injEq] at h
  obtain ⟨rfl, rfl⟩ := h
  obtain ⟨a1, a2, a3, a4, a5⟩ := AddElementToTopOfRoot_anchors h1
  exact ⟨a1, a2, a3, a4, a5⟩

theorem RootCall.run_eq [Stale] {f f' : KdenliveFile} {c : RootCall} (h : c.run f = some f') :
    (∃ path id, c = RootCall.AddClipToBin path ∧ f.AddClipToBin path = some (f', id)) ∨
      ∃ ty id, c = RootCall.AddTrack ty ∧ f.AddTrack ty = some (f', id) := by
  cases c with
  | AddClipToBin path =>
    simp only [RootCall.run, Option.map_eq_some', Prod.exists, exists_and_right,
      exists_eq_right] at h
    obtain ⟨id, h⟩ := h
    exact Or.inl ⟨path, id, rfl, h⟩
  | AddTrack ty =>
    simp only [RootCall.run, Option.map_eq_some', Prod.exists, exists_and_right,
      exists_eq_right] at h
    obtain ⟨id, h⟩ := h
    exact Or.inr ⟨ty, id, rfl, h⟩

theorem runRootCalls_ok [Stale] :
    ∀ (calls : List RootCall) (f : KdenliveFile), DocOK f → Consistent f →
      ∃ f', runRootCalls calls f = some f' := by
  intro calls
  induction calls with
  | nil => intro f _ _; exact ⟨f, rfl⟩
  | cons c cs ih =>
    intro f hdoc hcons
    cases c with
    | AddClipToBin path =>
      obtain ⟨f1, id, h1, hd1⟩ := AddClipToBin_ok f path hdoc
      obtain ⟨f2, h2⟩ := ih f1 hd1 (AddClipToBin_consistent hcons h1)
      refine ⟨f2, ?_⟩
      simp only [runRootCalls, RootCall.run, h1, Option.map_some', Option.some_bind]
      exact h2
    | AddTrack ty =>
      obtain ⟨f1, h1, hd1⟩ := AddTrack_ok f ty hdoc hcons
      obtain ⟨f2, h2⟩ := ih f1 hd1 (AddTrack_consistent hcons h1)
      refine ⟨f2, ?_⟩
      simp only [runRootCalls, RootCall.run, h1, Option.map_some', Option.some_bind]
      exact h2

theorem runRootCalls_anchors [Stale] :
    ∀ (calls : List RootCall) (f f' : KdenliveFile), runRootCalls calls f = some f' →
      f'.main_producer = f.main_producer ∧ f'.main_bin = f.main_bin ∧
        f'.timeline_tractor = f.timeline_tractor ∧ f'.final_tractor = f.final_tractor ∧
        f'.profile = f.profile := by
  intro calls
  induction calls with
  | nil =>
    intro f f' h
    simp only [runRootCalls, Option.some.injEq] at h
    rw [← h]
    exact ⟨rfl, rfl, rfl, rfl, rfl⟩
  | cons c cs ih =>
    intro f f' h
    simp only [runRootCalls, Option.bind_eq_some] at h
    obtain ⟨f1, h1, h2⟩ := h
    obtain ⟨a1, a2, a3, a4, a5⟩ := ih f1 f' h2
    have hb : f1.main_producer = f.main_producer ∧ f1.main_bin = f.main_bin ∧
        f1.timeline_tractor = f.timeline_tractor ∧ f1.final_tractor = f.final_tractor ∧
        f1.profile = f.profile := by
      rcases RootCall.run_eq h1 with ⟨path, id, -, hh⟩ | ⟨ty, id, -, hh⟩
      · exact AddClipToBin_anchors hh
      · exact AddTrack_anchors hh
    obtain ⟨b1, b2, b3, b4, b5⟩ := hb
    exact ⟨a1.trans b1, a2.trans b2, a3.trans b3, a4.trans b4, a5.trans b5⟩

theorem runRootCalls_layout [Stale] {PRE POST : List (Nat × String × List (String × String))}
    {MP : Nat × String × List (String × String)} {n0 c0 k0 : Nat} :
    ∀ (calls : List RootCall) (f f' : KdenliveFile) (a b : Nat),
      RootLayout PRE MP POST n0 c0 k0 f a b → runRootCalls calls f = some f' →
      RootLayout PRE MP POST n0 c0 k0 f' (a + binCalls calls) (b + rootTrackCalls calls) := by
  intro calls
  induction calls with
  | nil =>
    intro f f' a b hl h
    simp only [runRootCalls, Option.some.injEq] at h
    rw [← h]
    exact hl
  | cons c cs ih =>
    intro f f' a b hl h
    simp only [runRootCalls, Option.bind_eq_some] at h
    obtain ⟨f1, h1, h2⟩ := h
    rcases RootCall.run_eq h1 with ⟨path, id, rfl, hh⟩ | ⟨ty, id, rfl, hh⟩
    · have := ih f1 f' (a + 1) b (hl.addClipToBin hh) h2
      rw [binCalls, rootTrackCalls]
      rw [Nat.add_assoc, Nat.add_comm 1] at this
      exact this
    · have := ih f1 f' a (b + 1) (hl.addTrack hh) h2
      rw [binCalls, rootTrackCalls]
      rw [Nat.add_assoc, Nat.add_comm 1] at this
      exact this

theorem new_cursor {template : XMLElement} {f : KdenliveFile}
    (h : KdenliveFile.new template = some f) :
    f.last_added_root_element = f.main_producer := by
  unfold KdenliveFile.new at h
  simp only [bind, Option.bind_eq_some, pure, Option.some.injEq] at h
  obtain ⟨_, _, _, _, _, _, _, _, _, _, _, _, _, _, _, _, rfl⟩ := h
  rfl

theorem RootLayout.initial [Stale]
    {f0 : KdenliveFile} {pre post : List XMLElement} {mp : XMLElement}
    (hanch : AnchorsOK f0) (hch : f0.xml_doc.root.children = pre ++ mp :: post)
    (hmp : mp.ptr = f0.main_producer) (hpre : ∀ y ∈ pre, y.ptr ≠ f0.main_producer)
    (hcur : f0.last_added_root_element = f0.main_producer) :
    RootLayout (pre.map XMLElement.sig) mp.sig (post.map XMLElement.sig) f0.xml_doc.next_ptr
      f0.chain_count f0.track_count f0 0 0 := by
  obtain ⟨hroot, hchild, -, -, hmb, tt, htt, httm⟩ := hanch
  have hpre' : ∀ y ∈ pre.map XMLElement.sig, y.1 ≠ mp.sig.1 := by
    intro y hy
    obtain ⟨c, hc, rfl⟩ := List.mem_map.1 hy
    show c.ptr ≠ mp.ptr
    rw [hmp]
    exact hpre c hc
  refine ⟨[], [], ?_, ⟨rfl, rfl⟩, rfl, rfl, rfl, hmp, ?_, Nat.le_refl _, ?_,
    ⟨[], mp.sig, rfl, ?_, ?_⟩, hpre', hroot, ?_, ?_⟩
  · rw [hch]; simp
  · intro y hy
    have hy' : y ∈ f0.xml_doc.root.children.map XMLElement.sig := by
      rw [hch]; simpa using hy
    obtain ⟨c, hc, rfl⟩ := List.mem_map.1 hy'
    exact (hchild c hc).1
  · intro y hy
    exact absurd hy (List.not_mem_nil _)
  · show mp.ptr = _
    rw [hmp, hcur]
  · intro y hy
    rw [List.append_nil] at hy
    exact hpre' y hy
  · obtain ⟨c, hc, hcp⟩ := List.mem_map.1 hmb
    rw [← hcp]
    exact fun h => (hchild c hc).2.1 h.symm
  · intro tt' htt'
    rw [htt] at htt'
    cases htt'
    obtain ⟨c, hc, hcp⟩ := List.mem_map.1 httm
    rw [← hcp]
    exact fun h => (hchild c hc).2.1 h.symm

theorem chainLabels_name [Stale] (first : Nat) (ptrs : List Nat) (l : String × Option String)
    (h : l ∈ chainLabels first ptrs) : l.1 = "chain" := by
  induction ptrs with
  | nil => exact absurd h (List.not_mem_nil _)
  | cons p ps ih =>
    rcases List.mem_cons.1 h with h | h
    · rw [h]
    · exact ih h

theorem first_with_ptr {q : Nat} : ∀ cs : List XMLElement, q ∈ cs.map XMLElement.ptr →
    ∃ l1 c l2, cs = l1 ++ c :: l2 ∧ c.ptr = q ∧ ∀ y ∈ l1, y.ptr ≠ q := by
  intro cs
  induction cs with
  | nil => intro h; exact absurd h (List.not_mem_nil _)
  | cons x xs ih =>
    intro h
    by_cases hx : x.ptr = q
    · exact ⟨[], x, xs, rfl, hx, fun y hy => absurd hy (List.not_mem_nil _)⟩
    · rw [List.map_cons, List.mem_cons] at h
      rcases h with h | h
      · exact absurd h.symm hx
      · obtain ⟨l1, c, l2, e, hc, hl⟩ := ih h
        refine ⟨x :: l1, c, l2, by rw [e]; rfl, hc, ?_⟩
        intro y hy
        rcases List.mem_cons.1 hy with hy | hy
        · rw [hy]; exact hx
        · exact hl y hy

/-- C19. Stable insertion positions.  Let `f0` be a file in order whose cursor is at the
main producer, which is the state in which the constructor leaves every file.  The children
of its root are `pre ++ mp :: post` with `mp` the main producer, and every sequence of
`AddClipToBin` and `AddTrack` calls runs through and leaves the root's children as
`pre' ++ mp' :: (chains ++ tracks ++ post')`: the nodes of `pre`, the main producer and the
nodes of `post` are still there with their addresses, names and attributes and in their
order, the chains `chains`, one `chain` node for each `AddClipToBin` call, stand directly
behind the main producer, newest first (the id of a chain is what is read through the
pointer `AddClipToBin` kept into the destroyed string `chain` followed by its number), the
track nodes `tracks` follow in creation order (`playlist(2k)`, `playlist(2k+1)`, `tractor(k)` for
each track), and all added nodes stand before `post`, which holds the timeline tractor, the
main bin and the final tractor of a template in which these follow the main producer.  The
anchors the file keeps do not change. -/
theorem stable_insertion_positions [Stale] (f0 : KdenliveFile) (calls : List RootCall)
    (hdoc : DocOK f0) (hcons : Consistent f0)
    (hcur : f0.last_added_root_element = f0.main_producer) :
    ∃ (pre : List XMLElement) (mp : XMLElement) (post : List XMLElement),
      f0.xml_doc.root.children = pre ++ mp :: post ∧ mp.ptr = f0.main_producer ∧
      (∀ y ∈ pre, y.ptr ≠ f0.main_producer) ∧
      (∃ f, runRootCalls calls f0 = some f) ∧
      (∀ f, runRootCalls calls f0 = some f →
        ∃ (pre' : List XMLElement) (mp' : XMLElement) (chains tracks post' : List XMLElement),
          f.xml_doc.root.children = pre' ++ mp' :: (chains ++ tracks ++ post') ∧
          pre'.map XMLElement.sig = pre.map XMLElement.sig ∧ mp'.sig = mp.sig ∧
          post'.map XMLElement.sig = post.map XMLElement.sig ∧
          chains.map XMLElement.label =
            chainLabels f0.chain_count (chains.map XMLElement.ptr) ∧
          chains.length = binCalls calls ∧ (∀ c ∈ chains, c.name = "chain") ∧
          tracks.map XMLElement.label = trackLabels f0.track_count (rootTrackCalls calls) ∧
          f.main_producer = f0.main_producer ∧ f.main_bin = f0.main_bin ∧
          f.timeline_tractor = f0.timeline_tractor ∧ f.final_tractor = f0.final_tractor) ∧
      (∀ template g, KdenliveFile.new template = some g →
        g.last_added_root_element = g.main_producer ∧ g.chain_count = 0 ∧
          g.track_count = 0) := by
  obtain ⟨pre, mp, post, hch, hmp, hpre⟩ := first_with_ptr _ hdoc.1.2.2.1
  refine ⟨pre, mp, post, hch, hmp, hpre, runRootCalls_ok calls f0 hdoc hcons, ?_,
    fun template g hg => ⟨new_cursor hg, (new_book hg).1, (new_book hg).2.1⟩⟩
  intro f hf
  have hl := runRootCalls_layout calls f0 f 0 0
    (RootLayout.initial hdoc.1 hch hmp hpre hcur) hf
  rw [Nat.zero_add, Nat.zero_add] at hl
  obtain ⟨C, T, i1, i2, i3, -⟩ := hl
  obtain ⟨a1, a2, a3, a4, -⟩ := runRootCalls_anchors calls f0 f hf
  obtain ⟨pre', rest, e1, e2, e3⟩ := List.map_eq_append_iff.1 i1
  obtain ⟨mp', rest2, e4, e5, e6⟩ := List.map_eq_cons_iff.1 e3
  obtain ⟨ct, post', e7, e8, e9⟩ := List.map_eq_append_iff.1 e6
  obtain ⟨chains, tracks, e10, e11, e12⟩ := List.map_eq_append_iff.1 e8
  have hlab : chains.map XMLElement.label =
      chainLabels f0.chain_count (chains.map XMLElement.ptr) := by
    have := i2.1
    rw [← e11, List.map_map, List.map_map] at this
    exact this
  refine ⟨pre', mp', chains, tracks, post', ?_, e2, e5, e9, hlab, ?_, ?_, ?_, a1, a2, a3, a4⟩
  · rw [e1, e4, e7, e10]
  · rw [← i2.2, ← e11, List.length_map]
  · intro c hc
    have hmem : c.label ∈ chainLabels f0.chain_count (chains.map XMLElement.ptr) := by
      rw [← hlab]
      exact List.mem_map_of_mem _ hc
    exact (chainLabels_name _ _ _ hmem)
  · rw [← i3, ← e12, List.map_map]
    rfl

theorem minimalTemplate_fresh :
    ∀ f0 ∈ KdenliveFile.new minimalTemplate,
      f0.xml_doc.root.children.map XMLElement.ptr = [1, 2, 8, 10, 13] ∧
      f0.main_producer = 2 ∧ f0.last_added_root_element = 2 ∧
      f0.timeline_tractor = some 8 ∧ f0.main_bin = 10 ∧ f0.final_tractor = 13 := by
  decide!

theorem minimalTemplate_interleaved :
    ∀ f0 ∈ KdenliveFile.new minimalTemplate,
      ∀ f ∈ @runRootCalls Stale.intact [RootCall.AddClipToBin "a.mp4", RootCall.AddTrack TrackType.VIDEO,
        RootCall.AddClipToBin "b.mp4", RootCall.AddTrack TrackType.AUDIO] f0,
      f.xml_doc.root.children.map XMLElement.label =
        [("profile", none), ("producer", some "producer0"), ("chain", some "chain1"),
         ("chain", some "chain0"), ("playlist", some "playlist0"),
         ("playlist", some "playlist1"), ("tractor", some "tractor0"),
         ("playlist", some "playlist2"), ("playlist", some "playlist3"),
         ("tractor", some "tractor1"), ("tractor", some "timeline-uuid"),
         ("playlist", some "main_bin"), ("tractor", some "final_tractor")] := by
  decide!

/-- Witness of C19: a chain, a video track, a second chain and an audio track added to a
file built on the minimal template (the ids of the chains as they read when the dangling
reads return the text the destroyed strings held). -/
theorem stable_insertion_positions_witness :
    ∃ (f0 f : KdenliveFile),
      @runRootCalls Stale.intact [RootCall.AddClipToBin "a.mp4", RootCall.AddTrack TrackType.VIDEO,
        RootCall.AddClipToBin "b.mp4", RootCall.AddTrack TrackType.AUDIO] f0 = some f ∧
      f0.xml_doc.root.children.map XMLElement.ptr = [1, 2, 8, 10, 13] ∧
      f0.main_producer = 2 ∧ f0.timeline_tractor = some 8 ∧ f0.main_bin = 10 ∧
      f0.final_tractor = 13 ∧
      f.xml_doc.root.children.map XMLElement.label =
        [("profile", none), ("producer", some "producer0"), ("chain", some "chain1"),
         ("chain", some "chain0"), ("playlist", some "playlist0"),
         ("playlist", some "playlist1"), ("tractor", some "tractor0"),
         ("playlist", some "playlist2"), ("playlist", some "playlist3"),
         ("tractor", some "tractor1"), ("tractor", some "timeline-uuid"),
         ("playlist", some "main_bin"), ("tractor", some "final_tractor")] := by
  obtain ⟨f0, h0, hanch⟩ := minimalTemplate_new
  obtain ⟨hp, hm, hc, htt, hmb, hft⟩ := minimalTemplate_fresh f0 h0
  obtain ⟨pre, mp, post, -, -, -, ⟨f, hf⟩, -⟩ := @stable_insertion_positions Stale.intact f0
    [RootCall.AddClipToBin "a.mp4", RootCall.AddTrack TrackType.VIDEO,
      RootCall.AddClipToBin "b.mp4", RootCall.AddTrack TrackType.AUDIO]
    (DocOK_of_new h0 hanch) (new_consistent h0) (by rw [hc, hm])
  exact ⟨f0, f, hf, hp, hm, htt, hmb, hft, minimalTemplate_interleaved f0 h0 f hf⟩

/-! ## The audio property of a track -/

/-- C27 as stated fails.  After the first `AddTrack(AUDIO)` on a file built on the minimal
template, the two new playlists have no child at all, and only the new tractor has the
property `kdenlive:audio_track` as its first child. -/
theorem audio_property_counterexample :
    ((KdenliveFile.new minimalTemplate).bind (fun f => f.AddTrack TrackType.AUDIO)).map
      (fun r =>
        (((FindPlaylistElement r.1.xml_doc "playlist0").map
            (fun x : XMLElement => x.children.map XMLElement.name)).getD ["missing"],
         ((FindPlaylistElement r.1.xml_doc "playlist1").map
            (fun x : XMLElement => x.children.map XMLElement.name)).getD ["missing"],
         ((FindTractorElement r.1.xml_doc "tractor0").map
            (fun x : XMLElement => x.children.map XMLElement.name)).getD ["missing"])) =
      some ([], [], ["property", "track", "track"]) := by
  decide!

/-- C27, what the code does.  On a well-formed file in order, `AddTrack` runs through and
the three nodes it leaves below the root for the new track `k` are the nodes `trackNodes`:
the playlists `playlist(2k)` and `playlist(2k+1)` have no children, for either track type;
the tractor `tractor(k)` of an audio track has the property `kdenlive:audio_track` with
text `1` as its first child, before its two `track` children, and the tractor of a video
track has the two `track` children only.  The one property node is linked into the first
playlist, then moved to the second, then moved to the tractor. -/
theorem audio_property_on_tractor_only (f : KdenliveFile) (track_type : TrackType)
    (hdoc : DocOK f) (hcons : Consistent f) (hwf : f.xml_doc.WellFormed) :
    ∃ (f' : KdenliveFile) (p1 p2 tr : XMLElement),
      f.AddTrack track_type = some (f', f.track_count) ∧
      trackNodes track_type f.xml_doc.next_ptr f.track_count = [p1, p2, tr] ∧
      p1 ∈ f'.xml_doc.root.children ∧ p2 ∈ f'.xml_doc.root.children ∧
      tr ∈ f'.xml_doc.root.children ∧
      p1.name = "playlist" ∧ p1.attrs = [("id", "playlist" ++ toString (f.track_count * 2))] ∧
      p1.children = [] ∧
      p2.name = "playlist" ∧
      p2.attrs = [("id", "playlist" ++ toString (f.track_count * 2 + 1))] ∧
      p2.children = [] ∧
      tr.name = "tractor" ∧ tr.attrs = [("id", "tractor" ++ toString f.track_count)] ∧
      (track_type = TrackType.AUDIO →
        tr.children.map (fun c : XMLElement => (c.name, c.attrs, c.text)) =
          [("property", [("name", "kdenlive:audio_track")], some "1"),
           ("track", [("producer", "playlist" ++ toString (f.track_count * 2)),
              ("hide", "video")], none),
           ("track", [("producer", "playlist" ++ toString (f.track_count * 2 + 1)),
              ("hide", "video")], none)]) ∧
      (track_type = TrackType.VIDEO →
        tr.children.map (fun c : XMLElement => (c.name, c.attrs, c.text)) =
          [("track", [("producer", "playlist" ++ toString (f.track_count * 2)),
              ("hide", "audio")], none),
           ("track", [("producer", "playlist" ++ toString (f.track_count * 2 + 1)),
              ("hide", "audio")], none)]) := by
  obtain ⟨f', hf', -⟩ := AddTrack_ok f track_type hdoc hcons
  obtain ⟨l1, c, l2, tt, hch, -, -, httm, hmap, -⟩ := AddTrack_map hdoc.1 hwf hf'
  have httlt : tt < f.xml_doc.next_ptr := by
    obtain ⟨T, hT, hTp⟩ := List.mem_map.1 httm
    rw [← hTp]
    exact (hdoc.1.2.1 T hT).1
  have hkeep : ∀ x ∈ trackNodes track_type f.xml_doc.next_ptr f.track_count,
      x ∈ f'.xml_doc.root.children := by
    intro x hx
    rw [hmap, withChildren_children]
    refine List.mem_map.2 ⟨x, by simp [hx], ?_⟩
    have hne : x.ptr ≠ tt := by
      cases track_type <;>
      · simp only [trackNodes, List.mem_cons, List.mem_singleton, List.not_mem_nil,
          or_false] at hx
        rcases hx with rfl | rfl | rfl <;>
        · simp only [XMLElement.ptr]
          omega
    rw [if_neg hne]
  cases track_type with
  | VIDEO =>
    exact ⟨f', _, _, _, hf', rfl, hkeep _ (by simp [trackNodes]), hkeep _ (by simp [trackNodes]),
      hkeep _ (by simp [trackNodes]), rfl, rfl, rfl, rfl, rfl, rfl, rfl, rfl,
      fun h => TrackType.noConfusion h, fun _ => rfl⟩
  | AUDIO =>
    exact ⟨f', _, _, _, hf', rfl, hkeep _ (by simp [trackNodes]), hkeep _ (by simp [trackNodes]),
      hkeep _ (by simp [trackNodes]), rfl, rfl, rfl, rfl, rfl, rfl, rfl, rfl,
      fun _ => rfl, fun h => TrackType.noConfusion h⟩

/-- Witness of C27: the first audio track of a file built on the minimal template. -/
theorem audio_property_on_tractor_only_witness :
    ∃ (f f' : KdenliveFile) (p1 p2 tr : XMLElement),
      f.AddTrack TrackType.AUDIO = some (f', 0) ∧
      p1 ∈ f'.xml_doc.root.children ∧ p2 ∈ f'.xml_doc.root.children ∧
      tr ∈ f'.xml_doc.root.children ∧
      p1.attrs = [("id", "playlist0")] ∧ p1.children = [] ∧
      p2.attrs = [("id", "playlist1")] ∧ p2.children = [] ∧
      tr.attrs = [("id", "tractor0")] ∧
      (tr.children.head?).map XMLElement.attrs = some [("name", "kdenlive:audio_track")] := by
  obtain ⟨f0, h0, hanch⟩ := minimalTemplate_new
  obtain ⟨f', p1, p2, tr, h, hn, m1, m2, m3, -, a1, c1, -, a2, c2, -, a3, ha, -⟩ :=
    audio_property_on_tractor_only f0 TrackType.AUDIO (DocOK_of_new h0 hanch)
      (new_consistent h0) (minimalTemplate_wellFormed f0 h0)
  have hc := (new_book h0).2.1
  rw [hc] at h a1 a2 a3
  have hch := ha rfl
  refine ⟨f0, f', p1, p2, tr, h, m1, m2, m3, a1, c1, a2, c2, a3, ?_⟩
  cases hcs : tr.children with
  | nil => rw [hcs] at hch; cases hch
  | cons x xs =>
    rw [hcs, List.map_cons] at hch
    have := (List.cons.inj hch).1
    show some x.attrs = _
    rw [(Prod.mk.inj (Prod.mk.inj this).2).1]

/-! ## Construction -/

/-- The steps of a construction that returns. -/
theorem new_stages {template : XMLElement} {f : KdenliveFile}
    (h : KdenliveFile.new template = some f) :
    ∃ (profile mp mb fin : XMLElement) (id : String) (d1 d2 : XMLDocument),
      template.children.head? = some profile ∧
      (template.children.drop 1).head? = some mp ∧
      FindPlaylistElement ⟨template, template.ptrBound⟩ "main_bin" = some mb ∧
      FindDocUUID (some mb) = some id ∧
      XMLElement.nextSibling template.children mb.ptr = some (some fin) ∧
      (XMLDocument.mk template template.ptrBound).modify fin.ptr
        (fun x => x.SetAttribute "id" "final_tractor") = some d1 ∧
      DeletePreExistingTracks d1 mp.ptr
        ((FindTractorElement ⟨template, template.ptrBound⟩ id).map XMLElement.ptr) = some d2 ∧
      f.xml_doc = d2 ∧ f.profile = profile.ptr ∧ f.main_producer = mp.ptr ∧
      f.main_bin = mb.ptr ∧
      f.timeline_tractor =
        (FindTractorElement ⟨template, template.ptrBound⟩ id).map XMLElement.ptr ∧
      f.final_tractor = fin.ptr ∧ f.last_added_root_element = mp.ptr := by
  unfold KdenliveFile.new at h
  simp only [bind, Option.bind_eq_some, pure, Option.some.injEq] at h
  obtain ⟨profile, h1, id, h2, mb, h3, ofin, h4, fin, h5, d1, h6, mp, h7, d2, h8, rfl⟩ := h
  rw [h3] at h2
  rw [h5] at h4
  exact ⟨profile, mp, mb, fin, id, d1, d2, h1, h7, h3, h2, h4, h6, h8, rfl, rfl, rfl, rfl, rfl,
    rfl, rfl⟩

/-! ## The walk of `DeletePreExistingTracks` -/

theorem filter_ptr_ne {l1 l2 : List XMLElement} {c : XMLElement}
    (h : ((l1 ++ c :: l2).map XMLElement.ptr).Nodup) :
    (l1 ++ c :: l2).filter (fun x => x.ptr != c.ptr) = l1 ++ l2 := by
  rw [List.map_append, List.map_cons, List.nodup_append] at h
  obtain ⟨-, h2, hdis⟩ := h
  rw [List.nodup_cons] at h2
  rw [List.filter_append, List.filter_cons]
  have hc : (c.ptr != c.ptr) = false := by simp
  rw [hc]
  simp only [Bool.false_eq_true, if_false]
  congr 1
  · apply List.filter_eq_self.2
    intro x hx
    have : x.ptr ≠ c.ptr := by
      intro e
      exact hdis (List.mem_map_of_mem _ hx) (e ▸ List.mem_cons_self _ _)
    simpa using this
  · apply List.filter_eq_self.2
    intro x hx
    have : x.ptr ≠ c.ptr := by
      intro e
      exact h2.1 (e ▸ List.mem_map_of_mem _ hx)
    simpa using this

/-- Deleting a child of the root through the root's own address. -/
theorem DeleteChild_root_child (R : XMLElement) (n : Nat) {l1 l2 : List XMLElement}
    {c : XMLElement} (h : ((l1 ++ c :: l2).map XMLElement.ptr).Nodup) :
    (XMLDocument.mk (R.withChildren (l1 ++ c :: l2)) n).DeleteChild R.ptr c.ptr =
      some ⟨R.withChildren (l1 ++ l2), n⟩ := by
  have hl : XMLElement.lookup R.ptr (R.withChildren (l1 ++ c :: l2)) =
      some (R.withChildren (l1 ++ c :: l2)) := lookup_of_ptr (withChildren_ptr _ _)
  unfold XMLDocument.DeleteChild XMLDocument.modify XMLDocument.deref
  simp only [hl, withChildren_children]
  have hany : (l1 ++ c :: l2).any (fun x => x.ptr == c.ptr) = true := by
    rw [List.any_eq_true]
    exact ⟨c, List.mem_append_right _ (List.mem_cons_self _ _), by simp⟩
  rw [if_pos hany, update_of_eq (withChildren_ptr _ _), withChildren_children,
    withChildren_withChildren, filter_ptr_ne h]

/-- A write through the address of a child of the root that is used once. -/
theorem modify_root_child (R : XMLElement) (n : Nat) (g : XMLElement → XMLElement)
    {l1 l2 : List XMLElement} {c : XMLElement} (hr : R.ptr ≠ c.ptr)
    (h1 : c.ptr ∉ XMLElement.allPtrsList l1) (h2 : c.ptr ∉ XMLElement.allPtrsList l2) :
    (XMLDocument.mk (R.withChildren (l1 ++ c :: l2)) n).modify c.ptr g =
      some ⟨R.withChildren (l1 ++ g c :: l2), n⟩ := by
  have hs : (XMLElement.lookup c.ptr (R.withChildren (l1 ++ c :: l2))).isSome = true := by
    apply lookup_isSome_of_child
    refine ⟨c, ?_, ?_⟩
    · rw [withChildren_children]; exact List.mem_append_right _ (List.mem_cons_self _ _)
    · rw [lookup_of_ptr rfl]; rfl
  unfold XMLDocument.modify XMLDocument.deref
  cases hl : XMLElement.lookup c.ptr (R.withChildren (l1 ++ c :: l2)) with
  | none => rw [hl] at hs; cases hs
  | some v =>
    simp only []
    rw [update_root_child g (by rw [withChildren_ptr]; exact hr) (withChildren_children _ _) rfl
      h1 h2, withChildren_withChildren]

theorem dropReference_of_tractor {c : XMLElement} (h : c.name = "tractor")
    (ch : List XMLElement) :
    dropReference ch c = deleteTrackReference (c.Attribute "id") ch := by
  unfold dropReference; rw [if_pos h]

theorem dropReference_of_other {c : XMLElement} (h : c.name ≠ "tractor")
    (ch : List XMLElement) : dropReference ch c = ch := by
  unfold dropReference; rw [if_neg h]

theorem keepsNode_playlist {c : XMLElement} (h : c.name = "playlist") : keepsNode c = false := by
  unfold keepsNode; rw [h]; rfl

theorem keepsNode_tractor {c : XMLElement} (h : c.name = "tractor") : keepsNode c = false := by
  unfold keepsNode; rw [h]; rfl

theorem keepsNode_other {c : XMLElement} (h1 : c.name ≠ "playlist") (h2 : c.name ≠ "tractor") :
    keepsNode c = true := by
  unfold keepsNode; simp [h1, h2]

/-- The walk of `DeletePreExistingTracks` from the node after the main producer to the
timeline tractor `T`, in a document whose addresses are distinct: the playlists and tractors
on the way leave the root, each tractor takes the first reference to its id out of the
timeline tractor, and nothing else changes. -/
theorem deleteLoop_exact (R : XMLElement) (n tt : Nat) (B : List XMLElement)
    (Tl : XMLElement) (Bl : List XMLElement) (hTl : Tl.ptr = tt)
    (hr : R.ptr ≠ tt) (hB : tt ∉ XMLElement.allPtrsList B) :
    ∀ (todo A : List XMLElement) (T : XMLElement), T.ptr = tt →
      ((A ++ (todo ++ T :: B)).map XMLElement.ptr).Nodup →
      tt ∉ XMLElement.allPtrsList A → tt ∉ XMLElement.allPtrsList todo →
      deletePreExistingLoop (some tt) (todo ++ Tl :: Bl)
          ⟨R.withChildren (A ++ (todo ++ T :: B)), n⟩ =
        some ⟨R.withChildren (A ++ (todo.filter keepsNode ++
          T.withChildren (todo.foldl dropReference T.children) :: B)), n⟩ := by
  intro todo
  induction todo with
  | nil =>
    intro A T hT _ _ _
    rw [List.nil_append, deletePreExistingLoop, if_pos (by rw [hTl])]
    simp only [List.filter_nil, List.foldl_nil, List.nil_append, withChildren_self]
  | cons cur rest ih =>
    intro A T hT hnd hA htodo
    rw [allPtrsList_cons, List.mem_append, not_or] at htodo
    have hcur : cur.ptr ≠ tt := fun e => htodo.1 (e ▸ ptr_mem_allPtrs cur)
    have hne : ¬ (some tt = some cur.ptr) := fun e => hcur (Option.some.inj e).symm
    have hnd0 : ((A ++ cur :: (rest ++ T :: B)).map XMLElement.ptr).Nodup := hnd
    have hnd' : ((A ++ (rest ++ T :: B)).map XMLElement.ptr).Nodup :=
      List.Nodup.sublist
        ((List.Sublist.append_left (List.sublist_cons_self cur (rest ++ T :: B)) A).map _) hnd0
    rw [List.cons_append, List.cons_append, deletePreExistingLoop, if_neg hne]
    by_cases hp : cur.name = "playlist"
    · rw [if_pos hp, withChildren_ptr, DeleteChild_root_child R n hnd0, Option.some_bind,
        ih A T hT hnd' hA htodo.2, List.filter_cons, keepsNode_playlist hp, List.foldl_cons,
        dropReference_of_other (by rw [hp]; decide)]
      simp only [Bool.false_eq_true, if_false]
    · rw [if_neg hp]
      by_cases ht : cur.name = "tractor"
      · rw [if_pos ht]
        simp only []
        rw [withChildren_ptr, DeleteChild_root_child R n hnd0, Option.some_bind]
        have hm := @modify_root_child R n
          (fun x => x.withChildren (deleteTrackReference (cur.Attribute "id") x.children))
          (A ++ rest) B T (by rw [hT]; exact hr)
          (by rw [hT, allPtrsList_append, List.mem_append, not_or]; exact ⟨hA, htodo.2⟩)
          (by rw [hT]; exact hB)
        rw [hT] at hm
        simp only [List.append_assoc] at hm
        rw [hm, Option.some_bind]
        have hnd2 : ((A ++ (rest ++ T.withChildren
            (deleteTrackReference (cur.Attribute "id") T.children) :: B)).map
            XMLElement.ptr).Nodup := by
          simpa [withChildren_ptr] using hnd'
        rw [ih A _ (by rw [withChildren_ptr]; exact hT) hnd2 hA htodo.2, List.filter_cons,
          keepsNode_tractor ht, List.foldl_cons, dropReference_of_tractor ht,
          withChildren_children, withChildren_withChildren]
        simp only [Bool.false_eq_true, if_false]
      · rw [if_neg ht]
        have e1 : A ++ cur :: (rest ++ T :: B) = (A ++ [cur]) ++ (rest ++ T :: B) := by simp
        have hA' : tt ∉ XMLElement.allPtrsList (A ++ [cur]) := by
          rw [allPtrsList_append, allPtrsList_cons, allPtrsList_nil, List.append_nil,
            List.mem_append, not_or]
          exact ⟨hA, htodo.1⟩
        rw [e1, ih (A ++ [cur]) T hT (by rw [← e1]; exact hnd0) hA' htodo.2, List.filter_cons,
          keepsNode_other hp ht, List.foldl_cons, dropReference_of_other ht]
        simp only [if_true, List.append_assoc, List.singleton_append, List.cons_append,
          List.nil_append]

/-- The walk with a null timeline tractor stops at the first tractor node: the null pointer is
dereferenced there. -/
theorem deleteLoop_null_tractor : ∀ (todo : List XMLElement) (d : XMLDocument),
    (∃ c ∈ todo, c.name = "tractor") → deletePreExistingLoop none todo d = none := by
  intro todo
  induction todo with
  | nil => rintro d ⟨c, hc, -⟩; exact absurd hc (List.not_mem_nil _)
  | cons cur rest ih =>
    rintro d ⟨c, hc, hn⟩
    rw [deletePreExistingLoop, if_neg (by intro e; cases e)]
    by_cases hp : cur.name = "playlist"
    · rw [if_pos hp]
      have hrest : ∃ c ∈ rest, c.name = "tractor" := by
        rcases List.mem_cons.1 hc with e | h
        · rw [e, hp] at hn; exact absurd hn (by decide)
        · exact ⟨c, h, hn⟩
      cases hd : d.DeleteChild d.root.ptr cur.ptr with
      | none => rfl
      | some d1 => rw [Option.some_bind]; exact ih d1 hrest
    · rw [if_neg hp]
      by_cases ht : cur.name = "tractor"
      · rw [if_pos ht]
      · rw [if_neg ht]
        apply ih
        rcases List.mem_cons.1 hc with e | h
        · rw [e] at hn; exact absurd hn ht
        · exact ⟨c, h, hn⟩

/-- The walk with a null timeline tractor over nodes none of which is a tractor runs to the
last child and deletes every playlist on the way. -/
theorem deleteLoop_null_exact (R : XMLElement) (n : Nat) :
    ∀ (todo A : List XMLElement), ((A ++ todo).map XMLElement.ptr).Nodup →
      (∀ c ∈ todo, c.name ≠ "tractor") →
      deletePreExistingLoop none todo ⟨R.withChildren (A ++ todo), n⟩ =
        some ⟨R.withChildren (A ++ todo.filter keepsNode), n⟩ := by
  intro todo
  induction todo with
  | nil =>
    intro A _ _
    rw [deletePreExistingLoop, if_pos rfl, List.filter_nil]
  | cons cur rest ih =>
    intro A hnd hno
    have hnd' : ((A ++ rest).map XMLElement.ptr).Nodup :=
      List.Nodup.sublist ((List.Sublist.append_left (List.sublist_cons_self cur rest) A).map _) hnd
    have hno' : ∀ c ∈ rest, c.name ≠ "tractor" := fun c hc => hno c (List.mem_cons_of_mem _ hc)
    have ht : cur.name ≠ "tractor" := hno cur (List.mem_cons_self _ _)
    rw [deletePreExistingLoop, if_neg (by intro e; cases e)]
    by_cases hp : cur.name = "playlist"
    · rw [if_pos hp, withChildren_ptr, DeleteChild_root_child R n hnd, Option.some_bind,
        ih A hnd' hno', List.filter_cons, keepsNode_playlist hp]
      simp only [Bool.false_eq_true, if_false]
    · rw [if_neg hp, if_neg ht]
      have e1 : A ++ cur :: rest = (A ++ [cur]) ++ rest := by simp
      rw [e1, ih (A ++ [cur]) (by rw [← e1]; exact hnd) hno', List.filter_cons,
        keepsNode_other hp ht]
      simp only [if_true, List.append_assoc, List.singleton_append, List.cons_append,
        List.nil_append]

/-! ### References left in the timeline tractor -/

theorem AttributeIs_unique {e : XMLElement} {k a b : String}
    (ha : e.AttributeIs k (some a) = true) (hb : e.AttributeIs k (some b) = true) : a = b := by
  unfold XMLElement.AttributeIs at ha hb
  cases hv : e.Attribute k with
  | none => rw [hv] at ha; cases ha
  | some v =>
    rw [hv] at ha hb
    simp only [beq_iff_eq] at ha hb
    rw [← ha, ← hb]

theorem AttributeIs_of_some {e : XMLElement} {k v : String} (h : e.Attribute k = some v)
    (s : String) : e.AttributeIs k (some s) = (v == s) := by
  unfold XMLElement.AttributeIs
  rw [h]

theorem referenceCount_cons (s : String) (t : XMLElement) (rest : List XMLElement) :
    referenceCount s (t :: rest) =
      (if t.AttributeIs "producer" (some s) = true then 1 else 0) + referenceCount s rest := by
  unfold referenceCount
  rw [List.filter_cons]
  split
  · rw [List.length_cons]; omega
  · omega

/-- One pass of the inner loop takes one reference to the tractor away, if there is one, and
none to any other tractor. -/
theorem referenceCount_delete (s i : String) : ∀ ch : List XMLElement,
    referenceCount s (deleteTrackReference (some i) ch) =
      if i = s then referenceCount s ch - 1 else referenceCount s ch := by
  intro ch
  induction ch with
  | nil => unfold deleteTrackReference; split <;> rfl
  | cons t rest ih =>
    unfold deleteTrackReference
    by_cases hm : t.AttributeIs "producer" (some i) = true
    · rw [if_pos hm, referenceCount_cons]
      by_cases his : i = s
      · rw [if_pos his, ← his, if_pos hm]; omega
      · rw [if_neg his, if_neg (fun h => his (AttributeIs_unique hm h))]; omega
    · rw [if_neg hm, referenceCount_cons, referenceCount_cons, ih]
      by_cases his : i = s
      · have hm' : ¬ t.AttributeIs "producer" (some s) = true := by rw [← his]; exact hm
        simp only [if_pos his, if_neg hm', Nat.zero_add]
      · simp only [if_neg his]

/-- The references to a tractor id left after the walk: one fewer for every deleted tractor
with that id, as long as there are any. -/
theorem referenceCount_walk (s : String) : ∀ (mid ch : List XMLElement),
    (∀ c ∈ mid, c.name = "tractor" → (c.Attribute "id").isSome = true) →
    referenceCount s (mid.foldl dropReference ch) =
      referenceCount s ch -
        (mid.filter (fun c => c.name == "tractor" && c.AttributeIs "id" (some s))).length := by
  intro mid
  induction mid with
  | nil => intro ch _; rfl
  | cons c rest ih =>
    intro ch hid
    rw [List.foldl_cons, ih _ (fun x hx => hid x (List.mem_cons_of_mem _ hx)), List.filter_cons]
    by_cases ht : c.name = "tractor"
    · have hsome := hid c (List.mem_cons_self _ _) ht
      obtain ⟨i, hi⟩ := Option.isSome_iff_exists.1 hsome
      rw [dropReference_of_tractor ht, hi, referenceCount_delete, AttributeIs_of_some hi]
      have hn : (c.name == "tractor") = true := by rw [ht]; rfl
      rw [hn, Bool.true_and]
      by_cases his : i = s
      · rw [if_pos his, if_pos (by rw [his]; simp), List.length_cons]; omega
      · rw [if_neg his, if_neg (by simpa using his)]
    · rw [dropReference_of_other ht]
      have hn : (c.name == "tractor") = false := by simpa using ht
      rw [hn, Bool.false_and]
      simp only [Bool.false_eq_true, if_false]

theorem nextSibling_mid {l1 l2 : List XMLElement} {c : XMLElement}
    (h : ∀ x ∈ l1, x.ptr ≠ c.ptr) :
    XMLElement.nextSibling (l1 ++ c :: l2) c.ptr = some l2.head? := by
  induction l1 with
  | nil => rw [List.nil_append, XMLElement.nextSibling, if_pos rfl]
  | cons x xs ih =>
    rw [List.cons_append, XMLElement.nextSibling, if_neg (h x (List.mem_cons_self _ _))]
    exact ih (fun y hy => h y (List.mem_cons_of_mem _ hy))

theorem siblingsAfter_mid {l1 l2 : List XMLElement} {c : XMLElement}
    (h : ∀ x ∈ l1, x.ptr ≠ c.ptr) :
    XMLElement.siblingsAfter (l1 ++ c :: l2) c.ptr = some l2 := by
  induction l1 with
  | nil => rw [List.nil_append, XMLElement.siblingsAfter, if_pos rfl]
  | cons x xs ih =>
    rw [List.cons_append, XMLElement.siblingsAfter, if_neg (h x (List.mem_cons_self _ _))]
    exact ih (fun y hy => h y (List.mem_cons_of_mem _ hy))

theorem allPtrs_SetAttribute (e : XMLElement) (k v : String) :
    (e.SetAttribute k v).allPtrs = e.allPtrs := by
  rw [allPtrs_eq, allPtrs_eq, SetAttribute_ptr, SetAttribute_children]

theorem ne_of_not_mem_allPtrsList {q : Nat} {cs : List XMLElement}
    (h : q ∉ XMLElement.allPtrsList cs) : ∀ x ∈ cs, x.ptr ≠ q :=
  fun x hx e => h (mem_allPtrsList_of_mem hx (e ▸ ptr_mem_allPtrs x))

/-- The constructor on a template in the order profile, main producer, nodes `mid`,
timeline tractor `T`, nodes `r1`, main bin, final tractor, nodes `r2`, with distinct
addresses: the playlists and tractors of `mid` are deleted, every tractor of `mid` takes the
first reference to its id out of the timeline tractor, the final tractor gets its id, and
nothing else changes. -/
theorem new_exact {template profile mp T mb fin : XMLElement} {mid r1 r2 : List XMLElement}
    {id : String} (hnd : template.allPtrs.Nodup)
    (hch : template.children = profile :: mp :: (mid ++ T :: (r1 ++ mb :: fin :: r2)))
    (hmb : FindPlaylistElement ⟨template, template.ptrBound⟩ "main_bin" = some mb)
    (hid : FindDocUUID (some mb) = some id)
    (htt : FindTractorElement ⟨template, template.ptrBound⟩ id = some T) :
    KdenliveFile.new template = some {
      chain_count := 0
      track_count := 0
      filter_count := 0
      track_lengths := []
      track_entries := []
      xml_doc := ⟨template.withChildren (profile :: mp :: (mid.filter keepsNode ++
        T.withChildren (mid.foldl dropReference T.children) ::
          (r1 ++ mb :: fin.SetAttribute "id" "final_tractor" :: r2))), template.ptrBound⟩
      profile := profile.ptr
      main_producer := mp.ptr
      main_bin := mb.ptr
      timeline_tractor := some T.ptr
      final_tractor := fin.ptr
      last_added_root_element := mp.ptr } := by
  -- the addresses of the children
  have e1 : template.children = (profile :: mp :: (mid ++ T :: (r1 ++ [mb]))) ++ fin :: r2 := by
    rw [hch]; simp
  have e2 : template.children = (profile :: mp :: mid) ++ T :: (r1 ++ mb :: fin :: r2) := by
    rw [hch]; simp
  have e3 : template.children = (profile :: mp :: (mid ++ T :: r1)) ++ mb :: (fin :: r2) := by
    rw [hch]; simp
  have e4 : template.children = [profile] ++ mp :: (mid ++ T :: (r1 ++ mb :: fin :: r2)) := by
    rw [hch]; simp
  obtain ⟨f1, f2, f3, -, -⟩ := nodup_root_child hnd e1
  obtain ⟨t1, t2, t3, -, -⟩ := nodup_root_child hnd e2
  obtain ⟨-, m2, -, -, -⟩ := nodup_root_child hnd e3
  obtain ⟨-, p2, -, -, -⟩ := nodup_root_child hnd e4
  have hptrs : (template.children.map XMLElement.ptr).Nodup := by
    apply childPtrs_nodup
    rw [allPtrs_eq, List.nodup_cons] at hnd
    exact hnd.2
  -- the steps of the constructor
  have hns : XMLElement.nextSibling template.children mb.ptr = some (some fin) := by
    rw [e3, nextSibling_mid (ne_of_not_mem_allPtrsList m2)]; rfl
  have hmod := modify_root_child template template.ptrBound
    (fun x => x.SetAttribute "id" "final_tractor") f1 f2 f3
  rw [← e1, withChildren_self] at hmod
  have hsib : XMLElement.siblingsAfter
      ((profile :: mp :: (mid ++ T :: (r1 ++ [mb]))) ++
        fin.SetAttribute "id" "final_tractor" :: r2) mp.ptr =
      some (mid ++ T :: (r1 ++ mb :: fin.SetAttribute "id" "final_tractor" :: r2)) := by
    have := @siblingsAfter_mid [profile]
      (mid ++ T :: (r1 ++ mb :: fin.SetAttribute "id" "final_tractor" :: r2)) mp
      (ne_of_not_mem_allPtrsList p2)
    simpa using this
  have hB : T.ptr ∉ XMLElement.allPtrsList
      (r1 ++ mb :: fin.SetAttribute "id" "final_tractor" :: r2) := by
    intro h
    apply t3
    simpa [allPtrsList_append, allPtrsList_cons, allPtrs_SetAttribute] using h
  have hA : T.ptr ∉ XMLElement.allPtrsList [profile, mp] := by
    intro h
    apply t2
    simp only [allPtrsList_cons, allPtrsList_nil, List.append_nil, List.mem_append] at h ⊢
    rcases h with h | h
    · exact Or.inl h
    · exact Or.inr (Or.inl h)
  have hM : T.ptr ∉ XMLElement.allPtrsList mid := by
    intro h
    apply t2
    simp only [allPtrsList_cons, List.mem_append]
    exact Or.inr (Or.inr h)
  have hnd2 : (([profile, mp] ++ (mid ++ T ::
      (r1 ++ mb :: fin.SetAttribute "id" "final_tractor" :: r2))).map XMLElement.ptr).Nodup := by
    rw [hch] at hptrs
    simpa [SetAttribute_ptr] using hptrs
  have hloop := deleteLoop_exact template template.ptrBound T.ptr
    (r1 ++ mb :: fin.SetAttribute "id" "final_tractor" :: r2) T
    (r1 ++ mb :: fin.SetAttribute "id" "final_tractor" :: r2) rfl t1 hB mid [profile, mp] T rfl
    hnd2 hA hM
  have hdel : DeletePreExistingTracks
      ⟨template.withChildren ((profile :: mp :: (mid ++ T :: (r1 ++ [mb]))) ++
        fin.SetAttribute "id" "final_tractor" :: r2), template.ptrBound⟩ mp.ptr (some T.ptr) =
      some ⟨template.withChildren ([profile, mp] ++ (mid.filter keepsNode ++
        T.withChildren (mid.foldl dropReference T.children) ::
          (r1 ++ mb :: fin.SetAttribute "id" "final_tractor" :: r2))), template.ptrBound⟩ := by
    unfold DeletePreExistingTracks
    rw [withChildren_children, hsib, Option.some_bind, ← hloop]
    congr 3
    simp
  unfold KdenliveFile.new
  simp only [bind, pure, hch, List.head?_cons, Option.some_bind, List.drop_succ_cons,
    List.drop_zero]
  rw [hmb, hid]
  simp only [Option.some_bind, htt, Option.map_some']
  rw [← hch, hns]
  simp only [Option.some_bind]
  rw [hmod]
  simp only [Option.some_bind]
  rw [hdel]
  rfl

/-! ### The constructed document is well formed -/

theorem ptrBound_node (p : Nat) (n : String) (a : List (String × String)) (t : Option String)
    (cs : List XMLElement) :
    (XMLElement.node p n a t cs).ptrBound = max (p + 1) (XMLElement.ptrBoundList cs) := by
  rw [XMLElement.ptrBound]

theorem ptrBoundList_cons (c : XMLElement) (cs : List XMLElement) :
    XMLElement.ptrBoundList (c :: cs) = max c.ptrBound (XMLElement.ptrBoundList cs) := by
  rw [XMLElement.ptrBoundList]

/-- Every address of a tree is below its bound. -/
theorem lt_ptrBound : ∀ (n : Nat) (t : XMLElement), sizeOf t ≤ n →
    ∀ p ∈ t.allPtrs, p < t.ptrBound := by
  intro n
  induction n with
  | zero =>
    intro t hn
    cases t with
    | node p nm a tx cs => simp at hn
  | succ n ih =>
    intro t hn q hq
    cases t with
    | node p nm a tx cs =>
      rw [allPtrs_node, List.mem_cons] at hq
      rw [ptrBound_node]
      rcases hq with rfl | hq
      · exact lt_of_lt_of_le (Nat.lt_succ_self _) (le_max_left _ _)
      · refine lt_of_lt_of_le ?_ (le_max_right _ _)
        have hsize : ∀ c ∈ cs, sizeOf c ≤ n := by
          intro c hc
          have := List.sizeOf_lt_of_mem hc
          simp only [XMLElement.node.sizeOf_spec] at hn
          omega
        clear hn
        induction cs with
        | nil => rw [allPtrsList_nil] at hq; exact absurd hq (List.not_mem_nil _)
        | cons c cs ihc =>
          rw [allPtrsList_cons, List.mem_append] at hq
          rw [ptrBoundList_cons]
          rcases hq with hq | hq
          · exact lt_of_lt_of_le (ih c (hsize c (List.mem_cons_self _ _)) q hq)
              (le_max_left _ _)
          · exact lt_of_lt_of_le (ihc hq (fun c' hc' => hsize c' (List.mem_cons_of_mem _ hc')))
              (le_max_right _ _)

theorem allPtrsList_sublist {l1 l2 : List XMLElement} (h : l1.Sublist l2) :
    (XMLElement.allPtrsList l1).Sublist (XMLElement.allPtrsList l2) := by
  induction h with
  | slnil => exact List.Sublist.refl _
  | cons a _ ih =>
    rw [allPtrsList_cons]
    exact ih.trans (List.sublist_append_right _ _)
  | cons₂ a _ ih =>
    rw [allPtrsList_cons, allPtrsList_cons]
    exact List.Sublist.append (List.Sublist.refl _) ih

theorem deleteTrackReference_sublist (id : Option String) :
    ∀ ch : List XMLElement, (deleteTrackReference id ch).Sublist ch := by
  intro ch
  induction ch with
  | nil => unfold deleteTrackReference; exact List.Sublist.refl _
  | cons t rest ih =>
    unfold deleteTrackReference
    split
    · exact List.sublist_cons_self _ _
    · exact List.Sublist.cons₂ _ ih

theorem dropReference_sublist : ∀ (mid ch : List XMLElement),
    (mid.foldl dropReference ch).Sublist ch := by
  intro mid
  induction mid with
  | nil => intro ch; exact List.Sublist.refl _
  | cons c rest ih =>
    intro ch
    rw [List.foldl_cons]
    refine (ih _).trans ?_
    unfold dropReference
    split
    · exact deleteTrackReference_sublist _ _
    · exact List.Sublist.refl _

/-- The addresses of the constructed document are addresses of the template. -/
theorem new_allPtrs_sublist (template profile mp T mb fin : XMLElement)
    (mid r1 r2 : List XMLElement)
    (hch : template.children = profile :: mp :: (mid ++ T :: (r1 ++ mb :: fin :: r2))) :
    (template.withChildren (profile :: mp :: (mid.filter keepsNode ++
        T.withChildren (mid.foldl dropReference T.children) ::
          (r1 ++ mb :: fin.SetAttribute "id" "final_tractor" :: r2)))).allPtrs.Sublist
      template.allPtrs := by
  rw [allPtrs_withChildren, allPtrs_eq template, hch]
  refine List.Sublist.cons₂ _ ?_
  simp only [allPtrsList_cons, allPtrsList_append, allPtrs_SetAttribute, allPtrs_withChildren]
  refine List.Sublist.append (List.Sublist.refl _) (List.Sublist.append (List.Sublist.refl _)
    (List.Sublist.append (allPtrsList_sublist (List.filter_sublist _)) ?_))
  rw [allPtrs_eq T]
  exact List.Sublist.append
    (List.Sublist.cons₂ _ (allPtrsList_sublist (dropReference_sublist _ _)))
    (List.Sublist.refl _)

theorem new_wellFormed (template profile mp T mb fin : XMLElement)
    (mid r1 r2 : List XMLElement) (hnd : template.allPtrs.Nodup)
    (hch : template.children = profile :: mp :: (mid ++ T :: (r1 ++ mb :: fin :: r2))) :
    (XMLDocument.mk (template.withChildren (profile :: mp :: (mid.filter keepsNode ++
        T.withChildren (mid.foldl dropReference T.children) ::
          (r1 ++ mb :: fin.SetAttribute "id" "final_tractor" :: r2))))
      template.ptrBound).WellFormed := by
  have hs := new_allPtrs_sublist template profile mp T mb fin mid r1 r2 hch
  exact ⟨List.Nodup.sublist hs hnd,
    fun p hp => lt_ptrBound _ template (le_refl _) p (hs.subset hp)⟩

theorem childOK_of_wellFormed {d : XMLDocument} (hwf : d.WellFormed) :
    d.root.ptr < d.next_ptr ∧
      ∀ c ∈ d.root.children, ChildOK d.next_ptr d.root.ptr c := by
  obtain ⟨hnd, hlt⟩ := hwf
  refine ⟨hlt _ (ptr_mem_allPtrs _), ?_⟩
  intro c hc
  have hroot : d.root.ptr ∉ XMLElement.allPtrsList d.root.children := by
    rw [allPtrs_eq, List.nodup_cons] at hnd
    exact hnd.1
  have hin : ∀ p ∈ c.allPtrs, p < d.next_ptr ∧ p ≠ d.root.ptr := by
    intro p hp
    have hm : p ∈ XMLElement.allPtrsList d.root.children := mem_allPtrsList_of_mem hc hp
    refine ⟨hlt p ?_, fun e => hroot (e ▸ hm)⟩
    rw [allPtrs_eq]
    exact List.mem_cons_of_mem _ hm
  refine ⟨(hin _ (ptr_mem_allPtrs c)).1, (hin _ (ptr_mem_allPtrs c)).2, ?_⟩
  intro gc hgc _
  apply hin
  rw [allPtrs_eq]
  exact List.mem_cons_of_mem _ (mem_allPtrsList_of_mem hgc (ptr_mem_allPtrs gc))

/-! ## Initialization -/

/-- C21 as stated fails on templates that have every anchor. In `doubleReferenceTemplate`
the timeline tractor names `tractor0` twice: the constructor removes the tractor `tractor0`
and one of the two references, the other one stays. In `binFirstTemplate` the main bin and
the final tractor stand before the timeline tractor: both are deleted with the tracks, and
the pointers `main_bin` and `final_tractor` of the file point to no node of the document. -/
theorem initialization_counterexample :
    (∃ f ∈ KdenliveFile.new doubleReferenceTemplate,
      f.xml_doc.root.children.map XMLElement.label =
        [("profile", none), ("producer", some "producer0"), ("tractor", some "timeline-uuid"),
         ("playlist", some "main_bin"), ("tractor", some "final_tractor")] ∧
      ((FindTractorElement f.xml_doc "timeline-uuid").map (fun T : XMLElement =>
        T.children.map (fun t => (t.name, (t.Attribute "producer").getD "")))).getD [] =
        [("track", "tractor0")]) ∧
    (∃ g ∈ KdenliveFile.new binFirstTemplate,
      g.xml_doc.root.children.map XMLElement.label =
        [("profile", none), ("producer", some "producer0"), ("tractor", some "timeline-uuid")] ∧
      g.main_bin ∉ g.xml_doc.root.allPtrs ∧ g.final_tractor ∉ g.xml_doc.root.allPtrs) := by
  refine ⟨?_, ?_⟩
  · decide!
  · decide!

/-- C21, amended. Take a template with distinct addresses whose children are, in this order,
the profile, the main producer, nodes `mid`, the timeline tractor `T` (the tractor whose id
is the uuid read from the main bin), nodes `r1`, the main bin, the final tractor and nodes
`r2`. Then the constructor returns a file whose root holds the profile, the main producer,
the nodes of `mid` that are neither playlist nor tractor in their old order, the timeline
tractor, and everything after it unchanged but for the id of the final tractor. The timeline
tractor keeps its children but one per tractor of `mid`, the first that names the id of that
tractor; so, when every tractor of `mid` has an id, the references to an id `s` left are
those it had minus the number of deleted tractors with id `s`. All counters are 0, the anchor
pointers are the addresses of the anchors, and the file is ready for the builder calls
(`DocOK`, `Consistent`, well formed). -/
theorem initialization_zero_tracks (template profile mp T mb fin : XMLElement)
    (mid r1 r2 : List XMLElement) (id : String)
    (hnd : template.allPtrs.Nodup)
    (hch : template.children = profile :: mp :: (mid ++ T :: (r1 ++ mb :: fin :: r2)))
    (hmb : FindPlaylistElement ⟨template, template.ptrBound⟩ "main_bin" = some mb)
    (hid : FindDocUUID (some mb) = some id)
    (htt : FindTractorElement ⟨template, template.ptrBound⟩ id = some T) :
    ∃ f : KdenliveFile, KdenliveFile.new template = some f ∧
      f.xml_doc.root = template.withChildren (profile :: mp :: (mid.filter keepsNode ++
        T.withChildren (mid.foldl dropReference T.children) ::
          (r1 ++ mb :: fin.SetAttribute "id" "final_tractor" :: r2))) ∧
      (∀ c ∈ mid.filter keepsNode, c ∈ mid ∧ c.name ≠ "playlist" ∧ c.name ≠ "tractor") ∧
      (∀ c ∈ mid, c.name ≠ "playlist" → c.name ≠ "tractor" → c ∈ mid.filter keepsNode) ∧
      (mid.foldl dropReference T.children).Sublist T.children ∧
      ((∀ c ∈ mid, c.name = "tractor" → (c.Attribute "id").isSome = true) →
        ∀ s : String, referenceCount s (mid.foldl dropReference T.children) =
          referenceCount s T.children -
            (mid.filter (fun c => c.name == "tractor" && c.AttributeIs "id" (some s))).length) ∧
      f.track_count = 0 ∧ f.chain_count = 0 ∧ f.filter_count = 0 ∧
      f.track_lengths = [] ∧ f.track_entries = [] ∧
      f.profile = profile.ptr ∧ f.main_producer = mp.ptr ∧ f.timeline_tractor = some T.ptr ∧
      f.main_bin = mb.ptr ∧ f.final_tractor = fin.ptr ∧ f.last_added_root_element = mp.ptr ∧
      DocOK f ∧ Consistent f ∧ f.xml_doc.WellFormed := by
  have hnew := new_exact hnd hch hmb hid htt
  have hwf := new_wellFormed template profile mp T mb fin mid r1 r2 hnd hch
  refine ⟨_, hnew, rfl, ?_, ?_, dropReference_sublist _ _,
    fun hids s => referenceCount_walk s mid T.children hids,
    rfl, rfl, rfl, rfl, rfl, rfl, rfl, rfl, rfl, rfl, rfl, ?_, new_consistent hnew, hwf⟩
  · intro c hc
    obtain ⟨hm, hk⟩ := List.mem_filter.1 hc
    unfold keepsNode at hk
    simp only [Bool.and_eq_true, bne_iff_ne, ne_eq] at hk
    exact ⟨hm, hk.1, hk.2⟩
  · intro c hc h1 h2
    exact List.mem_filter.2 ⟨hc, keepsNode_other h1 h2⟩
  · refine DocOK_of_new hnew ?_
    obtain ⟨h1, h2⟩ := childOK_of_wellFormed hwf
    refine ⟨h1, h2, ?_, ?_, ?_, T.ptr, rfl, ?_⟩
    · show mp.ptr ∈ (template.withChildren _).children.map XMLElement.ptr
      rw [withChildren_children]
      simp
    · show mp.ptr ∈ (template.withChildren _).children.map XMLElement.ptr
      rw [withChildren_children]
      simp
    · show mb.ptr ∈ (template.withChildren _).children.map XMLElement.ptr
      rw [withChildren_children]
      simp
    · show T.ptr ∈ (template.withChildren _).children.map XMLElement.ptr
      rw [withChildren_children]
      simp [withChildren_ptr]

/-- Witness of C21: `minimalTemplate`, whose two playlists and one tractor before the timeline
tractor go, with the reference to `tractor0`. -/
theorem initialization_zero_tracks_witness :
    ∃ f : KdenliveFile, KdenliveFile.new minimalTemplate = some f ∧
      f.xml_doc.root.children.map XMLElement.label =
        [("profile", none), ("producer", some "producer0"), ("tractor", some "timeline-uuid"),
         ("playlist", some "main_bin"), ("tractor", some "final_tractor")] ∧
      f.track_count = 0 ∧ f.timeline_tractor = some 8 ∧ DocOK f := by
  obtain ⟨f, h, hroot, -, -, -, -, ht, -, -, -, -, -, -, htt, -, -, -, hdoc, -, -⟩ :=
    initialization_zero_tracks minimalTemplate
      (XMLElement.node 1 "profile" [("description", "HD 1080p 25 fps")] none [])
      (XMLElement.node 2 "producer" [("id", "producer0")] none [])
      (XMLElement.node 8 "tractor" [("id", "timeline-uuid")] none [
        XMLElement.node 9 "track" [("producer", "tractor0")] none []])
      (XMLElement.node 10 "playlist" [("id", "main_bin")] none [
        XMLElement.node 11 "property" [("name", "kdenlive:docproperties.profile")]
          (some "atsc_1080p_25") [],
        XMLElement.node 12 "property" [("name", "kdenlive:docproperties.uuid")]
          (some "timeline-uuid") []])
      (XMLElement.node 13 "tractor" [("id", "tractor1")] none [])
      [XMLElement.node 3 "playlist" [("id", "playlist0")] none [],
       XMLElement.node 4 "playlist" [("id", "playlist1")] none [],
       XMLElement.node 5 "tractor" [("id", "tractor0")] none [
         XMLElement.node 6 "track" [("producer", "playlist0")] none [],
         XMLElement.node 7 "track" [("producer", "playlist1")] none []]]
      [] [] "timeline-uuid" (by decide) rfl rfl rfl rfl
  refine ⟨f, h, ?_, ht, htt, hdoc⟩
  rw [hroot]
  rfl

/-! ## Construction on a template without its anchors -/

theorem nextSibling_some {q : Nat} {x : XMLElement} : ∀ cs : List XMLElement,
    XMLElement.nextSibling cs q = some (some x) →
      ∃ l1 c l2, cs = l1 ++ c :: x :: l2 ∧ c.ptr = q := by
  intro cs
  induction cs with
  | nil => intro h; rw [XMLElement.nextSibling] at h; cases h
  | cons c rest ih =>
    intro h
    rw [XMLElement.nextSibling] at h
    by_cases hc : c.ptr = q
    · rw [if_pos hc] at h
      cases rest with
      | nil => cases h
      | cons y ys =>
        simp only [List.head?_cons, Option.some.injEq] at h
        subst h
        exact ⟨[], c, ys, rfl, hc⟩
    · rw [if_neg hc] at h
      obtain ⟨l1, c', l2, e, hq⟩ := ih h
      exact ⟨c :: l1, c', l2, by rw [e]; rfl, hq⟩

/-- The siblings after a node, seen through addresses and names only. -/
theorem siblingsAfter_tags {q : Nat} : ∀ (cs cs' : List XMLElement) (s : List XMLElement),
    cs'.map (fun x => (x.ptr, x.name)) = cs.map (fun x => (x.ptr, x.name)) →
    XMLElement.siblingsAfter cs q = some s →
    ∃ s', XMLElement.siblingsAfter cs' q = some s' ∧
      s'.map (fun x => (x.ptr, x.name)) = s.map (fun x => (x.ptr, x.name)) := by
  intro cs
  induction cs with
  | nil => intro cs' s _ h; rw [XMLElement.siblingsAfter] at h; cases h
  | cons c rest ih =>
    intro cs' s hm h
    cases cs' with
    | nil => simp at hm
    | cons c' rest' =>
      simp only [List.map_cons, List.cons.injEq, Prod.mk.injEq] at hm
      obtain ⟨⟨hp, -⟩, hrest⟩ := hm
      rw [XMLElement.siblingsAfter] at h ⊢
      by_cases hc : c.ptr = q
      · rw [if_pos hc] at h
        rw [if_pos (hp.trans hc)]
        cases h
        exact ⟨rest', rfl, hrest⟩
      · rw [if_neg hc] at h
        rw [if_neg (fun e => hc (hp.symm.trans e))]
        exact ih rest' s hrest h

/-- The constructor on a template whose timeline tractor is not found, in the order profile,
main producer, nodes `r1`, main bin, a next node, nodes `r2`, none of them a tractor: the
walk runs to the end of the root, deletes every playlist after the main producer, the main
bin among them, and the file is returned with a null timeline tractor. -/
theorem new_exact_null {template profile mp mb fin : XMLElement} {r1 r2 : List XMLElement}
    {id : String} (hnd : template.allPtrs.Nodup)
    (hch : template.children = profile :: mp :: (r1 ++ mb :: fin :: r2))
    (hmb : FindPlaylistElement ⟨template, template.ptrBound⟩ "main_bin" = some mb)
    (hid : FindDocUUID (some mb) = some id)
    (htt : FindTractorElement ⟨template, template.ptrBound⟩ id = none)
    (hno : ∀ c ∈ r1 ++ mb :: fin :: r2, c.name ≠ "tractor") :
    KdenliveFile.new template = some {
      chain_count := 0
      track_count := 0
      filter_count := 0
      track_lengths := []
      track_entries := []
      xml_doc := ⟨template.withChildren (profile :: mp ::
        (r1 ++ mb :: fin.SetAttribute "id" "final_tractor" :: r2).filter keepsNode),
        template.ptrBound⟩
      profile := profile.ptr
      main_producer := mp.ptr
      main_bin := mb.ptr
      timeline_tractor := none
      final_tractor := fin.ptr
      last_added_root_element := mp.ptr } := by
  have e1 : template.children = (profile :: mp :: (r1 ++ [mb])) ++ fin :: r2 := by
    rw [hch]; simp
  have e3 : template.children = (profile :: mp :: r1) ++ mb :: (fin :: r2) := by
    rw [hch]; simp
  have e4 : template.children = [profile] ++ mp :: (r1 ++ mb :: fin :: r2) := by
    rw [hch]; simp
  obtain ⟨f1, f2, f3, -, -⟩ := nodup_root_child hnd e1
  obtain ⟨-, m2, -, -, -⟩ := nodup_root_child hnd e3
  obtain ⟨-, p2, -, -, -⟩ := nodup_root_child hnd e4
  have hptrs : (template.children.map XMLElement.ptr).Nodup := by
    apply childPtrs_nodup
    rw [allPtrs_eq, List.nodup_cons] at hnd
    exact hnd.2
  have hns : XMLElement.nextSibling template.children mb.ptr = some (some fin) := by
    rw [e3, nextSibling_mid (ne_of_not_mem_allPtrsList m2)]; rfl
  have hmod := modify_root_child template template.ptrBound
    (fun x => x.SetAttribute "id" "final_tractor") f1 f2 f3
  rw [← e1, withChildren_self] at hmod
  have hsib : XMLElement.siblingsAfter
      ((profile :: mp :: (r1 ++ [mb])) ++ fin.SetAttribute "id" "final_tractor" :: r2) mp.ptr =
      some (r1 ++ mb :: fin.SetAttribute "id" "final_tractor" :: r2) := by
    have := @siblingsAfter_mid [profile]
      (r1 ++ mb :: fin.SetAttribute "id" "final_tractor" :: r2) mp
      (ne_of_not_mem_allPtrsList p2)
    simpa using this
  have hnd2 : (([profile, mp] ++
      (r1 ++ mb :: fin.SetAttribute "id" "final_tractor" :: r2)).map XMLElement.ptr).Nodup := by
    rw [hch] at hptrs
    simpa [SetAttribute_ptr] using hptrs
  have hno2 : ∀ c ∈ r1 ++ mb :: fin.SetAttribute "id" "final_tractor" :: r2,
      c.name ≠ "tractor" := by
    intro c hc
    simp only [List.mem_append, List.mem_cons] at hc
    rcases hc with h | h | h | h
    · exact hno c (List.mem_append_left _ h)
    · exact hno c (List.mem_append_right _ (by rw [h]; exact List.mem_cons_self _ _))
    · rw [h, SetAttribute_name]
      exact hno fin (List.mem_append_right _
        (List.mem_cons_of_mem _ (List.mem_cons_self _ _)))
    · exact hno c (List.mem_append_right _
        (List.mem_cons_of_mem _ (List.mem_cons_of_mem _ h)))
  have hloop := deleteLoop_null_exact template template.ptrBound
    (r1 ++ mb :: fin.SetAttribute "id" "final_tractor" :: r2) [profile, mp] hnd2 hno2
  have hdel : DeletePreExistingTracks
      ⟨template.withChildren ((profile :: mp :: (r1 ++ [mb])) ++
        fin.SetAttribute "id" "final_tractor" :: r2), template.ptrBound⟩ mp.ptr none =
      some ⟨template.withChildren ([profile, mp] ++
        (r1 ++ mb :: fin.SetAttribute "id" "final_tractor" :: r2).filter keepsNode),
        template.ptrBound⟩ := by
    unfold DeletePreExistingTracks
    rw [withChildren_children, hsib, Option.some_bind, ← hloop]
    congr 3
    simp
  unfold KdenliveFile.new
  simp only [bind, pure, hch, List.head?_cons, Option.some_bind, List.drop_succ_cons,
    List.drop_zero]
  rw [hmb, hid]
  simp only [Option.some_bind, htt, Option.map_none']
  rw [← hch, hns]
  simp only [Option.some_bind]
  rw [hmod]
  simp only [Option.some_bind]
  rw [hdel]
  rfl

/-- With a null timeline tractor the constructor does not return when a tractor node follows
the main producer: the walk dereferences the null pointer there. -/
theorem new_null_tractor {template profile mp mb : XMLElement} {rest : List XMLElement}
    {id : String} (hnd : template.allPtrs.Nodup)
    (hch : template.children = profile :: mp :: rest)
    (hmb : FindPlaylistElement ⟨template, template.ptrBound⟩ "main_bin" = some mb)
    (hid : FindDocUUID (some mb) = some id)
    (htt : FindTractorElement ⟨template, template.ptrBound⟩ id = none)
    (htr : ∃ c ∈ rest, c.name = "tractor") :
    KdenliveFile.new template = none := by
  cases hn : KdenliveFile.new template with
  | none => rfl
  | some f =>
    exfalso
    obtain ⟨profile', mp', mb', fin, id', d1, d2, h1, h2, h3, h4, h5, h6, h7, -⟩ := new_stages hn
    rw [hmb] at h3
    cases h3
    rw [hid] at h4
    cases h4
    rw [htt] at h7
    rw [hch] at h2
    simp only [List.drop_succ_cons, List.drop_zero, List.head?_cons, Option.some.injEq] at h2
    subst h2
    obtain ⟨l1, c, l2, e, -⟩ := nextSibling_some _ h5
    have e1 : template.children = (l1 ++ [c]) ++ fin :: l2 := by rw [e]; simp
    obtain ⟨f1, f2, f3, -, -⟩ := nodup_root_child hnd e1
    have hmod := modify_root_child template template.ptrBound
      (fun x => x.SetAttribute "id" "final_tractor") f1 f2 f3
    rw [← e1, withChildren_self, h6] at hmod
    cases hmod
    have e4 : template.children = [profile] ++ mp :: rest := by rw [hch]; rfl
    obtain ⟨-, p2, -, -, -⟩ := nodup_root_child hnd e4
    have hs : XMLElement.siblingsAfter template.children mp.ptr = some rest := by
      rw [e4]; exact siblingsAfter_mid (ne_of_not_mem_allPtrsList p2)
    have htag : ((l1 ++ [c]) ++ fin.SetAttribute "id" "final_tractor" :: l2).map
        (fun x => (x.ptr, x.name)) = template.children.map (fun x => (x.ptr, x.name)) := by
      rw [e1]
      simp [SetAttribute_ptr, SetAttribute_name]
    obtain ⟨s', hs', hmap⟩ := siblingsAfter_tags _ _ _ htag hs
    unfold DeletePreExistingTracks at h7
    rw [withChildren_children, hs'] at h7
    simp only [Option.map_none', Option.some_bind] at h7
    obtain ⟨x, hx, hname⟩ := htr
    have hmem : (x.ptr, x.name) ∈ s'.map (fun x => (x.ptr, x.name)) := by
      rw [hmap]; exact List.mem_map_of_mem _ hx
    obtain ⟨y, hy, hyx⟩ := List.mem_map.1 hmem
    have hyn : y.name = "tractor" := by
      have := congrArg Prod.snd hyx
      simp only at this
      rw [this, hname]
    rw [deleteLoop_null_tractor s' _ ⟨y, hy, hyn⟩] at h7
    cases h7

theorem FindPlaylistElement_name {d : XMLDocument} {s : String} {pl : XMLElement}
    (h : FindPlaylistElement d s = some pl) : pl.name = "playlist" := by
  unfold FindPlaylistElement XMLElement.findChild at h
  have := List.find?_some h
  simp only [Bool.and_eq_true, beq_iff_eq] at this
  exact this.1

/-- C22 as stated fails. The main bin of `noTimelineTemplate` has no property
`kdenlive:docproperties.uuid` and the template has no tractor: `FindDocUUID` answers with the
text `NULL_UUID`, no tractor has that id, and the constructor still returns a file. Its
timeline tractor is null, and the main bin, a playlist after the main producer, was deleted
on the way. -/
theorem missing_anchor_counterexample :
    FindDocUUID (FindPlaylistElement ⟨noTimelineTemplate, noTimelineTemplate.ptrBound⟩
      "main_bin") = some "NULL_UUID" ∧
    (FindTractorElement ⟨noTimelineTemplate, noTimelineTemplate.ptrBound⟩ "NULL_UUID").isNone
      = true ∧
    ∃ f ∈ KdenliveFile.new noTimelineTemplate,
      f.timeline_tractor = none ∧
      f.xml_doc.root.children.map XMLElement.label =
        [("profile", none), ("producer", some "producer0"),
         ("consumer", some "final_tractor")] ∧
      f.main_bin = 3 ∧ f.main_bin ∉ f.xml_doc.root.allPtrs := by
  refine ⟨?_, ?_, ?_⟩
  · decide!
  · decide!
  · decide!

/-- C22, amended. The constructor has no check for its anchors. Without a first child (the
profile), a second child (the main producer), a playlist `main_bin` or a node after the main
bin it dereferences a null pointer and returns nothing. A main bin without the property
`kdenlive:docproperties.uuid` is not an error: `FindDocUUID` returns the text `NULL_UUID`.
When no tractor has the id read from the main bin, the constructor goes on with a null
timeline tractor and every file it returns has a null timeline tractor. In a template with
distinct addresses it then returns nothing when a tractor node follows the main producer (the
null timeline tractor is dereferenced there), and when none does it returns a file from which
every playlist after the main producer is gone, the main bin included. -/
theorem missing_anchor_behaviour (template : XMLElement) :
    (∀ mb : XMLElement, mb.findChild (fun e => e.name == "property"
        && e.AttributeIs "name" (some "kdenlive:docproperties.uuid")) = none →
      FindDocUUID (some mb) = some "NULL_UUID") ∧
    (template.children = [] → KdenliveFile.new template = none) ∧
    (∀ p, template.children = [p] → KdenliveFile.new template = none) ∧
    (FindPlaylistElement ⟨template, template.ptrBound⟩ "main_bin" = none →
      KdenliveFile.new template = none) ∧
    (∀ mb, FindPlaylistElement ⟨template, template.ptrBound⟩ "main_bin" = some mb →
      XMLElement.nextSibling template.children mb.ptr = some none →
      KdenliveFile.new template = none) ∧
    (∀ (mb : XMLElement) (id : String),
      FindPlaylistElement ⟨template, template.ptrBound⟩ "main_bin" = some mb →
      FindDocUUID (some mb) = some id →
      FindTractorElement ⟨template, template.ptrBound⟩ id = none →
      (∀ f, KdenliveFile.new template = some f → f.timeline_tractor = none) ∧
      (template.allPtrs.Nodup → ∀ (profile mp : XMLElement) (rest : List XMLElement),
        template.children = profile :: mp :: rest → (∃ c ∈ rest, c.name = "tractor") →
        KdenliveFile.new template = none) ∧
      (template.allPtrs.Nodup → ∀ (profile mp fin : XMLElement) (r1 r2 : List XMLElement),
        template.children = profile :: mp :: (r1 ++ mb :: fin :: r2) →
        (∀ c ∈ r1 ++ mb :: fin :: r2, c.name ≠ "tractor") →
        ∃ f, KdenliveFile.new template = some f ∧ f.timeline_tractor = none ∧
          f.main_bin = mb.ptr ∧
          f.xml_doc.root = template.withChildren (profile :: mp ::
            (r1 ++ mb :: fin.SetAttribute "id" "final_tractor" :: r2).filter keepsNode) ∧
          ∀ c ∈ (r1 ++ mb :: fin.SetAttribute "id" "final_tractor" :: r2).filter keepsNode,
            c.name ≠ "playlist")) := by
  refine ⟨?_, ?_, ?_, ?_, ?_, ?_⟩
  · intro mb h
    unfold FindDocUUID
    simp only [h]
  · intro h
    unfold KdenliveFile.new
    simp only [h, List.head?_nil, bind, Option.none_bind]
  · intro p h
    cases hn : KdenliveFile.new template with
    | none => rfl
    | some f =>
      obtain ⟨_, _, _, _, _, _, _, _, h2, -⟩ := new_stages hn
      rw [h] at h2
      simp at h2
  · intro h
    cases hn : KdenliveFile.new template with
    | none => rfl
    | some f =>
      obtain ⟨_, _, _, _, _, _, _, _, _, h3, -⟩ := new_stages hn
      rw [h] at h3
      cases h3
  · intro mb hmb h
    cases hn : KdenliveFile.new template with
    | none => rfl
    | some f =>
      obtain ⟨_, _, _, _, _, _, _, _, _, h3, _, h5, -⟩ := new_stages hn
      rw [hmb] at h3
      cases h3
      rw [h] at h5
      cases h5
  · intro mb id hmb hid htt
    refine ⟨?_, ?_, ?_⟩
    · intro f hn
      obtain ⟨_, _, _, _, _, _, _, _, _, h3, h4, _, _, _, _, _, _, _, h12, -⟩ := new_stages hn
      rw [hmb] at h3
      cases h3
      rw [hid] at h4
      cases h4
      rw [h12, htt]
      rfl
    · intro hnd profile mp rest hch htr
      exact new_null_tractor hnd hch hmb hid htt htr
    · intro hnd profile mp fin r1 r2 hch hno
      refine ⟨_, new_exact_null hnd hch hmb hid htt hno, rfl, rfl, rfl, ?_⟩
      intro c hc
      obtain ⟨-, hk⟩ := List.mem_filter.1 hc
      unfold keepsNode at hk
      simp only [Bool.and_eq_true, bne_iff_ne, ne_eq] at hk
      exact hk.1

/-- Witness of C22: on `noUuidTemplate`, the template `minimalTemplate` without the uuid
property, the timeline tractor is not found and the constructor returns nothing, the first
tractor after the main producer being reached with a null timeline tractor. -/
theorem missing_anchor_behaviour_witness :
    FindDocUUID (FindPlaylistElement ⟨noUuidTemplate, noUuidTemplate.ptrBound⟩ "main_bin") =
      some "NULL_UUID" ∧ KdenliveFile.new noUuidTemplate = none :=
  ⟨by decide!,
    ((missing_anchor_behaviour noUuidTemplate).2.2.2.2.2
      (XMLElement.node 10 "playlist" [("id", "main_bin")] none [
        XMLElement.node 11 "property" [("name", "kdenlive:docproperties.profile")]
          (some "atsc_1080p_25") []])
      "NULL_UUID" rfl rfl rfl).2.1 (by decide) _ _ _ rfl
      ⟨XMLElement.node 13 "tractor" [("id", "tractor1")] none [], by simp, rfl⟩⟩

/-! ## The lookup of asset ids -/

/-- After the registration loop every clip of the list has an entry in `included_names`, with
an id below the number of entries. -/
theorem registerClips_lookup [Stale] {ffp : List String → String → String} {paths : List String}
    {clips : List Clip} {f f' : KdenliveFile} {names' : List (String × Nat)}
    (h : registerClips ffp paths clips (f, []) = some (f', names')) (hf : f.chain_count = 0) :
    f'.chain_count = names'.length ∧
      ∀ clip ∈ clips, ∃ id, names'.lookup clip.name = some id ∧ id < names'.length := by
  obtain ⟨-, r2, r3, r4⟩ := registerClips_spec 0 clips f [] f' names' h
    List.nodup_nil rfl (by rw [hf]; rfl)
  refine ⟨by rw [r3, Nat.zero_add], ?_⟩
  intro clip hclip
  have hmem : clip.name ∈ names'.map Prod.fst := (r4 clip.name).2 (Or.inr ⟨clip, hclip, rfl⟩)
  cases hl : names'.lookup clip.name with
  | none => exact absurd hmem ((lookup_none_iff _ _).1 hl)
  | some id =>
    refine ⟨id, rfl, ?_⟩
    have hin : id ∈ names'.map Prod.snd :=
      List.mem_map.2 ⟨(clip.name, id), lookup_some_mem _ _ _ hl, rfl⟩
    rw [r2, List.mem_range'_1] at hin
    omega

theorem generate_lookup [Stale] {template : XMLElement} {ffp : List String → String → String}
    {P : KdenliveProject} {paths : List String} {g : Generated}
    (h : generate template ffp P paths = some g) :
    g.kdenlive_file.chain_count = g.included_names.length ∧
      ∀ clip ∈ P.clips, ∃ id, g.included_names.lookup clip.name = some id ∧
        id < g.included_names.length := by
  obtain ⟨f0, f1, f2, fv, h0, h1, h2, -, -⟩ := generate_stages h
  obtain ⟨hch0, -⟩ := new_book h0
  obtain ⟨-, -, -, hch1, -⟩ := SetProfile_book h1
  exact ⟨(generate_deduplicates h).2.2.1,
    (registerClips_lookup h2 (by rw [hch1, hch0])).2⟩

/-- C26. Asset lookup never fails. A clip made by `CreateClip`, `CreateClipOnVideoTrack` or
`CreateClipOnAudioTrack` is a clip of the project that made it, and stays one when further
clips are created. `GenerateFile` runs through when the constructor and `SetProfile` succeed
on the template and leave the anchors in order and every placement points to a clip of the
project. In every run that returns, each clip of the project, and so the clip of each
placement that points to one, has an entry in `included_names` (the lookup in `ADD_CLIP`
finds it), and the id found is below the number of entries, which is the number of chains in
the asset bin. -/
theorem asset_lookup_never_fails [Stale] (template : XMLElement)
    (ffp : List String → String → String) (P : KdenliveProject) (paths : List String) :
    (∀ (name : String) (length start_offset t : ℚ),
      (P.CreateClip name length start_offset).2 <
        (P.CreateClip name length start_offset).1.clips.length ∧
      (P.CreateClipOnVideoTrack t name length start_offset).2 <
        (P.CreateClipOnVideoTrack t name length start_offset).1.clips.length ∧
      (P.CreateClipOnAudioTrack t name length start_offset).2 <
        (P.CreateClipOnAudioTrack t name length start_offset).1.clips.length ∧
      P.clips.length ≤ (P.CreateClip name length start_offset).1.clips.length ∧
      (∀ c, (P.AddClipToVideoTrack t c).clips = P.clips ∧
        (P.AddClipToAudioTrack t c).clips = P.clips)) ∧
    (∀ f0 f1, KdenliveFile.new template = some f0 →
      f0.SetProfile (truncToInt P.framerate) P.frame_width P.frame_height = some f1 →
      AnchorsOK f1 → (∀ p ∈ P.video_timeline, p.2 < P.clips.length) →
      (∀ p ∈ P.audio_timeline, p.2 < P.clips.length) →
      ∃ g, generate template ffp P paths = some g) ∧
    ∀ g, generate template ffp P paths = some g →
      g.kdenlive_file.chain_count = g.included_names.length ∧
      (∀ clip ∈ P.clips, ∃ id, g.included_names.lookup clip.name = some id ∧
        id < g.included_names.length) ∧
      ∀ p ∈ P.video_timeline ++ P.audio_timeline, p.2 < P.clips.length →
        ∃ clip id, P.clips[p.2]? = some clip ∧
          g.included_names.lookup clip.name = some id ∧
          id < g.included_names.length ∧ id < g.kdenlive_file.chain_count := by
  refine ⟨?_, fun f0 f1 h0 h1 hanch hv ha =>
    generate_ok template ffp P paths f0 f1 h0 h1 hanch hv ha, ?_⟩
  · intro name length start_offset t
    refine ⟨?_, ?_, ?_, ?_, fun c => ⟨rfl, rfl⟩⟩
    · simp [KdenliveProject.CreateClip]
    · simp [KdenliveProject.CreateClipOnVideoTrack, KdenliveProject.CreateClip,
        KdenliveProject.AddClipToVideoTrack]
    · simp [KdenliveProject.CreateClipOnAudioTrack, KdenliveProject.CreateClip,
        KdenliveProject.AddClipToAudioTrack]
    · simp [KdenliveProject.CreateClip]
  · intro g h
    obtain ⟨hcount, hall⟩ := generate_lookup h
    refine ⟨hcount, hall, ?_⟩
    intro p _ hp
    have hget : P.clips[p.2]? = some (P.clips[p.2]) := List.getElem?_eq_getElem hp
    obtain ⟨id, hid, hlt⟩ := hall _ (List.getElem_mem hp)
    exact ⟨_, id, hget, hid, hlt, by rw [hcount]; exact hlt⟩

/-- Witness of C26: the project of `example.cpp` on `minimalTemplate`; the run returns and
the clip of the first video placement is found. -/
theorem asset_lookup_never_fails_witness :
    ∃ g, @generate Stale.intact minimalTemplate defaultFilePath exampleProject [] = some g ∧
      g.kdenlive_file.chain_count = g.included_names.length ∧
      ∀ clip ∈ exampleProject.clips, ∃ id, g.included_names.lookup clip.name = some id ∧
        id < g.included_names.length := by
  have T := @asset_lookup_never_fails Stale.intact minimalTemplate defaultFilePath exampleProject []
  obtain ⟨f0, h0, f1, h1, hanch⟩ := minimalTemplate_ready
  obtain ⟨g, hg⟩ := T.2.1 f0 f1 h0 h1 hanch exampleProject_placements.1
    exampleProject_placements.2
  exact ⟨g, hg, (T.2.2 g hg).1, (T.2.2 g hg).2.1⟩

/-! ## Every placement leaves one Clip entry -/

theorem clipEntries_append (es fs : List TrackEntry) :
    clipEntries (es ++ fs) = clipEntries es ++ clipEntries fs := by
  unfold clipEntries; rw [List.filter_append]

theorem clipEntries_addedEntries (L t : ℚ) (clip : Clip) :
    clipEntries (addedEntries L t clip) = [entryOfClip clip] := by
  unfold addedEntries clipEntries entryOfClip
  split <;> simp [List.filter_cons]

/-- The scan of the tracks, when it finds a track, appends the entries of `ADD_CLIP` to one
entry list and leaves the others alone. -/
theorem packScan_index {t : ℚ} {clip : Clip} :
    ∀ (cs cs' : List (List TrackEntry)), packScan t clip cs = some cs' →
      ∃ j, j < cs.length ∧ ∃ L,
        cs' = cs.set j ((cs[j]?).getD [] ++ addedEntries L t clip) := by
  intro cs
  induction cs with
  | nil => intro cs' h; simp [packScan] at h
  | cons es rest ih =>
    intro cs' h
    unfold packScan at h
    split at h
    · cases h
      exact ⟨0, Nat.succ_pos _, entriesLength es, by simp⟩
    · simp only [Option.map_eq_some'] at h
      obtain ⟨r, hr, rfl⟩ := h
      obtain ⟨j, hj, L, rfl⟩ := ih r hr
      exact ⟨j + 1, Nat.succ_lt_succ hj, L, by simp⟩

theorem packScan_count {t : ℚ} {clip : Clip} :
    ∀ (cs cs' : List (List TrackEntry)), packScan t clip cs = some cs' →
      (cs'.map (fun es => (clipEntries es).length)).sum =
        (cs.map (fun es => (clipEntries es).length)).sum + 1 := by
  intro cs
  induction cs with
  | nil => intro cs' h; simp [packScan] at h
  | cons es rest ih =>
    intro cs' h
    unfold packScan at h
    split at h
    · cases h
      simp only [List.map_cons, List.sum_cons, clipEntries_append, clipEntries_addedEntries,
        List.length_append, List.length_singleton]
      omega
    · simp only [Option.map_eq_some'] at h
      obtain ⟨r, hr, rfl⟩ := h
      simp only [List.map_cons, List.sum_cons, ih r hr]
      omega

theorem packStep_count (cs : List (List TrackEntry)) (p : ℚ × Clip) :
    ((packStep cs p).map (fun es => (clipEntries es).length)).sum =
      (cs.map (fun es => (clipEntries es).length)).sum + 1 := by
  unfold packStep
  cases h : packScan p.1 p.2 cs with
  | some cs' => exact packScan_count cs cs' h
  | none =>
    simp only [Option.getD_none, List.map_append, List.sum_append, List.map_cons, List.map_nil,
      List.sum_cons, List.sum_nil, clipEntries_addedEntries, List.length_singleton,
      Nat.add_zero]

theorem foldl_packStep_count : ∀ (ps : List (ℚ × Clip)) (cs : List (List TrackEntry)),
    ((ps.foldl packStep cs).map (fun es => (clipEntries es).length)).sum =
      (cs.map (fun es => (clipEntries es).length)).sum + ps.length := by
  intro ps
  induction ps with
  | nil => intro cs; rfl
  | cons p rest ih =>
    intro cs
    rw [List.foldl_cons, ih, packStep_count, List.length_cons]
    omega

theorem assignedTo_snoc (k j : Nat) (p : ℚ × Clip) {ps : List (ℚ × Clip)} {assign : List Nat}
    (h : assign.length = ps.length) :
    assignedTo k (ps ++ [p]) (assign ++ [j]) =
      assignedTo k ps assign ++ (if j = k then [p] else []) := by
  unfold assignedTo
  rw [List.zip_append h.symm, List.filter_append, List.map_append]
  congr 1
  by_cases hjk : j = k
  · simp [hjk, List.filter_cons]
  · simp [hjk, List.filter_cons]

/-- One iteration of the timeline loop, seen on the entry lists of the channel, gives the
Clip entry of its placement to one track. -/
theorem packStep_assigned {cs : List (List TrackEntry)} {ps : List (ℚ × Clip)}
    {assign : List Nat} (p : ℚ × Clip) (hlen : assign.length = ps.length)
    (hlt : ∀ a ∈ assign, a < cs.length)
    (hinv : ∀ k, k < cs.length →
      clipEntries ((cs[k]?).getD []) = (assignedTo k ps assign).map (fun q => entryOfClip q.2)) :
    ∃ j, (∀ a ∈ assign ++ [j], a < (packStep cs p).length) ∧
      ∀ k, k < (packStep cs p).length →
        clipEntries (((packStep cs p)[k]?).getD []) =
          (assignedTo k (ps ++ [p]) (assign ++ [j])).map (fun q => entryOfClip q.2) := by
  unfold packStep
  cases h : packScan p.1 p.2 cs with
  | some cs' =>
    obtain ⟨j, hj, L, rfl⟩ := packScan_index cs cs' h
    refine ⟨j, ?_, ?_⟩
    · intro a ha
      simp only [Option.getD_some, List.length_set]
      rcases List.mem_append.1 ha with ha | ha
      · exact hlt a ha
      · rw [List.mem_singleton.1 ha]; exact hj
    · intro k hk
      simp only [Option.getD_some, List.length_set] at hk ⊢
      rw [assignedTo_snoc k j p hlen, List.map_append]
      by_cases hjk : j = k
      · subst hjk
        rw [List.getElem?_set_self hj, Option.getD_some, clipEntries_append,
          clipEntries_addedEntries, hinv j hj, if_pos rfl]
        rfl
      · rw [List.getElem?_set_ne hjk, hinv k hk, if_neg hjk]
        simp
  | none =>
    refine ⟨cs.length, ?_, ?_⟩
    · intro a ha
      simp only [Option.getD_none, List.length_append, List.length_singleton]
      rcases List.mem_append.1 ha with ha | ha
      · exact Nat.lt_succ_of_lt (hlt a ha)
      · rw [List.mem_singleton.1 ha]; exact Nat.lt_succ_self _
    · intro k hk
      simp only [Option.getD_none, List.length_append, List.length_singleton] at hk ⊢
      rw [assignedTo_snoc k cs.length p hlen, List.map_append]
      by_cases hjk : cs.length = k
      · subst hjk
        rw [List.getElem?_append_right (le_refl _), Nat.sub_self, if_pos rfl]
        have hnone : ∀ a ∈ assign, ¬ (a == cs.length) = true := by
          intro a ha e
          have := hlt a ha
          simp only [beq_iff_eq] at e
          omega
        have hemp : assignedTo cs.length ps assign = [] := by
          unfold assignedTo
          rw [List.map_eq_nil_iff, List.filter_eq_nil_iff]
          intro pa hpa
          exact hnone pa.2 (List.of_mem_zip hpa).2
        rw [hemp]
        simp only [List.getElem?_cons_zero, Option.getD_some, clipEntries_addedEntries,
          List.map_nil, List.nil_append, List.map_cons]
      · have hk' : k < cs.length := by omega
        rw [List.getElem?_append_left hk', hinv k hk', if_neg hjk]
        simp

theorem foldl_packStep_assigned : ∀ (rest : List (ℚ × Clip)) (cs : List (List TrackEntry))
    (ps : List (ℚ × Clip)) (assign : List Nat), assign.length = ps.length →
    (∀ a ∈ assign, a < cs.length) →
    (∀ k, k < cs.length →
      clipEntries ((cs[k]?).getD []) = (assignedTo k ps assign).map (fun q => entryOfClip q.2)) →
    ∃ assign', assign'.length = (ps ++ rest).length ∧
      (∀ a ∈ assign', a < (rest.foldl packStep cs).length) ∧
      ∀ k, k < (rest.foldl packStep cs).length →
        clipEntries (((rest.foldl packStep cs)[k]?).getD []) =
          (assignedTo k (ps ++ rest) assign').map (fun q => entryOfClip q.2) := by
  intro rest
  induction rest with
  | nil =>
    intro cs ps assign hlen hlt hinv
    exact ⟨assign, by rw [List.append_nil]; exact hlen, hlt,
      by rw [List.append_nil]; exact hinv⟩
  | cons p rest ih =>
    intro cs ps assign hlen hlt hinv
    obtain ⟨j, hlt', hinv'⟩ := packStep_assigned p hlen hlt hinv
    have hlen' : (assign ++ [j]).length = (ps ++ [p]).length := by
      rw [List.length_append, List.length_append, hlen]; rfl
    obtain ⟨assign', h1, h2, h3⟩ := ih (packStep cs p) (ps ++ [p]) (assign ++ [j]) hlen' hlt' hinv'
    rw [List.append_assoc, List.singleton_append] at h1 h3
    exact ⟨assign', h1, h2, h3⟩

theorem filterMap_all_some {α β : Type} (f : α → Option β) : ∀ l : List α,
    (l.filterMap f).length = l.length → l.map f = (l.filterMap f).map some := by
  intro l
  induction l with
  | nil => intro _; rfl
  | cons a rest ih =>
    intro h
    cases hf : f a with
    | none =>
      rw [List.filterMap_cons_none hf, List.length_cons] at h
      have := List.length_filterMap_le f rest
      omega
    | some b =>
      rw [List.filterMap_cons_some hf, List.length_cons, List.length_cons] at h
      rw [List.map_cons, List.filterMap_cons_some hf, List.map_cons, hf,
        ih (Nat.succ.inj h)]

/-- C24. No placement is lost or duplicated. `GenerateFile` runs through when the constructor
and `SetProfile` succeed on the template and leave the anchors in order and every placement
points to a clip of the project. In every run that returns, for each channel: every placement
of the timeline has its clip (`resolved` is the timeline with the clips looked up, in the same
order); the track vector holds no track twice; the number of Clip entries over the tracks of
the channel is the number of placements; and there is an assignment of the placements to the
tracks of the channel such that the Clip entries of each track are exactly the entries of the
placements assigned to it (length and start offset of the clip), in the order the placements
were processed. -/
theorem no_placement_lost [Stale] (template : XMLElement) (ffp : List String → String → String)
    (P : KdenliveProject) (paths : List String) :
    (∀ f0 f1, KdenliveFile.new template = some f0 →
      f0.SetProfile (truncToInt P.framerate) P.frame_width P.frame_height = some f1 →
      AnchorsOK f1 → (∀ p ∈ P.video_timeline, p.2 < P.clips.length) →
      (∀ p ∈ P.audio_timeline, p.2 < P.clips.length) →
      ∃ g, generate template ffp P paths = some g) ∧
    ∀ g, generate template ffp P paths = some g → ∀ ty : TrackType,
      (P.timeline ty).map (fun p => (P.clips[p.2]?).map (fun c => (p.1, c))) =
        (resolved P.clips (P.timeline ty)).map some ∧
      (g.tracks ty).Nodup ∧
      (channelEntries g.kdenlive_file (g.tracks ty)).length = (g.tracks ty).length ∧
      ((channelEntries g.kdenlive_file (g.tracks ty)).map
        (fun es => (clipEntries es).length)).sum = (P.timeline ty).length ∧
      ∃ assign : List Nat, assign.length = (P.timeline ty).length ∧
        (∀ a ∈ assign, a < (g.tracks ty).length) ∧
        ∀ k, k < (g.tracks ty).length →
          clipEntries (((channelEntries g.kdenlive_file (g.tracks ty))[k]?).getD []) =
            (assignedTo k (resolved P.clips (P.timeline ty)) assign).map
              (fun q => entryOfClip q.2) := by
  refine ⟨fun f0 f1 h0 h1 hanch hv ha =>
    generate_ok template ffp P paths f0 f1 h0 h1 hanch hv ha, ?_⟩
  intro g h ty
  obtain ⟨-, hres, hch, hnd, -⟩ := generate_channel h ty
  have hclen : (channelEntries g.kdenlive_file (g.tracks ty)).length = (g.tracks ty).length := by
    unfold channelEntries; rw [List.length_map]
  refine ⟨filterMap_all_some _ _ hres, hnd, hclen, ?_, ?_⟩
  · rw [hch, foldl_packStep_count, ← hres]
    simp
  · obtain ⟨assign, h1, h2, h3⟩ := foldl_packStep_assigned
      (resolved P.clips (P.timeline ty)) [] [] [] rfl
      (fun a ha => absurd ha (List.not_mem_nil _))
      (fun k hk => absurd hk (Nat.not_lt_zero _))
    rw [List.nil_append] at h1 h3
    rw [← hch] at h2 h3
    rw [hclen] at h2 h3
    exact ⟨assign, by rw [h1, hres], h2, h3⟩

/-- Witness of C24: the project of `example.cpp` on `minimalTemplate`; the run returns and
the Clip entries of the video tracks are as many as the video placements. -/
theorem no_placement_lost_witness :
    ∃ g, @generate Stale.intact minimalTemplate defaultFilePath exampleProject [] = some g ∧
      ((channelEntries g.kdenlive_file (g.tracks TrackType.VIDEO)).map
        (fun es => (clipEntries es).length)).sum =
        (exampleProject.timeline TrackType.VIDEO).length := by
  have T := @no_placement_lost Stale.intact minimalTemplate defaultFilePath exampleProject []
  obtain ⟨f0, h0, f1, h1, hanch⟩ := minimalTemplate_ready
  obtain ⟨g, hg⟩ := T.1 f0 f1 h0 h1 hanch exampleProject_placements.1
    exampleProject_placements.2
  exact ⟨g, hg, (T.2 g hg TrackType.VIDEO).2.2.2.1⟩

/-! ## Searches below the root along the builder calls -/

theorem find_replace_false {p : XMLElement → Bool} {l1 l2 : List XMLElement}
    {c c' : XMLElement} (h : p c = false) (h' : p c' = false) :
    (l1 ++ c' :: l2).find? p = (l1 ++ c :: l2).find? p := by
  rw [List.find?_append, List.find?_append, List.find?_cons_of_neg _ (by rw [h']; simp),
    List.find?_cons_of_neg _ (by rw [h]; simp)]

theorem find_insert_false {p : XMLElement → Bool} {l1 l2 new : List XMLElement}
    (h : ∀ x ∈ new, p x = false) : (l1 ++ (new ++ l2)).find? p = (l1 ++ l2).find? p := by
  rw [List.find?_append, List.find?_append, List.find?_append]
  have : new.find? p = none := List.find?_eq_none.2 (fun x hx => by rw [h x hx]; simp)
  rw [this]
  simp

theorem find_insert_fresh {p : XMLElement → Bool} {l1 l2 new : List XMLElement}
    (h : ∀ x ∈ l1, p x = false) : (l1 ++ (new ++ l2)).find? p = (new ++ l2).find? p := by
  rw [List.find?_append]
  have : l1.find? p = none := List.find?_eq_none.2 (fun x hx => by rw [h x hx]; simp)
  rw [this]
  simp

/-- Before the node a search finds, no node passes the test, when the addresses differ. -/
theorem first_match_front {p : XMLElement → Bool} {c : XMLElement} {l2 : List XMLElement} :
    ∀ l1 : List XMLElement, (l1 ++ c :: l2).find? p = some c →
      c.ptr ∉ l1.map XMLElement.ptr → ∀ y ∈ l1, p y = false := by
  intro l1
  induction l1 with
  | nil => intro _ _ y hy; exact absurd hy (List.not_mem_nil _)
  | cons x xs ih =>
    intro hf hc y hy
    rw [List.cons_append] at hf
    have hx : p x = false := by
      cases hpx : p x with
      | false => rfl
      | true =>
        rw [List.find?_cons_of_pos _ hpx] at hf
        exfalso
        apply hc
        rw [← Option.some.inj hf]
        exact List.mem_map_of_mem _ (List.mem_cons_self _ _)
    rw [List.find?_cons_of_neg _ (by rw [hx]; simp)] at hf
    rcases List.mem_cons.1 hy with rfl | hy
    · exact hx
    · exact ih hf (fun h => hc (List.mem_cons_of_mem _ h)) y hy

theorem first_match_before {root : XMLElement} {p : XMLElement → Bool} {c : XMLElement}
    {l1 l2 : List XMLElement} (hnd : root.allPtrs.Nodup)
    (hch : root.children = l1 ++ c :: l2) (hf : root.children.find? p = some c) :
    ∀ y ∈ l1, p y = false := by
  rw [hch] at hf
  refine first_match_front l1 hf ?_
  intro hm
  obtain ⟨y, hy, hyp⟩ := List.mem_map.1 hm
  exact (nodup_root_child hnd hch).2.1 (hyp ▸ mem_allPtrsList_of_mem hy (ptr_mem_allPtrs y))

theorem test_congr_sig (nm id : String) {c c' : XMLElement} (h : c'.sig = c.sig) :
    (c'.name == nm && c'.AttributeIs "id" (some id)) =
      (c.name == nm && c.AttributeIs "id" (some id)) := by
  unfold XMLElement.sig at h
  simp only [Prod.mk.injEq] at h
  unfold XMLElement.AttributeIs XMLElement.Attribute
  rw [h.2.1, h.2.2]

theorem test_other_id {nm s s' : String} {c : XMLElement}
    (h : (c.name == nm && c.AttributeIs "id" (some s)) = true) (hne : s' ≠ s) :
    (c.name == nm && c.AttributeIs "id" (some s')) = false := by
  simp only [Bool.and_eq_true] at h
  cases hv : c.AttributeIs "id" (some s') with
  | false => simp
  | true => exact absurd (AttributeIs_unique hv h.2) hne

theorem test_other_name {nm nm' s s' : String} {c : XMLElement}
    (h : (c.name == nm && c.AttributeIs "id" (some s)) = true) (hne : nm' ≠ nm) :
    (c.name == nm' && c.AttributeIs "id" (some s')) = false := by
  simp only [Bool.and_eq_true, beq_iff_eq] at h
  have : (c.name == nm') = false := by
    rw [h.1]
    simpa using hne.symm
  rw [this]
  rfl

theorem FindTractorElement_eq (d : XMLDocument) (id : String) :
    FindTractorElement d id =
      d.root.children.find? (fun e => e.name == "tractor" && e.AttributeIs "id" (some id)) :=
  rfl

/-- The searches after a call that replaces the first playlist `pl` of a track by a node with
the same address, name and attributes. -/
theorem local_finds {f f' : KdenliveFile} {s : String} {pl pl' : XMLElement}
    {l1 l2 : List XMLElement} (hwf : f.xml_doc.WellFormed)
    (hch : f.xml_doc.root.children = l1 ++ pl :: l2)
    (hpl : FindPlaylistElement f.xml_doc s = some pl)
    (hroot : f'.xml_doc.root = f.xml_doc.root.withChildren (l1 ++ pl' :: l2))
    (hsig : pl'.sig = pl.sig) :
    FindPlaylistElement f'.xml_doc s = some pl' ∧
    (∀ s', s' ≠ s → FindPlaylistElement f'.xml_doc s' = FindPlaylistElement f.xml_doc s') ∧
    (∀ s', FindTractorElement f'.xml_doc s' = FindTractorElement f.xml_doc s') ∧
    f'.xml_doc.root.children.map XMLElement.sig =
      f.xml_doc.root.children.map XMLElement.sig := by
  have hpl0 := hpl
  rw [FindPlaylistElement_eq] at hpl
  have hfront := first_match_before hwf.1 hch hpl
  have hp : (pl.name == "playlist" && pl.AttributeIs "id" (some s)) = true :=
    (find_decompose hpl).1
  have hch' : f'.xml_doc.root.children = l1 ++ pl' :: l2 := by
    rw [hroot, withChildren_children]
  refine ⟨?_, ?_, ?_, ?_⟩
  · rw [FindPlaylistElement_eq, hch']
    exact find_append_cons (fun a ha => by rw [hfront a ha]; rfl)
      (by rw [test_congr_sig "playlist" s hsig]; exact hp)
  · intro s' hne
    rw [FindPlaylistElement_eq, FindPlaylistElement_eq, hch', hch]
    exact find_replace_false (test_other_id hp hne)
      (by rw [test_congr_sig "playlist" s' hsig]; exact test_other_id hp hne)
  · intro s'
    rw [FindTractorElement_eq, FindTractorElement_eq, hch', hch]
    exact find_replace_false (test_other_name hp (by decide))
      (by rw [test_congr_sig "tractor" s' hsig]; exact test_other_name hp (by decide))
  · rw [hch', hch]
    simp only [List.map_append, List.map_cons, hsig]

theorem playlist_id_ne {a b : Nat} (h : a ≠ b) :
    "playlist" ++ toString a ≠ "playlist" ++ toString b :=
  fun e => h (append_toString_injective "playlist" e)

theorem tractor_id_ne {a b : Nat} (h : a ≠ b) :
    "tractor" ++ toString a ≠ "tractor" ++ toString b :=
  fun e => h (append_toString_injective "tractor" e)

/-- The condition `FreshIds` looks at addresses, names and attributes of the children of the
root only, and stays true when tracks are added. -/
theorem FreshIds.of_sigs {f f' : KdenliveFile} (h : FreshIds f)
    (hsig : ∀ c' ∈ f'.xml_doc.root.children, ∃ c ∈ f.xml_doc.root.children, c'.sig = c.sig)
    (hcount : f.track_count ≤ f'.track_count)
    (htt : f'.timeline_tractor = f.timeline_tractor) : FreshIds f' := by
  intro c' hc' j
  obtain ⟨c, hc, hs⟩ := hsig c' hc'
  obtain ⟨h1, h2⟩ := h c hc j
  have hptr : c'.ptr = c.ptr := congrArg Prod.fst hs
  refine ⟨fun ht => ?_, fun ht => ?_⟩
  · rw [test_congr_sig "playlist" _ hs] at ht
    have := h1 ht
    exact lt_of_lt_of_le this (Nat.mul_le_mul_right 2 hcount)
  · rw [test_congr_sig "tractor" _ hs] at ht
    obtain ⟨a, b⟩ := h2 ht
    exact ⟨lt_of_lt_of_le a hcount, by rw [htt, hptr]; exact b⟩

theorem sigs_mem_of_map_eq {cs cs' : List XMLElement}
    (h : cs'.map XMLElement.sig = cs.map XMLElement.sig) :
    ∀ c' ∈ cs', ∃ c ∈ cs, c'.sig = c.sig := by
  intro c' hc'
  have hm : c'.sig ∈ cs.map XMLElement.sig := by
    rw [← h]; exact List.mem_map_of_mem _ hc'
  obtain ⟨c, hc, he⟩ := List.mem_map.1 hm
  exact ⟨c, hc, he.symm⟩

/-- What a call that replaces the first playlist of track `k` by a node with the same
address, name and attributes keeps true: the document mirrors the bookkeeping when the timed
children of the new node are of the kinds of the new entry list of the track, no id of
a later track comes into use, the tracks only grow when the old timed children stay in
front, and the tractors of the tracks are as they were. -/
theorem local_invariants {f f' : KdenliveFile} {k : Nat} {pl pl' : XMLElement}
    {l1 l2 : List XMLElement} {es added : List TrackEntry} {more : List _}
    (hwf : f.xml_doc.WellFormed) (hm : Mirror f) (hfresh : FreshIds f)
    (hk : k < f.track_count)
    (hch : f.xml_doc.root.children = l1 ++ pl :: l2)
    (hpl : FindPlaylistElement f.xml_doc ("playlist" ++ toString (k * 2)) = some pl)
    (hroot : f'.xml_doc.root = f.xml_doc.root.withChildren (l1 ++ pl' :: l2))
    (hsig : pl'.sig = pl.sig)
    (hcount : f'.track_count = f.track_count)
    (htt : f'.timeline_tractor = f.timeline_tractor)
    (hother : ∀ j, j ≠ k → f'.track_entries[j]? = f.track_entries[j]?)
    (hes0 : f.track_entries[k]? = some es)
    (hes : f'.track_entries[k]? = some (es ++ added))
    (hkinds : pl'.timedNodes.map XMLElement.entryKind =
      (es ++ added).map TrackEntry.entry_type)
    (hmore : pl'.timedNodes.map XMLElement.sig = pl.timedNodes.map XMLElement.sig ++ more) :
    Mirror f' ∧ FreshIds f' ∧ Extends f f' ∧
      ∀ kinds, TrackKinds f kinds → TrackKinds f' kinds := by
  obtain ⟨g1, g2, g3, g4⟩ := local_finds hwf hch hpl hroot hsig
  refine ⟨?_, ?_, ?_, ?_⟩
  · intro j hj
    rw [hcount] at hj
    obtain ⟨p1, p2, m1, m2, m3, m4⟩ := hm j hj
    by_cases hjk : j = k
    · subst hjk
      refine ⟨pl', p2, g1, ?_, ?_, m4⟩
      · rw [hes]; exact hkinds
      · rw [g2 _ (playlist_id_ne (by omega))]; exact m3
    · refine ⟨p1, p2, ?_, ?_, ?_, m4⟩
      · rw [g2 _ (playlist_id_ne (by omega))]; exact m1
      · rw [hother j hjk]; exact m2
      · rw [g2 _ (playlist_id_ne (by omega))]; exact m3
  · exact hfresh.of_sigs (sigs_mem_of_map_eq g4) (le_of_eq hcount.symm) htt
  · refine ⟨le_of_eq hcount.symm, ?_⟩
    intro j hj
    by_cases hjk : j = k
    · subst hjk
      refine ⟨⟨added, by rw [hes, hes0]; rfl⟩, ?_⟩
      intro p hp
      rw [hpl] at hp
      cases hp
      exact ⟨pl', g1, hsig, more, hmore⟩
    · refine ⟨⟨[], by rw [hother j hjk, List.append_nil]⟩, ?_⟩
      intro p hp
      refine ⟨p, ?_, rfl, [], by rw [List.append_nil]⟩
      rw [g2 _ (playlist_id_ne (by omega))]; exact hp
  · intro kinds hkd
    refine ⟨by rw [hcount]; exact hkd.1, ?_⟩
    intro j ty hj
    obtain ⟨tr, h1, h2⟩ := hkd.2 j ty hj
    exact ⟨tr, by rw [g3]; exact h1, h2⟩

theorem timedNodes_append_timed (pl x : XMLElement) (hx : x.isTimed = true) :
    (pl.withChildren (pl.children ++ [x])).timedNodes = pl.timedNodes ++ [x] := by
  unfold XMLElement.timedNodes
  rw [withChildren_children, List.filter_append, List.filter_cons_of_pos hx, List.filter_nil]

theorem FindPlaylistEntry_eq (d : XMLDocument) (id : String) (i : Nat) :
    FindPlaylistEntry d id i =
      (FindPlaylistElement d id).map (fun pl => pl.timedNodes[i]?) := rfl

theorem AddClipToTrack_anchors [Stale] {f f' : KdenliveFile} {id : Nat} {cid : Nat} {len off : ℚ}
    {e : Nat} (h : f.AddClipToTrack id cid len off = some (f', e)) :
    f'.timeline_tractor = f.timeline_tractor ∧ f'.main_producer = f.main_producer ∧
      f'.main_bin = f.main_bin ∧ f'.last_added_root_element = f.last_added_root_element := by
  unfold AddClipToTrack at h
  simp only [bind, Option.bind_eq_some, pure, Option.some.injEq] at h
  obtain ⟨pl, _, ⟨d, b⟩, _, L, hL, es, hes, h⟩ := h
  simp only [Option.some.injEq, Prod.mk.injEq] at h
  obtain ⟨rfl, rfl⟩ := h
  exact ⟨rfl, rfl, rfl, rfl⟩

theorem AddBlankToTrack_anchors {f f' : KdenliveFile} {id : Nat} {len : ℚ}
    {e : Nat} (h : f.AddBlankToTrack id len = some (f', e)) :
    f'.timeline_tractor = f.timeline_tractor ∧ f'.main_producer = f.main_producer ∧
      f'.main_bin = f.main_bin ∧ f'.last_added_root_element = f.last_added_root_element := by
  unfold AddBlankToTrack at h
  simp only [bind, Option.bind_eq_some, pure, Option.some.injEq] at h
  obtain ⟨pl, _, ⟨d, b⟩, _, L, hL, es, hes, h⟩ := h
  simp only [Option.some.injEq, Prod.mk.injEq] at h
  obtain ⟨rfl, rfl⟩ := h
  exact ⟨rfl, rfl, rfl, rfl⟩

/-- A call that appends one timed node `x` to the first playlist of track `k` and records the
entry `entry` of the same kind keeps the state of the tracks in order; the node is found at
the position of the new entry. -/
theorem append_tracks {f f' : KdenliveFile} {k : Nat} {pl x : XMLElement}
    {l1 l2 : List XMLElement} {es : List TrackEntry} {entry : TrackEntry}
    (hok : TracksOK f) (hk : k < f.track_count)
    (hch : f.xml_doc.root.children = l1 ++ pl :: l2)
    (hpl : FindPlaylistElement f.xml_doc ("playlist" ++ toString (k * 2)) = some pl)
    (hroot : f'.xml_doc.root =
      f.xml_doc.root.withChildren (l1 ++ pl.withChildren (pl.children ++ [x]) :: l2))
    (hx : x.isTimed = true) (hkind : x.entryKind = entry.entry_type)
    (hes : f.track_entries[k]? = some es)
    (hset : f'.track_entries = f.track_entries.set k (es ++ [entry]))
    (hcount : f'.track_count = f.track_count)
    (htt : f'.timeline_tractor = f.timeline_tractor)
    (hdoc' : DocOK f') (hcons' : Consistent f') (hwf' : f'.xml_doc.WellFormed) :
    TracksOK f' ∧ Extends f f' ∧ (∀ kinds, TrackKinds f kinds → TrackKinds f' kinds) ∧
      FindPlaylistEntry f'.xml_doc ("playlist" ++ toString (k * 2)) es.length =
        some (some x) := by
  obtain ⟨hdoc, hcons, hwf, hm, hfresh⟩ := hok
  have hlen : k < f.track_entries.length := by rw [hcons.1]; exact hk
  obtain ⟨p1, p2, m1, m2, -, -⟩ := hm k hk
  rw [hpl] at m1
  cases m1
  rw [hes, Option.getD_some] at m2
  have hkinds : (pl.withChildren (pl.children ++ [x])).timedNodes.map XMLElement.entryKind =
      (es ++ [entry]).map TrackEntry.entry_type := by
    rw [timedNodes_append_timed pl x hx, List.map_append, List.map_append, m2]
    simp only [List.map_cons, List.map_nil, hkind]
  have hmore : (pl.withChildren (pl.children ++ [x])).timedNodes.map XMLElement.sig =
      pl.timedNodes.map XMLElement.sig ++ [x.sig] := by
    rw [timedNodes_append_timed pl x hx, List.map_append]
    rfl
  obtain ⟨i1, i2, i3, i4⟩ := local_invariants hwf hm hfresh hk hch hpl hroot
    (sig_withChildren _ _) hcount htt
    (fun j hj => by rw [hset, List.getElem?_set_ne (Ne.symm hj)]) hes
    (by rw [hset, List.getElem?_set_self hlen]) hkinds hmore
  refine ⟨⟨hdoc', hcons', hwf', i1, i2⟩, i3, i4, ?_⟩
  obtain ⟨g1, -⟩ := local_finds hwf hch hpl hroot (sig_withChildren _ _)
  rw [FindPlaylistEntry_eq, g1, Option.map_some', timedNodes_append_timed pl x hx]
  have hl : pl.timedNodes.length = es.length := by
    have := congrArg List.length m2
    simpa using this
  rw [← hl, List.getElem?_append_right (le_refl _), Nat.sub_self, List.getElem?_cons_zero]

/-- The call `AddClipToTrack` keeps the state of the tracks in order, and the position it
returns is the position at which `FindPlaylistEntry` finds the new `entry` node. -/
theorem AddClipToTrack_tracks [Stale] {f f' : KdenliveFile} {k cid e : Nat} {len off : ℚ}
    (hok : TracksOK f) (h : f.AddClipToTrack k cid len off = some (f', e)) :
    TracksOK f' ∧ Extends f f' ∧ (∀ kinds, TrackKinds f kinds → TrackKinds f' kinds) ∧
      f'.track_count = f.track_count ∧
      ∃ es, f.track_entries[k]? = some es ∧ e = es.length ∧
        f'.track_entries = f.track_entries.set k (es ++ [⟨EntryType.CLIP, len, off⟩]) ∧
        FindPlaylistEntry f'.xml_doc ("playlist" ++ toString (k * 2)) e =
          some (some (XMLElement.node f.xml_doc.next_ptr "entry"
            [("in", Stale.read f.xml_doc.next_ptr "in" (convertToTimestamp off)),
            ("out", Stale.read f.xml_doc.next_ptr "out" (convertToTimestamp (fadd len off))),
              ("producer", "chain" ++ toString cid)] none [])) := by
  obtain ⟨L, es, -, hes, -, hset, he, hcount, -, -⟩ := AddClipToTrack_book h
  have hk : k < f.track_count := by
    rw [← hok.2.1.1]
    by_contra hge
    rw [List.getElem?_eq_none (by omega)] at hes
    cases hes
  obtain ⟨l1, pl, l2, hch, hpl, ⟨f'', e'', h'', hroot, -, hdoc', hcons', hwf'⟩, -, -⟩ :=
    track_append_exact f k cid len off hok.1 hok.2.1 hok.2.2.1 hk
  rw [h] at h''
  cases h''
  obtain ⟨i1, i2, i3, i4⟩ := append_tracks hok hk hch hpl hroot (by rfl) (by rfl) hes hset hcount
    (AddClipToTrack_anchors h).1 hdoc' hcons' hwf'
  exact ⟨i1, i2, i3, hcount, es, hes, he, hset, by rw [he]; exact i4⟩

/-- The call `AddBlankToTrack` keeps the state of the tracks in order, and the position it
returns is the position at which `FindPlaylistEntry` finds the new `blank` node. -/
theorem AddBlankToTrack_tracks [Stale] {f f' : KdenliveFile} {k e : Nat} {len : ℚ}
    (hok : TracksOK f) (h : f.AddBlankToTrack k len = some (f', e)) :
    TracksOK f' ∧ Extends f f' ∧ (∀ kinds, TrackKinds f kinds → TrackKinds f' kinds) ∧
      f'.track_count = f.track_count ∧
      ∃ es, f.track_entries[k]? = some es ∧ e = es.length ∧
        f'.track_entries = f.track_entries.set k (es ++ [⟨EntryType.BLANK, len, 0⟩]) ∧
        FindPlaylistEntry f'.xml_doc ("playlist" ++ toString (k * 2)) e =
          some (some (XMLElement.node f.xml_doc.next_ptr "blank"
            [("length", convertToTimestamp len)] none [])) := by
  obtain ⟨L, es, -, hes, -, hset, he, hcount, -, -⟩ := AddBlankToTrack_book h
  have hk : k < f.track_count := by
    rw [← hok.2.1.1]
    by_contra hge
    rw [List.getElem?_eq_none (by omega)] at hes
    cases hes
  obtain ⟨l1, pl, l2, hch, hpl, -, ⟨f'', e'', h'', hroot, -, hdoc', hcons', hwf'⟩, -⟩ :=
    track_append_exact f k 0 len 0 hok.1 hok.2.1 hok.2.2.1 hk
  rw [h] at h''
  cases h''
  obtain ⟨i1, i2, i3, i4⟩ := append_tracks hok hk hch hpl hroot (by rfl) (by rfl) hes hset hcount
    (AddBlankToTrack_anchors h).1 hdoc' hcons' hwf'
  exact ⟨i1, i2, i3, hcount, es, hes, he, hset, by rw [he]; exact i4⟩

theorem attachFilter_anchors [Stale] {f f' : KdenliveFile} {entry : Option XMLElement} {i o : ℚ}
    {k a : String} (h : attachFilter f entry i o k a = some f') :
    f'.timeline_tractor = f.timeline_tractor := by
  unfold attachFilter at h
  cases entry with
  | none => simp at h
  | some en =>
    simp only [Option.map_eq_some'] at h
    obtain ⟨d', _, rfl⟩ := h
    rfl

theorem FadeClip_anchors [Stale] {f f' : KdenliveFile} {id : Nat} {e : Nat} {a b : ℚ}
    (h : f.FadeClip id e a b = some f') : f'.timeline_tractor = f.timeline_tractor := by
  unfold FadeClip at h
  split at h
  · simp at h
  · split at h
    · simp only [Option.some.injEq] at h; subst h; rfl
    · simp only [Option.bind_eq_some] at h
      obtain ⟨entry, _, f1, h1, h2⟩ := h
      have b1 : f1.timeline_tractor = f.timeline_tractor := by
        split at h1
        · exact attachFilter_anchors h1
        · simp only [Option.some.injEq] at h1; subst h1; rfl
      split at h2
      · rw [attachFilter_anchors h2, b1]
      · simp only [Option.some.injEq] at h2; subst h2; exact b1

theorem isTimed_of_sig {e e' : XMLElement} (h : e'.sig = e.sig) : e'.isTimed = e.isTimed :=
  isTimed_congr (by
    have := congrArg (fun s => s.2.1) h
    exact this)

theorem entryKind_of_sig {e e' : XMLElement} (h : e'.sig = e.sig) :
    e'.entryKind = e.entryKind := by
  have hn : e'.name = e.name := congrArg (fun s => s.2.1) h
  unfold XMLElement.entryKind
  rw [hn]

/-- Replacing a child by a node with the same address, name and attributes leaves the timed
children what they were, up to the content of that child. -/
theorem timedNodes_replace (pl : XMLElement) {a b : List XMLElement} {entry entry' : XMLElement}
    (hcc : pl.children = a ++ entry :: b) (hs : entry'.sig = entry.sig) :
    (pl.withChildren (a ++ entry' :: b)).timedNodes.map XMLElement.sig =
        pl.timedNodes.map XMLElement.sig ∧
      (pl.withChildren (a ++ entry' :: b)).timedNodes.map XMLElement.entryKind =
        pl.timedNodes.map XMLElement.entryKind := by
  unfold XMLElement.timedNodes
  rw [withChildren_children, hcc, List.filter_append, List.filter_append, List.filter_cons,
    List.filter_cons, isTimed_of_sig hs]
  by_cases ht : entry.isTimed = true
  · simp only [ht, if_true, List.map_append, List.map_cons, hs, entryKind_of_sig hs,
      and_self]
  · simp only [ht, Bool.false_eq_true, if_false, and_self]

theorem entry_type_clip {e : TrackEntry} (h : ¬ e.entry_type = EntryType.BLANK) :
    e.entry_type = EntryType.CLIP := by
  cases ht : e.entry_type with
  | BLANK => exact absurd ht h
  | CLIP => rfl

theorem Extends.same (f : KdenliveFile) : Extends f f :=
  ⟨le_refl _, fun _ _ => ⟨⟨[], by rw [List.append_nil]⟩,
    fun pl hp => ⟨pl, hp, rfl, [], by rw [List.append_nil]⟩⟩⟩

theorem Extends.chain {f g h : KdenliveFile} (h1 : Extends f g) (h2 : Extends g h) :
    Extends f h := by
  refine ⟨le_trans h1.1 h2.1, ?_⟩
  intro k hk
  obtain ⟨⟨e1, he1⟩, q1⟩ := h1.2 k hk
  obtain ⟨⟨e2, he2⟩, q2⟩ := h2.2 k (lt_of_lt_of_le hk h1.1)
  refine ⟨⟨e1 ++ e2, by rw [he2, he1, List.append_assoc]⟩, ?_⟩
  intro pl hp
  obtain ⟨pl1, a1, a2, m1, a3⟩ := q1 pl hp
  obtain ⟨pl2, b1, b2, m2, b3⟩ := q2 pl1 a1
  exact ⟨pl2, b1, b2.trans a2, m1 ++ m2, by rw [b3, a3, List.append_assoc]⟩

/-- The call `FadeClip` keeps the state of the tracks in order. On a Blank entry it changes
nothing; on a Clip entry it attaches the filters to the node `FindPlaylistEntry` finds at
the position of the entry, and that node is found there afterwards, with the filters. -/
theorem FadeClip_tracks [Stale] {f f' : KdenliveFile} {k e : Nat} {fin fout : ℚ}
    (hok : TracksOK f) (h : f.FadeClip k e fin fout = some f') :
    TracksOK f' ∧ Extends f f' ∧ (∀ kinds, TrackKinds f kinds → TrackKinds f' kinds) ∧
      f'.track_count = f.track_count ∧ f'.track_entries = f.track_entries ∧
      ∃ es this_entry, f.track_entries[k]? = some es ∧ es[e]? = some this_entry ∧
        (this_entry.entry_type = EntryType.BLANK → f' = f) ∧
        (this_entry.entry_type = EntryType.CLIP →
          ∃ entry, FindPlaylistEntry f.xml_doc ("playlist" ++ toString (k * 2)) e =
              some (some entry) ∧
            FindPlaylistEntry f'.xml_doc ("playlist" ++ toString (k * 2)) e =
              some (some (entry.withChildren (entry.children ++
                fadeFilters f.xml_doc.next_ptr f.filter_count this_entry.start_offset
                  this_entry.length fin fout)))) := by
  obtain ⟨hdoc, hcons, hwf, hm, hfresh⟩ := hok
  obtain ⟨b1, b2, b3, b4⟩ := FadeClip_book h
  cases hes : f.track_entries[k]? with
  | none =>
    unfold FadeClip at h
    rw [hes] at h
    simp at h
  | some es =>
    cases hte : es[e]? with
    | none =>
      unfold FadeClip at h
      rw [hes] at h
      simp only [Option.some_bind, hte] at h
      cases h
    | some this_entry =>
      have hk : k < f.track_count := by
        rw [← hcons.1]
        by_contra hge
        rw [List.getElem?_eq_none (by omega)] at hes
        cases hes
      by_cases hb : this_entry.entry_type = EntryType.BLANK
      · have hff : f' = f := by
          unfold FadeClip at h
          rw [hes] at h
          simp only [Option.some_bind, hte, if_pos hb, Option.some.injEq] at h
          exact h.symm
        subst hff
        refine ⟨⟨hdoc, hcons, hwf, hm, hfresh⟩, Extends.same _, fun _ hk => hk, rfl, rfl, es,
          this_entry, rfl, hte, fun _ => rfl, fun hc => ?_⟩
        rw [hb] at hc
        cases hc
      · have hclip := entry_type_clip hb
        obtain ⟨l1, pl, l2, a, entry, b, f'', hch, hpl, hcc, hfind, hF, hroot, hfind', -, -, -,
          -, -, hdoc', hwf'⟩ := FadeClip_exact f k e fin fout es this_entry hdoc hwf hk hes hte
            hclip
        rw [h] at hF
        cases hF
        obtain ⟨p1, p2, m1, m2, -, -⟩ := hm k hk
        rw [hpl] at m1
        cases m1
        rw [hes, Option.getD_some] at m2
        have hs : (entry.withChildren (entry.children ++
            fadeFilters f.xml_doc.next_ptr f.filter_count this_entry.start_offset
              this_entry.length fin fout)).sig = entry.sig := sig_withChildren _ _
        obtain ⟨r1, r2⟩ := timedNodes_replace pl hcc hs
        have hnil : es ++ [] = es := List.append_nil es
        have h5 : f'.track_entries[k]? = some (es ++ []) := by rw [b3, hes, hnil]
        have h6 : (pl.withChildren (a ++ entry.withChildren (entry.children ++
            fadeFilters f.xml_doc.next_ptr f.filter_count this_entry.start_offset
              this_entry.length fin fout) :: b)).timedNodes.map XMLElement.entryKind =
            (es ++ []).map TrackEntry.entry_type := by rw [r2, m2, hnil]
        have h7 : (pl.withChildren (a ++ entry.withChildren (entry.children ++
            fadeFilters f.xml_doc.next_ptr f.filter_count this_entry.start_offset
              this_entry.length fin fout) :: b)).timedNodes.map XMLElement.sig =
            pl.timedNodes.map XMLElement.sig ++ [] := by rw [r1, List.append_nil]
        obtain ⟨i1, i2, i3, i4⟩ := local_invariants hwf hm hfresh hk hch hpl hroot
          (sig_withChildren _ _) b1 (FadeClip_anchors h) (fun j _ => by rw [b3]) hes h5 h6 h7
        exact ⟨⟨hdoc', hcons.of_book b1 b2 b3, hwf', i1, i2⟩, i3, i4, b1, b3, es, this_entry,
          rfl, hte, fun hc => absurd hc hb, fun _ => ⟨entry, hfind, hfind'⟩⟩

/-! ## The searches after `AddTrack` -/

theorem find_map_sig {p : XMLElement → Bool} {g : XMLElement → XMLElement}
    (hp : ∀ x, p (g x) = p x) : ∀ cs : List XMLElement,
    (cs.map g).find? p = (cs.find? p).map g := by
  intro cs
  induction cs with
  | nil => rfl
  | cons c cs ih =>
    rw [List.map_cons, List.find?_cons, List.find?_cons, hp c]
    cases p c
    · simpa using ih
    · rfl

/-- A search for an id that none of the new nodes carries finds what it found before. -/
theorem find_old {p : XMLElement → Bool} {g : XMLElement → XMLElement}
    {l1 l2 new : List XMLElement} {c : XMLElement} (hp : ∀ x, p (g x) = p x)
    (hnew : ∀ x ∈ new, p x = false) :
    (((l1 ++ c :: new) ++ l2).map g).find? p = ((l1 ++ c :: l2).find? p).map g := by
  rw [find_map_sig hp]
  congr 1
  have e1 : (l1 ++ c :: new) ++ l2 = (l1 ++ [c]) ++ (new ++ l2) := by simp
  have e2 : l1 ++ c :: l2 = (l1 ++ [c]) ++ l2 := by simp
  rw [e1, e2]
  exact find_insert_false hnew

/-- A search for an id that no old node carries looks at the new nodes only. -/
theorem find_new {p : XMLElement → Bool} {g : XMLElement → XMLElement}
    {l1 l2 new : List XMLElement} {c : XMLElement} (hp : ∀ x, p (g x) = p x)
    (hold : ∀ x ∈ l1 ++ c :: l2, p x = false) :
    (((l1 ++ c :: new) ++ l2).map g).find? p = (new.find? p).map g := by
  rw [find_map_sig hp]
  congr 1
  have e1 : (l1 ++ c :: new) ++ l2 = (l1 ++ [c]) ++ (new ++ l2) := by simp
  rw [e1, find_insert_fresh (fun x hx => hold x (by
    simp only [List.mem_append, List.mem_singleton, List.mem_cons] at hx ⊢
    tauto)), List.find?_append]
  have : l2.find? p = none := List.find?_eq_none.2 (fun x hx => by
    rw [hold x (List.mem_append_right _ (List.mem_cons_of_mem _ hx))]; simp)
  rw [this]
  simp

theorem test_node (p : Nat) (nm s nm' s' : String) (t : Option String)
    (cs : List XMLElement) :
    ((XMLElement.node p nm [("id", s)] t cs).name == nm' &&
      (XMLElement.node p nm [("id", s)] t cs).AttributeIs "id" (some s')) =
      (nm == nm' && s == s') := by
  unfold XMLElement.AttributeIs XMLElement.Attribute
  simp [XMLElement.name, XMLElement.attrs]

theorem trackNodes_eq (ty : TrackType) (p k : Nat) :
    ∃ kids, trackNodes ty p k =
      [XMLElement.node p "playlist" [("id", "playlist" ++ toString (k * 2))] none [],
       XMLElement.node (p + 1) "playlist" [("id", "playlist" ++ toString (k * 2 + 1))] none [],
       XMLElement.node (p + 2) "tractor" [("id", "tractor" ++ toString k)] none kids] ∧
      kids.map (fun c => (c.name, c.attrs, c.text)) = trackKindChildren ty k := by
  cases ty
  · exact ⟨_, rfl, rfl⟩
  · exact ⟨_, rfl, rfl⟩

theorem timelineTrack_not_timed (ty : TrackType) (p k : Nat) :
    (timelineTrack ty p k).isTimed = false := by
  unfold timelineTrack XMLElement.isTimed
  rfl

theorem timedNodes_append_other (x t : XMLElement) (ht : t.isTimed = false) :
    (x.withChildren (x.children ++ [t])).timedNodes = x.timedNodes := by
  unfold XMLElement.timedNodes
  rw [withChildren_children, List.filter_append, List.filter_cons_of_neg (by rw [ht]; simp),
    List.filter_nil, List.append_nil]

theorem beq_string_false {a b : String} (h : a ≠ b) : (a == b) = false := by
  simpa using h

/-- The searches in the document after `AddTrack`: the nodes of the old tracks are found as
before, up to the new `track` child of the timeline tractor, and the ids of the new track
lead to its three new nodes. -/
theorem AddTrack_finds {f f' : KdenliveFile} {ty : TrackType} {id : Nat} (hok : TracksOK f)
    (h : f.AddTrack ty = some (f', id)) :
    ∃ (g : XMLElement → XMLElement) (kids : List XMLElement),
      (∀ x, (g x).sig = x.sig) ∧ (∀ x, (g x).timedNodes = x.timedNodes) ∧
      (∀ x, f.timeline_tractor ≠ some x.ptr → g x = x) ∧
      (∀ c' ∈ f'.xml_doc.root.children, ∃ x, c' = g x ∧
        (x ∈ f.xml_doc.root.children ∨ x ∈ trackNodes ty f.xml_doc.next_ptr f.track_count)) ∧
      trackNodes ty f.xml_doc.next_ptr f.track_count =
        [XMLElement.node f.xml_doc.next_ptr "playlist"
          [("id", "playlist" ++ toString (f.track_count * 2))] none [],
         XMLElement.node (f.xml_doc.next_ptr + 1) "playlist"
          [("id", "playlist" ++ toString (f.track_count * 2 + 1))] none [],
         XMLElement.node (f.xml_doc.next_ptr + 2) "tractor"
          [("id", "tractor" ++ toString f.track_count)] none kids] ∧
      kids.map (fun c => (c.name, c.attrs, c.text)) = trackKindChildren ty f.track_count ∧
      (∃ tt, f.timeline_tractor = some tt ∧ tt < f.xml_doc.next_ptr) ∧
      (∀ k, k < f.track_count * 2 →
        FindPlaylistElement f'.xml_doc ("playlist" ++ toString k) =
          (FindPlaylistElement f.xml_doc ("playlist" ++ toString k)).map g) ∧
      (∀ k, k < f.track_count →
        FindTractorElement f'.xml_doc ("tractor" ++ toString k) =
          (FindTractorElement f.xml_doc ("tractor" ++ toString k)).map g) ∧
      FindPlaylistElement f'.xml_doc ("playlist" ++ toString (f.track_count * 2)) =
        some (XMLElement.node f.xml_doc.next_ptr "playlist"
          [("id", "playlist" ++ toString (f.track_count * 2))] none []) ∧
      FindPlaylistElement f'.xml_doc ("playlist" ++ toString (f.track_count * 2 + 1)) =
        some (XMLElement.node (f.xml_doc.next_ptr + 1) "playlist"
          [("id", "playlist" ++ toString (f.track_count * 2 + 1))] none []) ∧
      FindTractorElement f'.xml_doc ("tractor" ++ toString f.track_count) =
        some (XMLElement.node (f.xml_doc.next_ptr + 2) "tractor"
          [("id", "tractor" ++ toString f.track_count)] none kids) := by
  obtain ⟨hdoc, hcons, hwf, hm, hfresh⟩ := hok
  obtain ⟨l1, c, l2, tt, hch, -, htt, httmem, hroot, -⟩ := AddTrack_map hdoc.1 hwf h
  obtain ⟨kids, hnew, hkids⟩ := trackNodes_eq ty f.xml_doc.next_ptr f.track_count
  have httlt : tt < f.xml_doc.next_ptr := by
    apply hwf.2
    rw [allPtrs_eq]
    obtain ⟨y, hy, hyp⟩ := List.mem_map.1 httmem
    exact List.mem_cons_of_mem _ (hyp ▸ mem_allPtrsList_of_mem hy (ptr_mem_allPtrs y))
  have hgsig : ∀ x : XMLElement, (if x.ptr = tt then x.withChildren (x.children ++
      [timelineTrack ty f.xml_doc.next_ptr f.track_count]) else x).sig = x.sig := by
    intro x
    split
    · exact sig_withChildren _ _
    · rfl
  have hgtimed : ∀ x : XMLElement, (if x.ptr = tt then x.withChildren (x.children ++
      [timelineTrack ty f.xml_doc.next_ptr f.track_count]) else x).timedNodes =
      x.timedNodes := by
    intro x
    split
    · exact timedNodes_append_other _ _ (timelineTrack_not_timed _ _ _)
    · rfl
  have hgid : ∀ x : XMLElement, f.timeline_tractor ≠ some x.ptr →
      (if x.ptr = tt then x.withChildren (x.children ++
        [timelineTrack ty f.xml_doc.next_ptr f.track_count]) else x) = x := by
    intro x hx
    rw [if_neg]
    intro e
    exact hx (by rw [htt, e])
  have hch' : f'.xml_doc.root.children =
      ((l1 ++ c :: trackNodes ty f.xml_doc.next_ptr f.track_count) ++ l2).map
        (fun x => if x.ptr = tt then x.withChildren (x.children ++
          [timelineTrack ty f.xml_doc.next_ptr f.track_count]) else x) := by
    rw [hroot, withChildren_children]
  have htest : ∀ (nm s : String) (x : XMLElement),
      ((if x.ptr = tt then x.withChildren (x.children ++
        [timelineTrack ty f.xml_doc.next_ptr f.track_count]) else x).name == nm &&
        (if x.ptr = tt then x.withChildren (x.children ++
        [timelineTrack ty f.xml_doc.next_ptr f.track_count]) else x).AttributeIs "id" (some s)) =
      (x.name == nm && x.AttributeIs "id" (some s)) :=
    fun nm s x => test_congr_sig nm s (hgsig x)
  have hnewid : ∀ x ∈ trackNodes ty f.xml_doc.next_ptr f.track_count,
      (if x.ptr = tt then x.withChildren (x.children ++
        [timelineTrack ty f.xml_doc.next_ptr f.track_count]) else x) = x := by
    intro x hx
    apply hgid
    rw [htt]
    intro e
    have e' : tt = x.ptr := Option.some.inj e
    rw [hnew] at hx
    simp only [List.mem_cons, List.mem_singleton, List.not_mem_nil, or_false] at hx
    rcases hx with rfl | rfl | rfl
    · have : tt = f.xml_doc.next_ptr := e'
      omega
    · have : tt = f.xml_doc.next_ptr + 1 := e'
      omega
    · have : tt = f.xml_doc.next_ptr + 2 := e'
      omega
  have holdp : ∀ (j : Nat), f.track_count * 2 ≤ j → ∀ x ∈ l1 ++ c :: l2,
      (x.name == "playlist" && x.AttributeIs "id" (some ("playlist" ++ toString j))) = false := by
    intro j hj x hx
    cases ht : (x.name == "playlist" && x.AttributeIs "id" (some ("playlist" ++ toString j))) with
    | false => rfl
    | true =>
      have := (hfresh x (by rw [hch]; exact hx) j).1 ht
      omega
  have holdt : ∀ (j : Nat), f.track_count ≤ j → ∀ x ∈ l1 ++ c :: l2,
      (x.name == "tractor" && x.AttributeIs "id" (some ("tractor" ++ toString j))) = false := by
    intro j hj x hx
    cases ht : (x.name == "tractor" && x.AttributeIs "id" (some ("tractor" ++ toString j))) with
    | false => rfl
    | true =>
      have := ((hfresh x (by rw [hch]; exact hx) j).2 ht).1
      omega
  refine ⟨_, kids, hgsig, hgtimed, hgid, ?_, hnew, hkids, ⟨tt, htt, httlt⟩, ?_, ?_, ?_, ?_, ?_⟩
  · intro c' hc'
    rw [hch'] at hc'
    obtain ⟨x, hx, rfl⟩ := List.mem_map.1 hc'
    refine ⟨x, rfl, ?_⟩
    rw [hch]
    simp only [List.mem_append, List.mem_cons] at hx ⊢
    tauto
  · intro k hk
    rw [FindPlaylistElement_eq, FindPlaylistElement_eq, hch', hch]
    refine find_old (htest "playlist" _) ?_
    intro x hx
    rw [hnew] at hx
    simp only [List.mem_cons, List.mem_singleton, List.not_mem_nil, or_false] at hx
    rcases hx with rfl | rfl | rfl
    · rw [test_node, beq_string_false (playlist_id_ne (by omega)), Bool.and_false]
    · rw [test_node, beq_string_false (playlist_id_ne (by omega)), Bool.and_false]
    · rw [test_node]; rfl
  · intro k hk
    rw [FindTractorElement_eq, FindTractorElement_eq, hch', hch]
    refine find_old (htest "tractor" _) ?_
    intro x hx
    rw [hnew] at hx
    simp only [List.mem_cons, List.mem_singleton, List.not_mem_nil, or_false] at hx
    rcases hx with rfl | rfl | rfl
    · rw [test_node]; rfl
    · rw [test_node]; rfl
    · rw [test_node, beq_string_false (tractor_id_ne (by omega)), Bool.and_false]
  · rw [FindPlaylistElement_eq, hch', find_new (htest "playlist" _) (holdp _ (le_refl _)), hnew,
      List.find?_cons_of_pos _ (by rw [test_node]; simp), Option.map_some',
      hnewid _ (by rw [hnew]; exact List.mem_cons_self _ _)]
  · rw [FindPlaylistElement_eq, hch', find_new (htest "playlist" _) (holdp _ (Nat.le_succ _)),
      hnew, List.find?_cons_of_neg _ (by
        rw [test_node, beq_string_false (playlist_id_ne (by omega)), Bool.and_false]; simp),
      List.find?_cons_of_pos _ (by rw [test_node]; simp), Option.map_some',
      hnewid _ (by rw [hnew]; exact List.mem_cons_of_mem _ (List.mem_cons_self _ _))]
  · rw [FindTractorElement_eq, hch', find_new (htest "tractor" _) (holdt _ (le_refl _)), hnew,
      List.find?_cons_of_neg _ (by
        rw [test_node, beq_string_false (by decide : "playlist" ≠ "tractor"), Bool.false_and]
        simp),
      List.find?_cons_of_neg _ (by
        rw [test_node, beq_string_false (by decide : "playlist" ≠ "tractor"), Bool.false_and]
        simp),
      List.find?_cons_of_pos _ (by rw [test_node]; simp), Option.map_some',
      hnewid _ (by
        rw [hnew]
        exact List.mem_cons_of_mem _ (List.mem_cons_of_mem _ (List.mem_cons_self _ _)))]

theorem test_node_eq {p : Nat} {nm s nm' s' : String} {t : Option String}
    {cs : List XMLElement}
    (h : ((XMLElement.node p nm [("id", s)] t cs).name == nm' &&
      (XMLElement.node p nm [("id", s)] t cs).AttributeIs "id" (some s')) = true) :
    nm = nm' ∧ s = s' := by
  rw [test_node] at h
  simpa using h

/-- The call `AddTrack` keeps the state of the tracks in order: the old tracks are as they
were, and the new track, with the next number, has its two playlists, both without timed
children, and an empty entry list. -/
theorem AddTrack_tracks {f f' : KdenliveFile} {ty : TrackType} {id : Nat} (hok : TracksOK f)
    (h : f.AddTrack ty = some (f', id)) :
    TracksOK f' ∧ Extends f f' ∧
      (∀ kinds, TrackKinds f kinds → TrackKinds f' (kinds ++ [ty])) ∧
      id = f.track_count ∧ f'.track_count = f.track_count + 1 ∧
      f'.track_entries = f.track_entries ++ [[]] := by
  obtain ⟨g, kids, gsig, gtimed, gid, hmem, hnew, hkids, ⟨tt, htt, httlt⟩, F1, F2, N0, N1, N2⟩ :=
    AddTrack_finds hok h
  obtain ⟨hdoc, hcons, hwf, hm, hfresh⟩ := hok
  obtain ⟨hid, hcount, -, hent, -, -⟩ := AddTrack_book h
  obtain ⟨f'', h'', hdoc'⟩ := AddTrack_ok f ty hdoc hcons
  rw [h] at h''
  cases h''
  have hcons' := AddTrack_consistent hcons h
  have hwf' := AddTrack_wellFormed hdoc.1 hwf h
  have htt' : f'.timeline_tractor = f.timeline_tractor := (AddTrack_anchors h).2.2.1
  have hlen : f.track_entries.length = f.track_count := hcons.1
  refine ⟨⟨hdoc', hcons', hwf', ?_, ?_⟩, ?_, ?_, hid, hcount, hent⟩
  · intro k hk
    rw [hcount] at hk
    by_cases hlt : k < f.track_count
    · obtain ⟨p1, p2, m1, m2, m3, m4⟩ := hm k hlt
      refine ⟨g p1, g p2, by rw [F1 _ (by omega), m1]; rfl, ?_, by rw [F1 _ (by omega), m3]; rfl,
        by rw [gtimed, m4]⟩
      rw [gtimed, m2, hent, List.getElem?_append_left (by rw [hlen]; exact hlt)]
    · have hk' : k = f.track_count := by omega
      subst hk'
      refine ⟨_, _, N0, ?_, N1, rfl⟩
      rw [hent, List.getElem?_append_right (by rw [hlen]), hlen, Nat.sub_self]
      rfl
  · intro c' hc' j
    obtain ⟨x, rfl, hx⟩ := hmem c' hc'
    rw [test_congr_sig "playlist" _ (gsig x), test_congr_sig "tractor" _ (gsig x), hcount, htt']
    have hptr : (g x).ptr = x.ptr := congrArg Prod.fst (gsig x)
    rw [hptr]
    rcases hx with hx | hx
    · obtain ⟨a, b⟩ := hfresh x hx j
      refine ⟨fun ht => ?_, fun ht => ?_⟩
      · have := a ht
        omega
      · obtain ⟨b1, b2⟩ := b ht
        exact ⟨by omega, b2⟩
    · rw [hnew] at hx
      simp only [List.mem_cons, List.mem_singleton, List.not_mem_nil, or_false] at hx
      rcases hx with rfl | rfl | rfl
      · refine ⟨fun ht => ?_, fun ht => ?_⟩
        · have := append_toString_injective "playlist" (test_node_eq ht).2
          omega
        · exact absurd (test_node_eq ht).1 (by decide)
      · refine ⟨fun ht => ?_, fun ht => ?_⟩
        · have := append_toString_injective "playlist" (test_node_eq ht).2
          omega
        · exact absurd (test_node_eq ht).1 (by decide)
      · refine ⟨fun ht => ?_, fun ht => ?_⟩
        · exact absurd (test_node_eq ht).1 (by decide)
        · have := append_toString_injective "tractor" (test_node_eq ht).2
          refine ⟨by omega, ?_⟩
          rw [htt]
          intro e
          have e' : tt = f.xml_doc.next_ptr + 2 := Option.some.inj e
          omega
  · refine ⟨by omega, ?_⟩
    intro k hk
    refine ⟨⟨[], by
      rw [hent, List.getElem?_append_left (by rw [hlen]; exact hk), List.append_nil]⟩, ?_⟩
    intro pl hp
    exact ⟨g pl, by rw [F1 _ (by omega), hp]; rfl, gsig pl, [], by rw [gtimed, List.append_nil]⟩
  · intro kinds hkd
    obtain ⟨hkl, hkk⟩ := hkd
    refine ⟨by rw [List.length_append, hkl, hcount]; rfl, ?_⟩
    intro k ty' hk
    by_cases hlt : k < kinds.length
    · rw [List.getElem?_append_left hlt] at hk
      obtain ⟨tr, t1, t2⟩ := hkk k ty' hk
      have ht1 := t1
      rw [FindTractorElement_eq] at ht1
      obtain ⟨htest, a, b, hab, -⟩ := find_decompose ht1
      have hmemtr : tr ∈ f.xml_doc.root.children := by
        rw [hab]; exact List.mem_append_right _ (List.mem_cons_self _ _)
      have hne := ((hfresh tr hmemtr k).2 htest).2
      exact ⟨tr, by rw [F2 _ (by omega), t1, Option.map_some', gid tr hne], t2⟩
    · have hge : kinds.length ≤ k := by omega
      rw [List.getElem?_append_right hge] at hk
      have hk0 : k - kinds.length = 0 := by
        by_contra hne
        rw [List.getElem?_eq_none (by simp; omega)] at hk
        cases hk
      rw [hk0] at hk
      simp only [List.getElem?_cons_zero, Option.some.injEq] at hk
      subst hk
      have hkeq : k = f.track_count := by omega
      subst hkeq
      exact ⟨_, N2, hkids⟩

/-! ## Sequences of calls -/

/-- One call keeps the state of the tracks in order. -/
theorem TrackCall.run_tracks [Stale] {f f' : KdenliveFile} (c : TrackCall) (hok : TracksOK f)
    (h : c.run f = some f') :
    TracksOK f' ∧ Extends f f' ∧
      f'.track_count = f.track_count + (createdKinds [c]).length ∧
      ∀ kinds, TrackKinds f kinds → TrackKinds f' (kinds ++ createdKinds [c]) := by
  cases c with
  | AddTrack ty =>
    simp only [TrackCall.run, Option.map_eq_some'] at h
    obtain ⟨⟨f1, id⟩, h1, rfl⟩ := h
    obtain ⟨a, b, c, -, d, -⟩ := AddTrack_tracks hok h1
    exact ⟨a, b, d, c⟩
  | AddBlankToTrack k len =>
    simp only [TrackCall.run, Option.map_eq_some'] at h
    obtain ⟨⟨f1, id⟩, h1, rfl⟩ := h
    obtain ⟨a, b, c, d, -⟩ := AddBlankToTrack_tracks hok h1
    exact ⟨a, b, d, fun kinds hk => by
      simp only [createdKinds, List.append_nil]; exact c kinds hk⟩
  | AddClipToTrack k cid len off =>
    simp only [TrackCall.run, Option.map_eq_some'] at h
    obtain ⟨⟨f1, id⟩, h1, rfl⟩ := h
    obtain ⟨a, b, c, d, -⟩ := AddClipToTrack_tracks hok h1
    exact ⟨a, b, d, fun kinds hk => by
      simp only [createdKinds, List.append_nil]; exact c kinds hk⟩
  | FadeClip k e fin fout =>
    simp only [TrackCall.run] at h
    obtain ⟨a, b, c, d, -⟩ := FadeClip_tracks hok h
    exact ⟨a, b, d, fun kinds hk => by
      simp only [createdKinds, List.append_nil]; exact c kinds hk⟩

theorem createdKinds_cons (c : TrackCall) (cs : List TrackCall) :
    createdKinds (c :: cs) = createdKinds [c] ++ createdKinds cs := by
  cases c <;> rfl

/-- A sequence of calls keeps the state of the tracks in order, and creates the tracks of
`createdKinds`, numbered on from the tracks there were. -/
theorem runTrackCalls_tracks [Stale] : ∀ (calls : List TrackCall) (f f' : KdenliveFile),
    TracksOK f → runTrackCalls calls f = some f' →
    TracksOK f' ∧ Extends f f' ∧
      f'.track_count = f.track_count + (createdKinds calls).length ∧
      ∀ kinds, TrackKinds f kinds → TrackKinds f' (kinds ++ createdKinds calls) := by
  intro calls
  induction calls with
  | nil =>
    intro f f' hok h
    simp only [runTrackCalls, Option.some.injEq] at h
    subst h
    exact ⟨hok, Extends.same _, rfl, fun kinds hk => by
      simp only [createdKinds, List.append_nil]; exact hk⟩
  | cons c cs ih =>
    intro f f' hok h
    simp only [runTrackCalls, Option.bind_eq_some] at h
    obtain ⟨f1, h1, h2⟩ := h
    obtain ⟨a1, a2, a3, a4⟩ := c.run_tracks hok h1
    obtain ⟨b1, b2, b3, b4⟩ := ih f1 f' a1 h2
    have e := createdKinds_cons c cs
    refine ⟨b1, a2.chain b2, ?_, ?_⟩
    · rw [b3, a3, e, List.length_append]
      omega
    · intro kinds hk
      rw [e, ← List.append_assoc]
      exact b4 _ (a4 kinds hk)

/-- What the state of the tracks says of one track: the timed children of its first
playlist are sorted like its entries, and `FindPlaylistEntry` finds at position `i` a node of
the kind of entry `i`. -/
theorem tracks_state {f : KdenliveFile} (hok : TracksOK f) {k : Nat} (hk : k < f.track_count) :
    ∃ es pl pl2, f.track_entries[k]? = some es ∧
      FindPlaylistElement f.xml_doc ("playlist" ++ toString (k * 2)) = some pl ∧
      pl.timedNodes.map XMLElement.entryKind = es.map TrackEntry.entry_type ∧
      pl.timedNodes.length = es.length ∧
      FindPlaylistElement f.xml_doc ("playlist" ++ toString (k * 2 + 1)) = some pl2 ∧
      pl2.timedNodes = [] ∧
      ∀ i entry, es[i]? = some entry →
        ∃ node, FindPlaylistEntry f.xml_doc ("playlist" ++ toString (k * 2)) i =
            some (some node) ∧ pl.timedNodes[i]? = some node ∧
          node.entryKind = entry.entry_type := by
  obtain ⟨-, hcons, -, hm, -⟩ := hok
  obtain ⟨pl, pl2, m1, m2, m3, m4⟩ := hm k hk
  have hlt : k < f.track_entries.length := by rw [hcons.1]; exact hk
  have hes : f.track_entries[k]? = some f.track_entries[k] := List.getElem?_eq_getElem hlt
  rw [hes, Option.getD_some] at m2
  have hlen : pl.timedNodes.length = f.track_entries[k].length := by
    have := congrArg List.length m2
    simpa using this
  refine ⟨_, pl, pl2, hes, m1, m2, hlen, m3, m4, ?_⟩
  intro i entry hi
  have hil : i < f.track_entries[k].length := by
    by_contra hge
    rw [List.getElem?_eq_none (by omega)] at hi
    cases hi
  have hnode : pl.timedNodes[i]? = some pl.timedNodes[i] :=
    List.getElem?_eq_getElem (by rw [hlen]; exact hil)
  refine ⟨pl.timedNodes[i], ?_, hnode, ?_⟩
  · rw [FindPlaylistEntry_eq, m1, Option.map_some', hnode]
  · have h1 := congrArg (fun l => l[i]?) m2
    simp only [List.getElem?_map, hnode, hi, Option.map_some', Option.some.injEq] at h1
    exact h1

/-- The entry `AddClipToTrack` has returned the position of is, after any further calls,
still the node `FindPlaylistEntry` finds at that position, and `FadeClip` with that position
attaches its filters to this node. -/
theorem fade_reaches_entry [Stale] {f f1 f2 : KdenliveFile} {k cid e : Nat} {len off : ℚ}
    {calls : List TrackCall} (hok : TracksOK f)
    (h1 : f.AddClipToTrack k cid len off = some (f1, e))
    (h2 : runTrackCalls calls f1 = some f2) :
    ∃ entry, FindPlaylistEntry f2.xml_doc ("playlist" ++ toString (k * 2)) e =
        some (some entry) ∧
      entry.sig = (f.xml_doc.next_ptr, "entry", [("in", Stale.read f.xml_doc.next_ptr "in" (convertToTimestamp off)),
        ("out", Stale.read f.xml_doc.next_ptr "out" (convertToTimestamp (fadd len off))), ("producer", "chain" ++ toString cid)]) ∧
      ((f2.track_entries[k]?).getD [])[e]? = some ⟨EntryType.CLIP, len, off⟩ ∧
      ∀ fin fout, ∃ f3, f2.FadeClip k e fin fout = some f3 ∧
        FindPlaylistEntry f3.xml_doc ("playlist" ++ toString (k * 2)) e =
          some (some (entry.withChildren (entry.children ++
            fadeFilters f2.xml_doc.next_ptr f2.filter_count off len fin fout))) := by
  obtain ⟨ok1, -, -, hc1, es, hes, he, hset, hfind1⟩ := AddClipToTrack_tracks hok h1
  obtain ⟨ok2, hext, -, -⟩ := runTrackCalls_tracks calls f1 f2 ok1 h2
  have hk : k < f.track_count := by
    rw [← hok.2.1.1]
    by_contra hge
    rw [List.getElem?_eq_none (by omega)] at hes
    cases hes
  have hk1 : k < f1.track_count := by rw [hc1]; exact hk
  have hk2 : k < f2.track_count := lt_of_lt_of_le hk1 hext.1
  have hlen : k < f.track_entries.length := by rw [hok.2.1.1]; exact hk
  obtain ⟨⟨added, hadd⟩, hpl⟩ := hext.2 k hk1
  -- the entry list of the track
  have hent : ((f2.track_entries[k]?).getD [])[e]? = some ⟨EntryType.CLIP, len, off⟩ := by
    rw [hadd, hset, List.getElem?_set_self hlen, Option.getD_some, he, List.append_assoc,
      List.getElem?_append_right (le_refl _), Nat.sub_self, List.singleton_append,
      List.getElem?_cons_zero]
  -- the node
  rw [FindPlaylistEntry_eq] at hfind1
  cases hp1 : FindPlaylistElement f1.xml_doc ("playlist" ++ toString (k * 2)) with
  | none => rw [hp1] at hfind1; cases hfind1
  | some pl1 =>
    rw [hp1, Option.map_some', Option.some.injEq] at hfind1
    obtain ⟨pl2, hp2, -, more, hmore⟩ := hpl pl1 hp1
    have hsig2 : (pl2.timedNodes.map XMLElement.sig)[e]? =
        some (XMLElement.sig (XMLElement.node f.xml_doc.next_ptr "entry"
          [("in", Stale.read f.xml_doc.next_ptr "in" (convertToTimestamp off)),
            ("out", Stale.read f.xml_doc.next_ptr "out" (convertToTimestamp (fadd len off))),
            ("producer", "chain" ++ toString cid)] none [])) := by
      have hlt : e < (pl1.timedNodes.map XMLElement.sig).length := by
        rw [List.length_map]
        by_contra hge
        rw [List.getElem?_eq_none (by omega)] at hfind1
        cases hfind1
      rw [hmore, List.getElem?_append_left hlt, List.getElem?_map, hfind1]
      rfl
    rw [List.getElem?_map] at hsig2
    cases hn : pl2.timedNodes[e]? with
    | none => rw [hn] at hsig2; cases hsig2
    | some entry =>
      rw [hn, Option.map_some', Option.some.injEq] at hsig2
      have hfind2 : FindPlaylistEntry f2.xml_doc ("playlist" ++ toString (k * 2)) e =
          some (some entry) := by
        rw [FindPlaylistEntry_eq, hp2, Option.map_some', hn]
      refine ⟨entry, hfind2, hsig2, hent, ?_⟩
      intro fin fout
      have hlt2 : k < f2.track_entries.length := by rw [ok2.2.1.1]; exact hk2
      have hes2 : f2.track_entries[k]? = some f2.track_entries[k] :=
        List.getElem?_eq_getElem hlt2
      rw [hes2, Option.getD_some] at hent
      have hel : e < f2.track_entries[k].length := by
        by_contra hge
        rw [List.getElem?_eq_none (by omega)] at hent
        cases hent
      obtain ⟨f3, h3, -⟩ := FadeClip_ok f2 k e fin fout ok2.1 hk2 _ hes2 hel
      obtain ⟨-, -, -, -, -, es', te, q1, q2, -, q4⟩ := FadeClip_tracks ok2 h3
      rw [hes2] at q1
      cases q1
      rw [hent] at q2
      cases q2
      obtain ⟨entry', r1, r2⟩ := q4 rfl
      rw [hfind2] at r1
      cases r1
      exact ⟨f3, h3, r2⟩

/-! ## The fresh file on the minimal template -/

theorem ne_append_of_take {a s : String} (t : String) (n : Nat) (hn : n ≤ s.data.length)
    (h : a.data.take n ≠ s.data.take n) : a ≠ s ++ t := by
  intro e
  apply h
  rw [e, String.data_append, List.take_append_of_le_length hn]

theorem test_of_label {c : XMLElement} {n : String} {o : Option String}
    (h : c.label = (n, o)) (nm s : String) :
    (c.name == nm && c.AttributeIs "id" (some s)) =
      (n == nm && (o.map (fun v => v == s)).getD false) := by
  unfold XMLElement.label at h
  simp only [Prod.mk.injEq] at h
  unfold XMLElement.AttributeIs
  rw [h.1, h.2]
  cases o <;> rfl

theorem minimalTemplate_labels :
    ∀ f0 ∈ KdenliveFile.new minimalTemplate,
      f0.xml_doc.root.children.map XMLElement.label =
        [("profile", none), ("producer", some "producer0"), ("tractor", some "timeline-uuid"),
         ("playlist", some "main_bin"), ("tractor", some "final_tractor")] ∧
      f0.track_count = 0 := by
  decide!

/-- The file the constructor builds on `minimalTemplate` carries no id of a track. -/
theorem minimalTemplate_freshIds :
    ∀ f0 ∈ KdenliveFile.new minimalTemplate, FreshIds f0 := by
  intro f0 h0 c hc j
  obtain ⟨hl, -⟩ := minimalTemplate_labels f0 h0
  have hm : c.label ∈ f0.xml_doc.root.children.map XMLElement.label :=
    List.mem_map_of_mem _ hc
  rw [hl] at hm
  simp only [List.mem_cons, List.mem_singleton, List.not_mem_nil, or_false] at hm
  have e1 : ("main_bin" == "playlist" ++ toString j) = false :=
    beq_string_false (ne_append_of_take _ 1 (by decide) (by decide))
  have e2 : ("timeline-uuid" == "tractor" ++ toString j) = false :=
    beq_string_false (ne_append_of_take _ 2 (by decide) (by decide))
  have e3 : ("final_tractor" == "tractor" ++ toString j) = false :=
    beq_string_false (ne_append_of_take _ 1 (by decide) (by decide))
  have n1 : ("profile" == "playlist") = false := by decide
  have n2 : ("profile" == "tractor") = false := by decide
  have n3 : ("producer" == "playlist") = false := by decide
  have n4 : ("producer" == "tractor") = false := by decide
  have n5 : ("tractor" == "playlist") = false := by decide
  have n6 : ("playlist" == "tractor") = false := by decide
  rcases hm with h | h | h | h | h
  · rw [test_of_label h, test_of_label h, n1, n2]
    exact ⟨fun x => by simp at x, fun x => by simp at x⟩
  · rw [test_of_label h, test_of_label h, n3, n4]
    exact ⟨fun x => by simp at x, fun x => by simp at x⟩
  · rw [test_of_label h, test_of_label h, n5]
    simp only [Option.map_some', Option.getD_some, e2, Bool.and_false, Bool.false_and]
    exact ⟨fun x => by simp at x, fun x => by simp at x⟩
  · rw [test_of_label h, test_of_label h, n6]
    simp only [Option.map_some', Option.getD_some, e1, Bool.and_false, Bool.false_and]
    exact ⟨fun x => by simp at x, fun x => by simp at x⟩
  · rw [test_of_label h, test_of_label h, n5]
    simp only [Option.map_some', Option.getD_some, e3, Bool.and_false, Bool.false_and]
    exact ⟨fun x => by simp at x, fun x => by simp at x⟩

/-- A fresh file in order is a state in which the calls that build the tracks can be made. -/
theorem TracksOK.of_fresh {f : KdenliveFile} (hdoc : DocOK f) (hcons : Consistent f)
    (hwf : f.xml_doc.WellFormed) (hfresh : FreshIds f) (h0 : f.track_count = 0) :
    TracksOK f :=
  ⟨hdoc, hcons, hwf, fun k hk => by rw [h0] at hk; exact absurd hk (Nat.not_lt_zero _), hfresh⟩

theorem minimalTemplate_tracksOK :
    ∃ f0, KdenliveFile.new minimalTemplate = some f0 ∧ TracksOK f0 ∧ f0.track_count = 0 := by
  obtain ⟨f0, h0, hanch⟩ := minimalTemplate_new
  exact ⟨f0, h0, TracksOK.of_fresh (DocOK_of_new h0 hanch) (new_consistent h0)
    (minimalTemplate_wellFormed f0 h0) (minimalTemplate_freshIds f0 h0)
    (minimalTemplate_labels f0 h0).2, (minimalTemplate_labels f0 h0).2⟩

/-! ## The document mirrors the bookkeeping -/

theorem minimalTemplate_calls :
    ∀ f0 ∈ KdenliveFile.new minimalTemplate,
      (@runTrackCalls Stale.intact [TrackCall.AddTrack TrackType.VIDEO,
        TrackCall.AddClipToTrack 0 7 10 2, TrackCall.AddBlankToTrack 0 1,
        TrackCall.FadeClip 0 0 1 0] f0).isSome = true := by
  decide!

/-- C23. Document mirrors bookkeeping. Take a fresh file `f0` (no tracks) that is in order,
consistent and well formed and carries no id of a track, and any sequence of `AddTrack`,
`AddBlankToTrack`, `AddClipToTrack` and `FadeClip` calls that returns the file `f`. Then `f`
has as many tracks as there were `AddTrack` calls, and for every track `k`: the search for
`playlist(2k)` finds a node whose `entry` and `blank` children are, in document order, as
many as the in-memory entries of the track and of the same kinds (`entry` for Clip, `blank`
for Blank); the search for `playlist(2k+1)` finds a node without such children; and
`FindPlaylistEntry(playlist(2k), i)` returns the node at the position of entry `i`, of the
kind of that entry. On `f` each of the four calls with an existing track (and entry) runs
through. The position `AddClipToTrack` returns is the position of the `entry` node it has
created: after any further calls `FindPlaylistEntry` finds that node there (same address,
name and attributes; `in` and `out` hold what is read through the pointers into the
destroyed timestamp strings), the entry recorded there is the Clip entry of the call, and
`FadeClip` with that position appends its filters to exactly this node. -/
theorem document_mirrors_bookkeeping [Stale] (f0 : KdenliveFile) (calls : List TrackCall)
    (f : KdenliveFile) (hdoc : DocOK f0) (hcons : Consistent f0)
    (hwf : f0.xml_doc.WellFormed) (hfresh : FreshIds f0) (h0 : f0.track_count = 0)
    (hrun : runTrackCalls calls f0 = some f) :
    f.track_count = (createdKinds calls).length ∧
    (∀ k, k < f.track_count → ∃ es pl pl2, f.track_entries[k]? = some es ∧
      FindPlaylistElement f.xml_doc ("playlist" ++ toString (k * 2)) = some pl ∧
      pl.timedNodes.map XMLElement.entryKind = es.map TrackEntry.entry_type ∧
      pl.timedNodes.length = es.length ∧
      FindPlaylistElement f.xml_doc ("playlist" ++ toString (k * 2 + 1)) = some pl2 ∧
      pl2.timedNodes = [] ∧
      ∀ i entry, es[i]? = some entry →
        ∃ node, FindPlaylistEntry f.xml_doc ("playlist" ++ toString (k * 2)) i =
            some (some node) ∧ pl.timedNodes[i]? = some node ∧
          node.entryKind = entry.entry_type) ∧
    ((∀ ty, ∃ f', f.AddTrack ty = some (f', f.track_count)) ∧
      (∀ k len, k < f.track_count → ∃ f' e, f.AddBlankToTrack k len = some (f', e)) ∧
      (∀ k cid len off, k < f.track_count →
        ∃ f' e, f.AddClipToTrack k cid len off = some (f', e)) ∧
      (∀ k e fin fout es, k < f.track_count → f.track_entries[k]? = some es →
        e < es.length → ∃ f', f.FadeClip k e fin fout = some f')) ∧
    (∀ k cid len off f1 e, f.AddClipToTrack k cid len off = some (f1, e) →
      ∀ more f2, runTrackCalls more f1 = some f2 →
        ∃ entry, FindPlaylistEntry f2.xml_doc ("playlist" ++ toString (k * 2)) e =
            some (some entry) ∧
          entry.sig = (f.xml_doc.next_ptr, "entry",
            [("in", Stale.read f.xml_doc.next_ptr "in" (convertToTimestamp off)),
              ("out", Stale.read f.xml_doc.next_ptr "out"
                (convertToTimestamp (fadd len off))),
              ("producer", "chain" ++ toString cid)]) ∧
          ((f2.track_entries[k]?).getD [])[e]? = some ⟨EntryType.CLIP, len, off⟩ ∧
          ∀ fin fout, ∃ f3, f2.FadeClip k e fin fout = some f3 ∧
            FindPlaylistEntry f3.xml_doc ("playlist" ++ toString (k * 2)) e =
              some (some (entry.withChildren (entry.children ++
                fadeFilters f2.xml_doc.next_ptr f2.filter_count off len fin fout)))) := by
  have ok0 := TracksOK.of_fresh hdoc hcons hwf hfresh h0
  obtain ⟨ok, -, hcount, -⟩ := runTrackCalls_tracks calls f0 f ok0 hrun
  refine ⟨by rw [hcount, h0, Nat.zero_add], fun k hk => tracks_state ok hk, ⟨?_, ?_, ?_, ?_⟩, ?_⟩
  · intro ty
    obtain ⟨f', h, -⟩ := AddTrack_ok f ty ok.1 ok.2.1
    exact ⟨f', h⟩
  · intro k len hk
    obtain ⟨f', e, h, -⟩ := AddBlankToTrack_ok f k len ok.1 ok.2.1 hk
    exact ⟨f', e, h⟩
  · intro k cid len off hk
    obtain ⟨f', e, h, -⟩ := AddClipToTrack_ok f k cid len off ok.1 ok.2.1 hk
    exact ⟨f', e, h⟩
  · intro k e fin fout es hk hes he
    obtain ⟨f', h, -⟩ := FadeClip_ok f k e fin fout ok.1 hk es hes he
    exact ⟨f', h⟩
  · intro k cid len off f1 e h1 more f2 h2
    exact fade_reaches_entry ok h1 h2

/-- Witness of C23: on the file built on `minimalTemplate`, a video track, a clip, a blank
and a fade on the clip. -/
theorem document_mirrors_bookkeeping_witness :
    ∃ f0 f, KdenliveFile.new minimalTemplate = some f0 ∧
      @runTrackCalls Stale.intact [TrackCall.AddTrack TrackType.VIDEO,
        TrackCall.AddClipToTrack 0 7 10 2, TrackCall.AddBlankToTrack 0 1,
        TrackCall.FadeClip 0 0 1 0] f0 = some f ∧
      f.track_count = 1 ∧
      ∃ es pl, f.track_entries[0]? = some es ∧
        FindPlaylistElement f.xml_doc ("playlist" ++ toString (0 * 2)) = some pl ∧
        pl.timedNodes.map XMLElement.entryKind = es.map TrackEntry.entry_type := by
  obtain ⟨f0, h0, ok0, hc0⟩ := minimalTemplate_tracksOK
  obtain ⟨f, hf⟩ := Option.isSome_iff_exists.1 (minimalTemplate_calls f0 h0)
  obtain ⟨hcount, hstate, -⟩ := @document_mirrors_bookkeeping Stale.intact f0 _ f ok0.1
    ok0.2.1 ok0.2.2.1 ok0.2.2.2.2 hc0 hf
  have hc : f.track_count = 1 := hcount
  obtain ⟨es, pl, pl2, a1, a2, a3, -⟩ := hstate 0 (by rw [hc]; exact Nat.zero_lt_one)
  exact ⟨f0, f, h0, hf, hc, es, pl, a1, a2, a3⟩

/-! ## The state before the timeline loops -/

/-- A write that adds no address leaves a sublist of the addresses. -/
theorem allPtrs_update_sublist (q : Nat) (g : XMLElement → XMLElement)
    (hg : ∀ x, (g x).allPtrs.Sublist x.allPtrs) :
    ∀ (n : Nat) (t : XMLElement), sizeOf t ≤ n →
      (XMLElement.update q g t).allPtrs.Sublist t.allPtrs := by
  intro n
  induction n with
  | zero =>
    intro t hn
    cases t with
    | node p nm a tx cs => simp at hn
  | succ n ih =>
    intro t hn
    cases t with
    | node p nm a tx cs =>
      by_cases hp : p = q
      · rw [update_of_eq (show (XMLElement.node p nm a tx cs).ptr = q from hp)]
        exact hg _
      · rw [update_of_ne (show (XMLElement.node p nm a tx cs).ptr ≠ q from hp),
          allPtrs_withChildren, allPtrs_node]
        refine List.Sublist.cons₂ _ ?_
        show (XMLElement.allPtrsList (XMLElement.updateList q g cs)).Sublist
          (XMLElement.allPtrsList cs)
        have hsize : ∀ c ∈ cs, sizeOf c ≤ n := by
          intro c hc
          have := List.sizeOf_lt_of_mem hc
          simp only [XMLElement.node.sizeOf_spec] at hn
          omega
        clear hn
        induction cs with
        | nil => rw [updateList_nil]
        | cons c cs ihc =>
          rw [updateList_cons, allPtrsList_cons, allPtrsList_cons]
          exact List.Sublist.append (ih c (hsize c (List.mem_cons_self _ _)))
            (ihc (fun c' hc' => hsize c' (List.mem_cons_of_mem _ hc')))

theorem modify_wellFormed {d d' : XMLDocument} {q : Nat} {g : XMLElement → XMLElement}
    (hwf : d.WellFormed) (h : d.modify q g = some d')
    (hg : ∀ x, (g x).allPtrs.Sublist x.allPtrs) : d'.WellFormed := by
  have e := modify_eq h
  subst e
  have hs := allPtrs_update_sublist q g hg _ d.root (le_refl _)
  exact ⟨List.Nodup.sublist hs hwf.1, fun p hp => hwf.2 p (hs.subset hp)⟩

/-- The children of the root after a write that keeps address, name and id of the node it
changes and gives it no new child. -/
theorem update_children_labels (q : Nat) (g : XMLElement → XMLElement)
    (hg : ∀ x, (g x).ptr = x.ptr ∧ (g x).label = x.label ∧
      ∀ c' ∈ (g x).children, c' ∈ x.children) (root : XMLElement) :
    ∀ c' ∈ (XMLElement.update q g root).children,
      ∃ c ∈ root.children, c'.ptr = c.ptr ∧ c'.label = c.label := by
  intro c' hc'
  by_cases hr : root.ptr = q
  · rw [update_of_eq hr] at hc'
    exact ⟨c', (hg root).2.2 c' hc', rfl, rfl⟩
  · rw [update_of_ne hr, withChildren_children, updateList_eq_map] at hc'
    obtain ⟨c, hc, rfl⟩ := List.mem_map.1 hc'
    refine ⟨c, hc, ?_⟩
    by_cases hcq : c.ptr = q
    · rw [update_of_eq hcq]
      exact ⟨(hg c).1, (hg c).2.1⟩
    · rw [update_of_ne hcq]
      refine ⟨withChildren_ptr _ _, ?_⟩
      unfold XMLElement.label XMLElement.Attribute
      rw [withChildren_name, withChildren_attrs]

theorem find_setAttr_ne {key k v : String} (h : key ≠ k) : ∀ attrs : List (String × String),
    (XMLElement.setAttr k v attrs).find? (fun a => a.1 == key) =
      attrs.find? (fun a => a.1 == key) := by
  intro attrs
  induction attrs with
  | nil =>
    unfold XMLElement.setAttr
    rw [List.find?_cons_of_neg _ (by simpa using Ne.symm h)]
  | cons a rest ih =>
    unfold XMLElement.setAttr
    by_cases hak : (a.1 == k) = true
    · rw [if_pos hak]
      have hak' : a.1 = k := by simpa using hak
      rw [List.find?_cons_of_neg _ (by simpa using Ne.symm h),
        List.find?_cons_of_neg _ (by rw [hak']; simpa using Ne.symm h)]
    · rw [if_neg hak, List.find?_cons, List.find?_cons, ih]

theorem label_SetAttribute {k : String} (h : "id" ≠ k) (e : XMLElement) (v : String) :
    (e.SetAttribute k v).label = e.label := by
  cases e with
  | node p n a t c =>
    unfold XMLElement.label XMLElement.Attribute
    show (n, _) = (n, _)
    congr 2
    exact find_setAttr_ne h a

theorem label_of_sig {c c' : XMLElement} (h : c'.sig = c.sig) : c'.label = c.label := by
  unfold XMLElement.sig at h
  simp only [Prod.mk.injEq] at h
  unfold XMLElement.label XMLElement.Attribute
  rw [h.2.1, h.2.2]

/-- The condition `FreshIds` looks at address, name and id of the children of the root, and
nodes that are neither playlist nor tractor do not matter to it. -/
theorem FreshIds.of_labels {f f' : KdenliveFile} (h : FreshIds f)
    (hlab : ∀ c' ∈ f'.xml_doc.root.children,
      (∃ c ∈ f.xml_doc.root.children, c'.ptr = c.ptr ∧ c'.label = c.label) ∨
        (c'.name ≠ "playlist" ∧ c'.name ≠ "tractor"))
    (hcount : f.track_count ≤ f'.track_count)
    (htt : f'.timeline_tractor = f.timeline_tractor) : FreshIds f' := by
  intro c' hc' j
  rcases hlab c' hc' with ⟨c, hc, hp, hl⟩ | ⟨n1, n2⟩
  · obtain ⟨h1, h2⟩ := h c hc j
    have t1 : ∀ nm s, (c'.name == nm && c'.AttributeIs "id" (some s)) =
        (c.name == nm && c.AttributeIs "id" (some s)) := by
      intro nm s
      exact (test_of_label (show c'.label = (c.name, c.Attribute "id") from hl) nm s).trans
        (test_of_label (show c.label = (c.name, c.Attribute "id") from rfl) nm s).symm
    refine ⟨fun ht => ?_, fun ht => ?_⟩
    · rw [t1] at ht
      exact lt_of_lt_of_le (h1 ht) (Nat.mul_le_mul_right 2 hcount)
    · rw [t1] at ht
      obtain ⟨a, b⟩ := h2 ht
      exact ⟨lt_of_lt_of_le a hcount, by rw [htt, hp]; exact b⟩
  · refine ⟨fun ht => ?_, fun ht => ?_⟩
    · simp only [Bool.and_eq_true, beq_iff_eq] at ht
      exact absurd ht.1 n1
    · simp only [Bool.and_eq_true, beq_iff_eq] at ht
      exact absurd ht.1 n2

/-- The call `SetProfile` leaves the document well formed and brings no id of a track. -/
theorem SetProfile_tracks {f f' : KdenliveFile} {fr w h : Int}
    (hwf : f.xml_doc.WellFormed) (hfresh : FreshIds f)
    (hs : f.SetProfile fr w h = some f') :
    f'.xml_doc.WellFormed ∧ FreshIds f' := by
  obtain ⟨b1, -, -, -, -⟩ := SetProfile_book hs
  unfold KdenliveFile.SetProfile at hs
  simp only [bind, Option.bind_eq_some, pure, Option.some.injEq] at hs
  obtain ⟨d1, h1, mb, -, pp, -, d2, h2, rfl⟩ := hs
  have hwf1 : d1.WellFormed := modify_wellFormed hwf h1 (fun x => by
    rw [allPtrs_SetAttribute, allPtrs_SetAttribute, allPtrs_SetAttribute, allPtrs_SetAttribute,
      allPtrs_SetAttribute])
  have e1 := modify_eq h1
  unfold XMLDocument.DeleteChild at h2
  split at h2
  · cases h2
  · split at h2
    · have hwf2 : d2.WellFormed := modify_wellFormed hwf1 h2 (fun x => by
        rw [allPtrs_withChildren, allPtrs_eq x]
        exact List.Sublist.cons₂ _ (allPtrsList_sublist (List.filter_sublist _)))
      have e2 := modify_eq h2
      refine ⟨hwf2, hfresh.of_labels ?_ (le_refl _) rfl⟩
      intro c'' hc''
      left
      show ∃ c ∈ f.xml_doc.root.children, c''.ptr = c.ptr ∧ c''.label = c.label
      have hc2 : c'' ∈ d2.root.children := hc''
      rw [e2] at hc2
      obtain ⟨c', hc', p2, l2⟩ := update_children_labels _ _ (fun x =>
        ⟨withChildren_ptr _ _, by
          unfold XMLElement.label XMLElement.Attribute
          rw [withChildren_name, withChildren_attrs], fun y hy => by
          rw [withChildren_children] at hy
          exact (List.mem_filter.1 hy).1⟩) _ c'' hc2
      rw [e1] at hc'
      obtain ⟨c, hc, p1, l1⟩ := update_children_labels _ _ (fun x =>
        ⟨by simp only [SetAttribute_ptr], by
          rw [label_SetAttribute (by decide), label_SetAttribute (by decide),
            label_SetAttribute (by decide), label_SetAttribute (by decide),
            label_SetAttribute (by decide)], fun y hy => by
          simpa only [SetAttribute_children] using hy⟩) _ c' hc'
      exact ⟨c, hc, p2.trans p1, l2.trans l1⟩
    · cases h2

/-- The call `AddClipToBin` leaves the document well formed and brings no id of a track. -/
theorem AddClipToBin_tracks [Stale] {f f' : KdenliveFile} {path : String} {id : Nat}
    (hanch : AnchorsOK f) (hwf : f.xml_doc.WellFormed) (hfresh : FreshIds f)
    (h : f.AddClipToBin path = some (f', id)) :
    f'.xml_doc.WellFormed ∧ FreshIds f' := by
  obtain ⟨-, b1, b2, -, -, -⟩ := AddClipToBin_book h
  obtain ⟨-, -, a3, -, -⟩ := AddClipToBin_anchors h
  obtain ⟨-, -, hmp, -, hmb, -⟩ := hanch
  unfold AddClipToBin at h
  simp only [bind, Option.bind_eq_some, pure, Option.some.injEq] at h
  obtain ⟨f1, h1, ⟨d2, e2⟩, h2, h⟩ := h
  simp only [Option.some.injEq, Prod.mk.injEq] at h
  obtain ⟨rfl, -⟩ := h
  -- the chain goes behind the main producer
  obtain ⟨l1, c, l2, hch, hc, hl1⟩ := first_with_ptr _ hmp
  rw [CreateChainElement_eq] at h1
  unfold AddElementToTopOfRoot XMLDocument.InsertAfterRootChild at h1
  rw [show ({ f.xml_doc with next_ptr := f.xml_doc.next_ptr + 2 } : XMLDocument).root.children =
    l1 ++ c :: l2 from hch, insertAfter_exact _ l1 c l2 hc hl1] at h1
  simp only [Option.map_some', Option.some.injEq] at h1
  subst h1
  have hwf1 : (XMLDocument.mk (f.xml_doc.root.withChildren (l1 ++ c ::
      XMLElement.node f.xml_doc.next_ptr "chain"
        [("id", Stale.read f.xml_doc.next_ptr "id" ("chain" ++ toString f.chain_count))] none
        [XMLElement.node (f.xml_doc.next_ptr + 1) "property" [("name", "resource")]
          (some path) []] :: l2)) (f.xml_doc.next_ptr + 2)).WellFormed := by
    have hp := allPtrs_perm_insert f.xml_doc.root l1 l2
      [XMLElement.node f.xml_doc.next_ptr "chain"
        [("id", Stale.read f.xml_doc.next_ptr "id" ("chain" ++ toString f.chain_count))] none
        [XMLElement.node (f.xml_doc.next_ptr + 1) "property" [("name", "resource")]
          (some path) []]] c hch
    have e : l1 ++ c :: [XMLElement.node f.xml_doc.next_ptr "chain"
        [("id", Stale.read f.xml_doc.next_ptr "id" ("chain" ++ toString f.chain_count))] none
        [XMLElement.node (f.xml_doc.next_ptr + 1) "property" [("name", "resource")]
          (some path) []]] ++ l2 = l1 ++ c :: XMLElement.node f.xml_doc.next_ptr "chain"
        [("id", Stale.read f.xml_doc.next_ptr "id" ("chain" ++ toString f.chain_count))] none
        [XMLElement.node (f.xml_doc.next_ptr + 1) "property" [("name", "resource")]
          (some path) []] :: l2 := by simp
    rw [e] at hp
    have hx : XMLElement.allPtrsList [XMLElement.node f.xml_doc.next_ptr "chain"
        [("id", Stale.read f.xml_doc.next_ptr "id" ("chain" ++ toString f.chain_count))] none
        [XMLElement.node (f.xml_doc.next_ptr + 1) "property" [("name", "resource")]
          (some path) []]] = [f.xml_doc.next_ptr, f.xml_doc.next_ptr + 1] := by
      simp [allPtrsList_cons, allPtrsList_nil, allPtrs_node]
    rw [hx] at hp
    refine wellFormed_of_perm hwf hp ?_ ?_ ?_ (Nat.le_add_right _ _)
    · simp
    · intro p hp'
      simp only [List.mem_cons, List.mem_singleton, List.not_mem_nil, or_false] at hp'
      omega
    · intro p hp'
      simp only [List.mem_cons, List.mem_singleton, List.not_mem_nil, or_false] at hp'
      show p < f.xml_doc.next_ptr + 2
      omega
  -- the entry goes into the main bin
  have hmb1 : f.main_bin ∈ (l1 ++ c :: XMLElement.node f.xml_doc.next_ptr "chain"
        [("id", Stale.read f.xml_doc.next_ptr "id" ("chain" ++ toString f.chain_count))] none
        [XMLElement.node (f.xml_doc.next_ptr + 1) "property" [("name", "resource")]
          (some path) []] :: l2).map XMLElement.ptr := by
    rw [hch] at hmb
    simp only [List.map_append, List.map_cons, List.mem_append, List.mem_cons] at hmb ⊢
    tauto
  obtain ⟨a, cm, b, hab, hcm, -⟩ := first_with_ptr _ hmb1
  unfold AddEntryElement at h2
  rw [CreateEntryElement_eq] at h2
  simp only [Option.map_eq_some', Prod.mk.injEq] at h2
  obtain ⟨d3, h3, rfl, -⟩ := h2
  have hfreshx : (XMLElement.node (f.xml_doc.next_ptr + 2) "entry"
      [("in", Stale.read (f.xml_doc.next_ptr + 2) "in" (convertToTimestamp 0)),
        ("out", Stale.read (f.xml_doc.next_ptr + 2) "out" (convertToTimestamp 0)),
        ("producer", Stale.read (f.xml_doc.next_ptr + 2) "producer"
          ("chain" ++ toString f.chain_count))] none []).ptr ∉
      (f.xml_doc.root.withChildren (l1 ++ c :: XMLElement.node f.xml_doc.next_ptr "chain"
        [("id", Stale.read f.xml_doc.next_ptr "id" ("chain" ++ toString f.chain_count))] none
        [XMLElement.node (f.xml_doc.next_ptr + 1) "property" [("name", "resource")]
          (some path) []] :: l2)).allPtrs := by
    intro hm
    have := hwf1.2 _ hm
    exact absurd this (lt_irrefl _)
  have hd3 := InsertEndChild_root_child h3 hwf1.1 hfreshx
    (by rw [withChildren_children]; exact hab) hcm
  have hxs : XMLElement.allPtrsList [XMLElement.node (f.xml_doc.next_ptr + 2) "entry"
      [("in", Stale.read (f.xml_doc.next_ptr + 2) "in" (convertToTimestamp 0)),
        ("out", Stale.read (f.xml_doc.next_ptr + 2) "out" (convertToTimestamp 0)),
        ("producer", Stale.read (f.xml_doc.next_ptr + 2) "producer"
          ("chain" ++ toString f.chain_count))] none []] =
      [f.xml_doc.next_ptr + 2] := by
    simp [allPtrsList_cons, allPtrsList_nil, allPtrs_node]
  have hab1 : (XMLDocument.mk (f.xml_doc.root.withChildren (l1 ++ c ::
      XMLElement.node f.xml_doc.next_ptr "chain"
        [("id", Stale.read f.xml_doc.next_ptr "id" ("chain" ++ toString f.chain_count))] none
        [XMLElement.node (f.xml_doc.next_ptr + 1) "property" [("name", "resource")]
          (some path) []] :: l2)) (f.xml_doc.next_ptr + 2)).root.children = a ++ cm :: b := by
    show (f.xml_doc.root.withChildren _).children = _
    rw [withChildren_children]
    exact hab
  have hroot3 : d3.root = (XMLDocument.mk (f.xml_doc.root.withChildren (l1 ++ c ::
      XMLElement.node f.xml_doc.next_ptr "chain"
        [("id", Stale.read f.xml_doc.next_ptr "id" ("chain" ++ toString f.chain_count))] none
        [XMLElement.node (f.xml_doc.next_ptr + 1) "property" [("name", "resource")]
          (some path) []] :: l2)) (f.xml_doc.next_ptr + 2)).root.withChildren
        (a ++ cm.withChildren (cm.children ++ [XMLElement.node (f.xml_doc.next_ptr + 2) "entry"
          [("in", Stale.read (f.xml_doc.next_ptr + 2) "in" (convertToTimestamp 0)),
            ("out", Stale.read (f.xml_doc.next_ptr + 2) "out" (convertToTimestamp 0)),
            ("producer", Stale.read (f.xml_doc.next_ptr + 2) "producer"
              ("chain" ++ toString f.chain_count))] none []]) :: b) := by
    rw [hd3]
  have hnext3 : d3.next_ptr = f.xml_doc.next_ptr + 2 + 1 := by
    rw [hd3]
  have hwf3 : d3.WellFormed := by
    refine wellFormed_append_to_child hwf1 hab1 hroot3 (by rw [hxs]; exact List.nodup_singleton _)
      ?_ ?_ ?_
    · intro p hp
      rw [hxs, List.mem_singleton] at hp
      rw [hp]
    · intro p hp
      rw [hxs, List.mem_singleton] at hp
      rw [hp, hnext3]
      exact Nat.lt_succ_self _
    · rw [hnext3]
      exact Nat.le_succ _
  refine ⟨hwf3, hfresh.of_labels ?_ (le_of_eq b2.symm) a3⟩
  intro c'' hc''
  have hc3 : c'' ∈ d3.root.children := hc''
  rw [hd3] at hc3
  simp only [withChildren_children, List.mem_append, List.mem_cons] at hc3
  have hold : ∀ y, y ∈ l1 ++ c :: XMLElement.node f.xml_doc.next_ptr "chain"
        [("id", Stale.read f.xml_doc.next_ptr "id" ("chain" ++ toString f.chain_count))] none
        [XMLElement.node (f.xml_doc.next_ptr + 1) "property" [("name", "resource")]
          (some path) []] :: l2 → ∀ z : XMLElement, z.sig = y.sig →
      (∃ x ∈ f.xml_doc.root.children, z.ptr = x.ptr ∧ z.label = x.label) ∨
        (z.name ≠ "playlist" ∧ z.name ≠ "tractor") := by
    intro y hy z hz
    have hzn : z.name = y.name := congrArg (fun s => s.2.1) hz
    have hzp : z.ptr = y.ptr := congrArg Prod.fst hz
    simp only [List.mem_append, List.mem_cons] at hy
    rcases hy with hy | rfl | rfl | hy
    · exact Or.inl ⟨y, by rw [hch]; exact List.mem_append_left _ hy, hzp, label_of_sig hz⟩
    · exact Or.inl ⟨y, by rw [hch]; exact List.mem_append_right _ (List.mem_cons_self _ _),
        hzp, label_of_sig hz⟩
    · right
      rw [hzn]
      show "chain" ≠ "playlist" ∧ "chain" ≠ "tractor"
      exact ⟨by decide, by decide⟩
    · exact Or.inl ⟨y, by
        rw [hch]; exact List.mem_append_right _ (List.mem_cons_of_mem _ hy), hzp,
        label_of_sig hz⟩
  rcases hc3 with hc3 | rfl | hc3
  · exact hold c'' (by rw [hab]; exact List.mem_append_left _ hc3) c'' rfl
  · exact hold cm (by rw [hab]; exact List.mem_append_right _ (List.mem_cons_self _ _)) _
      (sig_withChildren _ _)
  · exact hold c'' (by rw [hab]; exact List.mem_append_right _ (List.mem_cons_of_mem _ hc3))
      c'' rfl

/-- The registration loop leaves the file in order, well formed and without ids of tracks. -/
theorem registerClips_tracks [Stale] {ffp : List String → String → String} {paths : List String} :
    ∀ (clips : List Clip) (f : KdenliveFile) (names : List (String × Nat))
      (f' : KdenliveFile) (names' : List (String × Nat)),
      DocOK f → f.xml_doc.WellFormed → FreshIds f →
      registerClips ffp paths clips (f, names) = some (f', names') →
      DocOK f' ∧ f'.xml_doc.WellFormed ∧ FreshIds f' := by
  intro clips
  induction clips with
  | nil =>
    intro f names f' names' hdoc hwf hfresh h
    simp only [registerClips, Option.some.injEq, Prod.mk.injEq] at h
    obtain ⟨rfl, rfl⟩ := h
    exact ⟨hdoc, hwf, hfresh⟩
  | cons clip rest ih =>
    intro f names f' names' hdoc hwf hfresh h
    unfold registerClips at h
    split at h
    · simp only [Option.bind_eq_some] at h
      obtain ⟨⟨f1, id⟩, h1, h2⟩ := h
      obtain ⟨f1', id', h1', hdoc1⟩ := AddClipToBin_ok f (ffp paths clip.name) hdoc
      rw [h1] at h1'
      cases h1'
      obtain ⟨hwf1, hfresh1⟩ := AddClipToBin_tracks hdoc.1 hwf hfresh h1
      exact ih _ _ _ _ hdoc1 hwf1 hfresh1 h2
    · exact ih _ _ _ _ hdoc hwf hfresh h

/-- One expansion of `ADD_CLIP` keeps the state of the tracks in order and creates no
track. -/
theorem ADD_CLIP_tracks [Stale] {f f' : KdenliveFile} {names : List (String × Nat)} {id : Nat}
    {L t : ℚ} {clip : Clip} (hok : TracksOK f)
    (h : ADD_CLIP f names id L t clip = some f') :
    TracksOK f' ∧ Extends f f' ∧ f'.track_count = f.track_count ∧
      ∀ kinds, TrackKinds f kinds → TrackKinds f' kinds := by
  unfold ADD_CLIP at h
  simp only [Option.bind_eq_some] at h
  obtain ⟨f1, hblank, cid, -, ⟨f2, e⟩, hclip, hfade⟩ := h
  have s1 : TracksOK f1 ∧ Extends f f1 ∧ f1.track_count = f.track_count ∧
      ∀ kinds, TrackKinds f kinds → TrackKinds f1 kinds := by
    split at hblank
    · simp only [Option.map_eq_some'] at hblank
      obtain ⟨⟨fb, eb⟩, hb, rfl⟩ := hblank
      obtain ⟨a, b, c, d, -⟩ := AddBlankToTrack_tracks hok hb
      exact ⟨a, b, d, c⟩
    · simp only [Option.some.injEq] at hblank
      subst hblank
      exact ⟨hok, Extends.same _, rfl, fun _ hk => hk⟩
  obtain ⟨a2, b2, c2, d2, -⟩ := AddClipToTrack_tracks s1.1 hclip
  obtain ⟨a3, b3, c3, d3, -⟩ := FadeClip_tracks a2 hfade
  exact ⟨a3, (s1.2.1.chain b2).chain b3, by rw [d3, d2, s1.2.2.1],
    fun kinds hk => c3 kinds (c2 kinds (s1.2.2.2 kinds hk))⟩

/-- One iteration of a timeline loop: the entries go to a track of the vector of the loop,
which is either a track that was in the vector or a track the iteration has created, with the
kind of the loop and the next number. -/
theorem placeClip_tracks [Stale] {ty : TrackType} {names : List (String × Nat)} {clips : List Clip}
    {f : KdenliveFile} {tracks : List Nat} {p : ℚ × Nat}
    {f' : KdenliveFile} {tracks' : List Nat} (hok : TracksOK f)
    (h : placeClip ty names clips (f, tracks) p = some (f', tracks')) :
    TracksOK f' ∧
      (∃ clip id L f1, clips[p.2]? = some clip ∧ id ∈ tracks' ∧
        ADD_CLIP f1 names id L p.1 clip = some f' ∧
        ((f1 = f ∧ id ∈ tracks ∧ tracks' = tracks) ∨
          (f.AddTrack ty = some (f1, id) ∧ id = f.track_count ∧ tracks' = tracks ++ [id]))) ∧
      ∃ n, tracks' = tracks ++ List.range' f.track_count n ∧
        f'.track_count = f.track_count + n ∧
        ∀ kinds, TrackKinds f kinds → TrackKinds f' (kinds ++ List.replicate n ty) := by
  obtain ⟨t, c⟩ := p
  obtain ⟨clip, hclip, hcase⟩ := placeClip_cases h
  rcases hcase with ⟨hscan, ht⟩ | ⟨-, f1, id, hadd, hclipadd, ht⟩
  · rcases scanTracks_spec _ _ hscan with ⟨hn, -⟩ | ⟨i, hi, L, f'', hr, -, -, -, hA⟩
    · cases hn
    · cases hr
      obtain ⟨a, -, c1, d⟩ := ADD_CLIP_tracks hok hA
      have hmem : tracks[i] ∈ tracks := List.getElem_mem hi
      refine ⟨a, ⟨clip, tracks[i], L, f, hclip, by rw [ht]; exact hmem, hA,
        Or.inl ⟨rfl, hmem, ht⟩⟩, 0, ?_, c1, ?_⟩
      · rw [ht]
        simp
      · intro kinds hk
        simp only [List.replicate_zero, List.append_nil]
        exact d kinds hk
  · obtain ⟨a1, -, k1, hid, c1, -⟩ := AddTrack_tracks hok hadd
    obtain ⟨a2, -, c2, d2⟩ := ADD_CLIP_tracks a1 hclipadd
    refine ⟨a2, ⟨clip, id, 0, f1, hclip, by
      rw [ht]; exact List.mem_append_right _ (List.mem_singleton_self _),
      hclipadd, Or.inr ⟨hadd, hid, ht⟩⟩, 1, ?_, by rw [c2, c1], ?_⟩
    · rw [ht, hid]
      rfl
    · intro kinds hk
      exact d2 _ (k1 kinds hk)

/-- A timeline loop creates tracks of its kind only, with the next numbers, and its vector
holds them in creation order. -/
theorem addClips_tracks [Stale] {ty : TrackType} {names : List (String × Nat)} {clips : List Clip} :
    ∀ (tl : List (ℚ × Nat)) (f : KdenliveFile) (tracks : List Nat)
      (f' : KdenliveFile) (tracks' : List Nat), TracksOK f →
      addClips ty names clips tl (f, tracks) = some (f', tracks') →
      TracksOK f' ∧ ∃ n, tracks' = tracks ++ List.range' f.track_count n ∧
        f'.track_count = f.track_count + n ∧
        ∀ kinds, TrackKinds f kinds → TrackKinds f' (kinds ++ List.replicate n ty) := by
  intro tl
  induction tl with
  | nil =>
    intro f tracks f' tracks' hok h
    simp only [addClips, Option.some.injEq, Prod.mk.injEq] at h
    obtain ⟨rfl, rfl⟩ := h
    exact ⟨hok, 0, by simp, rfl, fun kinds hk => by
      simp only [List.replicate_zero, List.append_nil]; exact hk⟩
  | cons p rest ih =>
    intro f tracks f' tracks' hok h
    simp only [addClips, Option.bind_eq_some] at h
    obtain ⟨⟨f1, tracks1⟩, h1, h2⟩ := h
    obtain ⟨ok1, -, n1, t1, c1, k1⟩ := placeClip_tracks hok h1
    obtain ⟨ok2, n2, t2, c2, k2⟩ := ih f1 tracks1 f' tracks' ok1 h2
    refine ⟨ok2, n1 + n2, ?_, by rw [c2, c1, Nat.add_assoc], ?_⟩
    · rw [t2, t1, c1, List.append_assoc, List.range'_append_1, Nat.add_comm n2 n1]
    · intro kinds hk
      have := k2 _ (k1 kinds hk)
      rw [List.append_assoc, ← List.replicate_add] at this
      exact this

/-! ## The tracks of the two channels -/

theorem TrackKinds.nil {f : KdenliveFile} (h : f.track_count = 0) : TrackKinds f [] :=
  ⟨by rw [h]; rfl, fun k ty hk => by simp at hk⟩

/-- The tracks `GenerateFile` leaves: the video loop creates the tracks `0, ..., V-1`, all of
kind VIDEO, the audio loop the tracks `V, ..., V+A-1`, all of kind AUDIO, and the audio loop
leaves the entries of the video tracks alone. -/
theorem generate_tracks [Stale] {template : XMLElement} {ffp : List String → String → String}
    {P : KdenliveProject} {paths : List String} {f0 f1 : KdenliveFile} {g : Generated}
    (h0 : KdenliveFile.new template = some f0)
    (h1 : f0.SetProfile (truncToInt P.framerate) P.frame_width P.frame_height = some f1)
    (hanch : AnchorsOK f1) (hwf : f0.xml_doc.WellFormed) (hfresh : FreshIds f0)
    (hg : generate template ffp P paths = some g) :
    ∃ (f2 fv : KdenliveFile) (V A : Nat),
      registerClips ffp paths P.clips (f1, []) = some (f2, g.included_names) ∧
      addClips TrackType.VIDEO g.included_names P.clips P.video_timeline (f2, []) =
        some (fv, g.video_tracks) ∧
      addClips TrackType.AUDIO g.included_names P.clips P.audio_timeline (fv, []) =
        some (g.kdenlive_file, g.audio_tracks) ∧
      TracksOK f2 ∧ f2.track_count = 0 ∧
      g.video_tracks = List.range V ∧ g.audio_tracks = List.range' V A ∧
      fv.track_count = V ∧ g.kdenlive_file.track_count = V + A ∧
      TracksOK fv ∧ TrackKinds fv (List.replicate V TrackType.VIDEO) ∧
      TracksOK g.kdenlive_file ∧
      TrackKinds g.kdenlive_file
        (List.replicate V TrackType.VIDEO ++ List.replicate A TrackType.AUDIO) ∧
      ∀ id, id < V → g.kdenlive_file.track_entries[id]? = fv.track_entries[id]? := by
  obtain ⟨f0', f1', f2, fv, e0, e1, h2, h3, h4⟩ := generate_stages hg
  rw [h0] at e0
  cases e0
  rw [h1] at e1
  cases e1
  have c0 := new_consistent h0
  obtain ⟨-, t0, -⟩ := new_book h0
  obtain ⟨a1, a2, a3, -, -⟩ := SetProfile_book h1
  have c1 := c0.of_book a1 a2 a3
  have hd1 : DocOK f1 :=
    ⟨hanch, fun k hk => by rw [a1, t0] at hk; exact absurd hk (Nat.not_lt_zero _)⟩
  obtain ⟨hwf1, hfresh1⟩ := SetProfile_tracks hwf hfresh h1
  obtain ⟨hd2, hwf2, hfresh2⟩ := registerClips_tracks _ _ _ _ _ hd1 hwf1 hfresh1 h2
  obtain ⟨b1, b2, b3, -⟩ := registerClips_book _ _ _ _ _ h2
  have c2 := c1.of_book b1 b2 b3
  have t2 : f2.track_count = 0 := by rw [b1, a1, t0]
  have ok2 : TracksOK f2 := TracksOK.of_fresh hd2 c2 hwf2 hfresh2 t2
  obtain ⟨okv, V, tv, cv, kv⟩ := addClips_tracks _ _ _ _ _ ok2 h3
  obtain ⟨oka, A, ta, ca, ka⟩ := addClips_tracks _ _ _ _ _ okv h4
  rw [t2, Nat.zero_add] at cv
  rw [t2, List.nil_append] at tv
  rw [cv, List.nil_append] at ta
  rw [cv] at ca
  have kv' := kv [] (TrackKinds.nil t2)
  rw [List.nil_append] at kv'
  obtain ⟨-, -, -, -, -, hkeep, -⟩ :=
    addClips_refines _ _ _ _ _ (channelOK_nil okv.2.1) (le_refl _) h4
  refine ⟨f2, fv, V, A, h2, h3, h4, ok2, t2, by rw [tv, List.range_eq_range'], ta, cv, ca, okv,
    kv', oka, ka _ kv', ?_⟩
  intro id hid
  exact hkeep id (by rw [cv]; exact hid) (List.not_mem_nil _)

/-- C25. Channels never share a track. `GenerateFile` runs through when the constructor and
`SetProfile` succeed on the template and leave the anchors in order and every placement
points to a clip of the project. If moreover the fresh document is well formed and carries no
id of a track, then in every run that returns, with `V` and `A` the numbers of tracks the
video and the audio loop have created: `video_tracks` is `0, ..., V-1` and `audio_tracks` is
`V, ..., V+A-1`, both in creation order, and the file has `V + A` tracks; after the video loop
the file has the `V` tracks `0, ..., V-1`, each with the tractor children of a track of kind
VIDEO; at the end the tracks `V, ..., V+A-1` have the tractor children of a track of kind
AUDIO, the video tracks are still of kind VIDEO, and the audio loop has left the entries of
the tracks `0, ..., V-1` as the video loop left them. In every iteration of a timeline loop
the entries go to a track of the vector of that loop: one that was in the vector, or the
track the iteration has just created with `AddTrack` of the kind of the loop. -/
theorem channels_never_share_a_track [Stale] (template : XMLElement)
    (ffp : List String → String → String) (P : KdenliveProject) (paths : List String) :
    (∀ f0 f1, KdenliveFile.new template = some f0 →
      f0.SetProfile (truncToInt P.framerate) P.frame_width P.frame_height = some f1 →
      AnchorsOK f1 → (∀ p ∈ P.video_timeline, p.2 < P.clips.length) →
      (∀ p ∈ P.audio_timeline, p.2 < P.clips.length) →
      ∃ g, generate template ffp P paths = some g) ∧
    (∀ f0 f1 g, KdenliveFile.new template = some f0 →
      f0.SetProfile (truncToInt P.framerate) P.frame_width P.frame_height = some f1 →
      AnchorsOK f1 → f0.xml_doc.WellFormed → FreshIds f0 →
      generate template ffp P paths = some g →
      ∃ (f2 fv : KdenliveFile) (V A : Nat),
        registerClips ffp paths P.clips (f1, []) = some (f2, g.included_names) ∧
        addClips TrackType.VIDEO g.included_names P.clips P.video_timeline (f2, []) =
          some (fv, g.video_tracks) ∧
        addClips TrackType.AUDIO g.included_names P.clips P.audio_timeline (fv, []) =
          some (g.kdenlive_file, g.audio_tracks) ∧
        f2.track_count = 0 ∧
        g.video_tracks = List.range V ∧ g.audio_tracks = List.range' V A ∧
        fv.track_count = V ∧ g.kdenlive_file.track_count = V + A ∧
        TrackKinds fv (List.replicate V TrackType.VIDEO) ∧
        TrackKinds g.kdenlive_file
          (List.replicate V TrackType.VIDEO ++ List.replicate A TrackType.AUDIO) ∧
        (∀ id, id < V → g.kdenlive_file.track_entries[id]? = fv.track_entries[id]?) ∧
        (∀ id ∈ g.video_tracks, id ∉ g.audio_tracks)) ∧
    (∀ (ty : TrackType) (names : List (String × Nat)) (clips : List Clip) (f : KdenliveFile)
      (tracks : List Nat) (p : ℚ × Nat) (f' : KdenliveFile) (tracks' : List Nat),
      placeClip ty names clips (f, tracks) p = some (f', tracks') →
      ∃ clip id L f1, clips[p.2]? = some clip ∧ id ∈ tracks' ∧
        ADD_CLIP f1 names id L p.1 clip = some f' ∧
        ((f1 = f ∧ id ∈ tracks ∧ tracks' = tracks) ∨
          (f.AddTrack ty = some (f1, id) ∧ tracks' = tracks ++ [id]))) := by
  refine ⟨fun f0 f1 h0 h1 hanch hv ha =>
    generate_ok template ffp P paths f0 f1 h0 h1 hanch hv ha, ?_, ?_⟩
  · intro f0 f1 g h0 h1 hanch hwf hfresh hg
    obtain ⟨f2, fv, V, A, s1, s2, s3, -, s5, s6, s7, s8, s9, -, s11, -, s13, s14⟩ :=
      generate_tracks h0 h1 hanch hwf hfresh hg
    refine ⟨f2, fv, V, A, s1, s2, s3, s5, s6, s7, s8, s9, s11, s13, s14, ?_⟩
    intro id hv ha
    rw [s6, List.mem_range] at hv
    rw [s7, List.mem_range'_1] at ha
    omega
  · intro ty names clips f tracks p f' tracks' h
    obtain ⟨t, c⟩ := p
    obtain ⟨clip, hclip, hcase⟩ := placeClip_cases h
    rcases hcase with ⟨hscan, ht⟩ | ⟨-, f1, id, hadd, hclipadd, ht⟩
    · rcases scanTracks_spec _ _ hscan with ⟨hn, -⟩ | ⟨i, hi, L, f'', hr, -, -, -, hA⟩
      · cases hn
      · cases hr
        have hmem : tracks[i] ∈ tracks := List.getElem_mem hi
        exact ⟨clip, tracks[i], L, f, hclip, by rw [ht]; exact hmem, hA,
          Or.inl ⟨rfl, hmem, ht⟩⟩
    · exact ⟨clip, id, 0, f1, hclip, by
        rw [ht]; exact List.mem_append_right _ (List.mem_singleton_self _), hclipadd,
        Or.inr ⟨hadd, ht⟩⟩

/-- Witness of C25: the project of `example.cpp` on `minimalTemplate`; the run returns, the
video tracks are numbered from 0 and the audio tracks follow them. -/
theorem channels_never_share_a_track_witness :
    ∃ (g : Generated) (V A : Nat),
      @generate Stale.intact minimalTemplate defaultFilePath exampleProject [] = some g ∧
      g.video_tracks = List.range V ∧ g.audio_tracks = List.range' V A ∧
      g.kdenlive_file.track_count = V + A ∧
      TrackKinds g.kdenlive_file
        (List.replicate V TrackType.VIDEO ++ List.replicate A TrackType.AUDIO) := by
  have T := @channels_never_share_a_track Stale.intact minimalTemplate defaultFilePath exampleProject []
  obtain ⟨f0, h0, f1, h1, hanch⟩ := minimalTemplate_ready
  obtain ⟨g, hg⟩ := T.1 f0 f1 h0 h1 hanch exampleProject_placements.1
    exampleProject_placements.2
  obtain ⟨f2, fv, V, A, -, -, -, -, s6, s7, -, s9, -, s13, -⟩ :=
    T.2.1 f0 f1 g h0 h1 hanch (minimalTemplate_wellFormed f0 h0)
      (minimalTemplate_freshIds f0 h0) hg
  exact ⟨g, V, A, hg, s6, s7, s9, s13⟩

end KdenCode
